import Mathlib

/-! # APEMoST: the Metropolis sampler, its calibrators and parallel tempering

A shallow embedding of `src/src/markov_chain.c`, `src/src/mcmc.c`,
`src/parallel_tempering.c` and `src/apps/simplesin.c`.

Conventions of the embedding.

* C `double` is an arbitrary linearly ordered field `α` with a floor function
  (exact arithmetic).  Every definition is computable, so it runs at `α := ℚ`;
  statements that mention `π` are read at `α := ℝ`.  IEEE special values
  (NaN, infinities) are outside the model: an operation that would produce one
  (division by a zero `beta`) is the fault `Fault.undefined`.
* The inverse temperatures that `parallel_tempering` computes are the one
  place where the arithmetic is not exact: each of the four operations of
  `1.0 - i * (1.0 - beta_0) / (n_beta - 1)` is rounded to IEEE binary64 with
  `round_double` (round to nearest, a tie to the even significand, subnormal
  numbers included; every operation is rounded on its own, as without fused
  multiply-add and without extended precision), and a result beyond the
  largest finite `double` is the fault `Fault.undefined`.
* A `gsl_vector` is a `List α`; reading or writing outside it is `Fault.range`.
* The generator `r` of `mcmc.c` is one process-wide object shared by every
  chain.  It is modelled as a finite tape `List α` holding the values that the
  successive draws return; a draw pops the head of the tape.  A run that needs
  more draws than the tape holds is cut off with `Fault.draws`.
* A C function that may stop without returning has result type
  `Except Fault _`; `assert` is `Fault.assertion`, and `exit(1)` is
  `Fault.exit1` with the message printed before it.
* The functions of the C maths library (`exp`, `sqrt`, `pow`, `sin`, `π`) are
  the parameter `Libm α`; the compile-time constants of the calibrator that
  the sources at hand do not define are the parameter `Config α`.
* A `while (1)` loop is a function defined by well-founded recursion on the
  distance to the exit that bounds it.
* The `unsigned long` proposal counters are natural numbers.  A C `int` is an
  integer; a product or a conversion that leaves the range of `int` is
  `Fault.undefined`.
* The model callback is a parameter `Model α`; by its interface it writes
  `prob` and nothing else.
* Accessors and helpers of the repository that are not among the sources at
  hand (`set_params`, `inc_params_accepts`, `mcmc_check_best`, `mod_double`,
  the `get_next_*` draws, ...) are modelled from the specification and marked
  as such.
-/

namespace APEMoST

/-- The message printed before `exit(1)`. -/
inductive Diagnostic where
  /-- The message "calibration failed: step width of %s became too large." for parameter `i`. -/
  | step_too_large (i : Nat)
  /-- The message "calibration failed: limit of %d iterations reached." -/
  | iteration_limit (iter_limit : Nat)
  deriving DecidableEq, Repr

/-- Ways in which a run of the modelled code ends without returning. -/
inductive Fault where
  /-- the tape of random draws is used up (cut-off of the model) -/
  | draws
  /-- an `assert` of the source fails -/
  | assertion
  /-- an index lies outside a vector or outside the array of chains -/
  | range
  /-- the C behaviour is undefined or yields an IEEE special value -/
  | undefined
  /-- the source calls `exit(1)` after printing the diagnostic `d` -/
  | exit1 (d : Diagnostic)
  deriving DecidableEq, Repr

/-- The observation matrix `m->data` (a `gsl_matrix`). -/
structure Matrix (α : Type) where
  size1 : Nat
  size2 : Nat
  rows : List (List α)
  deriving DecidableEq, Repr

/-- The chain state `mcmc`, with the fields set up by `mcmc_init` and the
`parallel_tempering_mcmc` record kept in `additional_data`. -/
structure Mcmc (α : Type) where
  n_iter : Nat
  n_par : Nat
  accept : Nat
  reject : Nat
  prob : α
  prior : α
  prob_best : α
  params : List α
  params_best : List α
  params_accepts : List Nat
  params_rejects : List Nat
  params_step : List α
  params_min : List α
  params_max : List α
  data : Option (Matrix α)
  beta : α
  swapcount : Nat
  deriving DecidableEq, Repr

/-- The user-supplied model callback.  By its interface it recomputes the
log-posterior of the current parameters and writes it to `prob`; the two
fields give the value written by `calc_model(m, old_values)` and by
`calc_model_for(m, i, old_value)`. -/
structure Model (α : Type) where
  calc_model : Mcmc α → List α → α
  calc_model_for : Mcmc α → Nat → α → α

section Sampler

variable {α : Type} [LinearOrderedField α] [FloorRing α]

/-! ## Vectors and accessors -/

/-- The GSL call `gsl_vector_get(v, i)` with its range check. -/
def gsl_vector_get {β : Type} (v : List β) (i : Nat) : Except Fault β :=
  match v[i]? with
  | some x => .ok x
  | none => .error .range

/-- The GSL call `gsl_vector_set(v, i, x)` with its range check. -/
def gsl_vector_set {β : Type} (v : List β) (i : Nat) (x : β) : Except Fault (List β) :=
  if i < v.length then .ok (v.set i x) else .error .range

/-- Modelled from the spec: the accessor `get_prob(m)`, absent from the sources
at hand, reads the field `prob`. -/
def get_prob (m : Mcmc α) : α := m.prob

/-- Modelled from the spec: the accessor `set_prob(m, p)`, absent from the
sources at hand, writes the field `prob`. -/
def set_prob (m : Mcmc α) (p : α) : Mcmc α := { m with prob := p }

/-- Modelled from the spec: the accessor `get_prob_best(m)`, absent from the
sources at hand, reads the field `prob_best`. -/
def get_prob_best (m : Mcmc α) : α := m.prob_best

/-- Modelled from the spec: the accessor `set_prob_best(m, p)`, absent from the
sources at hand, writes the field `prob_best`. -/
def set_prob_best (m : Mcmc α) (p : α) : Mcmc α := { m with prob_best := p }

/-- Modelled from the spec: the accessor `get_params(m)`, absent from the
sources at hand, reads the field `params`. -/
def get_params (m : Mcmc α) : List α := m.params

/-- Modelled from the spec: the accessor `set_params(m, v)`, absent from the
sources at hand, makes `v` the vector `params` of the chain. -/
def set_params (m : Mcmc α) (v : List α) : Mcmc α := { m with params := v }

/-- Modelled from the spec: the accessor `get_params_best(m)`, absent from the
sources at hand, reads the field `params_best`. -/
def get_params_best (m : Mcmc α) : List α := m.params_best

/-- Modelled from the spec: the accessor `set_params_best(m, v)`, absent from
the sources at hand, makes `v` the vector `params_best` of the chain. -/
def set_params_best (m : Mcmc α) (v : List α) : Mcmc α := { m with params_best := v }

/-- Modelled from the spec: the helper `dup_vector(v)`, absent from the sources
at hand, returns a fresh copy with the same entries. -/
def dup_vector (v : List α) : List α := v

/-- The function `get_beta(m)` of `parallel_tempering.c`. -/
def get_beta (m : Mcmc α) : α := m.beta

/-- Modelled from the spec: the accessor `get_n_par(m)`, absent from the
sources at hand, reads the field `n_par`. -/
def get_n_par (m : Mcmc α) : Nat := m.n_par

/-- Modelled from the spec: `set_params_for(m, v, i)`, absent from the
sources at hand, stores `v` in `params[i]`. -/
def set_params_for (m : Mcmc α) (v : α) (i : Nat) : Except Fault (Mcmc α) := do
  let p ← gsl_vector_set m.params i v
  pure { m with params := p }

/-- Modelled from the spec: `inc_params_accepts_for(m, i)`, absent from the
sources at hand, adds one to `accepts[i]` and touches nothing else. -/
def inc_params_accepts_for (m : Mcmc α) (i : Nat) : Except Fault (Mcmc α) := do
  let c ← gsl_vector_get m.params_accepts i
  let a ← gsl_vector_set m.params_accepts i (c + 1)
  pure { m with params_accepts := a }

/-- Modelled from the spec: `inc_params_rejects_for(m, i)`, absent from the
sources at hand, adds one to `rejects[i]` and touches nothing else. -/
def inc_params_rejects_for (m : Mcmc α) (i : Nat) : Except Fault (Mcmc α) := do
  let c ← gsl_vector_get m.params_rejects i
  let a ← gsl_vector_set m.params_rejects i (c + 1)
  pure { m with params_rejects := a }

/-- Modelled from the spec: `inc_params_accepts(m)`, absent from the sources
at hand, adds one to every `accepts[i]`. -/
def inc_params_accepts (m : Mcmc α) : Mcmc α :=
  { m with params_accepts := m.params_accepts.map (· + 1) }

/-- Modelled from the spec: `inc_params_rejects(m)`, absent from the sources
at hand, adds one to every `rejects[i]`. -/
def inc_params_rejects (m : Mcmc α) : Mcmc α :=
  { m with params_rejects := m.params_rejects.map (· + 1) }

/-! ## Random draws -/

/-- The next value of the tape. -/
def next_draw (rng : List α) : Except Fault (α × List α) :=
  match rng with
  | [] => .error .draws
  | x :: rest => .ok (x, rest)

/-- Modelled from the spec: `get_next_gauss_random(m, step)`, absent from the
sources at hand, is a draw from Normal(0, step); the tape holds the value
drawn. -/
def get_next_gauss_random (_step : α) (rng : List α) : Except Fault (α × List α) :=
  next_draw rng

/-- Modelled from the spec: `get_next_alog_urandom(m)`, absent from the
sources at hand, is a draw of `log(U(0,1))`; the tape holds the value drawn. -/
def get_next_alog_urandom (rng : List α) : Except Fault (α × List α) :=
  next_draw rng

/-- Modelled from the spec: `get_next_urandom(m)`, absent from the sources at
hand, is a draw of `U(0,1)`; the tape holds the value drawn. -/
def get_next_urandom (rng : List α) : Except Fault (α × List α) :=
  next_draw rng

/-! ## `mcmc.c` -/

/-- The function `mcmc_check(m)`: the assertions of `mcmc.c`.  The vectors of the model are
always allocated, so the three `!= NULL` tests on them hold by construction. -/
def mcmc_check (m : Mcmc α) : Except Fault Unit :=
  if m.n_par > 0 then
    match m.data with
    | none => .error .assertion
    | some d =>
      if d.size2 > 0 then
        if m.params.length = m.n_par then
          if m.params_best.length = m.n_par then .ok ()
          else .error .assertion
        else .error .assertion
      else .error .assertion
  else .error .assertion

/-- Modelled from the spec: `mcmc_check_best(m)`, absent from the sources at
hand: if `prob > prob_best` then copy `params` to `params_best` and `prob` to
`prob_best`. -/
def mcmc_check_best (m : Mcmc α) : Mcmc α :=
  if m.prob > m.prob_best then
    { m with params_best := m.params, prob_best := m.prob }
  else m

/-! ## `markov_chain.c`: one Metropolis transition -/

/-- The function `restart_from_best(m)`. -/
def restart_from_best (m : Mcmc α) : Mcmc α :=
  set_prob (set_params m (dup_vector (get_params_best m))) (-10000000)

/-- The function `check_accept(m, prob_old)`: returns 1 to accept and 0 to reject, together
with the tape left over. -/
def check_accept (m : Mcmc α) (prob_old : α) (rng : List α) :
    Except Fault (Int × List α) :=
  let prob_new := get_prob m
  if prob_new = prob_old then .ok (1, rng)
  else if prob_new > prob_old then .ok (1, rng)
  else do
    let (prob_still_accept, rng) ← get_next_alog_urandom rng
    if prob_still_accept < prob_new - prob_old then pure (1, rng)
    else pure (0, rng)

/-- The function `revert(m, prob_old)`. -/
def revert (m : Mcmc α) (prob_old : α) : Mcmc α := set_prob m prob_old

/-- Modelled from the spec: `mod_double(x, y)`, absent from the sources at
hand, is `x mod y`, the remainder of `x` after the largest whole multiple of
`y` below it. -/
def mod_double (x y : α) : α := x - y * (Int.floor (x / y) : α)

/-- The loop `while (new_value > max || new_value < min) new_value = old_value
+ get_next_gauss_random(m, step);` of `do_step_for`.  Each pass pops one draw
from the tape. -/
def redraw_while (old_value max min : α) : α → List α → Except Fault (α × List α)
  | new_value, [] =>
    if new_value > max ∨ new_value < min then .error .draws
    else .ok (new_value, [])
  | new_value, d :: rest =>
    if new_value > max ∨ new_value < min then
      redraw_while old_value max min (old_value + d) rest
    else .ok (new_value, d :: rest)

/-- The loop `do new_value = old_value + get_next_gauss_random(m, step);
while (new_value > max || new_value < min);` of `do_step_for`. -/
def redraw_do_while (step old_value max min : α) (rng : List α) :
    Except Fault (α × List α) := do
  let (d, rng) ← get_next_gauss_random step rng
  redraw_while old_value max min (old_value + d) rng

/-- The search `while (1)` through `parameters[] = {CIRCULAR_PARAMS, 0}` in
`do_step_for`: `false` when the terminating `0` is met first (parameter `i` is
not circular), `true` when `i + 1` is met first. -/
def is_circular (i : Nat) : List Nat → Except Fault Bool
  | [] => .error .range
  | p :: ps =>
    if p = 0 then .ok false
    else if p = i + 1 then .ok true
    else is_circular i ps

/-- The block between `#if CIRCULAR_PARAMS == 0` and `#endif` of `do_step_for`,
entered with the first proposal `new_value`.  The build option
`CIRCULAR_PARAMS` is the list `circ` of 1-based indices; `[]` stands for
`CIRCULAR_PARAMS == 0`. -/
def do_step_for_adjust (circ : List Nat) (i : Nat) (step old_value max min new_value : α)
    (rng : List α) : Except Fault (α × List α) :=
  if circ = [] then
    redraw_while old_value max min new_value rng
  else if new_value > max ∨ new_value < min then do
    let circular ← is_circular i (circ ++ [0])
    if circular then
      pure (min + mod_double (new_value - min) (max - min), rng)
    else
      redraw_do_while step old_value max min rng
  else pure (new_value, rng)

/-- The end of `do_step_for`: the two assertions and `set_params_for`. -/
def do_step_for_store (m : Mcmc α) (i : Nat) (max min new_value : α) :
    Except Fault (Mcmc α) :=
  if ¬ new_value ≤ max then .error .assertion
  else if ¬ new_value ≥ min then .error .assertion
  else set_params_for m new_value i

/-- The function `do_step_for(m, i)`. -/
def do_step_for (circ : List Nat) (m : Mcmc α) (i : Nat) (rng : List α) :
    Except Fault (Mcmc α × List α) := do
  let step ← gsl_vector_get m.params_step i
  let old_value ← gsl_vector_get m.params i
  let (g, rng) ← get_next_gauss_random step rng
  let new_value := old_value + g
  let max ← gsl_vector_get m.params_max i
  let min ← gsl_vector_get m.params_min i
  let (new_value, rng) ← do_step_for_adjust circ i step old_value max min new_value rng
  let m ← do_step_for_store m i max min new_value
  pure (m, rng)

/-- The function `do_step(m)`: `do_step_for(m, i)` for `i = 0, ..., n_par - 1`. -/
def do_step (circ : List Nat) (m : Mcmc α) (rng : List α) :
    Except Fault (Mcmc α × List α) :=
  (List.range (get_n_par m)).foldlM
    (fun (s : Mcmc α × List α) i => do_step_for circ s.1 i s.2) (m, rng)

/-- The callback `calc_model_for(m, index, old_value)`. -/
def calc_model_for (M : Model α) (m : Mcmc α) (index : Nat) (old_value : α) : Mcmc α :=
  set_prob m (M.calc_model_for m index old_value)

/-- The callback `calc_model(m, old_values)`. -/
def calc_model (M : Model α) (m : Mcmc α) (old_values : List α) : Mcmc α :=
  set_prob m (M.calc_model m old_values)

/-- The function `markov_chain_step_for(m, index)`. -/
def markov_chain_step_for (M : Model α) (circ : List Nat) (m : Mcmc α) (index : Nat)
    (rng : List α) : Except Fault (Mcmc α × List α) := do
  let prob_old := get_prob m
  let old_value ← gsl_vector_get m.params index
  mcmc_check m
  let (m, rng) ← do_step_for circ m index rng
  let m := calc_model_for M m index old_value
  let (accepted, rng) ← check_accept m prob_old rng
  if accepted = 1 then do
    let m ← inc_params_accepts_for m index
    pure (m, rng)
  else do
    let m := revert m prob_old
    let m ← set_params_for m old_value index
    let m ← inc_params_rejects_for m index
    pure (m, rng)

/-- The function `markov_chain_step(m)`. -/
def markov_chain_step (M : Model α) (circ : List Nat) (m : Mcmc α) (rng : List α) :
    Except Fault (Mcmc α × List α) := do
  let prob_old := get_prob m
  let old_values := dup_vector m.params
  mcmc_check m
  let (m, rng) ← do_step circ m rng
  let m := calc_model M m old_values
  let (accepted, rng) ← check_accept m prob_old rng
  if accepted = 1 then
    pure (inc_params_accepts m, rng)
  else
    let m := revert m prob_old
    let m := set_params m old_values
    pure (inc_params_rejects m, rng)

/-! ## `parallel_tempering.c`: the swap protocol -/

/-- Largest value of a C `int`. -/
def INT_MAX : Int := 2147483647

/-- Smallest value of a C `int`. -/
def INT_MIN : Int := -2147483648

/-- The product of two `int`s; signed overflow is undefined. -/
def int_mul (x y : Int) : Except Fault Int :=
  if INT_MIN ≤ x * y ∧ x * y ≤ INT_MAX then .ok (x * y) else .error .undefined

/-- The conversion `(int) x` of a `double`: the fraction is discarded; a value
that does not fit an `int` is undefined. -/
def double_to_int (x : α) : Except Fault Int :=
  let t : Int := if 0 ≤ x then Int.floor x else Int.ceil x
  if INT_MIN ≤ t ∧ t ≤ INT_MAX then .ok t else .error .undefined

/-- The quotient `x / y` of two `double`s; a zero divisor yields an IEEE
special value. -/
def div_double (x y : α) : Except Fault α :=
  if y = 0 then .error .undefined else .ok (x / y)

/-- The chain `sinmod[a]`. -/
def chain_at (sinmod : List (Mcmc α)) (a : Int) : Except Fault (Mcmc α) :=
  if a < 0 then .error .range else gsl_vector_get sinmod a.toNat

/-- The array after a setter has replaced the state of `sinmod[a]` by `m`. -/
def chain_put (sinmod : List (Mcmc α)) (a : Int) (m : Mcmc α) : List (Mcmc α) :=
  sinmod.set a.toNat m

/-- The expression `(int) (n_beta * 1000 * get_next_urandom(sinmod[0])) %
n_beta` for the value `v` of the draw. -/
def pick_chain (n_beta : Int) (v : α) : Except Fault Int := do
  let k ← int_mul n_beta 1000
  let t ← double_to_int ((k : α) * v)
  pure (Int.tmod t n_beta)

/-- The value `r = a_beta * b_prob / b_beta + b_beta * a_prob / a_beta -
(a_prob + b_prob)` of `parallel_tempering_swap`. -/
def swap_ratio (a_prob b_prob a_beta b_beta : α) : Except Fault α := do
  let x ← div_double (a_beta * b_prob) b_beta
  let y ← div_double (b_beta * a_prob) a_beta
  pure (x + y - (a_prob + b_prob))

/-- The three exchanges in the `if (r > c)` block of `parallel_tempering_swap`,
statement by statement. -/
def swap_exchange (sinmod : List (Mcmc α)) (a b : Int) : Except Fault (List (Mcmc α)) := do
  let temp := dup_vector (get_params (← chain_at sinmod a))
  let sinmod := chain_put sinmod a
    (set_params (← chain_at sinmod a) (dup_vector (get_params (← chain_at sinmod b))))
  let sinmod := chain_put sinmod b (set_params (← chain_at sinmod b) temp)
  let temp := dup_vector (get_params_best (← chain_at sinmod a))
  let sinmod := chain_put sinmod a
    (set_params_best (← chain_at sinmod a) (dup_vector (get_params_best (← chain_at sinmod b))))
  let sinmod := chain_put sinmod b (set_params_best (← chain_at sinmod b) temp)
  let r := get_prob_best (← chain_at sinmod a)
  let sinmod := chain_put sinmod a
    (set_prob_best (← chain_at sinmod a) (get_prob_best (← chain_at sinmod b)))
  let sinmod := chain_put sinmod b (set_prob_best (← chain_at sinmod b) r)
  pure sinmod

/-- The function `parallel_tempering_swap(sinmod, n_beta, n_swap)`; every draw is taken from
the generator of `sinmod[0]`, the shared tape. -/
def parallel_tempering_swap (sinmod : List (Mcmc α)) (n_beta n_swap : Int)
    (rng : List α) : Except Fault (List (Mcmc α) × List α) := do
  if ¬ n_beta > 0 then throw Fault.assertion
  if n_beta = 1 then
    pure (sinmod, rng)
  else do
    let _ ← chain_at sinmod 0
    let (swap_probability, rng) ← get_next_urandom rng
    if swap_probability < 1 / 10000 then do
      let (v, rng) ← get_next_urandom rng
      let a ← pick_chain n_beta v
      let sinmod := chain_put sinmod a
        (set_params (← chain_at sinmod a) (dup_vector (get_params_best (← chain_at sinmod a))))
      let sinmod := chain_put sinmod a
        (set_prob (← chain_at sinmod a) (get_prob_best (← chain_at sinmod a)))
      pure (sinmod, rng)
    else do
      let bound ← div_double 1 (n_swap : α)
      if swap_probability < bound then do
        let (v, rng) ← get_next_urandom rng
        let a ← pick_chain n_beta v
        let b := Int.tmod (a + 1) n_beta
        if ¬ (a ≥ 0 ∧ a < n_beta) then throw Fault.assertion
        if ¬ (b ≥ 0 ∧ b < n_beta) then throw Fault.assertion
        mcmc_check (← chain_at sinmod a)
        mcmc_check (← chain_at sinmod b)
        let a_prob := get_prob (← chain_at sinmod a)
        let b_prob := get_prob (← chain_at sinmod b)
        let a_beta := get_beta (← chain_at sinmod a)
        let b_beta := get_beta (← chain_at sinmod b)
        let r ← swap_ratio a_prob b_prob a_beta b_beta
        let (c, rng) ← get_next_alog_urandom rng
        if r > c then do
          let sinmod ← swap_exchange sinmod a b
          mcmc_check (← chain_at sinmod a)
          mcmc_check (← chain_at sinmod b)
          pure (sinmod, rng)
        else
          pure (sinmod, rng)
      else
        pure (sinmod, rng)

end Sampler

/-- Functions and constants of the C maths library that an ordered field does
not provide: `exp`, `sqrt`, `pow`, `gsl_sf_sin` and `M_PI`. -/
structure Libm (α : Type) where
  exp : α → α
  sqrt : α → α
  pow : α → α → α
  sin : α → α
  pi : α

/-- The compile-time constants of the calibrator that are defined outside the
sources at hand. -/
structure Config (α : Type) where
  ITER_READJUST : Nat
  NO_RESCALING_LIMIT : Int
  TARGET_ACCEPTANCE_RATE : α

/-- The local variables of `markov_chain_calibrate_orig` that live across the
iterations of its `while (1)` loop, with the chain and the tape of draws. -/
structure Calibration (α : Type) where
  m : Mcmc α
  rng : List α
  iter : Nat
  rat_limit : α
  nchecks_without_rescaling : Int

/-- The values at the end of one inspection of `markov_chain_calibrate_orig`,
just before its success test. -/
structure Inspection (α : Type) where
  m : Mcmc α
  rng : List α
  rat_limit : α
  nchecks_without_rescaling : Int
  reached_perfection : Int
  rescaled : Int

section Calibrators

variable {α : Type} [LinearOrderedField α] [FloorRing α]

/-! ## Rounding to `double` -/

/-- The integer nearest to `t`, the even one of the two at a tie. -/
def round_half_even (t : α) : Int :=
  if t - (Int.floor t : α) < 1 / 2 then Int.floor t
  else if 1 / 2 < t - (Int.floor t : α) then Int.floor t + 1
  else if Int.floor t % 2 = 0 then Int.floor t else Int.floor t + 1

/-- The IEEE binary64 rounding of the exact value `x` to the nearest `double`
with a tie going to the even significand: 53 significant bits in the binade
of `x`, and the spacing of the subnormal numbers below `2^(-1022)`. -/
def round_double (x : α) : α :=
  if x = 0 then 0
  else (round_half_even (x / (2 : α) ^ (max (Int.log 2 |x|) (-1022) - 52)) : α)
    * (2 : α) ^ (max (Int.log 2 |x|) (-1022) - 52)

/-- The largest finite `double`, `(2^53 - 1) * 2^971`. -/
def DBL_MAX : α := (2 ^ 53 - 1) * 2 ^ 971

/-- The `double` that an arithmetic operation with the exact result `x`
yields; a result that rounds beyond the largest finite `double` is an IEEE
infinity. -/
def double_result (x : α) : Except Fault α :=
  if |round_double x| ≤ DBL_MAX then .ok (round_double x) else .error .undefined

/-! ## `parallel_tempering.c`: the inverse temperatures -/

/-- The function `set_beta(m, newbeta)` of `parallel_tempering.c`. -/
def set_beta (m : Mcmc α) (newbeta : α) : Mcmc α := { m with beta := newbeta }

/-- The body of the first loop of `parallel_tempering` for chain `i`.  The
state returned by `mcmc_load(filename)`, a function outside the sources at
hand, is the parameter `loaded`.  The product `i * delta_beta` and the
difference `1.0 - i * delta_beta` are rounded to `double`. -/
def parallel_tempering_load_chain (loaded : Mcmc α) (delta_beta : α) (i : Nat) :
    Except Fault (Mcmc α) := do
  let m := loaded
  mcmc_check m
  let product ← double_result ((i : α) * delta_beta)
  let newbeta ← double_result (1 - product)
  let m := set_beta m newbeta
  mcmc_check m
  pure m

/-- The first loop of `parallel_tempering`, `for (i = 0; i < n; i++)`: the
chains `sinmod[0], ..., sinmod[n - 1]`. -/
def parallel_tempering_load_chains (loaded : Mcmc α) (delta_beta : α) :
    Nat → Except Fault (List (Mcmc α))
  | 0 => pure []
  | n + 1 => do
    let sinmod ← parallel_tempering_load_chains loaded delta_beta n
    let m ← parallel_tempering_load_chain loaded delta_beta n
    pure (sinmod ++ [m])

/-- The start of `parallel_tempering` (lines 54 to 71): `delta_beta` and the
array `sinmod` of `n_beta` chains with their inverse temperatures.  The
difference `1.0 - beta_0` and the quotient by `n_beta - 1` are rounded to
`double`. -/
def parallel_tempering_load (loaded : Mcmc α) (n_beta : Int) (beta_0 : α) :
    Except Fault (List (Mcmc α)) := do
  let difference ← double_result (1 - beta_0)
  let quotient ← div_double difference ((n_beta - 1 : Int) : α)
  let delta_beta ← double_result quotient
  parallel_tempering_load_chains loaded delta_beta n_beta.toNat

/-- The `double` that `1.0 - i * delta_beta` evaluates to for
`delta_beta = (1.0 - beta_0) / (n_beta - 1)`, each of the four operations
rounded. -/
def ladder_beta (n_beta : Int) (beta_0 : α) (i : Nat) : α :=
  round_double (1 - round_double ((i : α)
    * round_double (round_double (1 - beta_0) / ((n_beta - 1 : Int) : α))))

/-! ## `markov_chain.c`: step widths -/

/-- Modelled from the spec: the accessor `get_steps(m)`, absent from the
sources at hand, reads the vector `params_step`. -/
def get_steps (m : Mcmc α) : List α := m.params_step

/-- Modelled from the spec: the accessor `get_steps_for(m, i)`, absent from the
sources at hand, reads `params_step[i]`. -/
def get_steps_for (m : Mcmc α) (i : Nat) : Except Fault α :=
  gsl_vector_get m.params_step i

/-- Modelled from the spec: the accessor `set_steps_for(m, v, i)`, absent from
the sources at hand, stores `v` in `params_step[i]`. -/
def set_steps_for (m : Mcmc α) (v : α) (i : Nat) : Except Fault (Mcmc α) := do
  let s ← gsl_vector_set m.params_step i v
  pure { m with params_step := s }

/-- Modelled from the spec: `get_steps_for_normalized(m, i)`, absent from the
sources at hand, is the normalised step `step[i] / (max[i] - min[i])`. -/
def get_steps_for_normalized (m : Mcmc α) (i : Nat) : Except Fault α := do
  let step ← gsl_vector_get m.params_step i
  let max ← gsl_vector_get m.params_max i
  let min ← gsl_vector_get m.params_min i
  div_double step (max - min)

/-- Modelled from the spec: `set_steps_for_normalized(m, v, i)`, absent from the
sources at hand, sets the normalised step to `v`, that is `step[i]` to
`v * (max[i] - min[i])`. -/
def set_steps_for_normalized (m : Mcmc α) (v : α) (i : Nat) : Except Fault (Mcmc α) := do
  let max ← gsl_vector_get m.params_max i
  let min ← gsl_vector_get m.params_min i
  set_steps_for m (v * (max - min)) i

/-- Modelled from the spec: the helper `abs_double(x)`, absent from the sources
at hand, is the absolute value. -/
def abs_double (x : α) : α := if x < 0 then -x else x

/-- Modelled from the spec: `get_next_uniform_random(m)`, absent from the
sources at hand, is a uniform draw; the tape holds the value drawn. -/
def get_next_uniform_random (rng : List α) : Except Fault (α × List α) :=
  next_draw rng

/-- The constant `MINIMAL_STEPWIDTH` of `markov_chain.c`. -/
def MINIMAL_STEPWIDTH : α := 1 / 10000000

/-- The constant `MAXIMAL_STEPWIDTH` of `markov_chain.c`. -/
def MAXIMAL_STEPWIDTH : α := 1000000

/-- The body of the loop of `rmw_adapt_stepwidth` for parameter `i`, with the
clipped value `alpha`. -/
def rmw_adapt_stepwidth_for (L : Libm α) (cfg : Config α) (alpha : α)
    (s : Mcmc α × List α) (i : Nat) : Except Fault (Mcmc α × List α) := do
  let pmax ← gsl_vector_get s.1.params_max i
  let pmin ← gsl_vector_get s.1.params_min i
  let scale := pmax - pmin
  let min := MINIMAL_STEPWIDTH * scale
  let max := MAXIMAL_STEPWIDTH * scale
  let step ← gsl_vector_get (get_steps s.1) i
  let (u, rng) ← get_next_uniform_random s.2
  let q ← div_double u (L.sqrt (s.1.n_iter : α))
  let step := step + q * (alpha - cfg.TARGET_ACCEPTANCE_RATE) * scale
  let step := if step < min then min else step
  let step := if step > max then max else step
  let steps ← gsl_vector_set (get_steps s.1) i step
  pure ({ s.1 with params_step := steps }, rng)

/-- The function `rmw_adapt_stepwidth(m, prob_old)`. -/
def rmw_adapt_stepwidth (L : Libm α) (cfg : Config α) (m : Mcmc α) (prob_old : α)
    (rng : List α) : Except Fault (Mcmc α × List α) :=
  let alpha := L.exp (get_prob m - prob_old)
  let alpha := if alpha > 1 then 1 else alpha
  (List.range (get_n_par m)).foldlM (rmw_adapt_stepwidth_for L cfg alpha) (m, rng)

/-! ## `markov_chain.c`: the accuracy-driven calibrator -/

/-- The constant `SCALE_LIN_WORST` of `markov_chain.c`. -/
def SCALE_LIN_WORST : α := 5

/-- The constant `SCALE_MIN` of `markov_chain.c`. -/
def SCALE_MIN : α := 2 / 5

/-- The value of `move` in `markov_chain_calibrate_alt` when the step is
updated: `move = movedirection * scale; if (move < -1) move = -0.9;`. -/
def calibrate_alt_move (movedirection scale : α) : α :=
  let move := movedirection * scale
  if move < -1 then -(9 / 10) else move

/-- Lines 262 to 279 of `markov_chain_calibrate_alt`: from the assessed rate of
parameter `i` to the new step width; returns the state and `max_deviation`. -/
def calibrate_alt_adjust (m : Mcmc α) (i : Nat)
    (current_acceptance_rate desired_acceptance_rate best_worst_accuracy max_deviation : α) :
    Except Fault (Mcmc α × α) :=
  let movedirection := current_acceptance_rate - desired_acceptance_rate
  let scale := best_worst_accuracy * SCALE_LIN_WORST + SCALE_MIN
  if ¬ scale > 0 then .error .assertion
  else
    let move := calibrate_alt_move movedirection scale
    let max_deviation :=
      if max_deviation < abs_double movedirection then abs_double movedirection
      else max_deviation
    match get_steps_for m i with
    | .error e => .error e
    | .ok step =>
      match set_steps_for m (step * (1 + move)) i with
      | .error e => .error e
      | .ok m => .ok (m, max_deviation)

/-! ## `simplesin.c`: the sine model -/

/-- The constant `SIGMA` of `simplesin.c`. -/
def SIGMA : α := 1 / 2

/-- The GSL call `gsl_matrix_get(d, i, j)` with its range check. -/
def gsl_matrix_get (d : Matrix α) (i j : Nat) : Except Fault α :=
  if i < d.size1 ∧ j < d.size2 then
    match d.rows[i]? with
    | some row => gsl_vector_get row j
    | none => .error .range
  else .error .range

/-- The matrix `m->data`; a null pointer cannot be read. -/
def get_data (m : Mcmc α) : Except Fault (Matrix α) :=
  match m.data with
  | some d => .ok d
  | none => .error .undefined

/-- The function `apply_formula(m, i, param0, param1, param2)` of
`simplesin.c`. -/
def simplesin_apply_formula (L : Libm α) (m : Mcmc α) (i : Nat) (param0 param1 param2 : α) :
    Except Fault α := do
  let d ← get_data m
  let x ← gsl_matrix_get d i 0
  let y := param0 * L.sin (2 * L.pi * param1 * x + param2)
  pure y

/-- The body of the loop of `calc_model` in `simplesin.c` for data row `i`:
the new value of `square_sum`. -/
def simplesin_add_row (L : Libm α) (m : Mcmc α) (param0 param1 param2 : α) (square_sum : α)
    (i : Nat) : Except Fault α := do
  let d ← get_data m
  let y ← gsl_matrix_get d i 1
  let f ← simplesin_apply_formula L m i param0 param1 param2
  let deltay := f - y
  pure (square_sum + deltay * deltay)

/-- The function `calc_model(m, old_values)` of `simplesin.c`; `old_values` is
`none` for a `NULL` pointer. -/
def simplesin_calc_model (L : Libm α) (m : Mcmc α) (_old_values : Option (List α)) :
    Except Fault (Mcmc α) := do
  let param0 ← gsl_vector_get m.params 0
  let param1 ← gsl_vector_get m.params 1
  let param2 ← gsl_vector_get m.params 2
  let d ← get_data m
  let square_sum ← (List.range d.size1).foldlM (simplesin_add_row L m param0 param1 param2) 0
  pure (set_prob m (get_beta m * square_sum / (-2 * SIGMA * SIGMA)))

/-- The function `calc_model_for(m, i, old_value)` of `simplesin.c`. -/
def simplesin_calc_model_for (L : Libm α) (m : Mcmc α) (_i : Nat) (_old_value : α) :
    Except Fault (Mcmc α) :=
  simplesin_calc_model L m none

/-- The log-posterior of the sine model in the words of the specification:
`beta` times minus the sum over the data rows `(x, y)` of
`(A sin(2 π f x + φ) - y)² / (2 SIGMA²)`. -/
def sine_log_posterior_spec (L : Libm α) (beta A f phi : α) (rows : List (List α)) : α :=
  beta * -((rows.map fun row =>
    (A * L.sin (2 * L.pi * f * row.getD 0 0 + phi) - row.getD 1 0) ^ 2 / (2 * SIGMA ^ 2)).sum)

/-! ## `markov_chain.c`: burn-in -/

/-- The GSL call `gsl_vector_sub(a, b)`: `a - b` for vectors of one length. -/
def gsl_vector_sub (a b : List α) : Except Fault (List α) :=
  if a.length = b.length then .ok (List.zipWith (· - ·) a b) else .error .range

/-- The GSL call `gsl_vector_scale(a, x)`. -/
def gsl_vector_scale (a : List α) (x : α) : List α := a.map (· * x)

/-- The GSL call `gsl_vector_memcpy(dest, src)`: the new content of `dest`. -/
def gsl_vector_memcpy (dest src : List α) : Except Fault (List α) :=
  if dest.length = src.length then .ok src else .error .range

/-- The loop `for (subiter = 0; subiter < n; subiter++) markov_chain_step(m);`
of `burn_in`. -/
def markov_chain_steps (M : Model α) (circ : List Nat) :
    Nat → Mcmc α → List α → Except Fault (Mcmc α × List α)
  | 0, m, rng => .ok (m, rng)
  | n + 1, m, rng =>
    match markov_chain_step M circ m rng with
    | .error e => .error e
    | .ok (m, rng) => markov_chain_steps M circ n m rng

set_option maxRecDepth 4000 in
/-- One of the two loops `for (...; iter < bound; iter++)` of `burn_in`, entered
with the counter at `iter`: each pass runs 200 joint steps, adds `subiter = 200`
to `iter` and calls `mcmc_check_best`.  Returns the final counter. -/
def burn_in_loop (M : Model α) (circ : List Nat) (bound : Nat) (iter : Nat) (m : Mcmc α)
    (rng : List α) : Except Fault (Nat × Mcmc α × List α) :=
  if iter < bound then
    match markov_chain_steps M circ 200 m rng with
    | .error e => .error e
    | .ok (m, rng) => burn_in_loop M circ bound (iter + 200 + 1) (mcmc_check_best m) rng
  else .ok (iter, m, rng)
termination_by bound - iter

/-- The function `burn_in(m, burn_in_iterations)`. -/
def burn_in (M : Model α) (circ : List Nat) (m : Mcmc α) (burn_in_iterations : Nat)
    (rng : List α) : Except Fault (Mcmc α × List α) := do
  let original_steps := get_steps m
  let steps ← gsl_vector_sub (dup_vector m.params_max) m.params_min
  let m := { m with params_step := gsl_vector_scale steps (1 / 10) }
  mcmc_check m
  let (iter, m, rng) ← burn_in_loop M circ (burn_in_iterations / 2) 0 m rng
  let m := restart_from_best m
  let m := { m with params_step := gsl_vector_scale m.params_step (1 / 2) }
  let (_, m, rng) ← burn_in_loop M circ burn_in_iterations iter m rng
  let steps ← gsl_vector_memcpy (get_steps m) original_steps
  let m := { m with params_step := steps }
  mcmc_check m
  pure (m, rng)

/-! ## `markov_chain.c`: the classical calibrator -/

/-- Modelled from the spec: `reset_accept_rejects(m)`, absent from the sources
at hand, sets every `accepts[i]` and `rejects[i]` to zero. -/
def reset_accept_rejects (m : Mcmc α) : Mcmc α :=
  { m with params_accepts := m.params_accepts.map fun _ => 0
           params_rejects := m.params_rejects.map fun _ => 0 }

/-- The rates `accepts[i] / (accepts[i] + rejects[i])` for two arrays of
counters. -/
def accept_rates : List Nat → List Nat → Except Fault (List α)
  | a :: as, r :: rs =>
    match div_double (a : α) ((a + r : Nat) : α) with
    | .error e => .error e
    | .ok q =>
      match accept_rates as rs with
      | .error e => .error e
      | .ok qs => .ok (q :: qs)
  | _, _ => .ok []

/-- Modelled from the spec: `get_accept_rate(m)`, absent from the sources at
hand, is the vector of the per-parameter acceptance rates
`accepts[i] / (accepts[i] + rejects[i])`. -/
def get_accept_rate (m : Mcmc α) : Except Fault (List α) :=
  accept_rates m.params_accepts m.params_rejects

/-- Modelled from the spec: `get_accept_rate_global(m)`, absent from the sources
at hand, is the global acceptance rate, the sum of all accepts over the sum
of all accepts and rejects. -/
def get_accept_rate_global (m : Mcmc α) : Except Fault α :=
  div_double ((m.params_accepts.sum : Nat) : α)
    ((m.params_accepts.sum + m.params_rejects.sum : Nat) : α)

/-- The block `if (get_steps_for_normalized(m, i) > 1) { ... }` of the
inspection: the step is set to the parameter range, and a change that only
this parameter had flagged (`rescaled == -1`) is taken back. -/
def calibrate_clamp (m : Mcmc α) (i : Nat) (rescaled : Int) : Except Fault (Mcmc α × Int) :=
  match get_steps_for_normalized m i with
  | .error e => .error e
  | .ok n =>
    if n > 1 then
      match set_steps_for_normalized m 1 i with
      | .error e => .error e
      | .ok m => .ok (m, if rescaled = -1 then 0 else rescaled)
    else .ok (m, rescaled)

/-- The test `if (get_steps_for_normalized(m, i) > 10000) { ...; exit(1); }`
of the inspection. -/
def calibrate_too_large (m : Mcmc α) (i : Nat) : Except Fault Unit :=
  match get_steps_for_normalized m i with
  | .error e => .error e
  | .ok n => if n > 10000 then .error (.exit1 (.step_too_large i)) else .ok ()

/-- The block of the inspection for `accept_rate[i] > rat_limit + 0.05`. -/
def calibrate_too_high (m : Mcmc α) (i : Nat) (mul : α) (rescaled : Int) :
    Except Fault (Mcmc α × Int) := do
  let step ← get_steps_for m i
  let q ← div_double step mul
  let m ← set_steps_for m q i
  let rescaled := if rescaled = 0 then -1 else rescaled
  let (m, rescaled) ← calibrate_clamp m i rescaled
  calibrate_too_large m i
  let rescaled := if rescaled = -1 then 1 else rescaled
  pure (m, rescaled)

/-- The block of the inspection for `accept_rate[i] < rat_limit - 0.05`; the
warning for a small step prints only. -/
def calibrate_too_low (m : Mcmc α) (i : Nat) (mul : α) : Except Fault (Mcmc α × Int) := do
  let step ← get_steps_for m i
  let m ← set_steps_for m (step * mul) i
  let _ ← get_steps_for_normalized m i
  pure (m, 1)

/-- The closing `assert(gsl_vector_min(get_steps(m)) > 0)` of the inspection
of one parameter. -/
def assert_steps_positive (m : Mcmc α) : Except Fault Unit :=
  if (get_steps m).all (fun s => decide (0 < s)) then .ok () else .error .assertion

/-- The body of the loop `for (i = 0; i < get_n_par(m); i++)` of the
inspection (lines 343 to 392), with the rates `accept_rate`. -/
def calibrate_inspect_for (accept_rate : List α) (rat_limit mul : α) (s : Mcmc α × Int)
    (i : Nat) : Except Fault (Mcmc α × Int) := do
  let rate ← gsl_vector_get accept_rate i
  let s ← if rate > rat_limit + 1 / 20 then calibrate_too_high s.1 i mul s.2 else pure s
  let rate ← gsl_vector_get accept_rate i
  let s ← if rate < rat_limit - 1 / 20 then calibrate_too_low s.1 i mul else pure s
  assert_steps_positive s.1
  pure s

/-- The loop `for (subiter = 0; subiter < n; subiter++) { markov_chain_step(m);
mcmc_check_best(m); }` of the inspection. -/
def markov_chain_steps_checked (M : Model α) (circ : List Nat) :
    Nat → Mcmc α → List α → Except Fault (Mcmc α × List α)
  | 0, m, rng => .ok (m, rng)
  | n + 1, m, rng =>
    match markov_chain_step M circ m rng with
    | .error e => .error e
    | .ok (m, rng) => markov_chain_steps_checked M circ n (mcmc_check_best m) rng

/-- The inspection of `markov_chain_calibrate_orig` (lines 334 to 422), from
`get_accept_rate` to the update of `rat_limit`.  The second `get_accept_rate`
is printed only and left out. -/
def calibrate_inspect (cfg : Config α) (M : Model α) (circ : List Nat) (mul : α)
    (c : Calibration α) : Except Fault (Inspection α) := do
  let accept_rate ← get_accept_rate c.m
  let (m, rescaled) ← (List.range (get_n_par c.m)).foldlM
    (calibrate_inspect_for accept_rate c.rat_limit mul) (c.m, 0)
  let nchecks_without_rescaling :=
    if rescaled = 0 then c.nchecks_without_rescaling + 1 else c.nchecks_without_rescaling
  let m := restart_from_best m
  let m := reset_accept_rejects m
  let (m, rng) ← markov_chain_steps_checked M circ cfg.ITER_READJUST m c.rng
  let rate ← get_accept_rate_global m
  let delta_reject_accept_t := rate - cfg.TARGET_ACCEPTANCE_RATE
  pure
    { m := m
      rng := rng
      rat_limit :=
        if abs_double delta_reject_accept_t < 1 / 100 then c.rat_limit
        else if delta_reject_accept_t < 0 then c.rat_limit / (99 / 100)
        else c.rat_limit * (99 / 100)
      nchecks_without_rescaling := nchecks_without_rescaling
      reached_perfection := if abs_double delta_reject_accept_t < 1 / 100 then 1 else 0
      rescaled := rescaled }

/-- The loop `for (i = 0; i < get_n_par(m); i++) { markov_chain_step_for(m, i);
mcmc_check_best(m); }` at the head of the `while (1)` loop. -/
def calibrate_sweep (M : Model α) (circ : List Nat) (m : Mcmc α) (rng : List α) :
    Except Fault (Mcmc α × List α) :=
  (List.range (get_n_par m)).foldlM
    (fun (s : Mcmc α × List α) i =>
      match markov_chain_step_for M circ s.1 i s.2 with
      | .error e => .error e
      | .ok (m, rng) => .ok (mcmc_check_best m, rng))
    (m, rng)

/-- The distance of the counter `iter` to the end of the `while (1)` loop of
`markov_chain_calibrate_orig`, which is left at the latest at the first
inspection with `iter > iter_limit`. -/
def calibrate_distance (readjust iter_limit iter : Nat) : Nat :=
  if iter ≤ iter_limit then iter_limit - iter + readjust else readjust - iter % readjust

/-- The `while (1)` loop of `markov_chain_calibrate_orig`, entered with the
local variables `c`; returns them as they are at the `break`. -/
def calibrate_loop (cfg : Config α) (M : Model α) (circ : List Nat) (iter_limit : Nat)
    (mul : α) (c : Calibration α) : Except Fault (Calibration α) :=
  match calibrate_sweep M circ c.m c.rng with
  | .error e => .error e
  | .ok (m, rng) =>
    if hz : cfg.ITER_READJUST = 0 then .error .undefined
    else if hr : (c.iter + 1) % cfg.ITER_READJUST = 0 then
      match calibrate_inspect cfg M circ mul { c with m := m, rng := rng, iter := c.iter + 1 } with
      | .error e => .error e
      | .ok r =>
        if r.nchecks_without_rescaling ≥ cfg.NO_RESCALING_LIMIT ∧ r.reached_perfection = 1
            ∧ r.rescaled = 0 then
          .ok { m := r.m, rng := r.rng, iter := c.iter + 1, rat_limit := r.rat_limit,
                nchecks_without_rescaling := r.nchecks_without_rescaling }
        else if hl : c.iter + 1 > iter_limit then
          .error (.exit1 (.iteration_limit iter_limit))
        else
          calibrate_loop cfg M circ iter_limit mul
            { m := r.m, rng := r.rng, iter := c.iter + 1, rat_limit := r.rat_limit,
              nchecks_without_rescaling := r.nchecks_without_rescaling }
    else
      calibrate_loop cfg M circ iter_limit mul { c with m := m, rng := rng, iter := c.iter + 1 }
termination_by calibrate_distance cfg.ITER_READJUST iter_limit c.iter
decreasing_by
  · simp only [calibrate_distance]
    have h1 : c.iter + 1 ≤ iter_limit := Nat.le_of_not_lt hl
    have h2 : c.iter ≤ iter_limit := by omega
    rw [if_pos h1, if_pos h2]
    omega
  · simp only [calibrate_distance]
    have hpos : 0 < cfg.ITER_READJUST := Nat.pos_of_ne_zero hz
    have hlt : (c.iter + 1) % cfg.ITER_READJUST < cfg.ITER_READJUST := Nat.mod_lt _ hpos
    by_cases h1 : c.iter + 1 ≤ iter_limit
    · have h2 : c.iter ≤ iter_limit := by omega
      rw [if_pos h1, if_pos h2]
      omega
    · rw [if_neg h1]
      by_cases h2 : c.iter ≤ iter_limit
      · rw [if_pos h2]
        have : c.iter = iter_limit := by omega
        omega
      · rw [if_neg h2]
        have hm : c.iter % cfg.ITER_READJUST < cfg.ITER_READJUST := Nat.mod_lt _ hpos
        have hs : (c.iter + 1) % cfg.ITER_READJUST = c.iter % cfg.ITER_READJUST + 1 := by
          have ha := Nat.add_mod c.iter 1 cfg.ITER_READJUST
          by_cases h5 : cfg.ITER_READJUST = 1
          · exact absurd (by rw [h5]; exact Nat.mod_one _) hr
          · have h6 : 1 % cfg.ITER_READJUST = 1 := Nat.mod_eq_of_lt (by omega)
            rw [h6] at ha
            by_cases h3 : c.iter % cfg.ITER_READJUST + 1 < cfg.ITER_READJUST
            · rw [ha, Nat.mod_eq_of_lt h3]
            · have h4 : c.iter % cfg.ITER_READJUST + 1 = cfg.ITER_READJUST := by omega
              rw [h4, Nat.mod_self] at ha
              exact absurd ha hr
        omega

/-- The function `markov_chain_calibrate_orig(m, burn_in_iterations, rat_limit,
iter_limit, mul, adjust_step)`. -/
def markov_chain_calibrate_orig (L : Libm α) (cfg : Config α) (M : Model α) (circ : List Nat)
    (m : Mcmc α) (burn_in_iterations : Nat) (rat_limit : α) (iter_limit : Nat)
    (mul adjust_step : α) (rng : List α) : Except Fault (Mcmc α × List α) := do
  let rat_limit :=
    if rat_limit < 0 then L.pow (1 / 4) (1 / (get_n_par m : α)) else rat_limit
  let (m, rng) ← burn_in M circ m burn_in_iterations rng
  let m := { m with params_step := gsl_vector_scale m.params_step adjust_step }
  let m := reset_accept_rejects m
  let c ← calibrate_loop cfg M circ iter_limit mul
    { m := m, rng := rng, iter := 0, rat_limit := rat_limit, nchecks_without_rescaling := 0 }
  pure (reset_accept_rejects c.m, c.rng)

/-- The number of proposals counted so far for each parameter,
`accepts[i] + rejects[i]`. -/
def params_proposals (m : Mcmc α) : List Nat :=
  List.zipWith (· + ·) m.params_accepts m.params_rejects

/-- The run `x` does not end in a failure exit `exit(1)`. -/
def no_exit {β : Type} (x : Except Fault β) : Prop :=
  ∀ d : Diagnostic, x ≠ .error (.exit1 d)

/-! ## `markov_chain.c`: the assessment of an acceptance rate -/

/-- Largest value of a C `unsigned int`. -/
def UINT_MAX : Nat := 4294967295

/-- The conversion `(unsigned int) x` of a `double`: the fraction is discarded;
a value that does not fit an `unsigned int` is undefined. -/
def double_to_uint (x : α) : Except Fault Nat :=
  let t : Int := if 0 ≤ x then Int.floor x else Int.ceil x
  if 0 ≤ t ∧ t ≤ (UINT_MAX : Int) then .ok t.toNat else .error .undefined

/-- The libc call `abs(x)` on an `int`; the absolute value of `INT_MIN` is
undefined. -/
def int_abs (x : Int) : Except Fault Nat :=
  if x = INT_MIN then .error .undefined else .ok x.natAbs

/-- Modelled from the spec: the accessor `get_params_accepts_for(m, i)`, absent
from the sources at hand, reads `accepts[i]`. -/
def get_params_accepts_for (m : Mcmc α) (i : Nat) : Except Fault Nat :=
  gsl_vector_get m.params_accepts i

/-- The default `0.25` of the macro `ACCURACY_DEVIATION_FACTOR`. -/
def ACCURACY_DEVIATION_FACTOR : α := 1 / 4

/-- The call `set_bit(acceptslog, i)` at the end `i` of the bits written so
far.  The bitmap is the list of the bits written; the loop writes them in the
order `i = 0, 1, ...`. -/
def set_bit (bitfield : List Bool) : List Bool := bitfield ++ [true]

/-- The call `clear_bit(acceptslog, i)` at the end `i` of the bits written so
far. -/
def clear_bit (bitfield : List Bool) : List Bool := bitfield ++ [false]

/-- The test `get_bit(acceptslog, j) != 0`; a bit that was never written is
uninitialised memory. -/
def get_bit (bitfield : List Bool) (j : Nat) : Except Fault Bool :=
  match bitfield[j]? with
  | some b => .ok b
  | none => .error .undefined

/-- The result of `assess_acceptance_rate`: the chain and the tape of draws
after the call, the values stored through the pointers `acceptance_rate` and
`accuracy`, the value `n` returned, and the bitmap `acceptslog` as the call
leaves it. -/
structure Assessment (α : Type) where
  m : Mcmc α
  rng : List α
  acceptance_rate : α
  accuracy : α
  n : Nat
  acceptslog : List Bool

/-- The body of the loop `for (; i < n; i++)` of `assess_acceptance_rate`:
returns the value left in the local `accepts`, which is the counter read
before the step, and the bitmap with the bit `i` written.  The counter is zero
at the start of the call and counts at most `n` proposals, so its conversion
from `unsigned long` to `unsigned int` keeps the value. -/
def assess_step (M : Model α) (circ : List Nat) (param : Nat) (m : Mcmc α) (rng : List α)
    (acceptslog : List Bool) : Except Fault (Mcmc α × List α × Nat × List Bool) := do
  let accepts ← get_params_accepts_for m param
  let (m, rng) ← markov_chain_step_for M circ m param rng
  let m := mcmc_check_best m
  let now ← get_params_accepts_for m param
  if accepts = now then pure (m, rng, accepts, clear_bit acceptslog)
  else pure (m, rng, accepts, set_bit acceptslog)

/-- The loop `for (; i < n; i++)` of `assess_acceptance_rate` with `n - i`
passes to go. -/
def assess_steps (M : Model α) (circ : List Nat) (param : Nat) :
    Nat → Mcmc α → List α → Nat → List Bool →
      Except Fault (Mcmc α × List α × Nat × List Bool)
  | 0, m, rng, accepts, acceptslog => .ok (m, rng, accepts, acceptslog)
  | k + 1, m, rng, _, acceptslog =>
    match assess_step M circ param m rng acceptslog with
    | .error e => .error e
    | .ok (m, rng, accepts, acceptslog) => assess_steps M circ param k m rng accepts acceptslog

/-- The body of the loop `for (j = 0; j < n; j++)` of `assess_acceptance_rate`
on the pair of the locals `accepts` and `maxdev`.  The count `accepts` stays
at most `n`.  The argument of `abs` is converted to `int`.  The sum `stdev` is
never read and is left out. -/
def assess_deviation_for (acceptslog : List Bool) (accept_rate : α) (s : Nat × Nat) (j : Nat) :
    Except Fault (Nat × Nat) := do
  let bit ← get_bit acceptslog j
  let accepts := if bit then s.1 + 1 else s.1
  let d ← double_to_int ((accepts : α) - accept_rate * (j : α))
  let a ← int_abs d
  pure (accepts, if a > s.2 then a else s.2)

/-- The lines `accepts = 0; maxdev = 0 + 1;` and the loop
`for (j = 0; j < n; j++)` of `assess_acceptance_rate`: returns `accepts` and
`maxdev`. -/
def assess_deviation (acceptslog : List Bool) (accept_rate : α) (n : Nat) :
    Except Fault (Nat × Nat) :=
  (List.range n).foldlM (assess_deviation_for acceptslog accept_rate) (0, 0 + 1)

/-- The lines of `assess_acceptance_rate` that set `required_accuracy`. -/
def assess_required_accuracy (accept_rate desired_acceptance_rate min_accuracy : α) : α :=
  let required_accuracy :=
    abs_double (accept_rate - desired_acceptance_rate) * ACCURACY_DEVIATION_FACTOR
  let required_accuracy := if required_accuracy < 5 / 1000 then 5 / 1000 else required_accuracy
  if required_accuracy < min_accuracy then min_accuracy else required_accuracy

/-- The statement
`n = ((unsigned int) ((maxdev / 1. / required_accuracy) / 8) + 1) * 8;`
of `assess_acceptance_rate`; the sum and the product are taken in
`unsigned int`. -/
def assess_grow (maxdev : Nat) (required_accuracy : α) : Except Fault Nat := do
  let k ← double_to_uint ((maxdev : α) / 1 / required_accuracy / 8)
  pure ((k + 1) % 4294967296 * 8 % 4294967296)

/-- The `while (1)` loop of `assess_acceptance_rate`, entered with the sample
size `n`, the local `accepts` and the bits written so far; `i` is the number
of these bits.  The `realloc` of the bitmap is taken to succeed.  A new size
that wrapped around in `unsigned int` to a value not above the old one is not
followed further. -/
def assess_loop (M : Model α) (circ : List Nat) (param : Nat)
    (desired_acceptance_rate min_accuracy : α) (n : Nat) (m : Mcmc α) (rng : List α)
    (accepts : Nat) (acceptslog : List Bool) : Except Fault (Assessment α) :=
  match assess_steps M circ param (n - acceptslog.length) m rng accepts acceptslog with
  | .error e => .error e
  | .ok (m, rng, accepts, acceptslog) =>
    let accept_rate := (accepts : α) / (n : α)
    match assess_deviation acceptslog accept_rate n with
    | .error e => .error e
    | .ok (accepts, maxdev) =>
      let required_accuracy :=
        assess_required_accuracy accept_rate desired_acceptance_rate min_accuracy
      let accuracy := (maxdev : α) / 1 / (n : α)
      if accuracy ≤ required_accuracy then
        .ok ⟨m, rng, accept_rate, accuracy, n, acceptslog⟩
      else if ¬ ((maxdev : α) / required_accuracy ≥ (n : α)) then .error .assertion
      else
        match assess_grow maxdev required_accuracy with
        | .error e => .error e
        | .ok n' =>
          if h : n < n' ∧ n' ≤ UINT_MAX then
            assess_loop M circ param desired_acceptance_rate min_accuracy n' m rng accepts
              acceptslog
          else .error .undefined
termination_by UINT_MAX - n
decreasing_by
  omega

/-- The function `assess_acceptance_rate(m, param, desired_acceptance_rate,
min_accuracy, acceptance_rate, accuracy)`. -/
def assess_acceptance_rate (M : Model α) (circ : List Nat) (m : Mcmc α) (param : Nat)
    (desired_acceptance_rate min_accuracy : α) (rng : List α) : Except Fault (Assessment α) :=
  assess_loop M circ param desired_acceptance_rate min_accuracy 40 (reset_accept_rejects m)
    rng 0 []

/-! ## Quantities used to state the properties of the assessment -/

/-- The number of accepted proposals among the steps `0 .. j` recorded in the
bitmap. -/
def accepts_at (acceptslog : List Bool) (j : Nat) : Nat :=
  (acceptslog.take (j + 1)).count true

/-- The whole part of `|accepts_at_j - rate * j|`, the deviation of the
running count of accepts from the fitted rate at step `j`. -/
def deviation_at (acceptslog : List Bool) (accept_rate : α) (j : Nat) : Nat :=
  Nat.floor |(accepts_at acceptslog j : α) - accept_rate * (j : α)|

/-- The counter `accepts[param]`, zero when the vector has no such entry. -/
def accepts_of (m : Mcmc α) (param : Nat) : Nat := (m.params_accepts[param]?).getD 0

/-- The counter `rejects[param]`, zero when the vector has no such entry. -/
def rejects_of (m : Mcmc α) (param : Nat) : Nat := (m.params_rejects[param]?).getD 0

/-- The new sample size in the words of the specification,
`ceil(maxdev / required_accuracy) / 8 * 8` with an integer division. -/
def assess_grow_ceil (maxdev : Nat) (required_accuracy : α) : Nat :=
  (Int.ceil ((maxdev : α) / required_accuracy)).toNat / 8 * 8

end Calibrators

/-! ## Concrete states used to run the definitions -/

/-- A two-parameter chain over `ℚ` with bounds `[0, 10]` and log-posterior `-3`. -/
def exChain : Mcmc ℚ where
  n_iter := 0
  n_par := 2
  accept := 0
  reject := 0
  prob := -3
  prior := 0
  prob_best := -3
  params := [1, 2]
  params_best := [1, 2]
  params_accepts := [0, 0]
  params_rejects := [0, 0]
  params_step := [1, 1]
  params_min := [0, 0]
  params_max := [10, 10]
  data := some ⟨1, 2, [[0, 0]]⟩
  beta := 1
  swapcount := 0

/-- The `double` nearest to `0.1`. -/
def exTenth : ℚ := 3602879701896397 / 36028797018963968

/-- The `double` nearest to `1e-17`. -/
def exTiny : ℚ := 6490371073168535 / 649037107316853453566312041152512

/-- A model whose log-posterior is minus the sum of the parameters. -/
def exModel : Model ℚ where
  calc_model := fun m _ => -(m.params.sum)
  calc_model_for := fun m _ _ => -(m.params.sum)

/-- The chain at `beta = 1` of a two-chain ensemble: its best point `[3, 4]`
differs from its current point. -/
def exCold : Mcmc ℚ :=
  { exChain with params_best := [3, 4], prob_best := -1 }

/-- The chain at `beta = 1/2` of a two-chain ensemble. -/
def exHot : Mcmc ℚ :=
  { exChain with params := [5, 6], prob := -4, params_best := [7, 8], prob_best := -7 / 2,
                 beta := 1 / 2 }

/-- A two-chain ensemble. -/
def exPair : List (Mcmc ℚ) := [exCold, exHot]

/-- A chain whose best log-posterior `-20000000` lies below the sentinel of
`restart_from_best`. -/
def exPoor : Mcmc ℚ :=
  { exChain with prob := -30000000, prob_best := -20000000 }

/-- A chain that passes `mcmc_check` with `params[0]` above `max[0]`,
`params[1]` below `min[1]`, a zero step and a negative step. -/
def exOutside : Mcmc ℚ :=
  { exChain with params := [20, -5], params_step := [0, -1] }

/-- A rational stand-in for the C math library, used to run the definitions:
`sqrt x` is `(x + 1) / 2`, which is positive for positive `x`; `exp x` is
`1 + x`, `pow x y` is `x`, `sin x` is `x` and `pi` is `22/7`. -/
def exLibm : Libm ℚ where
  exp := fun x => 1 + x
  sqrt := fun x => (x + 1) / 2
  pow := fun x _ => x
  sin := fun x => x
  pi := 22 / 7

/-- The build constants `ITER_READJUST = 200`, `NO_RESCALING_LIMIT = 15` and
`TARGET_ACCEPTANCE_RATE = 0.23`. -/
def exConfig : Config ℚ where
  ITER_READJUST := 200
  NO_RESCALING_LIMIT := 15
  TARGET_ACCEPTANCE_RATE := 23 / 100

/-- The chain `exChain` after four iterations. -/
def exIterated : Mcmc ℚ :=
  { exChain with n_iter := 4 }

/-- A three-parameter chain for the sine model at `beta = 1/2`, with
`A = 2`, `f = 1/2`, `φ = 1` and the data rows `(0, 1)` and `(1, 2)`. -/
def exSine : Mcmc ℚ :=
  { exChain with n_par := 3, params := [2, 1 / 2, 1], params_best := [2, 1 / 2, 1],
                 data := some ⟨2, 2, [[0, 1], [1, 2]]⟩, beta := 1 / 2 }

/-- A one-parameter chain over `ℚ` at the point `5` with bounds `[0, 10]`,
step `1` and log-posterior `-5`. -/
def exOne : Mcmc ℚ :=
  { exChain with n_par := 1, params := [5], params_best := [5], prob := -5, prob_best := -5,
                 params_accepts := [0], params_rejects := [0], params_step := [1],
                 params_min := [0], params_max := [10] }

/-- The chain `exOne` at the point `p` with log-posterior `prob`, best point
`best` with log-posterior `prob_best`, step `step`, `a` accepts and `r`
rejects. -/
def exState (p prob best prob_best step : ℚ) (a r : Nat) : Mcmc ℚ :=
  { exOne with params := [p], prob := prob, params_best := [best], prob_best := prob_best,
               params_step := [step], params_accepts := [a], params_rejects := [r] }

/-- A constant-likelihood model: the callback leaves `prob` as it is. -/
def exConst : Model ℚ where
  calc_model := fun m _ => m.prob
  calc_model_for := fun m _ _ => m.prob

/-- A build with `ITER_READJUST = 2`, `NO_RESCALING_LIMIT = 2` and
`TARGET_ACCEPTANCE_RATE = 0.5`. -/
def exConfigTwo : Config ℚ where
  ITER_READJUST := 2
  NO_RESCALING_LIMIT := 2
  TARGET_ACCEPTANCE_RATE := 1 / 2

/-- A build with `ITER_READJUST = 2`, `NO_RESCALING_LIMIT = 1` and
`TARGET_ACCEPTANCE_RATE = 0.5`. -/
def exConfigOne : Config ℚ where
  ITER_READJUST := 2
  NO_RESCALING_LIMIT := 1
  TARGET_ACCEPTANCE_RATE := 1 / 2

/-- The draws of `k` rejected steps of the one-parameter chain on `exModel`:
`k` times the proposal draw `1` and the log-uniform draw `-1/2`. -/
def exRejects : Nat → List ℚ
  | 0 => []
  | k + 1 => 1 :: -1 / 2 :: exRejects k

/-- The result of `assess_acceptance_rate` on `exModel` with the draws
`exRejects 40`: forty rejects, the rate 0 and the accuracy `1/40`. -/
def exRejected : Assessment ℚ :=
  ⟨exState 5 (-5) 5 (-5) 1 0 40, [], 0, 1 / 40, 40, List.replicate 40 false⟩

set_option linter.unusedSectionVars false

section Acceptance

variable {α : Type} [LinearOrderedField α]

/-! ## The acceptance test -/

/-- C1: `check_accept` returns 1 whenever `prob_new ≥ prob_old`, and then the
tape of draws is untouched; otherwise it pops one log-uniform draw `u` and
returns 1 when `u < prob_new - prob_old` and 0 when `u ≥ prob_new - prob_old`. -/
theorem check_accept_spec (m : Mcmc α) (prob_old u : α) (rng rest : List α) :
    (prob_old ≤ get_prob m → check_accept m prob_old rng = .ok (1, rng)) ∧
    (get_prob m < prob_old → u < get_prob m - prob_old →
      check_accept m prob_old (u :: rest) = .ok (1, rest)) ∧
    (get_prob m < prob_old → get_prob m - prob_old ≤ u →
      check_accept m prob_old (u :: rest) = .ok (0, rest)) := by
  refine ⟨fun h => ?_, fun h hu => ?_, fun h hu => ?_⟩
  · unfold check_accept
    rcases h.eq_or_lt with h | h
    · simp [h]
    · simp [h, h.ne']
  · unfold check_accept
    simp [h.ne, not_lt.mpr h.le, get_next_alog_urandom, next_draw, bind, Except.bind, hu, pure,
      Except.pure]
  · unfold check_accept
    simp [h.ne, not_lt.mpr h.le, get_next_alog_urandom, next_draw, bind, Except.bind,
      not_lt.mpr hu, pure, Except.pure]

/-- Run of C1 on `exChain` (log-posterior `-3`): an equal and a lower old value
accept on the empty tape; against the old value `-2` the draw `-2` accepts and
the draw `-1/2` rejects. -/
theorem check_accept_spec_witness :
    check_accept exChain (-3) [] = .ok (1, []) ∧
    check_accept exChain (-4) [] = .ok (1, []) ∧
    check_accept exChain (-2) [-2, 7] = .ok (1, [7]) ∧
    check_accept exChain (-2) [-1 / 2, 7] = .ok (0, [7]) :=
  ⟨(check_accept_spec exChain (-3) 0 [] []).1 (by norm_num [get_prob, exChain]),
   (check_accept_spec exChain (-4) 0 [] []).1 (by norm_num [get_prob, exChain]),
   (check_accept_spec exChain (-2) (-2) [] [7]).2.1 (by norm_num [get_prob, exChain])
     (by norm_num [get_prob, exChain]),
   (check_accept_spec exChain (-2) (-1 / 2) [] [7]).2.2 (by norm_num [get_prob, exChain])
     (by norm_num [get_prob, exChain])⟩

/-! ## Vectors and the redraw loop -/

theorem gsl_vector_get_ok {β : Type} {v : List β} {i : Nat} {x : β} :
    gsl_vector_get v i = .ok x ↔ v[i]? = some x := by
  unfold gsl_vector_get
  cases h : v[i]? <;> simp

theorem gsl_vector_get_of {β : Type} {v : List β} {i : Nat} {x : β} (h : v[i]? = some x) :
    gsl_vector_get v i = .ok x := gsl_vector_get_ok.mpr h

theorem redraw_while_bounds (old max min : α) (rng : List α) :
    ∀ (nv v : α) (rng' : List α), redraw_while old max min nv rng = .ok (v, rng') →
      min ≤ v ∧ v ≤ max := by
  induction rng with
  | nil =>
    intro nv v rng' h
    unfold redraw_while at h
    split_ifs at h with hc
    simp only [Except.ok.injEq, Prod.mk.injEq] at h
    obtain ⟨rfl, -⟩ := h
    push_neg at hc
    exact ⟨hc.2, hc.1⟩
  | cons d rest ih =>
    intro nv v rng' h
    unfold redraw_while at h
    split_ifs at h with hc
    · exact ih _ _ _ h
    · simp only [Except.ok.injEq, Prod.mk.injEq] at h
      obtain ⟨rfl, -⟩ := h
      push_neg at hc
      exact ⟨hc.2, hc.1⟩

theorem redraw_while_inside (old max min nv : α) (rng : List α) (h1 : min ≤ nv) (h2 : nv ≤ max) :
    redraw_while old max min nv rng = .ok (nv, rng) := by
  cases rng <;> simp [redraw_while, not_lt.mpr h1, not_lt.mpr h2]

theorem redraw_while_outside (old max min nv d : α) (rest : List α) (h : nv > max ∨ nv < min) :
    redraw_while old max min nv (d :: rest) = redraw_while old max min (old + d) rest := by
  rw [redraw_while]; simp [h]

theorem getElem?_lt_length {β : Type} {l : List β} {i : Nat} {x : β} (h : l[i]? = some x) :
    i < l.length := by
  by_contra hc
  rw [List.getElem?_eq_none (not_lt.mp hc)] at h
  cases h

theorem gsl_vector_get_error {β : Type} {v : List β} {i : Nat} {e : Fault}
    (h : gsl_vector_get v i = .error e) : e = Fault.range := by
  unfold gsl_vector_get at h
  cases hv : v[i]? with
  | none => rw [hv] at h; injection h with h; exact h.symm
  | some x => rw [hv] at h; cases h

theorem next_draw_error {rng : List α} {e : Fault} (h : next_draw rng = .error e) :
    e = Fault.draws := by
  cases rng with
  | nil => injection h with h; exact h.symm
  | cons x r => cases h

theorem redraw_while_error (old max min : α) (rng : List α) :
    ∀ (nv : α) (e : Fault), redraw_while old max min nv rng = .error e → e = Fault.draws := by
  induction rng with
  | nil =>
    intro nv e h
    unfold redraw_while at h
    split_ifs at h
    injection h with h
    exact h.symm
  | cons d rest ih =>
    intro nv e h
    unfold redraw_while at h
    split_ifs at h
    exact ih _ _ h

end Acceptance

section Steps

variable {α : Type} [LinearOrderedField α] [FloorRing α]

/-! ## Accessors -/

theorem list_set_getElem?_self {β : Type} (l : List β) (i : Nat) (x : β) (h : l[i]? = some x) :
    l.set i x = l := by
  apply List.ext_getElem?
  intro j
  by_cases hj : i = j
  · subst hj
    have hi : i < l.length := by
      by_contra hc
      rw [List.getElem?_eq_none (not_lt.mp hc)] at h
      cases h
    rw [List.getElem?_set_self hi, h]
  · rw [List.getElem?_set_ne hj]

theorem inc_params_accepts_for_ok (m m' : Mcmc α) (i : Nat)
    (h : inc_params_accepts_for m i = .ok m') :
    ∃ a, m.params_accepts[i]? = some a ∧
      m' = { m with params_accepts := m.params_accepts.set i (a + 1) } := by
  unfold inc_params_accepts_for at h
  cases h1 : gsl_vector_get m.params_accepts i with
  | error e => simp [h1, bind, Except.bind] at h
  | ok a =>
    simp only [h1, bind, Except.bind, gsl_vector_set] at h
    by_cases hc : i < m.params_accepts.length
    · simp only [hc, if_true, pure, Except.pure, Except.ok.injEq] at h
      exact ⟨a, gsl_vector_get_ok.mp h1, h.symm⟩
    · simp [hc] at h

theorem inc_params_rejects_for_ok (m m' : Mcmc α) (i : Nat)
    (h : inc_params_rejects_for m i = .ok m') :
    ∃ c, m.params_rejects[i]? = some c ∧
      m' = { m with params_rejects := m.params_rejects.set i (c + 1) } := by
  unfold inc_params_rejects_for at h
  cases h1 : gsl_vector_get m.params_rejects i with
  | error e => simp [h1, bind, Except.bind] at h
  | ok a =>
    simp only [h1, bind, Except.bind, gsl_vector_set] at h
    by_cases hc : i < m.params_rejects.length
    · simp only [hc, if_true, pure, Except.pure, Except.ok.injEq] at h
      exact ⟨a, gsl_vector_get_ok.mp h1, h.symm⟩
    · simp [hc] at h

theorem inc_params_rejects_for_of (m : Mcmc α) (i c : Nat) (h : m.params_rejects[i]? = some c) :
    inc_params_rejects_for m i =
      .ok { m with params_rejects := m.params_rejects.set i (c + 1) } := by
  have hi : i < m.params_rejects.length := by
    by_contra hc
    rw [List.getElem?_eq_none (not_lt.mp hc)] at h
    cases h
  simp [inc_params_rejects_for, gsl_vector_get_of h, gsl_vector_set, hi, bind, Except.bind, pure,
    Except.pure]

theorem set_params_for_of (m : Mcmc α) (i : Nat) (v : α) (h : i < m.params.length) :
    set_params_for m v i = .ok { m with params := m.params.set i v } := by
  simp [set_params_for, gsl_vector_set, h, bind, Except.bind, pure, Except.pure]

/-! ## One proposal: `do_step_for` -/

theorem do_step_for_unfold (circ : List Nat) (m : Mcmc α) (i : Nat) (g : α) (rng : List α)
    (step old max min : α) (h1 : m.params_step[i]? = some step) (h2 : m.params[i]? = some old)
    (h3 : m.params_max[i]? = some max) (h4 : m.params_min[i]? = some min) :
    do_step_for circ m i (g :: rng) =
      match do_step_for_adjust circ i step old max min (old + g) rng with
      | .error e => .error e
      | .ok (v, r) =>
        match do_step_for_store m i max min v with
        | .error e => .error e
        | .ok m' => .ok (m', r) := by
  unfold do_step_for
  simp only [gsl_vector_get_of h1, gsl_vector_get_of h2, gsl_vector_get_of h3,
    gsl_vector_get_of h4, get_next_gauss_random, next_draw, bind, Except.bind]
  rcases do_step_for_adjust circ i step old max min (old + g) rng with e | ⟨v, r⟩
  · rfl
  · dsimp only
    rcases do_step_for_store m i max min v with e | m'
    · rfl
    · rfl

theorem do_step_for_shape (circ : List Nat) (m mp : Mcmc α) (i : Nat) (rng rngp : List α)
    (h : do_step_for circ m i rng = .ok (mp, rngp)) :
    ∃ v min max, mp = { m with params := m.params.set i v } ∧ i < m.params.length ∧
      m.params_min[i]? = some min ∧ m.params_max[i]? = some max ∧ min ≤ v ∧ v ≤ max := by
  unfold do_step_for at h
  cases h1 : gsl_vector_get m.params_step i with
  | error e => simp [h1, bind, Except.bind] at h
  | ok step =>
  cases h2 : gsl_vector_get m.params i with
  | error e => simp [h1, h2, bind, Except.bind] at h
  | ok old =>
  cases h3 : get_next_gauss_random step rng with
  | error e => simp [h1, h2, h3, bind, Except.bind] at h
  | ok gr =>
  obtain ⟨g, rng1⟩ := gr
  cases h4 : gsl_vector_get m.params_max i with
  | error e => simp [h1, h2, h3, h4, bind, Except.bind] at h
  | ok max =>
  cases h5 : gsl_vector_get m.params_min i with
  | error e => simp [h1, h2, h3, h4, h5, bind, Except.bind] at h
  | ok min =>
  cases h6 : do_step_for_adjust circ i step old max min (old + g) rng1 with
  | error e => simp [h1, h2, h3, h4, h5, h6, bind, Except.bind] at h
  | ok vr =>
  obtain ⟨v, r⟩ := vr
  cases h7 : do_step_for_store m i max min v with
  | error e => simp [h1, h2, h3, h4, h5, h6, h7, bind, Except.bind] at h
  | ok m' =>
  simp only [h1, h2, h3, h4, h5, h6, h7, bind, Except.bind, pure, Except.pure, Except.ok.injEq,
    Prod.mk.injEq] at h
  obtain ⟨rfl, rfl⟩ := h
  unfold do_step_for_store at h7
  by_cases ha : v ≤ max
  · by_cases hb : v ≥ min
    · simp only [ha, hb, not_true_eq_false, if_false] at h7
      unfold set_params_for gsl_vector_set at h7
      by_cases hc : i < m.params.length
      · simp only [hc, if_true, bind, Except.bind, pure, Except.pure, Except.ok.injEq] at h7
        exact ⟨v, min, max, h7.symm, hc, gsl_vector_get_ok.mp h5, gsl_vector_get_ok.mp h4, hb, ha⟩
      · simp [hc, bind, Except.bind] at h7
    · simp [ha, hb] at h7
  · simp [ha] at h7

theorem do_step_for_store_inside (m : Mcmc α) (i : Nat) (max min v : α) (h1 : min ≤ v)
    (h2 : v ≤ max) (hi : i < m.params.length) :
    do_step_for_store m i max min v = .ok { m with params := m.params.set i v } := by
  unfold do_step_for_store
  simp [h1, h2, set_params_for_of m i v hi]

theorem do_step_for_store_not_assertion (m : Mcmc α) (i : Nat) (max min v : α) (h1 : min ≤ v)
    (h2 : v ≤ max) : do_step_for_store m i max min v ≠ .error .assertion := by
  unfold do_step_for_store set_params_for gsl_vector_set
  by_cases hi : i < m.params.length <;> simp [h1, h2, hi, bind, Except.bind, pure, Except.pure]

/-- C4: in the build without circular parameters (`CIRCULAR_PARAMS == 0`),
(a) whenever `do_step_for(m, i)` returns, the stored `params[i]` lies in
`[min[i], max[i]]`; (b) neither closing assertion can fail; (c) a first
proposal `old + d` inside the closed interval, its end points included, is
stored without a further draw; (d) a proposal outside it is discarded and the
step goes on from the same state (the same old value) with the rest of the
draws. -/
theorem do_step_for_stays_inside (m : Mcmc α) (i : Nat) :
    (∀ rng mp rngp, do_step_for [] m i rng = .ok (mp, rngp) →
      ∃ v min max, mp.params[i]? = some v ∧ mp.params_min[i]? = some min ∧
        mp.params_max[i]? = some max ∧ min ≤ v ∧ v ≤ max) ∧
    (∀ rng, do_step_for [] m i rng ≠ .error .assertion) ∧
    (∀ step old min max d rest, m.params_step[i]? = some step → m.params[i]? = some old →
      m.params_min[i]? = some min → m.params_max[i]? = some max →
      min ≤ old + d → old + d ≤ max →
      do_step_for [] m i (d :: rest) = .ok ({ m with params := m.params.set i (old + d) }, rest)) ∧
    (∀ step old min max d rest, m.params_step[i]? = some step → m.params[i]? = some old →
      m.params_min[i]? = some min → m.params_max[i]? = some max →
      (old + d > max ∨ old + d < min) →
      do_step_for [] m i (d :: rest) = do_step_for [] m i rest) := by
  refine ⟨?_, ?_, ?_, ?_⟩
  · intro rng mp rngp h
    obtain ⟨v, min, max, hmp, hlen, hmin, hmax, h1, h2⟩ := do_step_for_shape [] m mp i rng rngp h
    subst hmp
    exact ⟨v, min, max, List.getElem?_set_self hlen, hmin, hmax, h1, h2⟩
  · intro rng h
    unfold do_step_for at h
    cases h1 : gsl_vector_get m.params_step i with
    | error e =>
      have := gsl_vector_get_error h1
      simp [h1, bind, Except.bind, this] at h
    | ok step =>
    cases h2 : gsl_vector_get m.params i with
    | error e =>
      have := gsl_vector_get_error h2
      simp [h1, h2, bind, Except.bind, this] at h
    | ok old =>
    cases h3 : get_next_gauss_random step rng with
    | error e =>
      have := next_draw_error h3
      simp [h1, h2, h3, bind, Except.bind, this] at h
    | ok gr =>
    obtain ⟨g, rng1⟩ := gr
    cases h4 : gsl_vector_get m.params_max i with
    | error e =>
      have := gsl_vector_get_error h4
      simp [h1, h2, h3, h4, bind, Except.bind, this] at h
    | ok max =>
    cases h5 : gsl_vector_get m.params_min i with
    | error e =>
      have := gsl_vector_get_error h5
      simp [h1, h2, h3, h4, h5, bind, Except.bind, this] at h
    | ok min =>
    cases h6 : do_step_for_adjust [] i step old max min (old + g) rng1 with
    | error e =>
      have := redraw_while_error old max min rng1 (old + g) e (by simpa [do_step_for_adjust] using h6)
      simp [h1, h2, h3, h4, h5, h6, bind, Except.bind, this] at h
    | ok vr =>
    obtain ⟨v, r⟩ := vr
    have hb := redraw_while_bounds old max min rng1 (old + g) v r
      (by simpa [do_step_for_adjust] using h6)
    cases h7 : do_step_for_store m i max min v with
    | error e =>
      simp only [h1, h2, h3, h4, h5, h6, h7, bind, Except.bind] at h
      injection h with h
      subst h
      exact do_step_for_store_not_assertion m i max min v hb.1 hb.2 h7
    | ok m' =>
      simp [h1, h2, h3, h4, h5, h6, h7, bind, Except.bind, pure, Except.pure] at h
  · intro step old min max d rest hs ho hmin hmax h1 h2
    rw [do_step_for_unfold [] m i d rest step old max min hs ho hmax hmin]
    simp only [do_step_for_adjust, if_true, redraw_while_inside old max min (old + d) rest h1 h2,
      do_step_for_store_inside m i max min (old + d) h1 h2 (getElem?_lt_length ho)]
  · intro step old min max d rest hs ho hmin hmax hout
    rw [do_step_for_unfold [] m i d rest step old max min hs ho hmax hmin]
    cases rest with
    | nil =>
      have : do_step_for [] m i [] = .error .draws := by
        simp [do_step_for, gsl_vector_get_of hs, gsl_vector_get_of ho, get_next_gauss_random,
          next_draw, bind, Except.bind]
      rw [this]
      simp [do_step_for_adjust, redraw_while, hout]
    | cons d2 r2 =>
      rw [do_step_for_unfold [] m i d2 r2 step old max min hs ho hmax hmin]
      simp only [do_step_for_adjust, if_true, redraw_while_outside old max min (old + d) d2 r2 hout]

/-- Run of C4 on `exChain` (`params[1] = 2`, bounds `[0, 10]`): the draws `8`
and `-2` propose exactly `max` and exactly `min` and are kept; the draw `20`
proposes `22` and is dropped. -/
theorem do_step_for_stays_inside_witness :
    do_step_for [] exChain 1 [8, 5] = .ok ({ exChain with params := exChain.params.set 1 (2 + 8) }, [5]) ∧
    do_step_for [] exChain 1 [-2, 5] =
      .ok ({ exChain with params := exChain.params.set 1 (2 + -2) }, [5]) ∧
    do_step_for [] exChain 1 [20, 1] = do_step_for [] exChain 1 [1] :=
  ⟨(do_step_for_stays_inside exChain 1).2.2.1 1 2 0 10 8 [5] rfl rfl rfl rfl
      (by norm_num) (by norm_num),
   (do_step_for_stays_inside exChain 1).2.2.1 1 2 0 10 (-2) [5] rfl rfl rfl rfl
      (by norm_num) (by norm_num),
   (do_step_for_stays_inside exChain 1).2.2.2 1 2 0 10 20 [1] rfl rfl rfl rfl
      (Or.inl (by norm_num))⟩

theorem mod_double_bounds (x y : α) (hy : 0 < y) :
    0 ≤ mod_double x y ∧ mod_double x y < y := by
  unfold mod_double
  have h1 : (Int.floor (x / y) : α) ≤ x / y := Int.floor_le _
  have h2 : x / y < (Int.floor (x / y) : α) + 1 := Int.lt_floor_add_one _
  have h3 : y * (Int.floor (x / y) : α) ≤ x := by
    have := mul_le_mul_of_nonneg_left h1 hy.le
    rwa [mul_div_cancel₀ x hy.ne'] at this
  have h4 : x < y * ((Int.floor (x / y) : α) + 1) := by
    have := mul_lt_mul_of_pos_left h2 hy
    rwa [mul_div_cancel₀ x hy.ne'] at this
  constructor
  · linarith
  · linarith

theorem is_circular_listed (i : Nat) (circ : List Nat) (h : i + 1 ∈ circ) (h0 : 0 ∉ circ) :
    is_circular i (circ ++ [0]) = .ok true := by
  induction circ with
  | nil => cases h
  | cons p ps ih =>
    have hp : p ≠ 0 := fun hp => h0 (by simp [hp])
    by_cases hpi : p = i + 1
    · simp [is_circular, hp, hpi]
    · have h' : i + 1 ∈ ps := by
        rcases List.mem_cons.mp h with h | h
        · exact absurd h.symm hpi
        · exact h
      have h0' : 0 ∉ ps := fun hc => h0 (List.mem_cons_of_mem _ hc)
      simp [is_circular, hp, hpi, ih h' h0']

theorem is_circular_not_listed (i : Nat) (circ : List Nat) (h : i + 1 ∉ circ) :
    is_circular i (circ ++ [0]) = .ok false := by
  induction circ with
  | nil => simp [is_circular]
  | cons p ps ih =>
    have hpi : p ≠ i + 1 := fun hp => h (by simp [hp])
    have h' : i + 1 ∉ ps := fun hc => h (List.mem_cons_of_mem _ hc)
    by_cases hp : p = 0
    · simp [is_circular, hp]
    · simp [is_circular, hp, hpi, ih h']

/-- C5: in a build with `CIRCULAR_PARAMS` set to the list `circ`, let the first
proposal `old + d` for parameter `i` fall outside `[min[i], max[i]]`.  If the
1-based index `i + 1` is listed, `do_step_for` stores
`min + mod_double(old + d - min, max - min)` without a further draw; for
`min < max` this value lies in `[min, max]` and differs from the proposal by a
whole multiple of `max - min`.  If `i + 1` is not listed the proposal is
dropped and drawn again.  Over the reals, with `min = 0`, `max = 2π` and the
proposal `2π + 1/10`, the value stored is `1/10`. -/
theorem do_step_for_wraps (circ : List Nat) (m : Mcmc α) (i : Nat) (step old min max d : α)
    (rest : List α) (hs : m.params_step[i]? = some step) (ho : m.params[i]? = some old)
    (hmin : m.params_min[i]? = some min) (hmax : m.params_max[i]? = some max)
    (hout : old + d > max ∨ old + d < min) :
    (i + 1 ∈ circ → 0 ∉ circ → min < max →
      do_step_for circ m i (d :: rest) =
        .ok ({ m with params := m.params.set i (min + mod_double (old + d - min) (max - min)) },
          rest) ∧
      min ≤ min + mod_double (old + d - min) (max - min) ∧
      min + mod_double (old + d - min) (max - min) ≤ max ∧
      ∃ k : Int, old + d - (min + mod_double (old + d - min) (max - min)) = k * (max - min)) ∧
    (circ ≠ [] → i + 1 ∉ circ →
      do_step_for circ m i (d :: rest) = do_step_for circ m i rest) ∧
    (∀ (mr : Mcmc ℝ) (j : Nat) (sr oldr dr : ℝ) (restr : List ℝ),
      mr.params_step[j]? = some sr → mr.params[j]? = some oldr →
      mr.params_min[j]? = some 0 → mr.params_max[j]? = some (2 * Real.pi) →
      oldr + dr = 2 * Real.pi + 1 / 10 → j + 1 ∈ circ → 0 ∉ circ →
      do_step_for circ mr j (dr :: restr) =
        .ok ({ mr with params := mr.params.set j (1 / 10) }, restr)) := by
  refine ⟨?_, ?_, ?_⟩
  · intro hin h0 hlt
    have hc : circ ≠ [] := fun hc => by rw [hc] at hin; cases hin
    have hb := mod_double_bounds (old + d - min) (max - min) (sub_pos.mpr hlt)
    have h1 : min ≤ min + mod_double (old + d - min) (max - min) := by linarith [hb.1]
    have h2 : min + mod_double (old + d - min) (max - min) ≤ max := by linarith [hb.2]
    refine ⟨?_, h1, h2, ⟨Int.floor ((old + d - min) / (max - min)), ?_⟩⟩
    · rw [do_step_for_unfold circ m i d rest step old max min hs ho hmax hmin]
      simp only [do_step_for_adjust, hc, if_false, hout, if_true, is_circular_listed i circ hin h0,
        bind, Except.bind, pure, Except.pure,
        do_step_for_store_inside m i max min _ h1 h2 (getElem?_lt_length ho)]
    · unfold mod_double
      ring
  · intro hc hnot
    rw [do_step_for_unfold circ m i d rest step old max min hs ho hmax hmin]
    cases rest with
    | nil =>
      have : do_step_for circ m i [] = .error .draws := by
        simp [do_step_for, gsl_vector_get_of hs, gsl_vector_get_of ho, get_next_gauss_random,
          next_draw, bind, Except.bind]
      rw [this]
      simp [do_step_for_adjust, hc, hout, is_circular_not_listed i circ hnot, redraw_do_while,
        get_next_gauss_random, next_draw, bind, Except.bind]
    | cons d2 r2 =>
      rw [do_step_for_unfold circ m i d2 r2 step old max min hs ho hmax hmin]
      simp only [do_step_for_adjust, hc, if_false, hout, if_true,
        is_circular_not_listed i circ hnot, bind, Except.bind, redraw_do_while,
        get_next_gauss_random, next_draw]
      by_cases hin2 : old + d2 > max ∨ old + d2 < min
      · simp only [hin2, if_true, Bool.false_eq_true, if_false]
        cases r2 with
        | nil => simp [redraw_while, hin2]
        | cons d3 r3 => simp [redraw_while, hin2]
      · simp only [hin2, if_false, Bool.false_eq_true]
        push_neg at hin2
        rw [redraw_while_inside old max min (old + d2) r2 hin2.2 hin2.1]
        rfl
  · intro mr j sr oldr dr restr hsr hor hminr hmaxr hp hin h0
    have hc : circ ≠ [] := fun hc => by rw [hc] at hin; cases hin
    have hpi : (0 : ℝ) < Real.pi := Real.pi_pos
    have hpi3 : (3 : ℝ) < Real.pi := Real.pi_gt_three
    have hout' : oldr + dr > 2 * Real.pi ∨ oldr + dr < 0 := Or.inl (by rw [hp]; linarith)
    have hfl : Int.floor ((2 * Real.pi + 1 / 10) / (2 * Real.pi)) = 1 := by
      rw [Int.floor_eq_iff]
      constructor
      · rw [le_div_iff₀ (by linarith)]
        push_cast
        linarith
      · rw [div_lt_iff₀ (by linarith)]
        push_cast
        linarith
    have hv : (0 : ℝ) + mod_double (oldr + dr - 0) (2 * Real.pi - 0) = 1 / 10 := by
      unfold mod_double
      rw [hp, sub_zero, sub_zero, hfl]
      push_cast
      ring
    rw [do_step_for_unfold circ mr j dr restr sr oldr (2 * Real.pi) 0 hsr hor hmaxr hminr]
    simp only [do_step_for_adjust, hc, if_false, hout', if_true, is_circular_listed j circ hin h0,
      bind, Except.bind, pure, Except.pure, hv]
    rw [do_step_for_store_inside mr j (2 * Real.pi) 0 (1 / 10) (by norm_num) (by linarith)
      (getElem?_lt_length hor)]

/-- Run of C5 on `exChain` with `CIRCULAR_PARAMS = 2` (`params[1] = 2`, bounds
`[0, 10]`): the proposals `12` and `-3` are stored as `0 + mod_double(12, 10)`
and `0 + mod_double(-3, 10)`, that is `2` and `7`; parameter 0 is not listed
and its proposal `11` is dropped. -/
theorem do_step_for_wraps_witness :
    do_step_for [2] exChain 1 [10, 5] =
      .ok ({ exChain with params := exChain.params.set 1 (0 + mod_double (2 + 10 - 0) (10 - 0)) },
        [5]) ∧
    do_step_for [2] exChain 1 [-5, 5] =
      .ok ({ exChain with params := exChain.params.set 1 (0 + mod_double (2 + -5 - 0) (10 - 0)) },
        [5]) ∧
    do_step_for [2] exChain 0 [10, 1] = do_step_for [2] exChain 0 [1] ∧
    (0 : ℚ) + mod_double (2 + 10 - 0) (10 - 0) = 2 ∧
    (0 : ℚ) + mod_double (2 + -5 - 0) (10 - 0) = 7 :=
  ⟨((do_step_for_wraps [2] exChain 1 1 2 0 10 10 [5] rfl rfl rfl rfl
      (Or.inl (by norm_num))).1 (by decide) (by decide) (by norm_num)).1,
   ((do_step_for_wraps [2] exChain 1 1 2 0 10 (-5) [5] rfl rfl rfl rfl
      (Or.inr (by norm_num))).1 (by decide) (by decide) (by norm_num)).1,
   (do_step_for_wraps [2] exChain 0 1 1 0 10 10 [1] rfl rfl rfl rfl
      (Or.inl (by norm_num))).2.1 (by decide) (by decide),
   by norm_num [mod_double, Int.floor_eq_iff],
   by norm_num [mod_double]⟩

/-! ## One transition: `markov_chain_step_for` and `markov_chain_step` -/

/-- What a returning call of `markov_chain_step_for` has done: it either kept
a proposal `v` and counted an accept, or restored the state and counted a
reject. -/
theorem markov_chain_step_for_cases (M : Model α) (circ : List Nat) (m m' : Mcmc α) (index : Nat)
    (rng rng' : List α) (h : markov_chain_step_for M circ m index rng = .ok (m', rng')) :
    ∃ old v, m.params[index]? = some old ∧
      ((∃ a, m.params_accepts[index]? = some a ∧
          m' = { m with
            params := m.params.set index v
            prob := M.calc_model_for { m with params := m.params.set index v } index old
            params_accepts := m.params_accepts.set index (a + 1) }) ∨
       (∃ c, m.params_rejects[index]? = some c ∧
          m' = { m with params_rejects := m.params_rejects.set index (c + 1) })) := by
  unfold markov_chain_step_for at h
  cases h1 : gsl_vector_get m.params index with
  | error e => simp [h1, bind, Except.bind] at h
  | ok old =>
  cases h2 : mcmc_check m with
  | error e => simp [h1, h2, bind, Except.bind] at h
  | ok u =>
  cases h3 : do_step_for circ m index rng with
  | error e => simp [h1, h2, h3, bind, Except.bind] at h
  | ok mr =>
  obtain ⟨mp, rngp⟩ := mr
  cases h4 : check_accept (calc_model_for M mp index old) (get_prob m) rngp with
  | error e => simp [h1, h2, h3, h4, bind, Except.bind] at h
  | ok ar =>
  obtain ⟨acc, rnga⟩ := ar
  obtain ⟨v, min, max, hmp, hlen, -, -, -, -⟩ := do_step_for_shape circ m mp index rng rngp h3
  have hold := gsl_vector_get_ok.mp h1
  refine ⟨old, v, hold, ?_⟩
  simp only [h1, h2, h3, h4, bind, Except.bind] at h
  by_cases hacc : acc = 1
  · left
    simp only [hacc, if_true] at h
    cases h5 : inc_params_accepts_for (calc_model_for M mp index old) index with
    | error e => simp [h5] at h
    | ok ma =>
      simp only [h5, pure, Except.pure, Except.ok.injEq, Prod.mk.injEq] at h
      obtain ⟨a, ha, hma⟩ := inc_params_accepts_for_ok _ _ _ h5
      refine ⟨a, ?_, ?_⟩
      · simpa [calc_model_for, set_prob, hmp] using ha
      · rw [← h.1, hma, hmp]
        simp [calc_model_for, set_prob]
  · right
    simp only [hacc, if_false] at h
    have hlen' : index < (revert (calc_model_for M mp index old) (get_prob m)).params.length := by
      simp [revert, calc_model_for, set_prob, hmp, hlen]
    rw [set_params_for_of _ _ _ hlen'] at h
    cases h5 : inc_params_rejects_for
        { revert (calc_model_for M mp index old) (get_prob m) with
          params := (revert (calc_model_for M mp index old) (get_prob m)).params.set index old }
        index with
    | error e => simp [h5] at h
    | ok mr =>
      simp only [h5, pure, Except.pure, Except.ok.injEq, Prod.mk.injEq] at h
      obtain ⟨c, hc, hmr⟩ := inc_params_rejects_for_ok _ _ _ h5
      refine ⟨c, ?_, ?_⟩
      · simpa [revert, calc_model_for, set_prob, hmp] using hc
      · rw [← h.1, hmr, hmp]
        simp [revert, calc_model_for, set_prob, get_prob, list_set_getElem?_self _ _ _ hold]

theorem do_step_fold_shape (circ : List Nat) (l : List Nat) :
    ∀ (m mp : Mcmc α) (rng rngp : List α),
      l.foldlM (fun (s : Mcmc α × List α) i => do_step_for circ s.1 i s.2) (m, rng)
        = .ok (mp, rngp) →
      ∃ p, mp = { m with params := p } := by
  induction l with
  | nil =>
    intro m mp rng rngp h
    simp only [List.foldlM, pure, Except.pure, Except.ok.injEq, Prod.mk.injEq] at h
    exact ⟨m.params, h.1.symm⟩
  | cons i l ih =>
    intro m mp rng rngp h
    simp only [List.foldlM, bind, Except.bind] at h
    cases h1 : do_step_for circ m i rng with
    | error e => simp [h1] at h
    | ok mr =>
      obtain ⟨m1, r1⟩ := mr
      simp only [h1] at h
      obtain ⟨p, hp⟩ := ih m1 mp r1 rngp h
      obtain ⟨v, -, -, hm1, -⟩ := do_step_for_shape circ m m1 i rng r1 h1
      exact ⟨p, by rw [hp, hm1]⟩

theorem do_step_shape (circ : List Nat) (m mp : Mcmc α) (rng rngp : List α)
    (h : do_step circ m rng = .ok (mp, rngp)) : ∃ p, mp = { m with params := p } :=
  do_step_fold_shape circ _ m mp rng rngp h

/-- What a returning call of `markov_chain_step` has done. -/
theorem markov_chain_step_cases (M : Model α) (circ : List Nat) (m m' : Mcmc α)
    (rng rng' : List α) (h : markov_chain_step M circ m rng = .ok (m', rng')) :
    (∃ p, m' = { m with
        params := p
        prob := M.calc_model { m with params := p } m.params
        params_accepts := m.params_accepts.map (· + 1) }) ∨
    m' = { m with params_rejects := m.params_rejects.map (· + 1) } := by
  unfold markov_chain_step at h
  cases h2 : mcmc_check m with
  | error e => simp [h2, bind, Except.bind] at h
  | ok u =>
  cases h3 : do_step circ m rng with
  | error e => simp [h2, h3, bind, Except.bind] at h
  | ok mr =>
  obtain ⟨mp, rngp⟩ := mr
  cases h4 : check_accept (calc_model M mp (dup_vector m.params)) (get_prob m) rngp with
  | error e => simp [h2, h3, h4, bind, Except.bind] at h
  | ok ar =>
  obtain ⟨acc, rnga⟩ := ar
  obtain ⟨p, hmp⟩ := do_step_shape circ m mp rng rngp h3
  simp only [h2, h3, h4, bind, Except.bind] at h
  by_cases hacc : acc = 1
  · left
    simp only [hacc, if_true, pure, Except.pure, Except.ok.injEq, Prod.mk.injEq] at h
    refine ⟨p, ?_⟩
    rw [← h.1, hmp]
    simp [inc_params_accepts, calc_model, set_prob, dup_vector]
  · right
    simp only [hacc, if_false, pure, Except.pure, Except.ok.injEq, Prod.mk.injEq] at h
    rw [← h.1, hmp]
    simp [inc_params_rejects, set_params, revert, calc_model, set_prob, dup_vector, get_prob]

/-- C2: a rejected proposal leaves `params`, `prob` and `prob_best` as they
were and changes no counter but the rejects.  If `check_accept` answers 0 on
the proposed state, `markov_chain_step` returns the state it was called on
with every `rejects[i]` raised by one, and `markov_chain_step_for(index)`
returns it with `rejects[index]` alone raised by one; every other field is
the one before the call. -/
theorem reject_restores_state (M : Model α) (circ : List Nat) (m : Mcmc α) (rng : List α) :
    (∀ mp rngp rng', mcmc_check m = .ok () → do_step circ m rng = .ok (mp, rngp) →
      check_accept (calc_model M mp (dup_vector m.params)) (get_prob m) rngp = .ok (0, rng') →
      markov_chain_step M circ m rng =
        .ok ({ m with params_rejects := m.params_rejects.map (· + 1) }, rng')) ∧
    (∀ index old c mp rngp rng', mcmc_check m = .ok () → m.params[index]? = some old →
      m.params_rejects[index]? = some c → do_step_for circ m index rng = .ok (mp, rngp) →
      check_accept (calc_model_for M mp index old) (get_prob m) rngp = .ok (0, rng') →
      markov_chain_step_for M circ m index rng =
        .ok ({ m with params_rejects := m.params_rejects.set index (c + 1) }, rng')) := by
  constructor
  · intro mp rngp rng' hcheck hstep hrej
    obtain ⟨p, hmp⟩ := do_step_shape circ m mp rng rngp hstep
    unfold markov_chain_step
    simp only [hcheck, hstep, hrej, bind, Except.bind]
    rw [hmp]
    simp [inc_params_rejects, set_params, revert, calc_model, set_prob, dup_vector, get_prob,
      pure, Except.pure]
  · intro index old c mp rngp rng' hcheck hold hc hstep hrej
    obtain ⟨v, -, -, hmp, hlen, -⟩ := do_step_for_shape circ m mp index rng rngp hstep
    unfold markov_chain_step_for
    simp only [gsl_vector_get_of hold, hcheck, hstep, hrej, bind, Except.bind]
    have hlen' : index < (revert (calc_model_for M mp index old) (get_prob m)).params.length := by
      simp [revert, calc_model_for, set_prob, hmp, hlen]
    have hc' : ({ revert (calc_model_for M mp index old) (get_prob m) with
          params := (revert (calc_model_for M mp index old) (get_prob m)).params.set index old }
          : Mcmc α).params_rejects[index]? = some c := by
      simpa [revert, calc_model_for, set_prob, hmp] using hc
    rw [set_params_for_of _ _ _ hlen']
    simp only [show ((0 : Int) = 1) = False from by simp, if_false]
    rw [inc_params_rejects_for_of _ _ _ hc', hmp]
    simp [revert, calc_model_for, set_prob, get_prob, list_set_getElem?_self _ _ _ hold, pure,
      Except.pure]

/-- Run of C2 on `exChain`: the joint proposal `[2, 3]` and the single proposal
`params[1] = 3` are both rejected by the draw `-1/2`. -/
theorem reject_restores_state_witness :
    markov_chain_step exModel [] exChain [1, 1, -1 / 2] =
      .ok ({ exChain with params_rejects := exChain.params_rejects.map (· + 1) }, []) ∧
    markov_chain_step_for exModel [] exChain 1 [1, -1 / 2] =
      .ok ({ exChain with params_rejects := exChain.params_rejects.set 1 (0 + 1) }, []) :=
  ⟨(reject_restores_state exModel [] exChain [1, 1, -1 / 2]).1
      { exChain with params := [2, 3] } [-1 / 2] [] rfl
      (by norm_num [do_step, get_n_par, exChain, List.range, List.range.loop, List.foldlM,
        do_step_for, gsl_vector_get, get_next_gauss_random, next_draw, bind, Except.bind,
        do_step_for_adjust, redraw_while, do_step_for_store, set_params_for, gsl_vector_set,
        pure, Except.pure])
      (by norm_num [check_accept, calc_model, exModel, exChain, dup_vector, get_prob, set_prob,
        get_next_alog_urandom, next_draw, bind, Except.bind, pure, Except.pure]),
   (reject_restores_state exModel [] exChain [1, -1 / 2]).2 1 2 0
      { exChain with params := [1, 3] } [-1 / 2] [] rfl rfl rfl
      (by norm_num [exChain, do_step_for, gsl_vector_get, get_next_gauss_random, next_draw,
        bind, Except.bind, do_step_for_adjust, redraw_while, do_step_for_store, set_params_for,
        gsl_vector_set, pure, Except.pure])
      (by norm_num [check_accept, calc_model_for, exModel, exChain, get_prob, set_prob,
        get_next_alog_urandom, next_draw, bind, Except.bind, pure, Except.pure])⟩

/-- C3: one returning call of `markov_chain_step` raises either every
`accepts[i]` or every `rejects[i]` by one, so that `accepts[i] + rejects[i]`
grows by exactly 1 for every parameter `i`; one returning call of
`markov_chain_step_for(index)` raises `accepts[index] + rejects[index]` by
exactly 1 and leaves `accepts[j]`, `rejects[j]` and `params[j]` alone for
every `j ≠ index`. -/
theorem step_counts_once (M : Model α) (circ : List Nat) (m m' : Mcmc α)
    (rng rng' : List α) :
    (markov_chain_step M circ m rng = .ok (m', rng') →
      ((m'.params_accepts = m.params_accepts.map (· + 1) ∧
          m'.params_rejects = m.params_rejects) ∨
        (m'.params_accepts = m.params_accepts ∧
          m'.params_rejects = m.params_rejects.map (· + 1))) ∧
      ∀ (i a r : Nat), m.params_accepts[i]? = some a → m.params_rejects[i]? = some r →
        ∃ a' r' : Nat, m'.params_accepts[i]? = some a' ∧ m'.params_rejects[i]? = some r' ∧
          a' + r' = a + r + 1) ∧
    (∀ (index a r : Nat), markov_chain_step_for M circ m index rng = .ok (m', rng') →
      m.params_accepts[index]? = some a → m.params_rejects[index]? = some r →
      (∃ a' r' : Nat, m'.params_accepts[index]? = some a' ∧ m'.params_rejects[index]? = some r' ∧
          a' + r' = a + r + 1) ∧
      ∀ j : Nat, j ≠ index → m'.params_accepts[j]? = m.params_accepts[j]? ∧
        m'.params_rejects[j]? = m.params_rejects[j]? ∧ m'.params[j]? = m.params[j]?) := by
  constructor
  · intro h
    rcases markov_chain_step_cases M circ m m' rng rng' h with ⟨p, hm'⟩ | hm'
    · subst hm'
      refine ⟨Or.inl ⟨rfl, rfl⟩, ?_⟩
      intro i a r ha hr
      exact ⟨a + 1, r, by simp [List.getElem?_map, ha], hr, by omega⟩
    · subst hm'
      refine ⟨Or.inr ⟨rfl, rfl⟩, ?_⟩
      intro i a r ha hr
      exact ⟨a, r + 1, ha, by simp [List.getElem?_map, hr], by omega⟩
  · intro index a r h ha hr
    have hia : index < m.params_accepts.length := by
      by_contra hc
      rw [List.getElem?_eq_none (not_lt.mp hc)] at ha
      cases ha
    have hir : index < m.params_rejects.length := by
      by_contra hc
      rw [List.getElem?_eq_none (not_lt.mp hc)] at hr
      cases hr
    obtain ⟨old, v, hold, hcase⟩ := markov_chain_step_for_cases M circ m m' index rng rng' h
    rcases hcase with ⟨a0, ha0, hm'⟩ | ⟨c0, hc0, hm'⟩
    · subst hm'
      have : a0 = a := by rw [ha] at ha0; exact (Option.some.inj ha0).symm
      subst this
      refine ⟨⟨a0 + 1, r, ?_, hr, by omega⟩, ?_⟩
      · exact List.getElem?_set_self hia
      · intro j hj
        exact ⟨List.getElem?_set_ne (Ne.symm hj), rfl, List.getElem?_set_ne (Ne.symm hj)⟩
    · subst hm'
      have : c0 = r := by rw [hr] at hc0; exact (Option.some.inj hc0).symm
      subst this
      refine ⟨⟨a, c0 + 1, ha, ?_, by omega⟩, ?_⟩
      · exact List.getElem?_set_self hir
      · intro j hj
        exact ⟨rfl, List.getElem?_set_ne (Ne.symm hj), rfl⟩

/-- Run of C3 on `exChain`: the joint step with draws `[1, 1, -1/2]` (a
reject) and the step for index 1 with draws `[1, -2]` (an accept). -/
theorem step_counts_once_witness :
    (∃ a' r' : Nat, ({ exChain with params_rejects := [1, 1] } : Mcmc ℚ).params_accepts[0]? = some a' ∧
      ({ exChain with params_rejects := [1, 1] } : Mcmc ℚ).params_rejects[0]? = some r' ∧
      a' + r' = 0 + 0 + 1) ∧
    (∃ a' r' : Nat, ({ exChain with params := [1, 3], prob := -4, params_accepts := [0, 1] } :
        Mcmc ℚ).params_accepts[1]? = some a' ∧
      ({ exChain with params := [1, 3], prob := -4, params_accepts := [0, 1] } :
        Mcmc ℚ).params_rejects[1]? = some r' ∧ a' + r' = 0 + 0 + 1) :=
  ⟨((step_counts_once exModel [] exChain { exChain with params_rejects := [1, 1] }
      [1, 1, -1 / 2] []).1
      (by norm_num [markov_chain_step, mcmc_check, do_step, get_n_par, exChain, List.range,
        List.range.loop, List.foldlM, do_step_for, gsl_vector_get, get_next_gauss_random,
        next_draw, bind, Except.bind, do_step_for_adjust, redraw_while, do_step_for_store,
        set_params_for, gsl_vector_set, pure, Except.pure, check_accept, calc_model, exModel,
        dup_vector, get_prob, set_prob, get_next_alog_urandom, inc_params_rejects, revert,
        set_params])).2 0 0 0 rfl rfl,
   ((step_counts_once exModel [] exChain
      { exChain with params := [1, 3], prob := -4, params_accepts := [0, 1] }
      [1, -2] []).2 1 0 0
      (by norm_num [markov_chain_step_for, mcmc_check, exChain, do_step_for, gsl_vector_get,
        get_next_gauss_random, next_draw, bind, Except.bind, do_step_for_adjust, redraw_while,
        do_step_for_store, set_params_for, gsl_vector_set, pure, Except.pure, check_accept,
        calc_model_for, exModel, get_prob, set_prob, get_next_alog_urandom,
        inc_params_accepts_for])
      rfl rfl).1⟩

/-! ## The swap protocol: `parallel_tempering_swap` -/

theorem chain_at_nat (sinmod : List (Mcmc α)) (a : Nat) :
    chain_at sinmod (a : Int) = gsl_vector_get sinmod a := by
  simp [chain_at]

theorem chain_put_nat (sinmod : List (Mcmc α)) (a : Nat) (m : Mcmc α) :
    chain_put sinmod (a : Int) m = sinmod.set a m := by
  simp [chain_put]

theorem gsl_vector_get_set_self {β : Type} (l : List β) (a : Nat) (x : β) (h : a < l.length) :
    gsl_vector_get (l.set a x) a = .ok x :=
  gsl_vector_get_of (List.getElem?_set_self h)

theorem gsl_vector_get_set_ne {β : Type} (l : List β) (a b : Nat) (x : β) (h : a ≠ b) :
    gsl_vector_get (l.set a x) b = gsl_vector_get l b := by
  unfold gsl_vector_get
  rw [List.getElem?_set_ne h]

/-- The value of `a` chosen from a draw `v` in `[0, 1)` is a valid index. -/
theorem pick_chain_range (n_beta : Int) (v : α) (hn : 0 < n_beta) (hfit : n_beta * 1000 ≤ INT_MAX)
    (hv0 : 0 ≤ v) (hv1 : v < 1) :
    ∃ a : Nat, pick_chain n_beta v = .ok (a : Int) ∧ (a : Int) < n_beta := by
  have hk0 : (0 : Int) ≤ n_beta * 1000 := by positivity
  have hkα : (0 : α) ≤ ((n_beta * 1000 : Int) : α) := by exact_mod_cast hk0
  have hprod0 : (0 : α) ≤ ((n_beta * 1000 : Int) : α) * v := mul_nonneg hkα hv0
  have hprod1 : ((n_beta * 1000 : Int) : α) * v ≤ ((n_beta * 1000 : Int) : α) := by
    calc ((n_beta * 1000 : Int) : α) * v ≤ ((n_beta * 1000 : Int) : α) * 1 :=
          mul_le_mul_of_nonneg_left hv1.le hkα
      _ = _ := mul_one _
  have hfl0 : 0 ≤ Int.floor (((n_beta * 1000 : Int) : α) * v) := Int.floor_nonneg.mpr hprod0
  have hfl1 : Int.floor (((n_beta * 1000 : Int) : α) * v) ≤ n_beta * 1000 := by
    have := Int.floor_le_floor hprod1
    rwa [Int.floor_intCast] at this
  have hmin : INT_MIN ≤ 0 := by decide
  have ht0 := Int.tmod_nonneg n_beta hfl0
  have ht1 := Int.tmod_lt_of_pos (Int.floor (((n_beta * 1000 : Int) : α) * v)) hn
  refine ⟨(Int.tmod (Int.floor (((n_beta * 1000 : Int) : α) * v)) n_beta).toNat, ?_, ?_⟩
  · unfold pick_chain int_mul
    have h1 : INT_MIN ≤ n_beta * 1000 ∧ n_beta * 1000 ≤ INT_MAX := ⟨by linarith, hfit⟩
    simp only [h1, and_self, if_true, bind, Except.bind, double_to_int, hprod0]
    have h2 : INT_MIN ≤ Int.floor (((n_beta * 1000 : Int) : α) * v) ∧
        Int.floor (((n_beta * 1000 : Int) : α) * v) ≤ INT_MAX := ⟨by linarith, by linarith⟩
    simp only [h2, and_self, if_true, pure, Except.pure, Int.toNat_of_nonneg ht0]
  · rw [Int.toNat_of_nonneg ht0]
    exact ht1

theorem set_pair_collapse {β : Type} (l : List β) (a b : Nat) (x y x' y' : β) (hab : a ≠ b) :
    (((l.set a x).set b y).set a x').set b y' = (l.set a x').set b y' := by
  rw [List.set_comm x y l hab, List.set_set, List.set_comm y x' l hab.symm, List.set_set]

/-- The state of the ensemble after the three exchanges. -/
theorem swap_exchange_eq (sinmod : List (Mcmc α)) (a b : Nat) (ma mb : Mcmc α) (hab : a ≠ b)
    (hma : sinmod[a]? = some ma) (hmb : sinmod[b]? = some mb) :
    swap_exchange sinmod (a : Int) (b : Int) =
      .ok ((sinmod.set a { ma with
              params := mb.params, params_best := mb.params_best, prob_best := mb.prob_best }).set b
            { mb with
              params := ma.params, params_best := ma.params_best, prob_best := ma.prob_best }) := by
  have ha := getElem?_lt_length hma
  have hb := getElem?_lt_length hmb
  unfold swap_exchange
  simp only [chain_at_nat, chain_put_nat, gsl_vector_get_of hma, gsl_vector_get_of hmb, bind,
    Except.bind, pure, Except.pure, dup_vector, get_params, set_params, get_params_best,
    set_params_best, get_prob_best, set_prob_best, gsl_vector_get_set_ne _ _ _ _ hab,
    gsl_vector_get_set_ne _ _ _ _ hab.symm, gsl_vector_get_set_self, List.length_set, ha, hb,
    gsl_vector_get_set_self _ _ _ ha, gsl_vector_get_set_self _ _ _ hb]
  rw [set_pair_collapse _ _ _ _ _ _ _ hab, set_pair_collapse _ _ _ _ _ _ _ hab]

theorem mcmc_check_ok_iff (m : Mcmc α) :
    mcmc_check m = .ok () ↔
      0 < m.n_par ∧ (∃ d, m.data = some d ∧ 0 < d.size2) ∧ m.params.length = m.n_par ∧
        m.params_best.length = m.n_par := by
  unfold mcmc_check
  by_cases h1 : m.n_par > 0
  · cases hd : m.data with
    | none => simp [h1]
    | some d =>
      by_cases h2 : d.size2 > 0
      · by_cases h3 : m.params.length = m.n_par
        · by_cases h4 : m.params_best.length = m.n_par
          · simp [h1, h2, h3, h4]
          · simp [h1, h2, h3, h4]
        · simp [h1, h2, h3]
      · simp [h1, h2]
  · simp [h1]

/-- The exchanged copy of chain `x`: it carries the `params`, `params_best` and
`prob_best` of chain `y` and keeps everything else. -/
theorem mcmc_check_exchanged (x y : Mcmc α) (hx : mcmc_check x = .ok ())
    (hy : mcmc_check y = .ok ()) (hnp : x.n_par = y.n_par) :
    mcmc_check { x with
      params := y.params, params_best := y.params_best, prob_best := y.prob_best } = .ok () := by
  rw [mcmc_check_ok_iff] at hx hy ⊢
  obtain ⟨h1, h2, -, -⟩ := hx
  obtain ⟨-, -, h3, h4⟩ := hy
  exact ⟨h1, h2, by simpa [hnp] using h3, by simpa [hnp] using h4⟩

theorem next_index_ne (n a : Nat) (hn : 2 ≤ n) (ha : a < n) : a ≠ (a + 1) % n := by
  intro h
  by_cases h1 : a + 1 < n
  · rw [Nat.mod_eq_of_lt h1] at h
    omega
  · have : a + 1 = n := by omega
    rw [this, Nat.mod_self] at h
    omega

theorem next_index_tmod (n a : Nat) :
    Int.tmod ((a : Int) + 1) (n : Int) = (((a + 1) % n : Nat) : Int) := by
  have : ((a : Int) + 1) = ((a + 1 : Nat) : Int) := by push_cast; rfl
  rw [this]
  exact (Int.ofNat_tmod (a + 1) n).symm

/-- The swap branch of `parallel_tempering_swap`, entered with the draws `u`,
`v`, `c` and the chosen index `a`. -/
theorem parallel_tempering_swap_attempt (sinmod : List (Mcmc α)) (n_swap : Int) (u v c : α)
    (rest : List α) (a : Nat) (ma mb : Mcmc α)
    (hn : 2 ≤ sinmod.length) (hu : ¬ u < 1 / 10000) (hsw0 : n_swap ≠ 0)
    (hsw : u < 1 / (n_swap : α)) (ha : pick_chain (sinmod.length : Int) v = .ok (a : Int))
    (hma : sinmod[a]? = some ma) (hmb : sinmod[(a + 1) % sinmod.length]? = some mb)
    (hca : mcmc_check ma = .ok ()) (hcb : mcmc_check mb = .ok ()) (hnp : ma.n_par = mb.n_par)
    (hba : ma.beta ≠ 0) (hbb : mb.beta ≠ 0) :
    parallel_tempering_swap sinmod (sinmod.length : Int) n_swap (u :: v :: c :: rest) =
      if ma.beta * mb.prob / mb.beta + mb.beta * ma.prob / ma.beta - (ma.prob + mb.prob) > c then
        .ok ((sinmod.set a { ma with
                params := mb.params, params_best := mb.params_best,
                prob_best := mb.prob_best }).set ((a + 1) % sinmod.length)
              { mb with
                params := ma.params, params_best := ma.params_best,
                prob_best := ma.prob_best }, rest)
      else .ok (sinmod, rest) := by
  have halt := getElem?_lt_length hma
  have hblt := getElem?_lt_length hmb
  have hab := next_index_ne sinmod.length a hn halt
  have hpos : (sinmod.length : Int) > 0 := by omega
  have hne1 : (sinmod.length : Int) ≠ 1 := by omega
  have h0 : ∃ m0, sinmod[0]? = some m0 := by
    cases sinmod with
    | nil => simp at hn
    | cons x xs => exact ⟨x, by simp⟩
  obtain ⟨m0, hm0⟩ := h0
  have hsw0' : (n_swap : α) ≠ 0 := by exact_mod_cast hsw0
  have hal : (a : Int) < (sinmod.length : Int) := by exact_mod_cast halt
  have hbl : (((a + 1) % sinmod.length : Nat) : Int) < (sinmod.length : Int) := by
    exact_mod_cast hblt
  unfold parallel_tempering_swap
  simp only [hpos, not_true_eq_false, if_false, hne1, bind, Except.bind, pure, Except.pure,
    show chain_at sinmod 0 = .ok m0 from by
      rw [show (0 : Int) = ((0 : Nat) : Int) from rfl, chain_at_nat]; exact gsl_vector_get_of hm0,
    get_next_urandom, get_next_alog_urandom, next_draw, hu, div_double, hsw0', hsw, if_true, ha,
    next_index_tmod, Int.natCast_nonneg, ge_iff_le, hal, hbl, and_self, chain_at_nat,
    gsl_vector_get_of hma, gsl_vector_get_of hmb, hca, hcb, swap_ratio, get_prob, get_beta, hba,
    hbb]
  by_cases hr : ma.beta * mb.prob / mb.beta + mb.beta * ma.prob / ma.beta - (ma.prob + mb.prob) > c
  · simp only [hr, if_true, swap_exchange_eq sinmod a _ ma mb hab hma hmb]
    rw [gsl_vector_get_set_ne _ _ _ _ hab.symm,
      gsl_vector_get_set_self _ _ _ halt,
      gsl_vector_get_set_self _ _ _ (by rw [List.length_set]; exact hblt)]
    simp only [mcmc_check_exchanged ma mb hca hcb hnp, mcmc_check_exchanged mb ma hcb hca hnp.symm]
  · simp only [hr, if_false]

theorem chain_at_zero (sinmod : List (Mcmc α)) (hn : 2 ≤ sinmod.length) :
    ∃ m0, chain_at sinmod 0 = .ok m0 := by
  cases sinmod with
  | nil => simp at hn
  | cons x xs =>
    refine ⟨x, ?_⟩
    rw [show (0 : Int) = ((0 : Nat) : Int) from rfl, chain_at_nat]
    exact gsl_vector_get_of (by simp)

/-- The kick branch of `parallel_tempering_swap`, entered with the draws `u`,
`v` and the chosen index `a`. -/
theorem parallel_tempering_swap_kick (sinmod : List (Mcmc α)) (n_swap : Int) (u v : α)
    (rest : List α) (a : Nat) (ma : Mcmc α) (hn : 2 ≤ sinmod.length) (hu : u < 1 / 10000)
    (ha : pick_chain (sinmod.length : Int) v = .ok (a : Int)) (hma : sinmod[a]? = some ma) :
    parallel_tempering_swap sinmod (sinmod.length : Int) n_swap (u :: v :: rest) =
      .ok (sinmod.set a { ma with params := ma.params_best, prob := ma.prob_best }, rest) := by
  have halt := getElem?_lt_length hma
  have hpos : (sinmod.length : Int) > 0 := by omega
  have hne1 : (sinmod.length : Int) ≠ 1 := by omega
  obtain ⟨m0, hm0⟩ := chain_at_zero sinmod hn
  unfold parallel_tempering_swap
  simp only [hpos, not_true_eq_false, if_false, hne1, bind, Except.bind, pure, Except.pure, hm0,
    get_next_urandom, next_draw, hu, if_true, ha, chain_at_nat, chain_put_nat,
    gsl_vector_get_of hma, gsl_vector_get_set_self _ _ _ halt, List.set_set, set_params,
    set_prob, dup_vector, get_params_best, get_prob_best]

/-- The branch of `parallel_tempering_swap` without action. -/
theorem parallel_tempering_swap_idle (sinmod : List (Mcmc α)) (n_swap : Int) (u : α)
    (rest : List α) (hn : 2 ≤ sinmod.length) (hu : ¬ u < 1 / 10000) (hsw0 : n_swap ≠ 0)
    (hsw : ¬ u < 1 / (n_swap : α)) :
    parallel_tempering_swap sinmod (sinmod.length : Int) n_swap (u :: rest) =
      .ok (sinmod, rest) := by
  have hpos : (sinmod.length : Int) > 0 := by omega
  have hne1 : (sinmod.length : Int) ≠ 1 := by omega
  have hsw0' : (n_swap : α) ≠ 0 := by exact_mod_cast hsw0
  obtain ⟨m0, hm0⟩ := chain_at_zero sinmod hn
  unfold parallel_tempering_swap
  simp only [hpos, not_true_eq_false, if_false, hne1, bind, Except.bind, pure, Except.pure, hm0,
    get_next_urandom, next_draw, hu, div_double, hsw0', hsw]

/-! ## The best point -/

/-- C6, as stated, fails.  Each state below satisfies `prob ≤ prob_best`
(the first one right after `mcmc_check_best`), and afterwards `prob` exceeds
`prob_best`: after an accepted `markov_chain_step`, after an accepted
`markov_chain_step_for`, after `restart_from_best` on a chain whose best value
is below the sentinel, and for chain 0 after the exchange of
`parallel_tempering_swap`. -/
theorem best_bound_broken :
    ((mcmc_check_best exChain).prob ≤ (mcmc_check_best exChain).prob_best ∧
      ∃ m' rng', markov_chain_step exModel [] (mcmc_check_best exChain) [-1 / 2, -1 / 2]
          = .ok (m', rng') ∧ m'.prob_best < m'.prob) ∧
    (∃ m' rng', markov_chain_step_for exModel [] (mcmc_check_best exChain) 0 [-1 / 2]
          = .ok (m', rng') ∧ m'.prob_best < m'.prob) ∧
    (exPoor.prob ≤ exPoor.prob_best ∧
      (restart_from_best exPoor).prob_best < (restart_from_best exPoor).prob) ∧
    ((∀ m ∈ exPair, m.prob ≤ m.prob_best) ∧
      ∃ out rng' m, parallel_tempering_swap exPair 2 30 [1 / 100, 1 / 4, -3] = .ok (out, rng') ∧
        out[0]? = some m ∧ m.prob_best < m.prob) := by
  refine ⟨⟨?_, ?_⟩, ?_, ⟨?_, ?_⟩, ⟨?_, ?_⟩⟩
  · norm_num [mcmc_check_best, exChain]
  · refine ⟨{ exChain with params := [1 / 2, 3 / 2], prob := -2, params_accepts := [1, 1] }, [],
      ?_, ?_⟩
    · norm_num [markov_chain_step, mcmc_check_best, mcmc_check, do_step, get_n_par, exChain,
        List.range, List.range.loop, List.foldlM, do_step_for, gsl_vector_get,
        get_next_gauss_random, next_draw, bind, Except.bind, do_step_for_adjust, redraw_while,
        do_step_for_store, set_params_for, gsl_vector_set, pure, Except.pure, check_accept,
        calc_model, exModel, dup_vector, get_prob, set_prob, inc_params_accepts]
    · norm_num [exChain]
  · refine ⟨{ exChain with params := [1 / 2, 2], prob := -5 / 2, params_accepts := [1, 0] }, [],
      ?_, ?_⟩
    · norm_num [markov_chain_step_for, mcmc_check_best, mcmc_check, exChain, do_step_for,
        gsl_vector_get, get_next_gauss_random, next_draw, bind, Except.bind,
        do_step_for_adjust, redraw_while, do_step_for_store, set_params_for, gsl_vector_set,
        pure, Except.pure, check_accept, calc_model_for, exModel, get_prob, set_prob,
        inc_params_accepts_for]
    · norm_num [exChain]
  · norm_num [exPoor, exChain]
  · norm_num [restart_from_best, set_prob, set_params, exPoor, exChain]
  · intro m hm
    simp only [exPair, List.mem_cons, List.mem_singleton, List.not_mem_nil, or_false] at hm
    rcases hm with rfl | rfl
    · norm_num [exCold, exChain]
    · norm_num [exHot, exChain]
  · refine ⟨[{ exCold with params := [5, 6], params_best := [7, 8], prob_best := -7 / 2 },
        { exHot with params := [1, 2], params_best := [3, 4], prob_best := -1 }], [],
      { exCold with params := [5, 6], params_best := [7, 8], prob_best := -7 / 2 }, ?_, rfl, ?_⟩
    · norm_num [parallel_tempering_swap, chain_at, chain_put, gsl_vector_get, get_next_urandom,
        get_next_alog_urandom, next_draw, pick_chain, int_mul, double_to_int, INT_MIN, INT_MAX,
        exPair, bind, Except.bind, pure, Except.pure, set_params, set_prob, dup_vector,
        get_params_best, get_prob_best, get_params, set_params_best, set_prob_best, exCold,
        exHot, exChain, div_double, swap_ratio, swap_exchange, mcmc_check, get_prob, get_beta,
        show Int.tmod 500 2 = 0 from by decide, show Int.tmod 1 2 = 1 from by decide]
    · norm_num [exCold, exChain]

/-- C6, amended: `prob ≤ prob_best` holds right after every `mcmc_check_best`.
The two step functions never change `prob_best`, and from a state with
`prob ≤ prob_best` they can end with `prob` above `prob_best` only by counting
an accept.  `restart_from_best` ends with `prob ≤ prob_best` exactly when
`prob_best` is at least the sentinel `-10000000`.  The kick of
`parallel_tempering_swap` keeps `prob ≤ prob_best` on every chain of the
ensemble. -/
theorem best_bound_after_check (M : Model α) (circ : List Nat) :
    (∀ m : Mcmc α, (mcmc_check_best m).prob ≤ (mcmc_check_best m).prob_best) ∧
    (∀ (m m' : Mcmc α) (rng rng' : List α), markov_chain_step M circ m rng = .ok (m', rng') →
      m.prob ≤ m.prob_best →
      m'.prob_best = m.prob_best ∧
      (m'.prob ≤ m'.prob_best ∨ m'.params_accepts = m.params_accepts.map (· + 1))) ∧
    (∀ (m m' : Mcmc α) (index : Nat) (rng rng' : List α),
      markov_chain_step_for M circ m index rng = .ok (m', rng') → m.prob ≤ m.prob_best →
      m'.prob_best = m.prob_best ∧
      (m'.prob ≤ m'.prob_best ∨ ∃ a : Nat, m.params_accepts[index]? = some a ∧
        m'.params_accepts = m.params_accepts.set index (a + 1))) ∧
    (∀ m : Mcmc α, (restart_from_best m).prob ≤ (restart_from_best m).prob_best ↔
      -10000000 ≤ m.prob_best) ∧
    (∀ (sinmod : List (Mcmc α)) (n_swap : Int) (u v : α) (rest : List α) (a : Nat)
      (ma : Mcmc α), 2 ≤ sinmod.length → u < 1 / 10000 →
      pick_chain (sinmod.length : Int) v = .ok (a : Int) → sinmod[a]? = some ma →
      (∀ m ∈ sinmod, m.prob ≤ m.prob_best) →
      ∃ out, parallel_tempering_swap sinmod (sinmod.length : Int) n_swap (u :: v :: rest)
          = .ok (out, rest) ∧ ∀ m ∈ out, m.prob ≤ m.prob_best) := by
  refine ⟨?_, ?_, ?_, ?_, ?_⟩
  · intro m
    unfold mcmc_check_best
    by_cases h : m.prob > m.prob_best
    · simp [h]
    · rw [if_neg h]
      exact not_lt.mp h
  · intro m m' rng rng' h hb
    rcases markov_chain_step_cases M circ m m' rng rng' h with ⟨p, hm'⟩ | hm'
    · subst hm'
      exact ⟨rfl, Or.inr rfl⟩
    · subst hm'
      exact ⟨rfl, Or.inl hb⟩
  · intro m m' index rng rng' h hb
    obtain ⟨old, v, -, hcase⟩ := markov_chain_step_for_cases M circ m m' index rng rng' h
    rcases hcase with ⟨a, ha, hm'⟩ | ⟨c, -, hm'⟩
    · subst hm'
      exact ⟨rfl, Or.inr ⟨a, ha, rfl⟩⟩
    · subst hm'
      exact ⟨rfl, Or.inl hb⟩
  · intro m
    simp [restart_from_best, set_prob, set_params]
  · intro sinmod n_swap u v rest a ma hn hu ha hma hall
    refine ⟨_, parallel_tempering_swap_kick sinmod n_swap u v rest a ma hn hu ha hma, ?_⟩
    intro m hm
    rcases List.mem_or_eq_of_mem_set hm with hm | rfl
    · exact hall m hm
    · exact le_refl _

/-- Run of amended C6: the rejected joint step of `exChain` keeps
`prob ≤ prob_best`, and `restart_from_best` keeps it on `exChain`, whose best
value `-3` is above the sentinel. -/
theorem best_bound_after_check_witness :
    (({ exChain with params_rejects := [1, 1] } : Mcmc ℚ).prob_best = exChain.prob_best ∧
      (({ exChain with params_rejects := [1, 1] } : Mcmc ℚ).prob ≤
          ({ exChain with params_rejects := [1, 1] } : Mcmc ℚ).prob_best ∨
        ({ exChain with params_rejects := [1, 1] } : Mcmc ℚ).params_accepts =
          exChain.params_accepts.map (· + 1))) ∧
    (restart_from_best exChain).prob ≤ (restart_from_best exChain).prob_best :=
  ⟨(best_bound_after_check exModel []).2.1 exChain { exChain with params_rejects := [1, 1] }
      [1, 1, -1 / 2] []
      (by norm_num [markov_chain_step, mcmc_check, do_step, get_n_par, exChain, List.range,
        List.range.loop, List.foldlM, do_step_for, gsl_vector_get, get_next_gauss_random,
        next_draw, bind, Except.bind, do_step_for_adjust, redraw_while, do_step_for_store,
        set_params_for, gsl_vector_set, pure, Except.pure, check_accept, calc_model, exModel,
        dup_vector, get_prob, set_prob, get_next_alog_urandom, inc_params_rejects, revert,
        set_params])
      (by norm_num [exChain]),
   ((best_bound_after_check exModel []).2.2.2.1 exChain).mpr (by norm_num [exChain])⟩

/-! ## Exchange, kick and the single chain -/

/-- C7: in the swap branch, with chosen index `a`, partner `b = (a + 1) mod
n_beta`, ratio `r` and log-uniform draw `c`: if `r > c` the call returns an
ensemble in which chain `a` is its former self with the `params`,
`params_best` and `prob_best` of chain `b`, chain `b` is its former self with
those of chain `a` (so `beta`, `prob`, step widths and counters of both stay),
and every other chain is unchanged; if `r ≤ c` the ensemble is returned as it
was. -/
theorem swap_branch_frame (sinmod : List (Mcmc α)) (n_swap : Int) (u v c : α)
    (rest : List α) (a : Nat) (ma mb : Mcmc α)
    (hn : 2 ≤ sinmod.length) (hu : ¬ u < 1 / 10000) (hsw0 : n_swap ≠ 0)
    (hsw : u < 1 / (n_swap : α)) (ha : pick_chain (sinmod.length : Int) v = .ok (a : Int))
    (hma : sinmod[a]? = some ma) (hmb : sinmod[(a + 1) % sinmod.length]? = some mb)
    (hca : mcmc_check ma = .ok ()) (hcb : mcmc_check mb = .ok ()) (hnp : ma.n_par = mb.n_par)
    (hba : ma.beta ≠ 0) (hbb : mb.beta ≠ 0) :
    (ma.beta * mb.prob / mb.beta + mb.beta * ma.prob / ma.beta - (ma.prob + mb.prob) > c →
      ∃ out, parallel_tempering_swap sinmod (sinmod.length : Int) n_swap (u :: v :: c :: rest)
          = .ok (out, rest) ∧
        out.length = sinmod.length ∧
        out[a]? = some { ma with
          params := mb.params, params_best := mb.params_best, prob_best := mb.prob_best } ∧
        out[(a + 1) % sinmod.length]? = some { mb with
          params := ma.params, params_best := ma.params_best, prob_best := ma.prob_best } ∧
        ∀ j : Nat, j ≠ a → j ≠ (a + 1) % sinmod.length → out[j]? = sinmod[j]?) ∧
    (ma.beta * mb.prob / mb.beta + mb.beta * ma.prob / ma.beta - (ma.prob + mb.prob) ≤ c →
      parallel_tempering_swap sinmod (sinmod.length : Int) n_swap (u :: v :: c :: rest)
        = .ok (sinmod, rest)) := by
  have halt := getElem?_lt_length hma
  have hblt := getElem?_lt_length hmb
  have hab := next_index_ne sinmod.length a hn halt
  have key := parallel_tempering_swap_attempt sinmod n_swap u v c rest a ma mb hn hu hsw0 hsw ha
    hma hmb hca hcb hnp hba hbb
  constructor
  · intro hr
    rw [if_pos hr] at key
    refine ⟨_, key, by simp, ?_, ?_, ?_⟩
    · rw [List.getElem?_set_ne hab.symm, List.getElem?_set_self halt]
    · rw [List.getElem?_set_self (by rw [List.length_set]; exact hblt)]
    · intro j hja hjb
      rw [List.getElem?_set_ne (Ne.symm hjb), List.getElem?_set_ne (Ne.symm hja)]
  · intro hr
    rw [if_neg (not_lt.mpr hr)] at key
    exact key

/-- Run of C7 on `exPair` with `n_swap = 30` and the draws `1/100`, `1/4`
(index 0 is chosen, the ratio is `-5/2`): the draw `c = -3` exchanges the
chains, the draw `c = -1` does not. -/
theorem swap_branch_frame_witness :
    (∃ out, parallel_tempering_swap exPair (exPair.length : Int) 30 [1 / 100, 1 / 4, -3]
          = .ok (out, []) ∧
        out.length = exPair.length ∧
        out[0]? = some { exCold with
          params := exHot.params, params_best := exHot.params_best,
          prob_best := exHot.prob_best } ∧
        out[(0 + 1) % exPair.length]? = some { exHot with
          params := exCold.params, params_best := exCold.params_best,
          prob_best := exCold.prob_best } ∧
        ∀ j : Nat, j ≠ 0 → j ≠ (0 + 1) % exPair.length → out[j]? = exPair[j]?) ∧
    parallel_tempering_swap exPair (exPair.length : Int) 30 [1 / 100, 1 / 4, -1]
      = .ok (exPair, []) :=
  ⟨(swap_branch_frame exPair 30 (1 / 100) (1 / 4) (-3) [] 0 exCold exHot (by decide)
      (by norm_num) (by decide) (by norm_num)
      (by norm_num [pick_chain, int_mul, double_to_int, INT_MIN, INT_MAX, exPair, bind,
        Except.bind, pure, Except.pure]; decide)
      rfl rfl rfl rfl rfl (by norm_num [exCold, exChain]) (by norm_num [exHot, exChain])).1
      (by norm_num [exCold, exHot, exChain]),
   (swap_branch_frame exPair 30 (1 / 100) (1 / 4) (-1) [] 0 exCold exHot (by decide)
      (by norm_num) (by decide) (by norm_num)
      (by norm_num [pick_chain, int_mul, double_to_int, INT_MIN, INT_MAX, exPair, bind,
        Except.bind, pure, Except.pure]; decide)
      rfl rfl rfl rfl rfl (by norm_num [exCold, exChain]) (by norm_num [exHot, exChain])).2
      (by norm_num [exCold, exHot, exChain])⟩

theorem exchange_back {β : Type} (l : List β) (a b : Nat) (x y x' y' : β) (hab : a ≠ b)
    (hx : l[a]? = some x) (hy : l[b]? = some y) :
    (((l.set a x').set b y').set a x).set b y = l := by
  rw [set_pair_collapse _ _ _ _ _ _ _ hab, list_set_getElem?_self l a x hx,
    list_set_getElem?_self l b y hy]

/-- C8: two swap attempts on the same pair restore the ensemble.  The exchange
applied twice gives back the ensemble it started from; the ratio `r` does not
change when `a` and `b` trade places; and two calls of
`parallel_tempering_swap` fed the same draws `u`, `v`, `c` take the same
decision (the second call computes the same ratio, since `prob` and `beta`
were not exchanged) and end in the original ensemble. -/
theorem swap_twice_restores (sinmod : List (Mcmc α)) (n_swap : Int) (u v c : α)
    (rest : List α) (a : Nat) (ma mb : Mcmc α)
    (hn : 2 ≤ sinmod.length) (hu : ¬ u < 1 / 10000) (hsw0 : n_swap ≠ 0)
    (hsw : u < 1 / (n_swap : α)) (ha : pick_chain (sinmod.length : Int) v = .ok (a : Int))
    (hma : sinmod[a]? = some ma) (hmb : sinmod[(a + 1) % sinmod.length]? = some mb)
    (hca : mcmc_check ma = .ok ()) (hcb : mcmc_check mb = .ok ()) (hnp : ma.n_par = mb.n_par)
    (hba : ma.beta ≠ 0) (hbb : mb.beta ≠ 0) :
    (∃ s1, swap_exchange sinmod (a : Int) (((a + 1) % sinmod.length : Nat) : Int) = .ok s1 ∧
      swap_exchange s1 (a : Int) (((a + 1) % sinmod.length : Nat) : Int) = .ok sinmod) ∧
    swap_ratio ma.prob mb.prob ma.beta mb.beta = swap_ratio mb.prob ma.prob mb.beta ma.beta ∧
    (∃ s1, parallel_tempering_swap sinmod (sinmod.length : Int) n_swap
          (u :: v :: c :: u :: v :: c :: rest) = .ok (s1, u :: v :: c :: rest) ∧
      (∀ ma' mb', s1[a]? = some ma' → s1[(a + 1) % sinmod.length]? = some mb' →
        swap_ratio ma'.prob mb'.prob ma'.beta mb'.beta
          = swap_ratio ma.prob mb.prob ma.beta mb.beta) ∧
      parallel_tempering_swap s1 (sinmod.length : Int) n_swap (u :: v :: c :: rest)
        = .ok (sinmod, rest)) := by
  have halt := getElem?_lt_length hma
  have hblt := getElem?_lt_length hmb
  have hab := next_index_ne sinmod.length a hn halt
  -- the ensemble after one exchange
  have hlen1 : ((sinmod.set a { ma with
      params := mb.params, params_best := mb.params_best, prob_best := mb.prob_best }).set
      ((a + 1) % sinmod.length) { mb with
      params := ma.params, params_best := ma.params_best, prob_best := ma.prob_best }).length
      = sinmod.length := by simp
  have h1a : ((sinmod.set a { ma with
      params := mb.params, params_best := mb.params_best, prob_best := mb.prob_best }).set
      ((a + 1) % sinmod.length) { mb with
      params := ma.params, params_best := ma.params_best, prob_best := ma.prob_best })[a]?
      = some { ma with
        params := mb.params, params_best := mb.params_best, prob_best := mb.prob_best } := by
    rw [List.getElem?_set_ne hab.symm, List.getElem?_set_self halt]
  have h1b : ((sinmod.set a { ma with
      params := mb.params, params_best := mb.params_best, prob_best := mb.prob_best }).set
      ((a + 1) % sinmod.length) { mb with
      params := ma.params, params_best := ma.params_best, prob_best := ma.prob_best })[
        (a + 1) % sinmod.length]?
      = some { mb with
        params := ma.params, params_best := ma.params_best, prob_best := ma.prob_best } := by
    rw [List.getElem?_set_self (by rw [List.length_set]; exact hblt)]
  refine ⟨?_, ?_, ?_⟩
  · refine ⟨_, swap_exchange_eq sinmod a _ ma mb hab hma hmb, ?_⟩
    rw [swap_exchange_eq _ a _ _ _ hab h1a h1b]
    exact congrArg Except.ok (exchange_back sinmod a _ ma mb _ _ hab hma hmb)
  · simp only [swap_ratio, div_double, hba, hbb, if_false, bind, Except.bind, pure, Except.pure]
    congr 1
    ring
  · have key := parallel_tempering_swap_attempt sinmod n_swap u v c (u :: v :: c :: rest) a ma mb
      hn hu hsw0 hsw ha hma hmb hca hcb hnp hba hbb
    by_cases hr :
        ma.beta * mb.prob / mb.beta + mb.beta * ma.prob / ma.beta - (ma.prob + mb.prob) > c
    · rw [if_pos hr] at key
      refine ⟨_, key, ?_, ?_⟩
      · intro ma' mb' hma' hmb'
        rw [h1a] at hma'
        rw [h1b] at hmb'
        rw [← Option.some.inj hma', ← Option.some.inj hmb']
      · have key2 := parallel_tempering_swap_attempt _ n_swap u v c rest a _ _
          (by rw [hlen1]; exact hn) hu hsw0 hsw (by rw [hlen1]; exact ha) h1a
          (by rw [hlen1]; exact h1b) (mcmc_check_exchanged ma mb hca hcb hnp)
          (mcmc_check_exchanged mb ma hcb hca hnp.symm) hnp hba hbb
        rw [hlen1] at key2
        rw [key2, if_pos hr]
        exact congrArg (fun l => Except.ok (l, rest))
          (exchange_back sinmod a _ ma mb _ _ hab hma hmb)
    · rw [if_neg hr] at key
      refine ⟨_, key, ?_, ?_⟩
      · intro ma' mb' hma' hmb'
        rw [hma] at hma'
        rw [hmb] at hmb'
        rw [← Option.some.inj hma', ← Option.some.inj hmb']
      · have key2 := parallel_tempering_swap_attempt sinmod n_swap u v c rest a ma mb
          hn hu hsw0 hsw ha hma hmb hca hcb hnp hba hbb
        rw [key2, if_neg hr]

/-- Run of C8 on `exPair`: with the draws `1/100`, `1/4`, `-3` fed twice the
chains are exchanged and exchanged back. -/
theorem swap_twice_restores_witness :
    ∃ s1, parallel_tempering_swap exPair (exPair.length : Int) 30
          [1 / 100, 1 / 4, -3, 1 / 100, 1 / 4, -3] = .ok (s1, [1 / 100, 1 / 4, -3]) ∧
      (∀ ma' mb', s1[0]? = some ma' → s1[(0 + 1) % exPair.length]? = some mb' →
        swap_ratio ma'.prob mb'.prob ma'.beta mb'.beta
          = swap_ratio exCold.prob exHot.prob exCold.beta exHot.beta) ∧
      parallel_tempering_swap s1 (exPair.length : Int) 30 [1 / 100, 1 / 4, -3]
        = .ok (exPair, []) :=
  (swap_twice_restores exPair 30 (1 / 100) (1 / 4) (-3) [] 0 exCold exHot (by decide)
      (by norm_num) (by decide) (by norm_num)
      (by norm_num [pick_chain, int_mul, double_to_int, INT_MIN, INT_MAX, exPair, bind,
        Except.bind, pure, Except.pure]; decide)
      rfl rfl rfl rfl rfl (by norm_num [exCold, exChain]) (by norm_num [exHot, exChain])).2.2

/-- C9, as stated, fails: with `n_swap = 20000` the first draw `7/100000` is
at least `1/n_swap`, yet it is below `1/10000`, so the kick branch runs and
resets chain 0 of `exPair` to its best point. -/
theorem kick_despite_draw_above_bound :
    (1 : ℚ) / ((20000 : Int) : ℚ) ≤ 7 / 100000 ∧
    parallel_tempering_swap exPair 2 20000 [7 / 100000, 1 / 4] =
      .ok ([{ exCold with params := [3, 4], prob := -1 }, exHot], []) ∧
    [{ exCold with params := [3, 4], prob := -1 }, exHot] ≠ exPair := by
  refine ⟨by norm_num, ?_, ?_⟩
  · norm_num [parallel_tempering_swap, chain_at, chain_put, gsl_vector_get, get_next_urandom,
      next_draw, pick_chain, int_mul, double_to_int, INT_MIN, INT_MAX, exPair, bind,
      Except.bind, pure, Except.pure, set_params, set_prob, dup_vector, get_params_best,
      get_prob_best, exCold, exChain, show Int.tmod 500 2 = 0 from by decide]
  · norm_num [exPair, exCold, exChain]

/-- C9, amended: for an ensemble of `n_beta ≥ 2` chains (with `n_beta * 1000`
in the range of `int`), a first draw `u < 1/10000` and a second draw `v` in
`[0, 1)`, `parallel_tempering_swap` picks an index `a < n_beta` and returns
the ensemble in which chain `a` has `params = params_best` and
`prob = prob_best`, its other fields and all other chains being unchanged.
For a first draw `u` with `u ≥ 1/10000` and `u ≥ 1/n_swap` the ensemble is
returned unchanged. -/
theorem kick_or_no_action (sinmod : List (Mcmc α)) (n_swap : Int) (u v : α) (rest : List α)
    (hn : 2 ≤ sinmod.length) (hfit : (sinmod.length : Int) * 1000 ≤ INT_MAX) :
    (u < 1 / 10000 → 0 ≤ v → v < 1 →
      ∃ (a : Nat) (ma : Mcmc α) (out : List (Mcmc α)),
        pick_chain (sinmod.length : Int) v = .ok (a : Int) ∧ a < sinmod.length ∧
        sinmod[a]? = some ma ∧
        parallel_tempering_swap sinmod (sinmod.length : Int) n_swap (u :: v :: rest)
          = .ok (out, rest) ∧
        out.length = sinmod.length ∧
        out[a]? = some { ma with params := ma.params_best, prob := ma.prob_best } ∧
        ∀ j : Nat, j ≠ a → out[j]? = sinmod[j]?) ∧
    (1 / 10000 ≤ u → n_swap ≠ 0 → 1 / (n_swap : α) ≤ u →
      parallel_tempering_swap sinmod (sinmod.length : Int) n_swap (u :: rest)
        = .ok (sinmod, rest)) := by
  constructor
  · intro hu hv0 hv1
    obtain ⟨a, ha, halt⟩ := pick_chain_range (sinmod.length : Int) v (by omega) hfit hv0 hv1
    have halt' : a < sinmod.length := by exact_mod_cast halt
    have hma : sinmod[a]? = some (sinmod[a]) := List.getElem?_eq_getElem halt'
    refine ⟨a, sinmod[a], _, ha, halt', hma,
      parallel_tempering_swap_kick sinmod n_swap u v rest a _ hn hu ha hma, by simp, ?_, ?_⟩
    · rw [List.getElem?_set_self halt']
    · intro j hj
      rw [List.getElem?_set_ne (Ne.symm hj)]
  · intro hu hsw0 hsw
    exact parallel_tempering_swap_idle sinmod n_swap u rest hn (not_lt.mpr hu) hsw0
      (not_lt.mpr hsw)

/-- Run of amended C9 on `exPair`: the draws `1/100000`, `1/4` kick a chain;
the draw `1/2` with `n_swap = 30` leaves the ensemble alone. -/
theorem kick_or_no_action_witness :
    (∃ (a : Nat) (ma : Mcmc ℚ) (out : List (Mcmc ℚ)),
        pick_chain (exPair.length : Int) (1 / 4 : ℚ) = .ok (a : Int) ∧ a < exPair.length ∧
        exPair[a]? = some ma ∧
        parallel_tempering_swap exPair (exPair.length : Int) 30 [1 / 100000, 1 / 4, 7]
          = .ok (out, [7]) ∧
        out.length = exPair.length ∧
        out[a]? = some { ma with params := ma.params_best, prob := ma.prob_best } ∧
        ∀ j : Nat, j ≠ a → out[j]? = exPair[j]?) ∧
    parallel_tempering_swap exPair (exPair.length : Int) 30 [1 / 2, 7] = .ok (exPair, [7]) :=
  ⟨(kick_or_no_action exPair 30 (1 / 100000) (1 / 4) [7] (by decide) (by decide)).1
      (by norm_num) (by norm_num) (by norm_num),
   (kick_or_no_action exPair 30 (1 / 2) 0 [7] (by decide) (by decide)).2 (by norm_num)
      (by decide) (by norm_num)⟩

/-- C10: for `n_beta = 1`, `parallel_tempering_swap` returns at once: the
ensemble (hence `params`, `prob`, `params_best`, `prob_best` and the counters
of its chain) is the one passed in and the tape of draws is untouched. -/
theorem parallel_tempering_swap_single (sinmod : List (Mcmc α)) (n_swap : Int)
    (rng : List α) : parallel_tempering_swap sinmod 1 n_swap rng = .ok (sinmod, rng) := by
  unfold parallel_tempering_swap
  simp [bind, Except.bind, pure, Except.pure]

/-! ## Loops over `0 .. n-1` and vector entries -/

theorem foldlM_range_ok {σ : Type} (f : σ → Nat → Except Fault σ) (I : Nat → σ → Prop)
    (n : Nat) (s0 : σ) (h0 : I 0 s0)
    (hstep : ∀ k s, k < n → I k s → ∃ s', f s k = .ok s' ∧ I (k + 1) s') :
    ∃ s', (List.range n).foldlM f s0 = .ok s' ∧ I n s' := by
  induction n with
  | zero => exact ⟨s0, rfl, h0⟩
  | succ n ih =>
    obtain ⟨s1, h1, hI⟩ := ih fun k s hk hs => hstep k s (Nat.lt_succ_of_lt hk) hs
    obtain ⟨s2, h2, hI2⟩ := hstep n s1 (Nat.lt_succ_self n) hI
    refine ⟨s2, ?_, hI2⟩
    rw [List.range_succ, List.foldlM_append, h1]
    simp only [bind, Except.bind, List.foldlM, h2, pure, Except.pure]

theorem foldlM_range_inv {σ : Type} (f : σ → Nat → Except Fault σ) (I : Nat → σ → Prop)
    (n : Nat) (s0 : σ) (h0 : I 0 s0)
    (hstep : ∀ k s s', k < n → I k s → f s k = .ok s' → I (k + 1) s') :
    ∀ s', (List.range n).foldlM f s0 = .ok s' → I n s' := by
  induction n with
  | zero =>
    intro s' h
    simp only [List.range_zero, List.foldlM, pure, Except.pure, Except.ok.injEq] at h
    exact h ▸ h0
  | succ n ih =>
    intro s' h
    rw [List.range_succ, List.foldlM_append] at h
    cases h1 : (List.range n).foldlM f s0 with
    | error e => simp [h1, bind, Except.bind] at h
    | ok s1 =>
      simp only [h1, bind, Except.bind, List.foldlM] at h
      cases h2 : f s1 n with
      | error e => simp [h2] at h
      | ok s2 =>
        simp only [h2, pure, Except.pure, Except.ok.injEq] at h
        have hI := ih (fun k s s' hk hs => hstep k s s' (Nat.lt_succ_of_lt hk) hs) s1 h1
        exact h ▸ hstep n s1 s2 (Nat.lt_succ_self n) hI h2

theorem getElem?_of_lt {β : Type} (l : List β) (i : Nat) (h : i < l.length) :
    ∃ x, l[i]? = some x := ⟨l[i], List.getElem?_eq_getElem h⟩

theorem drop_eq_cons_of_getElem? {β : Type} (l : List β) (k : Nat) (x : β)
    (h : l[k]? = some x) : l.drop k = x :: l.drop (k + 1) := by
  have hk := getElem?_lt_length h
  rw [List.getElem?_eq_getElem hk] at h
  rw [List.drop_eq_getElem_cons hk, Option.some.inj h]

theorem set_steps_for_of (m : Mcmc α) (i : Nat) (v : α) (h : i < m.params_step.length) :
    set_steps_for m v i = .ok { m with params_step := m.params_step.set i v } := by
  simp [set_steps_for, gsl_vector_set, h, bind, Except.bind, pure, Except.pure]

theorem div_double_of (x y : α) (h : y ≠ 0) : div_double x y = .ok (x / y) := by
  simp [div_double, h]

theorem div_double_ok {x y q : α} (h : div_double x y = .ok q) : y ≠ 0 ∧ q = x / y := by
  unfold div_double at h
  by_cases hy : y = 0
  · simp [hy] at h
  · simp only [hy, if_false, Except.ok.injEq] at h
    exact ⟨hy, h.symm⟩

theorem get_steps_for_normalized_of (m : Mcmc α) (i : Nat) (step lo hi : α)
    (hs : m.params_step[i]? = some step) (hlo : m.params_min[i]? = some lo)
    (hhi : m.params_max[i]? = some hi) (hne : hi - lo ≠ 0) :
    get_steps_for_normalized m i = .ok (step / (hi - lo)) := by
  simp [get_steps_for_normalized, gsl_vector_get_of hs, gsl_vector_get_of hlo,
    gsl_vector_get_of hhi, div_double, hne, bind, Except.bind]

theorem get_steps_for_normalized_ok (m : Mcmc α) (i : Nat) (n : α)
    (h : get_steps_for_normalized m i = .ok n) :
    ∃ step lo hi, m.params_step[i]? = some step ∧ m.params_min[i]? = some lo ∧
      m.params_max[i]? = some hi ∧ hi - lo ≠ 0 ∧ n = step / (hi - lo) := by
  unfold get_steps_for_normalized at h
  cases h1 : gsl_vector_get m.params_step i with
  | error e => simp [h1, bind, Except.bind] at h
  | ok step =>
  cases h2 : gsl_vector_get m.params_max i with
  | error e => simp [h1, h2, bind, Except.bind] at h
  | ok hi =>
  cases h3 : gsl_vector_get m.params_min i with
  | error e => simp [h1, h2, h3, bind, Except.bind] at h
  | ok lo =>
  simp only [h1, h2, h3, bind, Except.bind] at h
  obtain ⟨hne, hq⟩ := div_double_ok h
  exact ⟨step, lo, hi, gsl_vector_get_ok.mp h1, gsl_vector_get_ok.mp h3, gsl_vector_get_ok.mp h2,
    hne, hq⟩

/-! ## Rounding to `double`: order and error -/

theorem round_half_even_cases (t : α) :
    round_half_even t = Int.floor t ∨ round_half_even t = Int.floor t + 1 := by
  unfold round_half_even
  split
  · exact Or.inl rfl
  · split
    · exact Or.inr rfl
    · split
      · exact Or.inl rfl
      · exact Or.inr rfl

theorem round_half_even_intCast (z : Int) : round_half_even (z : α) = z := by
  unfold round_half_even
  rw [Int.floor_intCast, sub_self, if_pos (by norm_num)]

/-- The rounded integer is within one half of the value. -/
theorem round_half_even_error (t : α) : |(round_half_even t : α) - t| ≤ 1 / 2 := by
  have h1 := Int.floor_le t
  have h2 := Int.lt_floor_add_one t
  unfold round_half_even
  split
  · rename_i h
    rw [abs_le]
    constructor <;> linarith
  · rename_i h
    split
    · rename_i h'
      push_cast
      rw [abs_le]
      constructor <;> linarith
    · rename_i h'
      have he : t - (Int.floor t : α) = 1 / 2 :=
        le_antisymm (not_lt.mp h') (not_lt.mp h)
      split
      · rw [abs_le]
        constructor <;> linarith
      · push_cast
        rw [abs_le]
        constructor <;> linarith

/-- Rounding to the nearest integer keeps the order. -/
theorem round_half_even_mono (s t : α) (h : s ≤ t) :
    round_half_even s ≤ round_half_even t := by
  have hfl : Int.floor s ≤ Int.floor t := Int.floor_mono h
  rcases lt_or_eq_of_le hfl with hlt | heq
  · have h1 : round_half_even s ≤ Int.floor s + 1 := by
      rcases round_half_even_cases s with h' | h' <;> omega
    have h2 : Int.floor t ≤ round_half_even t := by
      rcases round_half_even_cases t with h' | h' <;> omega
    omega
  · have hfrac : s - (Int.floor s : α) ≤ t - (Int.floor t : α) := by
      rw [heq]
      linarith
    unfold round_half_even
    rw [heq] at hfrac ⊢
    by_cases h1 : s - (Int.floor t : α) < 1 / 2
    · rw [if_pos h1]
      split
      · exact le_refl _
      · split
        · omega
        · split
          · exact le_refl _
          · omega
    · rw [if_neg h1]
      have h1t : ¬ t - (Int.floor t : α) < 1 / 2 := fun hc => h1 (lt_of_le_of_lt hfrac hc)
      rw [if_neg h1t]
      by_cases h2 : 1 / 2 < s - (Int.floor t : α)
      · rw [if_pos h2, if_pos (lt_of_lt_of_le h2 hfrac)]
      · rw [if_neg h2]
        by_cases h3 : 1 / 2 < t - (Int.floor t : α)
        · rw [if_pos h3]
          split <;> omega
        · rw [if_neg h3]

theorem round_half_even_le (t : α) (z : Int) (h : t ≤ (z : α)) : round_half_even t ≤ z := by
  have := round_half_even_mono t (z : α) h
  rwa [round_half_even_intCast] at this

theorem le_round_half_even (t : α) (z : Int) (h : (z : α) ≤ t) : z ≤ round_half_even t := by
  have := round_half_even_mono (z : α) t h
  rwa [round_half_even_intCast] at this

/-- A value strictly within one half of an integer rounds to it. -/
theorem round_half_even_near (t : α) (z : Int) (h1 : (z : α) - 1 / 2 < t)
    (h2 : t < (z : α) + 1 / 2) : round_half_even t = z := by
  have he := round_half_even_error t
  rw [abs_le] at he
  have h3 : ((round_half_even t : Int) : α) < ((z + 1 : Int) : α) := by
    push_cast
    linarith
  have h4 : ((z - 1 : Int) : α) < ((round_half_even t : Int) : α) := by
    push_cast
    linarith
  have h5 := Int.cast_lt.mp h3
  have h6 := Int.cast_lt.mp h4
  omega

/-- A tie above an even integer rounds down to it. -/
theorem round_half_even_tie_even (z : Int) (hz : z % 2 = 0) :
    round_half_even ((z : α) + 1 / 2) = z := by
  have hfl : Int.floor ((z : α) + 1 / 2) = z := by
    rw [Int.floor_eq_iff]
    constructor <;> linarith
  unfold round_half_even
  rw [hfl, if_neg (by norm_num), if_neg (by norm_num), if_pos hz]

/-- A tie above an odd integer rounds up to the next one. -/
theorem round_half_even_tie_odd (z : Int) (hz : z % 2 ≠ 0) :
    round_half_even ((z : α) + 1 / 2) = z + 1 := by
  have hfl : Int.floor ((z : α) + 1 / 2) = z := by
    rw [Int.floor_eq_iff]
    constructor <;> linarith
  unfold round_half_even
  rw [hfl, if_neg (by norm_num), if_neg (by norm_num), if_neg hz]

theorem two_zpow_pos (e : Int) : (0 : α) < (2 : α) ^ e := zpow_pos (by norm_num) e

theorem two_zpow_mono (a b : Int) (h : a ≤ b) : (2 : α) ^ a ≤ (2 : α) ^ b :=
  zpow_le_zpow_right₀ (by norm_num) h

theorem two_zpow_split (e : Int) (k : Int) : (2 : α) ^ (e + k) = (2 : α) ^ e * (2 : α) ^ k :=
  zpow_add₀ (by norm_num) e k

/-- The exponent used for a positive `x` is at least that of its binade, and
`x` lies below the next power of two. -/
theorem lt_two_zpow_exponent (x : α) :
    x < (2 : α) ^ (max (Int.log 2 x) (-1022) + 1) := by
  have h1 : x < ((2 : Nat) : α) ^ (Int.log 2 x + 1) := Int.lt_zpow_succ_log_self (by decide) x
  rw [Nat.cast_ofNat] at h1
  exact lt_of_lt_of_le h1 (two_zpow_mono _ _ (by omega))

theorem two_zpow_log_le (x : α) (hx : 0 < x) : (2 : α) ^ (Int.log 2 x) ≤ x := by
  have h1 : ((2 : Nat) : α) ^ (Int.log 2 x) ≤ x := Int.zpow_log_le_self (by decide) hx
  rwa [Nat.cast_ofNat] at h1

/-- The binade of a positive value between two powers of two. -/
theorem log_eq_of_bounds (x : α) (e : Int) (h1 : (2 : α) ^ e ≤ x) (h2 : x < (2 : α) ^ (e + 1)) :
    Int.log 2 x = e := by
  have hx : 0 < x := lt_of_lt_of_le (two_zpow_pos e) h1
  have a1 : e ≤ Int.log 2 x := by
    apply (Int.zpow_le_iff_le_log (by decide) hx).mp
    rw [Nat.cast_ofNat]
    exact h1
  have a2 : Int.log 2 x < e + 1 := by
    apply (Int.lt_zpow_iff_log_lt (by decide) hx).mp
    rw [Nat.cast_ofNat]
    exact h2
  omega

/-- The rounding of a positive value, spelled out. -/
theorem round_double_pos (x : α) (hx : 0 < x) :
    round_double x = (round_half_even (x / (2 : α) ^ (max (Int.log 2 x) (-1022) - 52)) : α)
      * (2 : α) ^ (max (Int.log 2 x) (-1022) - 52) := by
  unfold round_double
  rw [if_neg (ne_of_gt hx), abs_of_pos hx]

theorem round_double_zero : round_double (0 : α) = 0 := by
  unfold round_double
  rw [if_pos rfl]

/-- Evaluation of the rounding: for `x` in the binade `[2^e, 2^(e+1))` with
`e ≥ -1022` the result is the rounded significand times `2^(e - 52)`. -/
theorem round_double_eval (x : α) (e z : Int) (he : -1022 ≤ e) (h1 : (2 : α) ^ e ≤ x)
    (h2 : x < (2 : α) ^ (e + 1)) (hz : round_half_even (x / (2 : α) ^ (e - 52)) = z) :
    round_double x = (z : α) * (2 : α) ^ (e - 52) := by
  have hx : 0 < x := lt_of_lt_of_le (two_zpow_pos e) h1
  rw [round_double_pos x hx, log_eq_of_bounds x e h1 h2, max_eq_left he, hz]

theorem round_double_nonneg (x : α) (hx : 0 ≤ x) : 0 ≤ round_double x := by
  rcases eq_or_lt_of_le hx with h0 | hpos
  · rw [← h0, round_double_zero]
  · rw [round_double_pos x hpos]
    apply mul_nonneg _ (le_of_lt (two_zpow_pos _))
    have h0 : (0 : Int) ≤ round_half_even (x / (2 : α) ^ (max (Int.log 2 x) (-1022) - 52)) := by
      apply le_round_half_even
      rw [Int.cast_zero]
      exact div_nonneg hx (le_of_lt (two_zpow_pos _))
    exact_mod_cast h0

/-- The rounding of a positive value does not pass the next power of two. -/
theorem round_double_le_two_zpow (x : α) (hx : 0 < x) :
    round_double x ≤ (2 : α) ^ (max (Int.log 2 x) (-1022) + 1) := by
  rw [round_double_pos x hx]
  have hq : (0 : α) < (2 : α) ^ (max (Int.log 2 x) (-1022) - 52) := two_zpow_pos _
  have hlt := lt_two_zpow_exponent x
  have hsplit : (2 : α) ^ (max (Int.log 2 x) (-1022) + 1)
      = (2 : α) ^ (53 : Int) * (2 : α) ^ (max (Int.log 2 x) (-1022) - 52) := by
    rw [← two_zpow_split]
    congr 1
    omega
  have ht : x / (2 : α) ^ (max (Int.log 2 x) (-1022) - 52) ≤ (((2 : Int) ^ 53 : Int) : α) := by
    rw [div_le_iff₀ hq]
    have : ((((2 : Int) ^ 53 : Int) : α)) = (2 : α) ^ (53 : Int) := by norm_num
    rw [this, ← hsplit]
    exact le_of_lt hlt
  have hz := round_half_even_le _ _ ht
  have hz' : ((round_half_even (x / (2 : α) ^ (max (Int.log 2 x) (-1022) - 52)) : Int) : α)
      ≤ (2 : α) ^ (53 : Int) := by
    have : ((round_half_even (x / (2 : α) ^ (max (Int.log 2 x) (-1022) - 52)) : Int) : α)
        ≤ (((2 : Int) ^ 53 : Int) : α) := Int.cast_le.mpr hz
    have h53 : ((((2 : Int) ^ 53 : Int) : α)) = (2 : α) ^ (53 : Int) := by norm_num
    rwa [h53] at this
  rw [hsplit]
  exact mul_le_mul_of_nonneg_right hz' (le_of_lt hq)

/-- The rounding of a value in the normal range does not fall below the power
of two at the start of its binade. -/
theorem two_zpow_le_round_double (x : α) (hx : 0 < x) (hn : -1022 ≤ Int.log 2 x) :
    (2 : α) ^ (Int.log 2 x) ≤ round_double x := by
  rw [round_double_pos x hx, max_eq_left hn]
  have hq : (0 : α) < (2 : α) ^ (Int.log 2 x - 52) := two_zpow_pos _
  have hsplit : (2 : α) ^ (Int.log 2 x)
      = (2 : α) ^ (52 : Int) * (2 : α) ^ (Int.log 2 x - 52) := by
    rw [← two_zpow_split]
    congr 1
    omega
  have ht : (((2 : Int) ^ 52 : Int) : α) ≤ x / (2 : α) ^ (Int.log 2 x - 52) := by
    rw [le_div_iff₀ hq]
    have : ((((2 : Int) ^ 52 : Int) : α)) = (2 : α) ^ (52 : Int) := by norm_num
    rw [this, ← hsplit]
    exact two_zpow_log_le x hx
  have hz := le_round_half_even _ _ ht
  have hz' : (2 : α) ^ (52 : Int)
      ≤ ((round_half_even (x / (2 : α) ^ (Int.log 2 x - 52)) : Int) : α) := by
    have : (((2 : Int) ^ 52 : Int) : α)
        ≤ ((round_half_even (x / (2 : α) ^ (Int.log 2 x - 52)) : Int) : α) := Int.cast_le.mpr hz
    have h52 : ((((2 : Int) ^ 52 : Int) : α)) = (2 : α) ^ (52 : Int) := by norm_num
    rwa [h52] at this
  rw [hsplit]
  exact mul_le_mul_of_nonneg_right hz' (le_of_lt hq)

/-- Rounding to `double` keeps the order of non-negative values. -/
theorem round_double_mono (x y : α) (hx : 0 ≤ x) (h : x ≤ y) :
    round_double x ≤ round_double y := by
  rcases eq_or_lt_of_le hx with h0 | hpos
  · rw [← h0, round_double_zero]
    exact round_double_nonneg y (le_trans hx h)
  · have hy : 0 < y := lt_of_lt_of_le hpos h
    have hlog : Int.log 2 x ≤ Int.log 2 y := Int.log_mono_right hpos h
    rcases lt_or_eq_of_le (max_le_max hlog (le_refl (-1022 : Int))) with hlt | heq
    · have hny : -1022 < Int.log 2 y := by
        by_contra hc
        rw [max_eq_right (not_lt.mp hc)] at hlt
        exact absurd hlt (not_lt.mpr (le_max_right _ _))
      have hey : max (Int.log 2 y) (-1022) = Int.log 2 y := max_eq_left (le_of_lt hny)
      rw [hey] at hlt
      calc round_double x ≤ (2 : α) ^ (max (Int.log 2 x) (-1022) + 1) :=
            round_double_le_two_zpow x hpos
        _ ≤ (2 : α) ^ (Int.log 2 y) := two_zpow_mono _ _ (by omega)
        _ ≤ round_double y := two_zpow_le_round_double y hy (le_of_lt hny)
    · rw [round_double_pos x hpos, round_double_pos y hy, heq]
      have hq : (0 : α) < (2 : α) ^ (max (Int.log 2 y) (-1022) - 52) := two_zpow_pos _
      apply mul_le_mul_of_nonneg_right _ (le_of_lt hq)
      exact Int.cast_le.mpr (round_half_even_mono _ _ (div_le_div_of_nonneg_right h (le_of_lt hq)))

/-- The rounding error of a positive value is at most half the spacing
`2^(e - 52)` of the `double`s around it. -/
theorem round_double_gap (x : α) (hx : 0 < x) :
    |round_double x - x| ≤ (2 : α) ^ (max (Int.log 2 x) (-1022) - 53) := by
  rw [round_double_pos x hx]
  have hq : (0 : α) < (2 : α) ^ (max (Int.log 2 x) (-1022) - 52) := two_zpow_pos _
  have he := round_half_even_error (x / (2 : α) ^ (max (Int.log 2 x) (-1022) - 52))
  have hfac : (round_half_even (x / (2 : α) ^ (max (Int.log 2 x) (-1022) - 52)) : α)
        * (2 : α) ^ (max (Int.log 2 x) (-1022) - 52) - x
      = ((round_half_even (x / (2 : α) ^ (max (Int.log 2 x) (-1022) - 52)) : α)
          - x / (2 : α) ^ (max (Int.log 2 x) (-1022) - 52))
        * (2 : α) ^ (max (Int.log 2 x) (-1022) - 52) := by
    field_simp
  rw [hfac, abs_mul, abs_of_pos hq]
  have hb : (1 / 2 : α) * (2 : α) ^ (max (Int.log 2 x) (-1022) - 52)
      = (2 : α) ^ (max (Int.log 2 x) (-1022) - 53) := by
    have h2 : (1 / 2 : α) = (2 : α) ^ (-1 : Int) := by norm_num
    rw [h2, ← two_zpow_split]
    congr 1
    omega
  calc _ ≤ (1 / 2 : α) * (2 : α) ^ (max (Int.log 2 x) (-1022) - 52) :=
        mul_le_mul_of_nonneg_right he (le_of_lt hq)
    _ = (2 : α) ^ (max (Int.log 2 x) (-1022) - 53) := hb

/-- Below 2 the rounding error is at most `2^(-53)`. -/
theorem round_double_near (x : α) (h0 : 0 ≤ x) (h2 : x < 2) :
    |round_double x - x| ≤ (2 : α) ^ (-53 : Int) := by
  rcases eq_or_lt_of_le h0 with hz | hpos
  · rw [← hz, round_double_zero, sub_zero, abs_zero]
    exact le_of_lt (two_zpow_pos _)
  · have hlog : Int.log 2 x < 1 := by
      apply (Int.lt_zpow_iff_log_lt (by decide) hpos).mp
      rw [Nat.cast_ofNat]
      simpa using h2
    exact le_trans (round_double_gap x hpos) (two_zpow_mono _ _ (by omega))

/-- For a factor `k` between 1 and `2^31` with `k * x ≤ 1` the rounding error
of `x`, multiplied by `k`, is at most `2^(-53)`. -/
theorem round_double_scaled (x k : α) (hx : 0 ≤ x) (hk1 : 1 ≤ k) (hk2 : k ≤ (2 : α) ^ (31 : Int))
    (hkx : k * x ≤ 1) : k * |round_double x - x| ≤ (2 : α) ^ (-53 : Int) := by
  have hk0 : (0 : α) < k := lt_of_lt_of_le one_pos hk1
  rcases eq_or_lt_of_le hx with hz | hpos
  · rw [← hz, round_double_zero, sub_zero, abs_zero, mul_zero]
    exact le_of_lt (two_zpow_pos _)
  · have hgap := round_double_gap x hpos
    by_cases hn : -1022 ≤ Int.log 2 x
    · rw [max_eq_left hn] at hgap
      have hsplit : (2 : α) ^ (Int.log 2 x - 53)
          = (2 : α) ^ (Int.log 2 x) * (2 : α) ^ (-53 : Int) := by
        rw [← two_zpow_split]
        congr 1
      have h53 : (0 : α) < (2 : α) ^ (-53 : Int) := two_zpow_pos _
      calc k * |round_double x - x| ≤ k * ((2 : α) ^ (Int.log 2 x) * (2 : α) ^ (-53 : Int)) := by
            rw [← hsplit]
            exact mul_le_mul_of_nonneg_left hgap (le_of_lt hk0)
        _ ≤ k * (x * (2 : α) ^ (-53 : Int)) :=
            mul_le_mul_of_nonneg_left
              (mul_le_mul_of_nonneg_right (two_zpow_log_le x hpos) (le_of_lt h53)) (le_of_lt hk0)
        _ = (k * x) * (2 : α) ^ (-53 : Int) := by ring
        _ ≤ 1 * (2 : α) ^ (-53 : Int) := mul_le_mul_of_nonneg_right hkx (le_of_lt h53)
        _ = (2 : α) ^ (-53 : Int) := one_mul _
    · rw [max_eq_right (le_of_lt (not_le.mp hn))] at hgap
      calc k * |round_double x - x| ≤ (2 : α) ^ (31 : Int) * (2 : α) ^ ((-1022 : Int) - 53) :=
            mul_le_mul hk2 hgap (abs_nonneg _) (le_of_lt (two_zpow_pos _))
        _ = (2 : α) ^ ((31 : Int) + ((-1022 : Int) - 53)) := (two_zpow_split _ _).symm
        _ ≤ (2 : α) ^ (-53 : Int) := two_zpow_mono _ _ (by decide)

theorem round_double_one : round_double (1 : α) = 1 := by
  rw [round_double_eval 1 0 ((2 : Int) ^ 52) (by decide) (by norm_num) (by norm_num)]
  · norm_num
  · have : (1 : α) / (2 : α) ^ ((0 : Int) - 52) = (((2 : Int) ^ 52 : Int) : α) := by norm_num
    rw [this, round_half_even_intCast]

/-- The value `1 + 2^(-53)`, halfway between 1 and the next `double`, rounds
to 1. -/
theorem round_double_one_tie : round_double ((1 : α) + (2 : α) ^ (-53 : Int)) = 1 := by
  rw [round_double_eval ((1 : α) + (2 : α) ^ (-53 : Int)) 0 ((2 : Int) ^ 52) (by decide)
    (by norm_num) (by norm_num)]
  · norm_num
  · have : ((1 : α) + (2 : α) ^ (-53 : Int)) / (2 : α) ^ ((0 : Int) - 52)
        = (((2 : Int) ^ 52 : Int) : α) + 1 / 2 := by norm_num
    rw [this, round_half_even_tie_even _ (by decide)]

/-! ## Evaluating the rounding -/

theorem round_double_eval_near (x : α) (e z : Int) (y : α) (he : -1022 ≤ e)
    (h1 : (2 : α) ^ e ≤ x) (h2 : x < (2 : α) ^ (e + 1))
    (hn1 : (z : α) - 1 / 2 < x / (2 : α) ^ (e - 52))
    (hn2 : x / (2 : α) ^ (e - 52) < (z : α) + 1 / 2)
    (hy : (z : α) * (2 : α) ^ (e - 52) = y) : round_double x = y := by
  rw [← hy]
  exact round_double_eval x e z he h1 h2 (round_half_even_near _ z hn1 hn2)

theorem round_double_eval_tie_even (x : α) (e z : Int) (y : α) (he : -1022 ≤ e)
    (h1 : (2 : α) ^ e ≤ x) (h2 : x < (2 : α) ^ (e + 1)) (hz : z % 2 = 0)
    (ht : x / (2 : α) ^ (e - 52) = (z : α) + 1 / 2)
    (hy : (z : α) * (2 : α) ^ (e - 52) = y) : round_double x = y := by
  rw [← hy]
  refine round_double_eval x e z he h1 h2 ?_
  rw [ht]
  exact round_half_even_tie_even z hz

theorem round_double_eval_tie_odd (x : α) (e z : Int) (y : α) (he : -1022 ≤ e)
    (h1 : (2 : α) ^ e ≤ x) (h2 : x < (2 : α) ^ (e + 1)) (hz : z % 2 ≠ 0)
    (ht : x / (2 : α) ^ (e - 52) = (z : α) + 1 / 2)
    (hy : ((z + 1 : Int) : α) * (2 : α) ^ (e - 52) = y) : round_double x = y := by
  rw [← hy]
  refine round_double_eval x e (z + 1) he h1 h2 ?_
  rw [ht]
  exact round_half_even_tie_odd z hz

theorem round_double_eval_exact (x : α) (e z : Int) (he : -1022 ≤ e)
    (h1 : (2 : α) ^ e ≤ x) (h2 : x < (2 : α) ^ (e + 1))
    (ht : x / (2 : α) ^ (e - 52) = (z : α)) : round_double x = x := by
  have hq : (0 : α) < (2 : α) ^ (e - 52) := two_zpow_pos _
  have h := round_double_eval x e z he h1 h2 (by rw [ht]; exact round_half_even_intCast z)
  rw [h, ← ht, div_mul_cancel₀ _ (ne_of_gt hq)]

theorem ladder_beta_eval (n_beta : Int) (beta_0 : α) (i : Nat) (a q d p s b : α)
    (ha : round_double (1 - beta_0) = a) (hq : a / ((n_beta - 1 : Int) : α) = q)
    (hd : round_double q = d) (hp : (i : α) * d = p) (hs : round_double p = s)
    (hb : round_double (1 - s) = b) : ladder_beta n_beta beta_0 i = b := by
  unfold ladder_beta
  rw [ha, hq, hd, hp, hs, hb]

/-! ## Rounding to `double`: sign and overflow -/

theorem round_half_even_neg (t : α) : round_half_even (-t) = -round_half_even t := by
  have h1 := Int.floor_le t
  have h2 := Int.lt_floor_add_one t
  obtain ⟨f, hf⟩ : ∃ f, Int.floor t = f := ⟨_, rfl⟩
  rw [hf] at h1 h2
  rcases lt_trichotomy (t - (f : α)) (1 / 2) with h | h | h
  · have e1 : round_half_even t = f := round_half_even_near t f (by linarith) (by linarith)
    have e2 : round_half_even (-t) = -f :=
      round_half_even_near (-t) (-f) (by push_cast; linarith) (by push_cast; linarith)
    rw [e1, e2]
  · have ht : t = (f : α) + 1 / 2 := by linarith
    have hnt : -t = ((-f - 1 : Int) : α) + 1 / 2 := by
      push_cast
      linarith
    by_cases hz : f % 2 = 0
    · rw [hnt, round_half_even_tie_odd (-f - 1) (by omega), ht, round_half_even_tie_even f hz]
      omega
    · rw [hnt, round_half_even_tie_even (-f - 1) (by omega), ht, round_half_even_tie_odd f hz]
      omega
  · have e1 : round_half_even t = f + 1 :=
      round_half_even_near t (f + 1) (by push_cast; linarith) (by push_cast; linarith)
    have e2 : round_half_even (-t) = -(f + 1) :=
      round_half_even_near (-t) (-(f + 1)) (by push_cast; linarith) (by push_cast; linarith)
    rw [e1, e2]

/-- Rounding to `double` is symmetric about zero. -/
theorem round_double_neg (x : α) : round_double (-x) = -round_double x := by
  unfold round_double
  by_cases hx : x = 0
  · rw [if_pos hx, if_pos (by rw [hx, neg_zero]), neg_zero]
  · rw [if_neg hx, if_neg (neg_ne_zero.mpr hx), abs_neg, neg_div, round_half_even_neg,
      Int.cast_neg, neg_mul]

/-- A power of two in the range of the normal numbers is a `double`. -/
theorem round_double_two_zpow (e : Int) (he : -1022 ≤ e) :
    round_double ((2 : α) ^ e) = (2 : α) ^ e := by
  have hq : (0 : α) < (2 : α) ^ (e - 52) := two_zpow_pos _
  have hs : (2 : α) ^ e = (2 : α) ^ (e - 52) * ((4503599627370496 : Int) : α) := by
    have h : (2 : α) ^ (e - 52 + 52) = (2 : α) ^ (e - 52) * (2 : α) ^ (52 : Int) :=
      two_zpow_split (e - 52) 52
    rw [sub_add_cancel] at h
    rw [h]
    norm_num
  have h1 : (2 : α) ^ e < (2 : α) ^ (e + 1) := by
    have h3 : (2 : α) ^ (e + 1) = (2 : α) ^ e * (2 : α) ^ (1 : Int) := two_zpow_split e 1
    rw [h3]
    have hp : (0 : α) < (2 : α) ^ e := two_zpow_pos _
    have h2 : (2 : α) ^ (1 : Int) = 2 := zpow_one 2
    rw [h2]
    linarith
  refine round_double_eval_exact _ e 4503599627370496 he (le_refl _) h1 ?_
  rw [div_eq_iff (ne_of_gt hq), mul_comm]
  exact hs

/-- Rounding keeps a value within a bound that is a power of two. -/
theorem round_double_abs_le (x : α) (e : Int) (he : -1022 ≤ e) (h : |x| ≤ (2 : α) ^ e) :
    |round_double x| ≤ (2 : α) ^ e := by
  have hpos : ∀ y : α, 0 ≤ y → y ≤ (2 : α) ^ e →
      0 ≤ round_double y ∧ round_double y ≤ (2 : α) ^ e := by
    intro y hy0 hy1
    refine ⟨round_double_nonneg y hy0, ?_⟩
    have := round_double_mono y _ hy0 hy1
    rwa [round_double_two_zpow e he] at this
  rcases le_total 0 x with hx | hx
  · rw [abs_of_nonneg hx] at h
    obtain ⟨r0, r1⟩ := hpos x hx h
    rwa [abs_of_nonneg r0]
  · rw [abs_of_nonpos hx] at h
    obtain ⟨r0, r1⟩ := hpos (-x) (neg_nonneg.mpr hx) h
    rw [round_double_neg] at r0 r1
    rw [abs_of_nonpos (neg_nonneg.mp r0)]
    exact r1

theorem two_zpow_le_DBL_MAX (e : Int) (he : e ≤ 1023) : (2 : α) ^ e ≤ DBL_MAX := by
  refine le_trans (two_zpow_mono e 1023 he) ?_
  unfold DBL_MAX
  norm_num

/-- An exact result bounded by a power of two up to `2^1023` does not
overflow. -/
theorem double_result_of_abs_le (x : α) (e : Int) (he : -1022 ≤ e) (he2 : e ≤ 1023)
    (h : |x| ≤ (2 : α) ^ e) :
    double_result x = .ok (round_double x) ∧ |round_double x| ≤ (2 : α) ^ e := by
  have hr := round_double_abs_le x e he h
  refine ⟨?_, hr⟩
  unfold double_result
  rw [if_pos (le_trans hr (two_zpow_le_DBL_MAX e he2))]

/-! ## The temperature ladder and `mcmc_check` -/

theorem mcmc_check_set_beta (m : Mcmc α) (b : α) : mcmc_check (set_beta m b) = mcmc_check m := rfl

theorem double_result_ok {x y : α} (h : double_result x = .ok y) : y = round_double x := by
  unfold double_result at h
  split at h
  · exact (Except.ok.inj h).symm
  · exact Except.noConfusion h

theorem one_le_DBL_MAX : (1 : α) ≤ DBL_MAX := by
  unfold DBL_MAX
  norm_num

/-- An exact result between 0 and 1 is rounded without overflow, to a value
between 0 and 1. -/
theorem double_result_unit (x : α) (h0 : 0 ≤ x) (h1 : x ≤ 1) :
    double_result x = .ok (round_double x) ∧ 0 ≤ round_double x ∧ round_double x ≤ 1 := by
  have hn := round_double_nonneg x h0
  have hl : round_double x ≤ 1 := by
    have := round_double_mono x 1 h0 h1
    rwa [round_double_one] at this
  refine ⟨?_, hn, hl⟩
  unfold double_result
  rw [if_pos]
  rw [abs_of_nonneg hn]
  exact le_trans hl one_le_DBL_MAX

theorem parallel_tempering_load_chain_ok (loaded m : Mcmc α) (delta_beta : α) (i : Nat)
    (h : parallel_tempering_load_chain loaded delta_beta i = .ok m) :
    m = set_beta loaded (round_double (1 - round_double ((i : α) * delta_beta))) := by
  unfold parallel_tempering_load_chain at h
  cases hc : mcmc_check loaded with
  | error e => simp [hc, bind, Except.bind] at h
  | ok u =>
  cases h1 : double_result ((i : α) * delta_beta) with
  | error e => simp [hc, h1, bind, Except.bind] at h
  | ok product =>
  cases h2 : double_result (1 - product) with
  | error e => simp [hc, h1, h2, bind, Except.bind] at h
  | ok newbeta =>
  simp only [hc, h1, h2, bind, Except.bind, mcmc_check_set_beta, pure, Except.pure,
    Except.ok.injEq] at h
  rw [← h, double_result_ok h2, double_result_ok h1]

theorem parallel_tempering_load_chain_of (loaded : Mcmc α) (delta_beta : α) (i : Nat)
    (hc : mcmc_check loaded = .ok ())
    (h1 : double_result ((i : α) * delta_beta) = .ok (round_double ((i : α) * delta_beta)))
    (h2 : double_result (1 - round_double ((i : α) * delta_beta))
      = .ok (round_double (1 - round_double ((i : α) * delta_beta)))) :
    parallel_tempering_load_chain loaded delta_beta i
      = .ok (set_beta loaded (round_double (1 - round_double ((i : α) * delta_beta)))) := by
  unfold parallel_tempering_load_chain
  simp only [hc, h1, h2, bind, Except.bind, mcmc_check_set_beta, pure, Except.pure]

/-- A returning loading loop has given chain `i` the rounded value of
`1.0 - i * delta_beta`. -/
theorem parallel_tempering_load_chains_ok (loaded : Mcmc α) (delta_beta : α) :
    ∀ (n : Nat) (sinmod : List (Mcmc α)),
      parallel_tempering_load_chains loaded delta_beta n = .ok sinmod →
      sinmod = (List.range n).map fun (i : Nat) =>
        set_beta loaded (round_double (1 - round_double ((i : α) * delta_beta))) := by
  intro n
  induction n with
  | zero =>
    intro sinmod h
    simp only [parallel_tempering_load_chains, pure, Except.pure, Except.ok.injEq] at h
    rw [← h]
    rfl
  | succ n ih =>
    intro sinmod h
    rw [parallel_tempering_load_chains] at h
    cases h1 : parallel_tempering_load_chains loaded delta_beta n with
    | error e => simp [h1, bind, Except.bind] at h
    | ok l =>
    cases h2 : parallel_tempering_load_chain loaded delta_beta n with
    | error e => simp [h1, h2, bind, Except.bind] at h
    | ok m =>
    simp only [h1, h2, bind, Except.bind, pure, Except.pure, Except.ok.injEq] at h
    rw [← h, ih l h1, parallel_tempering_load_chain_ok loaded m delta_beta n h2,
      List.range_succ, List.map_append]
    rfl

/-- The loading loop returns when no product and no difference overflows. -/
theorem parallel_tempering_load_chains_of (loaded : Mcmc α) (delta_beta : α)
    (hc : mcmc_check loaded = .ok ()) :
    ∀ (n : Nat),
      (∀ i : Nat, i < n →
        double_result ((i : α) * delta_beta) = .ok (round_double ((i : α) * delta_beta)) ∧
        double_result (1 - round_double ((i : α) * delta_beta))
          = .ok (round_double (1 - round_double ((i : α) * delta_beta)))) →
      parallel_tempering_load_chains loaded delta_beta n
        = .ok ((List.range n).map fun (i : Nat) =>
            set_beta loaded (round_double (1 - round_double ((i : α) * delta_beta)))) := by
  intro n
  induction n with
  | zero =>
    intro _
    rfl
  | succ n ih =>
    intro hall
    rw [parallel_tempering_load_chains, ih (fun i hi => hall i (Nat.lt_succ_of_lt hi)),
      parallel_tempering_load_chain_of loaded delta_beta n hc (hall n (Nat.lt_succ_self n)).1
        (hall n (Nat.lt_succ_self n)).2]
    simp only [bind, Except.bind, pure, Except.pure, List.range_succ, List.map_append,
      List.map_cons, List.map_nil]

/-- The rounded ladder for `0 < beta_0 ≤ 1` and a divisor `k = n_beta - 1`
between 1 and `2^31`: with `a` the rounded `1 - beta_0` and `δ` the rounded
`a / k`, every product `i * δ` for `i ≤ k` rounds to a value in `[0, 1]`, the
inverse temperature of chain `i` lies in `[0, 1]`, is within `2^(-51)` of
`1 - i * (1 - beta_0) / k`, and does not increase with `i`. -/
theorem ladder_bounds (beta_0 k : α) (h0 : 0 < beta_0) (h1 : beta_0 ≤ 1) (hk1 : 1 ≤ k)
    (hk2 : k ≤ (2 : α) ^ (31 : Int)) :
    0 ≤ round_double (1 - beta_0) ∧ round_double (1 - beta_0) ≤ 1 ∧
    0 ≤ round_double (1 - beta_0) / k ∧ round_double (1 - beta_0) / k ≤ 1 ∧
    (∀ i : α, 0 ≤ i → i ≤ k →
      0 ≤ i * round_double (round_double (1 - beta_0) / k) ∧
      i * round_double (round_double (1 - beta_0) / k) ≤ 1 + (2 : α) ^ (-53 : Int) ∧
      0 ≤ round_double (i * round_double (round_double (1 - beta_0) / k)) ∧
      round_double (i * round_double (round_double (1 - beta_0) / k)) ≤ 1 ∧
      0 ≤ round_double (1 - round_double (i * round_double (round_double (1 - beta_0) / k))) ∧
      round_double (1 - round_double (i * round_double (round_double (1 - beta_0) / k))) ≤ 1 ∧
      |round_double (1 - round_double (i * round_double (round_double (1 - beta_0) / k)))
        - (1 - i * (1 - beta_0) / k)| ≤ (2 : α) ^ (-51 : Int)) ∧
    (∀ i j : α, 0 ≤ i → i ≤ j → j ≤ k →
      round_double (1 - round_double (j * round_double (round_double (1 - beta_0) / k)))
        ≤ round_double (1 - round_double (i * round_double (round_double (1 - beta_0) / k)))) := by
  have hk0 : (0 : α) < k := lt_of_lt_of_le one_pos hk1
  have hu : (0 : α) < (2 : α) ^ (-53 : Int) := two_zpow_pos _
  have hx0 : (0 : α) ≤ 1 - beta_0 := by linarith
  have hx1 : 1 - beta_0 ≤ 1 := by linarith
  obtain ⟨-, ha0, ha1⟩ := double_result_unit (1 - beta_0) hx0 hx1
  have hea := round_double_near (1 - beta_0) hx0 (by linarith)
  obtain ⟨a, ha⟩ : ∃ a, round_double (1 - beta_0) = a := ⟨_, rfl⟩
  rw [ha] at ha0 ha1 hea ⊢
  have hq0 : 0 ≤ a / k := div_nonneg ha0 (le_of_lt hk0)
  have hq1 : a / k ≤ 1 := by
    rw [div_le_one hk0]
    exact le_trans ha1 hk1
  have hkq : k * (a / k) ≤ 1 := by
    rw [mul_div_cancel₀ _ (ne_of_gt hk0)]
    exact ha1
  have hed := round_double_scaled (a / k) k hq0 hk1 hk2 hkq
  have hd0 := round_double_nonneg (a / k) hq0
  obtain ⟨d, hd⟩ : ∃ d, round_double (a / k) = d := ⟨_, rfl⟩
  rw [hd] at hed hd0 ⊢
  have hkd : k * d ≤ a + (2 : α) ^ (-53 : Int) := by
    have h3 : k * (d - a / k) ≤ k * |d - a / k| :=
      mul_le_mul_of_nonneg_left (le_abs_self _) (le_of_lt hk0)
    have h4 : k * (d - a / k) = k * d - a := by
      rw [mul_sub, mul_div_cancel₀ _ (ne_of_gt hk0)]
    rw [h4] at h3
    have h5 : k * d - a ≤ (2 : α) ^ (-53 : Int) := le_trans h3 hed
    linarith
  have hprod : ∀ i : α, 0 ≤ i → i ≤ k →
      0 ≤ i * d ∧ i * d ≤ 1 + (2 : α) ^ (-53 : Int) ∧
      0 ≤ round_double (i * d) ∧ round_double (i * d) ≤ 1 := by
    intro i hi0 hik
    have p0 : 0 ≤ i * d := mul_nonneg hi0 hd0
    have p1 : i * d ≤ 1 + (2 : α) ^ (-53 : Int) := by
      have := mul_le_mul_of_nonneg_right hik hd0
      linarith
    refine ⟨p0, p1, round_double_nonneg _ p0, ?_⟩
    have := round_double_mono (i * d) _ p0 p1
    rwa [round_double_one_tie] at this
  refine ⟨ha0, ha1, hq0, hq1, ?_, ?_⟩
  · intro i hi0 hik
    obtain ⟨p0, p1, r0, r1⟩ := hprod i hi0 hik
    have hu1 : (2 : α) ^ (-53 : Int) < 1 := by norm_num
    have hep := round_double_near (i * d) p0 (by linarith)
    obtain ⟨-, b0, b1⟩ := double_result_unit (1 - round_double (i * d)) (by linarith)
      (by linarith)
    have heb := round_double_near (1 - round_double (i * d)) (by linarith) (by linarith)
    refine ⟨p0, p1, r0, r1, b0, b1, ?_⟩
    have hik' : i / k ≤ 1 := (div_le_one hk0).mpr hik
    have hik0 : 0 ≤ i / k := div_nonneg hi0 (le_of_lt hk0)
    have t3 : |i * (d - a / k)| ≤ (2 : α) ^ (-53 : Int) := by
      rw [abs_mul, abs_of_nonneg hi0]
      exact le_trans (mul_le_mul_of_nonneg_right hik (abs_nonneg _)) hed
    have t4 : |i / k * (a - (1 - beta_0))| ≤ (2 : α) ^ (-53 : Int) := by
      rw [abs_mul, abs_of_nonneg hik0]
      calc i / k * |a - (1 - beta_0)| ≤ 1 * |a - (1 - beta_0)| :=
            mul_le_mul_of_nonneg_right hik' (abs_nonneg _)
        _ = |a - (1 - beta_0)| := one_mul _
        _ ≤ (2 : α) ^ (-53 : Int) := hea
    have hdecomp : round_double (1 - round_double (i * d)) - (1 - i * (1 - beta_0) / k)
        = (round_double (1 - round_double (i * d)) - (1 - round_double (i * d)))
          - (round_double (i * d) - i * d) - i * (d - a / k) - i / k * (a - (1 - beta_0)) := by
      have hk' : k ≠ 0 := ne_of_gt hk0
      field_simp
      ring
    have h51 : (2 : α) ^ (-51 : Int) = 4 * (2 : α) ^ (-53 : Int) := by norm_num
    rw [hdecomp, h51]
    generalize round_double (1 - round_double (i * d)) - (1 - round_double (i * d)) = E1
      at heb ⊢
    generalize round_double (i * d) - i * d = E2 at hep ⊢
    generalize i * (d - a / k) = E3 at t3 ⊢
    generalize i / k * (a - (1 - beta_0)) = E4 at t4 ⊢
    generalize (2 : α) ^ (-53 : Int) = u at heb hep t3 t4 ⊢
    rw [abs_le] at heb hep t3 t4 ⊢
    obtain ⟨a1, a2⟩ := heb
    obtain ⟨b1', b2'⟩ := hep
    obtain ⟨c1, c2⟩ := t3
    obtain ⟨d1, d2⟩ := t4
    constructor
    · linarith
    · linarith
  · intro i j hi0 hij hjk
    obtain ⟨p0, -, r0, r1⟩ := hprod i hi0 (le_trans hij hjk)
    obtain ⟨q0, -, s0, s1⟩ := hprod j (le_trans hi0 hij) hjk
    have hm := round_double_mono (i * d) (j * d) p0 (mul_le_mul_of_nonneg_right hij hd0)
    exact round_double_mono _ _ (by linarith) (by linarith)

theorem ladder_beta_zero (n_beta : Int) (beta_0 : α) : ladder_beta n_beta beta_0 0 = 1 := by
  unfold ladder_beta
  rw [Nat.cast_zero, zero_mul, round_double_zero, sub_zero, round_double_one]

/-- A returning start of `parallel_tempering` has given chain `i` the value
`ladder_beta n_beta beta_0 i`. -/
theorem parallel_tempering_load_ok (loaded : Mcmc α) (n_beta : Int) (beta_0 : α)
    (sinmod : List (Mcmc α)) (h : parallel_tempering_load loaded n_beta beta_0 = .ok sinmod) :
    sinmod = (List.range n_beta.toNat).map fun (i : Nat) =>
      set_beta loaded (ladder_beta n_beta beta_0 i) := by
  unfold parallel_tempering_load at h
  cases h1 : double_result (1 - beta_0) with
  | error e => simp [h1, bind, Except.bind] at h
  | ok difference =>
  cases h2 : div_double difference ((n_beta - 1 : Int) : α) with
  | error e => simp only [h1, h2, bind, Except.bind, reduceCtorEq] at h
  | ok quotient =>
  cases h3 : double_result quotient with
  | error e => simp only [h1, h2, h3, bind, Except.bind, reduceCtorEq] at h
  | ok delta_beta =>
  simp only [h1, h2, h3, bind, Except.bind] at h
  rw [parallel_tempering_load_chains_ok loaded delta_beta _ sinmod h, double_result_ok h3,
    (div_double_ok h2).2, double_result_ok h1]
  rfl

theorem ladder_divisor_bounds (n_beta : Int) (h2 : 2 ≤ n_beta) (hmax : n_beta ≤ INT_MAX) :
    (1 : α) ≤ ((n_beta - 1 : Int) : α) ∧ ((n_beta - 1 : Int) : α) ≤ (2 : α) ^ (31 : Int) := by
  constructor
  · have : (1 : Int) ≤ n_beta - 1 := by omega
    exact_mod_cast this
  · have : n_beta - 1 ≤ (2147483648 : Int) := by
      unfold INT_MAX at hmax
      omega
    have h3 : ((n_beta - 1 : Int) : α) ≤ ((2147483648 : Int) : α) := by exact_mod_cast this
    refine le_trans h3 ?_
    norm_num

/-- The start of `parallel_tempering` returns for an `int n_beta ≥ 2` and
`|beta_0| ≤ 2^990`: no operation overflows. -/
theorem parallel_tempering_load_bounded (loaded : Mcmc α) (n_beta : Int) (beta_0 : α)
    (h2 : 2 ≤ n_beta) (hmax : n_beta ≤ INT_MAX) (hc : mcmc_check loaded = .ok ())
    (hb : |beta_0| ≤ (2 : α) ^ (990 : Int)) :
    parallel_tempering_load loaded n_beta beta_0 =
      .ok ((List.range n_beta.toNat).map fun (i : Nat) =>
        set_beta loaded (ladder_beta n_beta beta_0 i)) := by
  obtain ⟨hk1, hk2⟩ : (1 : α) ≤ ((n_beta - 1 : Int) : α) ∧
      ((n_beta - 1 : Int) : α) ≤ (2 : α) ^ (31 : Int) := ladder_divisor_bounds n_beta h2 hmax
  have hk0 : (0 : α) < ((n_beta - 1 : Int) : α) := lt_of_lt_of_le one_pos hk1
  have hB1 : (1 : α) ≤ (2 : α) ^ (990 : Int) := by norm_num
  have hB2 : (2 : α) ^ (991 : Int) = 2 * (2 : α) ^ (990 : Int) := by norm_num
  have hB3 : (2 : α) ^ (31 : Int) * (2 : α) ^ (991 : Int) = (2 : α) ^ (1022 : Int) := by
    norm_num
  have hB4 : 1 + (2 : α) ^ (1022 : Int) ≤ (2 : α) ^ (1023 : Int) := by norm_num
  have hx : |1 - beta_0| ≤ (2 : α) ^ (991 : Int) := by
    rw [abs_le] at hb ⊢
    constructor <;> linarith
  obtain ⟨ea, ba⟩ := double_result_of_abs_le (1 - beta_0) 991 (by norm_num) (by norm_num) hx
  have hq : |round_double (1 - beta_0) / ((n_beta - 1 : Int) : α)| ≤ (2 : α) ^ (991 : Int) := by
    rw [abs_div, abs_of_pos hk0]
    exact le_trans (div_le_self (abs_nonneg _) hk1) ba
  obtain ⟨ed, bd⟩ := double_result_of_abs_le _ 991 (by norm_num) (by norm_num) hq
  have hchains := parallel_tempering_load_chains_of loaded
    (round_double (round_double (1 - beta_0) / ((n_beta - 1 : Int) : α))) hc n_beta.toNat
    (by
      intro i hi
      have hik : (i : α) ≤ ((n_beta - 1 : Int) : α) := by
        have : (i : Int) ≤ n_beta - 1 := by omega
        exact_mod_cast this
      have hp : |(i : α) * round_double (round_double (1 - beta_0) / ((n_beta - 1 : Int) : α))|
          ≤ (2 : α) ^ (1022 : Int) := by
        rw [abs_mul, abs_of_nonneg (Nat.cast_nonneg i), ← hB3]
        exact le_trans (mul_le_mul hik bd (abs_nonneg _) (le_of_lt hk0))
          (mul_le_mul_of_nonneg_right hk2 (le_of_lt (two_zpow_pos _)))
      obtain ⟨ep, bp⟩ := double_result_of_abs_le _ 1022 (by norm_num) (by norm_num) hp
      have hs : |1 - round_double ((i : α)
          * round_double (round_double (1 - beta_0) / ((n_beta - 1 : Int) : α)))|
          ≤ (2 : α) ^ (1023 : Int) := by
        rw [abs_le] at bp ⊢
        constructor <;> linarith
      exact ⟨ep, (double_result_of_abs_le _ 1023 (by norm_num) (by norm_num) hs).1⟩)
  unfold parallel_tempering_load
  rw [ea]
  simp only [div_double, ne_of_gt hk0, if_false, bind, Except.bind]
  rw [ed]
  exact hchains

/-- C11 (amended): let `parallel_tempering` load `n_beta ≥ 2` chains from a
file whose state passes `mcmc_check`.  For an `int n_beta` and
`|beta_0| ≤ 2^990` the loading loop returns.  Whenever it returns, it has built
`n_beta` chains and given chain `i` the `double` that `1.0 - i * delta_beta`
evaluates to, with `delta_beta = (1.0 - beta_0) / (n_beta - 1)` and each of the
four operations rounded: chain 0 gets exactly 1, and chain `n_beta - 1` gets
exactly `beta_0` when `beta_0` is a `double` and neither `1.0 - beta_0` nor the
quotient is rounded.  For `0 < beta_0 ≤ 1` and an `int n_beta` every `beta_i`
lies in `[0, 1]` and within `2^(-51)` of `1 - i (1 - beta_0) / (n_beta - 1)`,
and `beta_j ≤ beta_i` for `i ≤ j`. -/
theorem parallel_tempering_betas (loaded : Mcmc α) (n_beta : Int) (beta_0 : α)
    (hn : 2 ≤ n_beta) (hc : mcmc_check loaded = .ok ()) :
    (|beta_0| ≤ (2 : α) ^ (990 : Int) → n_beta ≤ INT_MAX →
      ∃ sinmod, parallel_tempering_load loaded n_beta beta_0 = .ok sinmod) ∧
    (∀ sinmod, parallel_tempering_load loaded n_beta beta_0 = .ok sinmod →
      (sinmod.length : Int) = n_beta ∧
      (∀ i : Nat, (i : Int) < n_beta → ∃ mi, sinmod[i]? = some mi ∧
        get_beta mi = ladder_beta n_beta beta_0 i) ∧
      (∃ m0, sinmod[0]? = some m0 ∧ get_beta m0 = 1) ∧
      (round_double beta_0 = beta_0 → round_double (1 - beta_0) = 1 - beta_0 →
        round_double ((1 - beta_0) / ((n_beta : α) - 1)) = (1 - beta_0) / ((n_beta : α) - 1) →
        ∃ ml, sinmod[(n_beta - 1).toNat]? = some ml ∧ get_beta ml = beta_0) ∧
      (0 < beta_0 → beta_0 ≤ 1 → n_beta ≤ INT_MAX →
        (∀ (i : Nat) (mi : Mcmc α), sinmod[i]? = some mi →
          0 ≤ get_beta mi ∧ get_beta mi ≤ 1 ∧
          |get_beta mi - (1 - (i : α) * (1 - beta_0) / ((n_beta : α) - 1))|
            ≤ (2 : α) ^ (-51 : Int)) ∧
        (∀ (i j : Nat) (mi mj : Mcmc α), i ≤ j →
          sinmod[i]? = some mi → sinmod[j]? = some mj → get_beta mj ≤ get_beta mi))) := by
  obtain ⟨n, rfl⟩ : ∃ n : Nat, n_beta = (n : Int) := ⟨n_beta.toNat, by omega⟩
  have hn2 : 2 ≤ n := by exact_mod_cast hn
  have hd : (((n : Int) - 1 : Int) : α) = (n : α) - 1 := by push_cast; ring
  have hentry : ∀ i : Nat, i < n →
      ((List.range n).map fun (i : Nat) => set_beta loaded (ladder_beta (n : Int) beta_0 i))[i]?
        = some (set_beta loaded (ladder_beta (n : Int) beta_0 i)) := by
    intro i hi
    rw [List.getElem?_map, List.getElem?_range hi]
    rfl
  have hmem : ∀ (i : Nat) (mi : Mcmc α),
      ((List.range n).map fun (i : Nat) => set_beta loaded (ladder_beta (n : Int) beta_0 i))[i]?
        = some mi → i < n ∧ get_beta mi = ladder_beta (n : Int) beta_0 i := by
    intro i mi h
    have hi : i < n := by
      have := getElem?_lt_length h
      simpa using this
    rw [hentry i hi] at h
    refine ⟨hi, ?_⟩
    rw [← Option.some.inj h]
    rfl
  constructor
  · intro hb hmax
    exact ⟨_, parallel_tempering_load_bounded loaded _ beta_0 hn hmax hc hb⟩
  · intro sinmod hrun
    rw [parallel_tempering_load_ok loaded _ beta_0 sinmod hrun, Int.toNat_ofNat]
    refine ⟨by simp, ?_, ?_, ?_, ?_⟩
    · intro i hi
      exact ⟨_, hentry i (by exact_mod_cast hi), rfl⟩
    · exact ⟨_, hentry 0 (by omega), ladder_beta_zero _ beta_0⟩
    · intro e0 e1 e2
      have h1 : ((n : Int) - 1).toNat = n - 1 := by omega
      rw [h1]
      refine ⟨_, hentry (n - 1) (by omega), ?_⟩
      show ladder_beta (n : Int) beta_0 (n - 1) = beta_0
      have h2 : ((n - 1 : Nat) : α) = (n : α) - 1 := by
        rw [Nat.cast_sub (by omega)]; simp
      have hpos : (0 : α) < (n : α) - 1 := by
        have : (2 : α) ≤ (n : α) := by exact_mod_cast hn2
        linarith
      rw [Int.cast_natCast] at e2
      unfold ladder_beta
      rw [hd, e1, e2, h2, mul_div_cancel₀ _ (ne_of_gt hpos), e1, sub_sub_cancel, e0]
    · intro h0 h1 hmax
      obtain ⟨hk1, hk2⟩ : (1 : α) ≤ (((n : Int) - 1 : Int) : α) ∧
          (((n : Int) - 1 : Int) : α) ≤ (2 : α) ^ (31 : Int) := ladder_divisor_bounds _ hn hmax
      obtain ⟨-, -, -, -, hall, hmono⟩ := ladder_bounds beta_0 _ h0 h1 hk1 hk2
      have hcast : ∀ i : Nat, i < n → (i : α) ≤ (((n : Int) - 1 : Int) : α) := by
        intro i hi
        have : (i : Int) ≤ (n : Int) - 1 := by omega
        exact_mod_cast this
      have hd2 : (((n : Int) - 1 : Int) : α) = (((n : Int) : α)) - 1 := by push_cast; ring
      constructor
      · intro i mi h
        obtain ⟨hi, hb⟩ := hmem i mi h
        obtain ⟨-, -, -, -, b0, b1, herr⟩ := hall (i : α) (Nat.cast_nonneg i) (hcast i hi)
        rw [hb, ← hd2]
        exact ⟨b0, b1, herr⟩
      · intro i j mi mj hij hi hj
        obtain ⟨-, hbi⟩ := hmem i mi hi
        obtain ⟨hjn, hbj⟩ := hmem j mj hj
        rw [hbi, hbj]
        exact hmono (i : α) (j : α) (Nat.cast_nonneg i) (by exact_mod_cast hij) (hcast j hjn)

/-! ## Runs of the temperature ladder -/

theorem exTenth_double : round_double (1 / 10 : ℚ) = exTenth ∧ round_double exTenth = exTenth := by
  unfold exTenth
  constructor
  · exact round_double_eval_near _ (-4) 7205759403792794 _ (by norm_num) (by norm_num)
      (by norm_num) (by norm_num) (by norm_num) (by norm_num)
  · exact round_double_eval_exact _ (-4) 7205759403792794 (by norm_num) (by norm_num)
      (by norm_num) (by norm_num)

theorem exTiny_double :
    round_double (1 / 100000000000000000 : ℚ) = exTiny ∧ round_double exTiny = exTiny := by
  unfold exTiny
  constructor
  · exact round_double_eval_near _ (-57) 6490371073168535 _ (by norm_num) (by norm_num)
      (by norm_num) (by norm_num) (by norm_num) (by norm_num)
  · exact round_double_eval_exact _ (-57) 6490371073168535 (by norm_num) (by norm_num)
      (by norm_num) (by norm_num)

theorem exTenth_ladder :
    ladder_beta 4 exTenth 3 = 225179981368525 / 2251799813685248 := by
  unfold exTenth
  refine ladder_beta_eval 4 _ 3
    (8106479329266893 / 9007199254740992) (8106479329266893 / 27021597764222976)
    (5404319552844595 / 18014398509481984) (16212958658533785 / 18014398509481984)
    (2026619832316723 / 2251799813685248) _ ?_ ?_ ?_ ?_ ?_ ?_
  · exact round_double_eval_near _ (-1) 8106479329266893 _ (by norm_num) (by norm_num)
      (by norm_num) (by norm_num) (by norm_num) (by norm_num)
  · norm_num
  · exact round_double_eval_near _ (-2) 5404319552844595 _ (by norm_num) (by norm_num)
      (by norm_num) (by norm_num) (by norm_num) (by norm_num)
  · norm_num
  · exact round_double_eval_tie_even _ (-1) 8106479329266892 _ (by norm_num) (by norm_num)
      (by norm_num) (by decide) (by norm_num) (by norm_num)
  · have h : (1 : ℚ) - 2026619832316723 / 2251799813685248
        = 225179981368525 / 2251799813685248 := by norm_num
    rw [h]
    exact round_double_eval_exact _ (-4) 7205759403792800 (by norm_num) (by norm_num)
      (by norm_num) (by norm_num)

theorem exTiny_ladder : ladder_beta 4 exTiny 3 = 0 := by
  unfold exTiny
  refine ladder_beta_eval 4 _ 3 1 (1 / 3) (6004799503160661 / 18014398509481984)
    (18014398509481983 / 18014398509481984) 1 _ ?_ ?_ ?_ ?_ ?_ ?_
  · exact round_double_eval_near _ (-1) 9007199254740992 _ (by norm_num) (by norm_num)
      (by norm_num) (by norm_num) (by norm_num) (by norm_num)
  · norm_num
  · exact round_double_eval_near _ (-2) 6004799503160661 _ (by norm_num) (by norm_num)
      (by norm_num) (by norm_num) (by norm_num) (by norm_num)
  · norm_num
  · exact round_double_eval_tie_odd _ (-1) 9007199254740991 _ (by norm_num) (by norm_num)
      (by norm_num) (by decide) (by norm_num) (by norm_num)
  · rw [sub_self]
    exact round_double_zero

/-- C11, as stated, fails.  Four chains loaded from `exChain` with `beta_0`
the `double` nearest to `0.1`: the last chain gets
`225179981368525 / 2^51 = 0.10000000000000009`, which is neither `beta_0` nor
`1 - 3 (1 - beta_0) / (4 - 1)`.  With `beta_0` the `double` nearest to
`1e-17`, a value in `(0, 1]`, the last chain gets `0`, outside `(0, 1]`. -/
theorem last_beta_misses_beta_0 :
    (round_double (1 / 10 : ℚ) = exTenth ∧
      ∃ sinmod ml, parallel_tempering_load exChain 4 exTenth = .ok sinmod ∧
        sinmod[((4 : Int) - 1).toNat]? = some ml ∧
        get_beta ml = 225179981368525 / 2251799813685248 ∧
        get_beta ml ≠ exTenth ∧
        get_beta ml ≠ 1 - ((3 : Nat) : ℚ) * (1 - exTenth) / (((4 : Int) : ℚ) - 1)) ∧
    (round_double (1 / 100000000000000000 : ℚ) = exTiny ∧ 0 < exTiny ∧ exTiny ≤ 1 ∧
      ∃ sinmod ml, parallel_tempering_load exChain 4 exTiny = .ok sinmod ∧
        sinmod[((4 : Int) - 1).toNat]? = some ml ∧
        get_beta ml = 0 ∧ ¬ (0 < get_beta ml)) := by
  have hT : |exTenth| ≤ (2 : ℚ) ^ (990 : Int) := by
    unfold exTenth
    rw [abs_of_pos (by norm_num)]
    norm_num
  have hS : (0 : ℚ) < exTiny ∧ exTiny ≤ 1 := by unfold exTiny; norm_num
  have hS2 : |exTiny| ≤ (2 : ℚ) ^ (990 : Int) := by
    rw [abs_of_pos hS.1]
    refine le_trans hS.2 ?_
    norm_num
  refine ⟨⟨exTenth_double.1, _, set_beta exChain (ladder_beta 4 exTenth 3),
    parallel_tempering_load_bounded exChain 4 exTenth (by decide) (by decide) rfl hT,
    rfl, ?_, ?_, ?_⟩, exTiny_double.1, hS.1, hS.2, _, set_beta exChain (ladder_beta 4 exTiny 3),
    parallel_tempering_load_bounded exChain 4 exTiny (by decide) (by decide) rfl hS2,
    rfl, ?_, ?_⟩
  · exact exTenth_ladder
  · show ladder_beta 4 exTenth 3 ≠ exTenth
    rw [exTenth_ladder]
    unfold exTenth
    norm_num
  · show ladder_beta 4 exTenth 3 ≠ _
    rw [exTenth_ladder]
    unfold exTenth
    norm_num
  · exact exTiny_ladder
  · show ¬ (0 < ladder_beta 4 exTiny 3)
    rw [exTiny_ladder]
    exact lt_irrefl 0

/-- Run of C11: three chains loaded from `exChain` with `beta_0 = 1/2`, where
no operation is rounded. -/
theorem parallel_tempering_betas_witness :
    (|(1 / 2 : ℚ)| ≤ (2 : ℚ) ^ (990 : Int) → (3 : Int) ≤ INT_MAX →
      ∃ sinmod, parallel_tempering_load exChain 3 (1 / 2) = .ok sinmod) ∧
    (∀ sinmod, parallel_tempering_load exChain 3 (1 / 2) = .ok sinmod →
      (sinmod.length : Int) = 3 ∧
      (∀ i : Nat, (i : Int) < 3 → ∃ mi, sinmod[i]? = some mi ∧
        get_beta mi = ladder_beta 3 (1 / 2 : ℚ) i) ∧
      (∃ m0, sinmod[0]? = some m0 ∧ get_beta m0 = 1) ∧
      (round_double (1 / 2 : ℚ) = 1 / 2 → round_double (1 - 1 / 2 : ℚ) = 1 - 1 / 2 →
        round_double ((1 - 1 / 2 : ℚ) / (((3 : Int) : ℚ) - 1))
          = (1 - 1 / 2) / (((3 : Int) : ℚ) - 1) →
        ∃ ml, sinmod[((3 : Int) - 1).toNat]? = some ml ∧ get_beta ml = 1 / 2) ∧
      ((0 : ℚ) < 1 / 2 → (1 / 2 : ℚ) ≤ 1 → (3 : Int) ≤ INT_MAX →
        (∀ (i : Nat) (mi : Mcmc ℚ), sinmod[i]? = some mi →
          0 ≤ get_beta mi ∧ get_beta mi ≤ 1 ∧
          |get_beta mi - (1 - (i : ℚ) * (1 - 1 / 2) / (((3 : Int) : ℚ) - 1))|
            ≤ (2 : ℚ) ^ (-51 : Int)) ∧
        (∀ (i j : Nat) (mi mj : Mcmc ℚ), i ≤ j →
          sinmod[i]? = some mi → sinmod[j]? = some mj → get_beta mj ≤ get_beta mi))) :=
  parallel_tempering_betas exChain 3 (1 / 2) (by decide) rfl

/-- C12, as stated, fails: `exOutside` passes `mcmc_check` although
`params[0] = 20` exceeds `max[0] = 10`, `params[1] = -5` is below
`min[1] = 0`, and its steps `0` and `-1` are not positive. -/
theorem mcmc_check_misses_bounds :
    mcmc_check exOutside = .ok () ∧
    exOutside.params[0]? = some (20 : ℚ) ∧ exOutside.params_max[0]? = some (10 : ℚ) ∧
    (10 : ℚ) < 20 ∧
    exOutside.params[1]? = some (-5 : ℚ) ∧ exOutside.params_min[1]? = some (0 : ℚ) ∧
    (-5 : ℚ) < 0 ∧
    exOutside.params_step[0]? = some (0 : ℚ) ∧ exOutside.params_step[1]? = some (-1 : ℚ) ∧
    ¬ ((0 : ℚ) < -1) := by
  refine ⟨rfl, rfl, rfl, by norm_num, rfl, rfl, by norm_num, rfl, rfl, by norm_num⟩

/-- C12, amended: `mcmc_check` passes exactly when `n_par > 0`, the data
matrix is present and has at least one column, and `params` and
`params_best` have exactly `n_par` entries; it asserts nothing about the
bounds of `params` or the sign of the steps. -/
theorem mcmc_check_passes_iff (m : Mcmc α) :
    mcmc_check m = .ok () ↔
      0 < m.n_par ∧ (∃ d, m.data = some d ∧ 0 < d.size2) ∧ m.params.length = m.n_par ∧
        m.params_best.length = m.n_par :=
  mcmc_check_ok_iff m

/-! ## The accuracy-driven calibrator and the adaptive step width -/

/-- C16, as stated, fails.  In the first round of `markov_chain_calibrate_alt`
(`best_worst_accuracy = 1`, so `scale = 27/5`) with the assessed rate `3/40`
and the desired rate `1/4`, the move is `-189/200`, below `-9/10`, and the
step `1` of `exChain` becomes `11/200`, less than a tenth of it; with the
assessed rate `0` and the desired rate `5/27` the move is `-1` and the step
becomes `0`. -/
theorem calibrate_alt_move_below_bound :
    calibrate_alt_move ((3 / 40 : ℚ) - 1 / 4) (1 * SCALE_LIN_WORST + SCALE_MIN) = -(189 / 200) ∧
    (-(189 / 200) : ℚ) < -(9 / 10) ∧
    calibrate_alt_adjust exChain 0 (3 / 40) (1 / 4) 1 0 =
      .ok ({ exChain with params_step := [11 / 200, 1] }, 7 / 40) ∧
    (11 / 200 : ℚ) < 1 / 10 * 1 ∧
    calibrate_alt_adjust exChain 0 0 (5 / 27) 1 0 =
      .ok ({ exChain with params_step := [0, 1] }, 5 / 27) := by
  refine ⟨?_, by norm_num, ?_, by norm_num, ?_⟩
  · norm_num [calibrate_alt_move, SCALE_LIN_WORST, SCALE_MIN]
  · norm_num [calibrate_alt_adjust, calibrate_alt_move, SCALE_LIN_WORST, SCALE_MIN, abs_double,
      get_steps_for, set_steps_for, gsl_vector_get, gsl_vector_set, exChain, bind, Except.bind,
      pure, Except.pure]
  · norm_num [calibrate_alt_adjust, calibrate_alt_move, SCALE_LIN_WORST, SCALE_MIN, abs_double,
      get_steps_for, set_steps_for, gsl_vector_get, gsl_vector_set, exChain, bind, Except.bind,
      pure, Except.pure]

/-- C16, amended: in `markov_chain_calibrate_alt` the move applied to a step is
`-0.9` when `(rate - desired) * scale < -1` and `(rate - desired) * scale`
itself otherwise, so it is never below `-1`; the update stores
`step[i] * (1 + move)`, which is not negative for a step that is not negative
and is strictly positive for a strictly positive step whenever
`(rate - desired) * scale` is not `-1`. -/
theorem calibrate_alt_move_bounds (movedirection scale : α) :
    (movedirection * scale < -1 → calibrate_alt_move movedirection scale = -(9 / 10)) ∧
    (-1 ≤ movedirection * scale →
      calibrate_alt_move movedirection scale = movedirection * scale) ∧
    -1 ≤ calibrate_alt_move movedirection scale ∧
    (∀ step : α, 0 ≤ step → 0 ≤ step * (1 + calibrate_alt_move movedirection scale)) ∧
    (∀ step : α, 0 < step → movedirection * scale ≠ -1 →
      0 < step * (1 + calibrate_alt_move movedirection scale)) ∧
    (∀ (m : Mcmc α) (i : Nat) (rate desired best_worst_accuracy max_deviation step : α),
      m.params_step[i]? = some step → 0 < best_worst_accuracy * SCALE_LIN_WORST + SCALE_MIN →
      ∃ d, calibrate_alt_adjust m i rate desired best_worst_accuracy max_deviation =
        .ok ({ m with params_step := (m.params_step.set i
          (step * (1 + calibrate_alt_move (rate - desired)
            (best_worst_accuracy * SCALE_LIN_WORST + SCALE_MIN)))) }, d)) := by
  have hcase : (movedirection * scale < -1 → calibrate_alt_move movedirection scale = -(9 / 10)) ∧
      (-1 ≤ movedirection * scale →
        calibrate_alt_move movedirection scale = movedirection * scale) := by
    constructor
    · intro h
      simp [calibrate_alt_move, h]
    · intro h
      simp [calibrate_alt_move, not_lt.mpr h]
  have hge : -1 ≤ calibrate_alt_move movedirection scale := by
    by_cases h : movedirection * scale < -1
    · rw [hcase.1 h]; norm_num
    · rw [hcase.2 (not_lt.mp h)]; exact not_lt.mp h
  refine ⟨hcase.1, hcase.2, hge, ?_, ?_, ?_⟩
  · intro step hs
    exact mul_nonneg hs (by linarith)
  · intro step hs hne
    apply mul_pos hs
    by_cases h : movedirection * scale < -1
    · rw [hcase.1 h]; norm_num
    · have h' := not_lt.mp h
      rw [hcase.2 h']
      have : -1 < movedirection * scale := lt_of_le_of_ne h' (Ne.symm hne)
      linarith
  · intro m i rate desired bwa md step hstep hscale
    refine ⟨if md < abs_double (rate - desired) then abs_double (rate - desired) else md, ?_⟩
    unfold calibrate_alt_adjust
    simp only [hscale, gt_iff_lt, not_true_eq_false, if_false, get_steps_for,
      gsl_vector_get_of hstep, set_steps_for_of m i _ (getElem?_lt_length hstep)]

/-- Run of amended C16 on `exChain`: with the rate `0` and the desired rate
`1/4` the product is `-27/20`, the move is `-9/10`. -/
theorem calibrate_alt_move_bounds_witness :
    calibrate_alt_move ((0 : ℚ) - 1 / 4) (27 / 5) = -(9 / 10) ∧
    calibrate_alt_move ((3 / 40 : ℚ) - 1 / 4) (27 / 5) = ((3 / 40 : ℚ) - 1 / 4) * (27 / 5) ∧
    (0 : ℚ) < 1 * (1 + calibrate_alt_move ((3 / 40 : ℚ) - 1 / 4) (27 / 5)) :=
  ⟨(calibrate_alt_move_bounds ((0 : ℚ) - 1 / 4) (27 / 5)).1 (by norm_num),
   (calibrate_alt_move_bounds ((3 / 40 : ℚ) - 1 / 4) (27 / 5)).2.1 (by norm_num),
   (calibrate_alt_move_bounds ((3 / 40 : ℚ) - 1 / 4) (27 / 5)).2.2.2.2.1 1 (by norm_num)
     (by norm_num)⟩

/-- One pass of the loop of `rmw_adapt_stepwidth`: the new step of parameter
`i` lies between the two bounds. -/
theorem rmw_adapt_stepwidth_for_ok (L : Libm α) (cfg : Config α) (alpha : α) (m : Mcmc α)
    (i : Nat) (u lo hi step : α) (rng : List α) (hlo : m.params_min[i]? = some lo)
    (hhi : m.params_max[i]? = some hi) (hstep : m.params_step[i]? = some step)
    (hlt : lo < hi) (hsqrt : L.sqrt (m.n_iter : α) ≠ 0) :
    ∃ v, rmw_adapt_stepwidth_for L cfg alpha (m, u :: rng) i =
        .ok ({ m with params_step := m.params_step.set i v }, rng) ∧
      MINIMAL_STEPWIDTH * (hi - lo) ≤ v ∧ v ≤ MAXIMAL_STEPWIDTH * (hi - lo) ∧ 0 < v := by
  have hr : 0 < hi - lo := sub_pos.mpr hlt
  have hmin : (0 : α) < MINIMAL_STEPWIDTH * (hi - lo) := by
    unfold MINIMAL_STEPWIDTH
    positivity
  have hmm : (MINIMAL_STEPWIDTH : α) * (hi - lo) ≤ MAXIMAL_STEPWIDTH * (hi - lo) := by
    apply mul_le_mul_of_nonneg_right _ hr.le
    unfold MINIMAL_STEPWIDTH MAXIMAL_STEPWIDTH
    norm_num
  have hi' := getElem?_lt_length hstep
  unfold rmw_adapt_stepwidth_for
  simp only [gsl_vector_get_of hlo, gsl_vector_get_of hhi, get_steps, gsl_vector_get_of hstep,
    get_next_uniform_random, next_draw, div_double, hsqrt, if_false, bind, Except.bind,
    gsl_vector_set, hi', if_true, pure, Except.pure]
  refine ⟨_, rfl, ?_, ?_, ?_⟩
  · split_ifs <;> linarith
  · split_ifs <;> linarith
  · split_ifs <;> linarith

/-- C17: for a chain with `min[i] < max[i]` for every `i` and `n_iter > 0`
(so that `sqrt(n_iter)` is not zero), and for every uniform draw,
`rmw_adapt_stepwidth` returns a state whose bounds are unchanged and in which
every step satisfies `MINIMAL_STEPWIDTH * (max[i] - min[i]) ≤ step[i] ≤
MAXIMAL_STEPWIDTH * (max[i] - min[i])`, hence `step[i] > 0`. -/
theorem rmw_adapt_stepwidth_bounds (L : Libm α) (cfg : Config α) (m : Mcmc α) (prob_old : α)
    (draws rest : List α) (hdraws : draws.length = m.n_par)
    (hs : m.params_step.length = m.n_par) (hmin : m.params_min.length = m.n_par)
    (hmax : m.params_max.length = m.n_par)
    (hrange : ∀ (i : Nat) (lo hi : α), m.params_min[i]? = some lo → m.params_max[i]? = some hi →
      lo < hi)
    (hn : 0 < m.n_iter) (hsqrt : ∀ x : α, 0 < x → 0 < L.sqrt x) :
    ∃ m', rmw_adapt_stepwidth L cfg m prob_old (draws ++ rest) = .ok (m', rest) ∧
      m'.params_min = m.params_min ∧ m'.params_max = m.params_max ∧
      ∀ (i : Nat) (lo hi : α), m.params_min[i]? = some lo → m.params_max[i]? = some hi →
        ∃ step, m'.params_step[i]? = some step ∧
          MINIMAL_STEPWIDTH * (hi - lo) ≤ step ∧ step ≤ MAXIMAL_STEPWIDTH * (hi - lo) ∧
          0 < step := by
  have hsq : L.sqrt (m.n_iter : α) ≠ 0 := (hsqrt _ (by exact_mod_cast hn)).ne'
  obtain ⟨s', hfold, hI⟩ := foldlM_range_ok
    (rmw_adapt_stepwidth_for L cfg
      (if L.exp (get_prob m - prob_old) > 1 then 1 else L.exp (get_prob m - prob_old)))
    (fun k (s : Mcmc α × List α) =>
      s.1.params_min = m.params_min ∧ s.1.params_max = m.params_max ∧ s.1.n_iter = m.n_iter ∧
      s.1.params_step.length = m.n_par ∧ s.2 = draws.drop k ++ rest ∧
      ∀ (i : Nat) (lo hi : α), i < k → m.params_min[i]? = some lo → m.params_max[i]? = some hi →
        ∃ step, s.1.params_step[i]? = some step ∧
          MINIMAL_STEPWIDTH * (hi - lo) ≤ step ∧ step ≤ MAXIMAL_STEPWIDTH * (hi - lo) ∧
          0 < step)
    m.n_par (m, draws ++ rest)
    ⟨rfl, rfl, rfl, hs, by simp, fun i lo hi hi0 => absurd hi0 (Nat.not_lt_zero i)⟩
    (by
      rintro k ⟨mk, rng⟩ hk ⟨h1, h2, h3, h4, h5, h6⟩
      simp only at h1 h2 h3 h4 h5 h6
      obtain ⟨lo, hlo⟩ := getElem?_of_lt m.params_min k (by omega)
      obtain ⟨hi, hhi⟩ := getElem?_of_lt m.params_max k (by omega)
      obtain ⟨step, hstep⟩ := getElem?_of_lt mk.params_step k (by omega)
      obtain ⟨u, hu⟩ := getElem?_of_lt draws k (by omega)
      have hrng : rng = u :: (draws.drop (k + 1) ++ rest) := by
        rw [h5, drop_eq_cons_of_getElem? draws k u hu]
        rfl
      obtain ⟨v, hv, hb1, hb2, hb3⟩ := rmw_adapt_stepwidth_for_ok L cfg
        (if L.exp (get_prob m - prob_old) > 1 then 1 else L.exp (get_prob m - prob_old))
        mk k u lo hi step (draws.drop (k + 1) ++ rest)
        (by rw [h1]; exact hlo) (by rw [h2]; exact hhi) hstep (hrange k lo hi hlo hhi)
        (by rw [h3]; exact hsq)
      refine ⟨_, by rw [hrng]; exact hv, h1, h2, h3, by simpa using h4, rfl, ?_⟩
      intro i lo' hi' hik hlo' hhi'
      by_cases hik' : i = k
      · subst hik'
        rw [hlo] at hlo'
        rw [hhi] at hhi'
        cases hlo'
        cases hhi'
        exact ⟨v, List.getElem?_set_self (by omega), hb1, hb2, hb3⟩
      · obtain ⟨st, hst, hbs⟩ := h6 i lo' hi' (by omega) hlo' hhi'
        exact ⟨st, by simpa [List.getElem?_set_ne (Ne.symm hik')] using hst, hbs⟩)
  obtain ⟨m', rng'⟩ := s'
  obtain ⟨h1, h2, -, -, h5, h6⟩ := hI
  simp only at h1 h2 h5 h6
  have hrest : rng' = rest := by
    rw [h5, ← hdraws, List.drop_length, List.nil_append]
  subst hrest
  refine ⟨m', hfold, h1, h2, ?_⟩
  intro i lo hi hlo hhi
  exact h6 i lo hi (by have := getElem?_lt_length hlo; omega) hlo hhi

/-- Run of C17 on `exIterated` with the draws `1/2` and `-3`: the call returns
with both steps inside their bounds. -/
theorem rmw_adapt_stepwidth_bounds_witness :
    ∃ m', rmw_adapt_stepwidth exLibm exConfig exIterated (-3) ([1 / 2, -3] ++ []) = .ok (m', []) ∧
      m'.params_min = exIterated.params_min ∧ m'.params_max = exIterated.params_max ∧
      ∀ (i : Nat) (lo hi : ℚ), exIterated.params_min[i]? = some lo →
        exIterated.params_max[i]? = some hi →
        ∃ step, m'.params_step[i]? = some step ∧
          MINIMAL_STEPWIDTH * (hi - lo) ≤ step ∧ step ≤ MAXIMAL_STEPWIDTH * (hi - lo) ∧
          0 < step :=
  rmw_adapt_stepwidth_bounds exLibm exConfig exIterated (-3) [1 / 2, -3] [] rfl rfl rfl rfl
    (by
      intro i lo hi h1 h2
      have hlo : lo = 0 := by
        have hmem : lo ∈ exIterated.params_min := List.mem_iff_getElem?.mpr ⟨i, h1⟩
        simpa [exIterated, exChain] using hmem
      have hhi : hi = 10 := by
        have hmem : hi ∈ exIterated.params_max := List.mem_iff_getElem?.mpr ⟨i, h2⟩
        simpa [exIterated, exChain] using hmem
      rw [hlo, hhi]
      norm_num)
    (by norm_num [exIterated])
    (by
      intro x hx
      show 0 < (x + 1) / 2
      linarith)

/-! ## The sine model -/

/-- The term that data row `row` adds to `square_sum`. -/
theorem simplesin_add_row_ok (L : Libm α) (m : Mcmc α) (d : Matrix α) (A f phi acc : α)
    (i : Nat) (row : List α) (x y : α) (hd : m.data = some d) (hi : i < d.size1)
    (h2 : 2 ≤ d.size2) (hrow : d.rows[i]? = some row) (hx : row[0]? = some x)
    (hy : row[1]? = some y) :
    simplesin_add_row L m A f phi acc i =
      .ok (acc + (A * L.sin (2 * L.pi * f * x + phi) - y) * (A * L.sin (2 * L.pi * f * x + phi) - y)) := by
  have h0 : 0 < d.size2 := by omega
  have h1 : 1 < d.size2 := by omega
  simp only [simplesin_add_row, simplesin_apply_formula, get_data, hd, gsl_matrix_get, hi, h0, h1,
    and_self, if_true, hrow, gsl_vector_get_of hx, gsl_vector_get_of hy, bind, Except.bind, pure,
    Except.pure]

theorem sum_map_div {β : Type} (l : List β) (h : β → α) (c : α) :
    (l.map fun r => h r / c).sum = (l.map h).sum / c := by
  induction l with
  | nil => simp
  | cons r l ih => simp only [List.map_cons, List.sum_cons, ih, add_div]

theorem sum_map_sq_nonneg {β : Type} (l : List β) (h : β → α) (c : α) (hc : 0 < c) :
    0 ≤ (l.map fun r => h r ^ 2 / c).sum := by
  induction l with
  | nil => simp
  | cons r l ih =>
    simp only [List.map_cons, List.sum_cons]
    have : 0 ≤ h r ^ 2 / c := div_nonneg (sq_nonneg _) hc.le
    linarith

/-- C18: for the sine model of `simplesin.c`, on a chain with at least three
parameters `A`, `f`, `φ` and a data matrix with at least two columns,
`calc_model_for(m, i, old_value)` returns what `calc_model(m, NULL)` returns
for every `i` and `old_value`; the call writes
`prob = beta * (- Σ (A sin(2π f x + φ) - y)² / (2 SIGMA²))`, the sum taken
over the data rows, which is `beta` times the value written for `beta = 1`
and is at most 0 whenever `beta ≥ 0`. -/
theorem simplesin_calc_model_spec (L : Libm α) (m : Mcmc α) (d : Matrix α) (A f phi : α)
    (hA : m.params[0]? = some A) (hf : m.params[1]? = some f) (hphi : m.params[2]? = some phi)
    (hd : m.data = some d) (hrows : d.rows.length = d.size1) (h2 : 2 ≤ d.size2)
    (hcols : ∀ row ∈ d.rows, row.length = d.size2) :
    (∀ (i : Nat) (old_value : α),
      simplesin_calc_model_for L m i old_value = simplesin_calc_model L m none) ∧
    simplesin_calc_model L m none =
      .ok (set_prob m (sine_log_posterior_spec L (get_beta m) A f phi d.rows)) ∧
    sine_log_posterior_spec L (get_beta m) A f phi d.rows =
      get_beta m * sine_log_posterior_spec L 1 A f phi d.rows ∧
    (0 ≤ get_beta m → sine_log_posterior_spec L (get_beta m) A f phi d.rows ≤ 0) := by
  have hσ : (0 : α) < 2 * SIGMA ^ 2 := by unfold SIGMA; norm_num
  refine ⟨fun i old_value => rfl, ?_, ?_, ?_⟩
  · obtain ⟨acc, hfold, hacc⟩ := foldlM_range_ok (simplesin_add_row L m A f phi)
      (fun k acc => acc = ((d.rows.take k).map fun row =>
        (A * L.sin (2 * L.pi * f * row.getD 0 0 + phi) - row.getD 1 0) ^ 2).sum)
      d.size1 0 (by simp)
      (by
        intro k acc hk hI
        obtain ⟨row, hrow⟩ := getElem?_of_lt d.rows k (by omega)
        have hmem : row ∈ d.rows := List.mem_iff_getElem?.mpr ⟨k, hrow⟩
        have hlen := hcols row hmem
        obtain ⟨x, hx⟩ := getElem?_of_lt row 0 (by omega)
        obtain ⟨y, hy⟩ := getElem?_of_lt row 1 (by omega)
        refine ⟨_, simplesin_add_row_ok L m d A f phi acc k row x y hd hk h2 hrow hx hy, ?_⟩
        show _ = _
        rw [List.take_succ, hrow, List.map_append, List.sum_append, ← hI]
        simp only [Option.toList, List.map_cons, List.map_nil, List.sum_cons, List.sum_nil,
          add_zero, List.getD_eq_getElem?_getD, hx, hy, Option.getD_some]
        ring)
    rw [← hrows, List.take_length] at hacc
    unfold simplesin_calc_model
    simp only [gsl_vector_get_of hA, gsl_vector_get_of hf, gsl_vector_get_of hphi, get_data, hd,
      hfold, bind, Except.bind, pure, Except.pure, hacc]
    congr 2
    unfold sine_log_posterior_spec
    rw [sum_map_div]
    unfold SIGMA
    ring
  · unfold sine_log_posterior_spec
    ring
  · intro hb
    unfold sine_log_posterior_spec
    have := sum_map_sq_nonneg d.rows
      (fun row => A * L.sin (2 * L.pi * f * row.getD 0 0 + phi) - row.getD 1 0) _ hσ
    exact mul_nonpos_of_nonneg_of_nonpos hb (neg_nonpos.mpr this)

/-- Run of C18 on `exSine`. -/
theorem simplesin_calc_model_spec_witness :
    (∀ (i : Nat) (old_value : ℚ),
      simplesin_calc_model_for exLibm exSine i old_value = simplesin_calc_model exLibm exSine none) ∧
    simplesin_calc_model exLibm exSine none =
      .ok (set_prob exSine (sine_log_posterior_spec exLibm (get_beta exSine) 2 (1 / 2) 1
        [[0, 1], [1, 2]])) ∧
    sine_log_posterior_spec exLibm (get_beta exSine) 2 (1 / 2) 1 [[0, 1], [1, 2]] =
      get_beta exSine * sine_log_posterior_spec exLibm 1 2 (1 / 2) 1 [[0, 1], [1, 2]] ∧
    (0 ≤ get_beta exSine →
      sine_log_posterior_spec exLibm (get_beta exSine) 2 (1 / 2) 1 [[0, 1], [1, 2]] ≤ 0) :=
  simplesin_calc_model_spec exLibm exSine ⟨2, 2, [[0, 1], [1, 2]]⟩ 2 (1 / 2) 1 rfl rfl rfl rfl rfl
    (by decide) (by
      intro row hrow
      simp only [List.mem_cons, List.mem_singleton, List.not_mem_nil, or_false] at hrow
      rcases hrow with h | h <;> rw [h] <;> rfl)

/-! ## The inspection of the classical calibrator -/

/-- The step that the too-high branch of the inspection leaves in
`params_step[i]`: `step / mul`, or the parameter range when the normalised
value of `step / mul` exceeds 1. -/
theorem calibrate_too_high_of (m : Mcmc α) (i : Nat) (mul step lo hi : α) (rescaled : Int)
    (hs : m.params_step[i]? = some step) (hlo : m.params_min[i]? = some lo)
    (hhi : m.params_max[i]? = some hi) (hmul : mul ≠ 0) (hne : hi - lo ≠ 0) :
    calibrate_too_high m i mul rescaled =
      .ok ({ m with params_step := (m.params_step.set i
              (if step / mul / (hi - lo) > 1 then 1 * (hi - lo) else step / mul)) },
        if step / mul / (hi - lo) > 1 then (if rescaled = 0 then 0 else
          if rescaled = -1 then 0 else rescaled)
        else (if rescaled = 0 then 1 else if rescaled = -1 then 1 else rescaled)) := by
  have hi' := getElem?_lt_length hs
  unfold calibrate_too_high
  simp only [get_steps_for, gsl_vector_get_of hs, div_double_of _ _ hmul, bind, Except.bind,
    set_steps_for_of m i _ hi']
  have hs1 : ({ m with params_step := m.params_step.set i (step / mul) } : Mcmc α).params_step[i]?
      = some (step / mul) := List.getElem?_set_self hi'
  unfold calibrate_clamp
  rw [get_steps_for_normalized_of _ i (step / mul) lo hi hs1 hlo hhi hne]
  by_cases hn : step / mul / (hi - lo) > 1
  · simp only [hn, if_true, set_steps_for_normalized, gsl_vector_get_of hlo, gsl_vector_get_of hhi,
      bind, Except.bind]
    rw [set_steps_for_of _ i _ (by simpa using hi')]
    simp only [List.set_set]
    have hs2 : ({ m with params_step := m.params_step.set i (1 * (hi - lo)) } : Mcmc α).params_step[
        i]? = some (1 * (hi - lo)) := List.getElem?_set_self hi'
    unfold calibrate_too_large
    rw [get_steps_for_normalized_of _ i (1 * (hi - lo)) lo hi hs2 hlo hhi hne]
    have h1 : ¬ (1 * (hi - lo) / (hi - lo) > 10000) := by
      rw [one_mul, div_self hne]; norm_num
    simp only [h1, if_false, pure, Except.pure]
    by_cases hr : rescaled = 0
    · simp [hr]
    · by_cases hr1 : rescaled = -1
      · simp [hr1]
      · simp [hr, hr1]
  · simp only [hn, if_false]
    unfold calibrate_too_large
    rw [get_steps_for_normalized_of _ i (step / mul) lo hi hs1 hlo hhi hne]
    have h1 : ¬ (step / mul / (hi - lo) > 10000) := by
      intro h
      apply hn
      linarith
    simp only [h1, if_false, pure, Except.pure]
    by_cases hr : rescaled = 0
    · simp [hr]
    · by_cases hr1 : rescaled = -1
      · simp [hr1]
      · simp [hr, hr1]

/-- A returning call of the too-high branch had a step, bounds of nonzero
range and a nonzero `mul` to work with. -/
theorem calibrate_too_high_ok (m m' : Mcmc α) (i : Nat) (mul : α) (rescaled rescaled' : Int)
    (h : calibrate_too_high m i mul rescaled = .ok (m', rescaled')) :
    ∃ step lo hi, m.params_step[i]? = some step ∧ m.params_min[i]? = some lo ∧
      m.params_max[i]? = some hi ∧ mul ≠ 0 ∧ hi - lo ≠ 0 := by
  unfold calibrate_too_high at h
  cases h1 : get_steps_for m i with
  | error e => simp [h1, bind, Except.bind] at h
  | ok step =>
  cases h2 : div_double step mul with
  | error e => simp [h1, h2, bind, Except.bind] at h
  | ok q =>
  have hs := gsl_vector_get_ok.mp h1
  have hi' := getElem?_lt_length hs
  simp only [h1, h2, bind, Except.bind, set_steps_for_of m i _ hi'] at h
  unfold calibrate_clamp at h
  cases h3 : get_steps_for_normalized
      ({ m with params_step := m.params_step.set i q } : Mcmc α) i with
  | error e => simp [h3] at h
  | ok n =>
    obtain ⟨s, lo, hi, -, hlo, hhi, hne, -⟩ := get_steps_for_normalized_ok _ i n h3
    exact ⟨step, lo, hi, hs, hlo, hhi, (div_double_ok h2).1, hne⟩

/-- The too-low branch stores `step * mul`. -/
theorem calibrate_too_low_of (m : Mcmc α) (i : Nat) (mul step lo hi : α)
    (hs : m.params_step[i]? = some step) (hlo : m.params_min[i]? = some lo)
    (hhi : m.params_max[i]? = some hi) (hne : hi - lo ≠ 0) :
    calibrate_too_low m i mul =
      .ok ({ m with params_step := m.params_step.set i (step * mul) }, 1) := by
  have hi' := getElem?_lt_length hs
  unfold calibrate_too_low
  simp only [get_steps_for, gsl_vector_get_of hs, bind, Except.bind, set_steps_for_of m i _ hi']
  have hs1 : ({ m with params_step := m.params_step.set i (step * mul) } : Mcmc α).params_step[i]?
      = some (step * mul) := List.getElem?_set_self hi'
  rw [get_steps_for_normalized_of _ i (step * mul) lo hi hs1 hlo hhi hne]
  rfl

theorem calibrate_too_low_ok (m m' : Mcmc α) (i : Nat) (mul : α) (rescaled' : Int)
    (h : calibrate_too_low m i mul = .ok (m', rescaled')) :
    ∃ step lo hi, m.params_step[i]? = some step ∧ m.params_min[i]? = some lo ∧
      m.params_max[i]? = some hi ∧ hi - lo ≠ 0 := by
  unfold calibrate_too_low at h
  cases h1 : get_steps_for m i with
  | error e => simp [h1, bind, Except.bind] at h
  | ok step =>
  have hs := gsl_vector_get_ok.mp h1
  have hi' := getElem?_lt_length hs
  simp only [h1, bind, Except.bind, set_steps_for_of m i _ hi'] at h
  cases h3 : get_steps_for_normalized
      ({ m with params_step := m.params_step.set i (step * mul) } : Mcmc α) i with
  | error e => simp [h3] at h
  | ok n =>
    obtain ⟨s, lo, hi, -, hlo, hhi, hne, -⟩ := get_steps_for_normalized_ok _ i n h3
    exact ⟨step, lo, hi, hs, hlo, hhi, hne⟩

theorem assert_steps_positive_ok (m : Mcmc α) (h : assert_steps_positive m = .ok ()) :
    ∀ s ∈ m.params_step, 0 < s := by
  unfold assert_steps_positive at h
  by_cases hall : (get_steps m).all (fun s => decide (0 < s)) = true
  · intro s hs
    have := List.all_eq_true.mp hall s hs
    simpa using this
  · simp [hall] at h

/-- What a returning inspection of parameter `i` has done. -/
theorem calibrate_inspect_for_ok (rates : List α) (rat_limit mul : α) (m m' : Mcmc α)
    (rescaled rescaled' : Int) (i : Nat)
    (h : calibrate_inspect_for rates rat_limit mul (m, rescaled) i = .ok (m', rescaled')) :
    ∃ rate, rates[i]? = some rate ∧
      ((rate > rat_limit + 1 / 20 ∧ ∃ step lo hi, m.params_step[i]? = some step ∧
          m.params_min[i]? = some lo ∧ m.params_max[i]? = some hi ∧
          m' = { m with params_step := (m.params_step.set i
            (if step / mul / (hi - lo) > 1 then 1 * (hi - lo) else step / mul)) }) ∨
        (rate < rat_limit - 1 / 20 ∧ ∃ step, m.params_step[i]? = some step ∧
          m' = { m with params_step := m.params_step.set i (step * mul) }) ∨
        (rat_limit - 1 / 20 ≤ rate ∧ rate ≤ rat_limit + 1 / 20 ∧ m' = m ∧
          rescaled' = rescaled)) ∧
      ∀ s ∈ m'.params_step, 0 < s := by
  unfold calibrate_inspect_for at h
  cases h1 : gsl_vector_get rates i with
  | error e => simp [h1, bind, Except.bind] at h
  | ok rate =>
  refine ⟨rate, gsl_vector_get_ok.mp h1, ?_⟩
  simp only [h1, bind, Except.bind] at h
  by_cases hhigh : rate > rat_limit + 1 / 20
  · have hlow : ¬ rate < rat_limit - 1 / 20 := by
      intro hl
      linarith
    simp only [if_pos hhigh, if_neg hlow] at h
    cases h2 : calibrate_too_high m i mul rescaled with
    | error e => simp [h2] at h
    | ok mr =>
      obtain ⟨m2, r2⟩ := mr
      obtain ⟨step, lo, hi, hs, hlo, hhi, hmul, hne⟩ := calibrate_too_high_ok m m2 i mul _ _ h2
      have h2b := h2
      rw [calibrate_too_high_of m i mul step lo hi rescaled hs hlo hhi hmul hne] at h2b
      simp only [Except.ok.injEq, Prod.mk.injEq] at h2b
      rw [h2] at h
      simp only [pure, Except.pure] at h
      cases h3 : assert_steps_positive m2 with
      | error e => simp [h3] at h
      | ok u =>
        simp only [h3, Except.ok.injEq, Prod.mk.injEq] at h
        rw [← h.1, ← h2b.1]
        refine ⟨Or.inl ⟨hhigh, step, lo, hi, hs, hlo, hhi, rfl⟩, ?_⟩
        rw [h2b.1]
        exact assert_steps_positive_ok _ h3
  · simp only [if_neg hhigh, pure, Except.pure] at h
    by_cases hlow : rate < rat_limit - 1 / 20
    · simp only [if_pos hlow] at h
      cases h2 : calibrate_too_low m i mul with
      | error e => simp [h2] at h
      | ok mr =>
        obtain ⟨m2, r2⟩ := mr
        obtain ⟨step, lo, hi, hs, hlo, hhi, hne⟩ := calibrate_too_low_ok m m2 i mul _ h2
        have h2b := h2
        rw [calibrate_too_low_of m i mul step lo hi hs hlo hhi hne] at h2b
        simp only [Except.ok.injEq, Prod.mk.injEq] at h2b
        rw [h2] at h
        cases h3 : assert_steps_positive m2 with
        | error e => simp [h3] at h
        | ok u =>
          simp only [h3, Except.ok.injEq, Prod.mk.injEq] at h
          rw [← h.1, ← h2b.1]
          refine ⟨Or.inr (Or.inl ⟨hlow, step, hs, rfl⟩), ?_⟩
          rw [h2b.1]
          exact assert_steps_positive_ok _ h3
    · simp only [if_neg hlow] at h
      cases h3 : assert_steps_positive m with
      | error e => simp [h3] at h
      | ok u =>
        simp only [h3, Except.ok.injEq, Prod.mk.injEq] at h
        rw [← h.1]
        exact ⟨Or.inr (Or.inr ⟨not_lt.mp hlow, not_lt.mp hhigh, rfl, h.2.symm⟩),
          assert_steps_positive_ok _ h3⟩

/-- The uniform shape of a returning inspection of parameter `i`: one entry of
`params_step` is rewritten, with a value fixed by the rate of `i`. -/
theorem calibrate_inspect_for_shape (rates : List α) (rat_limit mul : α) (m m' : Mcmc α)
    (rescaled rescaled' : Int) (i : Nat) (hi : i < m.params_step.length)
    (h : calibrate_inspect_for rates rat_limit mul (m, rescaled) i = .ok (m', rescaled')) :
    ∃ rate step new, rates[i]? = some rate ∧ m.params_step[i]? = some step ∧
      m' = { m with params_step := m.params_step.set i new } ∧
      (rate > rat_limit + 1 / 20 → ∃ lo hi, m.params_min[i]? = some lo ∧
        m.params_max[i]? = some hi ∧
        new = if step / mul / (hi - lo) > 1 then 1 * (hi - lo) else step / mul) ∧
      (rate < rat_limit - 1 / 20 → new = step * mul) ∧
      (rat_limit - 1 / 20 ≤ rate → rate ≤ rat_limit + 1 / 20 → new = step) := by
  obtain ⟨rate, hrate, hcase, -⟩ := calibrate_inspect_for_ok rates rat_limit mul m m' _ _ i h
  rcases hcase with ⟨hhigh, step, lo, hi, hs, hlo, hhi, hm'⟩ | ⟨hlow, step, hs, hm'⟩ |
    ⟨h1, h2, hm', -⟩
  · refine ⟨rate, step, _, hrate, hs, hm', fun _ => ⟨lo, hi, hlo, hhi, rfl⟩, ?_, ?_⟩
    · intro hl; exfalso; linarith
    · intro _ hl; exfalso; linarith
  · refine ⟨rate, step, _, hrate, hs, hm', ?_, fun _ => rfl, ?_⟩
    · intro hl; exfalso; linarith
    · intro hl; exfalso; linarith
  · obtain ⟨step, hs⟩ := getElem?_of_lt m.params_step i hi
    refine ⟨rate, step, step, hrate, hs, ?_, ?_, ?_, fun _ _ => rfl⟩
    · rw [hm', list_set_getElem?_self _ _ _ hs]
    · intro hl; exfalso; linarith
    · intro hl; exfalso; linarith

/-- C19: on a chain with `n_par` steps, a returning inspection loop of
`markov_chain_calibrate_orig` changes nothing but `params_step`, and the new
step of each parameter `i` depends on its own rate only: for
`rate[i] > rat_limit + 0.05` it is `step[i] / mul` (replaced by the parameter
range when its normalised value exceeds 1), for `rate[i] < rat_limit - 0.05`
it is `step[i] * mul`, and for a rate within the band it is `step[i]`. -/
theorem inspection_adjusts_each_step (rates : List α) (rat_limit mul : α) (m m1 : Mcmc α)
    (rescaled1 : Int) (hlen : m.params_step.length = m.n_par)
    (h : (List.range (get_n_par m)).foldlM (calibrate_inspect_for rates rat_limit mul) (m, 0)
      = .ok (m1, rescaled1)) :
    m1 = { m with params_step := m1.params_step } ∧
    ∀ i : Nat, i < m.n_par → ∃ rate step new, rates[i]? = some rate ∧
      m.params_step[i]? = some step ∧ m1.params_step[i]? = some new ∧
      (rate > rat_limit + 1 / 20 → ∃ lo hi, m.params_min[i]? = some lo ∧
        m.params_max[i]? = some hi ∧
        new = if step / mul / (hi - lo) > 1 then 1 * (hi - lo) else step / mul) ∧
      (rate < rat_limit - 1 / 20 → new = step * mul) ∧
      (rat_limit - 1 / 20 ≤ rate → rate ≤ rat_limit + 1 / 20 → new = step) := by
  have key := foldlM_range_inv (calibrate_inspect_for rates rat_limit mul)
    (fun k (s : Mcmc α × Int) =>
      s.1 = { m with params_step := s.1.params_step } ∧
      s.1.params_step.length = m.params_step.length ∧
      (∀ i : Nat, k ≤ i → s.1.params_step[i]? = m.params_step[i]?) ∧
      ∀ i : Nat, i < k → ∃ rate step new, rates[i]? = some rate ∧
        m.params_step[i]? = some step ∧ s.1.params_step[i]? = some new ∧
        (rate > rat_limit + 1 / 20 → ∃ lo hi, m.params_min[i]? = some lo ∧
          m.params_max[i]? = some hi ∧
          new = if step / mul / (hi - lo) > 1 then 1 * (hi - lo) else step / mul) ∧
        (rate < rat_limit - 1 / 20 → new = step * mul) ∧
        (rat_limit - 1 / 20 ≤ rate → rate ≤ rat_limit + 1 / 20 → new = step))
    (get_n_par m) (m, 0)
    ⟨rfl, rfl, fun i _ => rfl, fun i hi => absurd hi (Nat.not_lt_zero i)⟩
    (by
      rintro k ⟨mk, rk⟩ ⟨mk', rk'⟩ hk ⟨hframe, hlenk, hrest, hdone⟩ hstep
      simp only at hframe hlenk hrest hdone
      have hkl : k < mk.params_step.length := by
        rw [hlenk, hlen]; exact hk
      obtain ⟨rate, step, new, hrate, hs, hm', hhigh, hlow, hband⟩ :=
        calibrate_inspect_for_shape rates rat_limit mul mk mk' rk rk' k hkl hstep
      have hmin : mk.params_min = m.params_min := by rw [hframe]
      have hmax : mk.params_max = m.params_max := by rw [hframe]
      have hs0 : m.params_step[k]? = some step := (hrest k (le_refl k)).symm.trans hs
      refine ⟨?_, ?_, ?_, ?_⟩
      · show mk' = _
        rw [hm', hframe]
      · show mk'.params_step.length = _
        rw [hm']
        simpa using hlenk
      · intro i hi
        show mk'.params_step[i]? = _
        rw [hm']
        simp only
        rw [List.getElem?_set_ne (by omega)]
        exact hrest i (by omega)
      · intro i hi
        show ∃ rate step new, _ ∧ _ ∧ mk'.params_step[i]? = some new ∧ _
        by_cases hik : i = k
        · subst hik
          refine ⟨rate, step, new, hrate, hs0, ?_, ?_, hlow, hband⟩
          · rw [hm']
            exact List.getElem?_set_self hkl
          · intro hh
            obtain ⟨lo, hi', hlo, hhi, hnew⟩ := hhigh hh
            exact ⟨lo, hi', hmin ▸ hlo, hmax ▸ hhi, hnew⟩
        · obtain ⟨rate', step', new', h1, h2, h3, h4⟩ := hdone i (by omega)
          refine ⟨rate', step', new', h1, h2, ?_, h4⟩
          rw [hm']
          simp only
          rw [List.getElem?_set_ne (Ne.symm hik)]
          exact h3)
    (m1, rescaled1) h
  exact ⟨key.1, key.2.2.2⟩

/-- Run of C19 on `exChain` with the rates `[9/10, 1/10]`, `rat_limit = 1/2`
and `mul = 9/10`: the steps `[1, 1]` become `[10/9, 9/10]` and nothing else
changes. -/
theorem inspection_adjusts_each_step_witness :
    exChain.params_step.length = exChain.n_par ∧
    (List.range (get_n_par exChain)).foldlM
      (calibrate_inspect_for [9 / 10, 1 / 10] (1 / 2) (9 / 10)) (exChain, 0)
      = .ok ({ exChain with params_step := [10 / 9, 9 / 10] }, 1) ∧
    ({ exChain with params_step := [10 / 9, 9 / 10] } : Mcmc ℚ) =
      { exChain with params_step :=
          ({ exChain with params_step := [10 / 9, 9 / 10] } : Mcmc ℚ).params_step } ∧
    ∀ i : Nat, i < exChain.n_par → ∃ rate step new : ℚ,
      ([9 / 10, 1 / 10] : List ℚ)[i]? = some rate ∧
      exChain.params_step[i]? = some step ∧
      ({ exChain with params_step := [10 / 9, 9 / 10] } : Mcmc ℚ).params_step[i]? = some new ∧
      (rate > 1 / 2 + 1 / 20 → ∃ lo hi, exChain.params_min[i]? = some lo ∧
        exChain.params_max[i]? = some hi ∧
        new = if step / (9 / 10) / (hi - lo) > 1 then 1 * (hi - lo) else step / (9 / 10)) ∧
      (rate < 1 / 2 - 1 / 20 → new = step * (9 / 10)) ∧
      (1 / 2 - 1 / 20 ≤ rate → rate ≤ 1 / 2 + 1 / 20 → new = step) :=
  have h : (List.range (get_n_par exChain)).foldlM
      (calibrate_inspect_for [9 / 10, 1 / 10] (1 / 2) (9 / 10)) (exChain, 0)
      = .ok ({ exChain with params_step := [10 / 9, 9 / 10] }, 1) := by
    norm_num [get_n_par, exChain, List.range, List.range.loop, List.foldlM,
      calibrate_inspect_for, gsl_vector_get, bind, Except.bind, pure, Except.pure,
      calibrate_too_high, calibrate_too_low, get_steps_for, get_steps, div_double,
      set_steps_for, gsl_vector_set, calibrate_clamp, calibrate_too_large,
      get_steps_for_normalized, set_steps_for_normalized,
      assert_steps_positive, double_to_int, INT_MIN, INT_MAX]
  ⟨by norm_num [exChain], h,
    inspection_adjusts_each_step [9 / 10, 1 / 10] (1 / 2) (9 / 10) exChain _ 1
      (by norm_num [exChain]) h⟩

/-- C20, as stated, fails: with `mul = 2 > 1` and `step[0] = 1 > 0` on
`exChain`, the too-high branch stores `1/2`, which is smaller than the old
step, and the too-low branch stores `2`, which is greater. -/
theorem calibrate_mul_above_one_reversed :
    (1 : ℚ) < 2 ∧ exChain.params_step[0]? = some (1 : ℚ) ∧
    calibrate_too_high exChain 0 2 0 = .ok ({ exChain with params_step := [1 / 2, 1] }, 1) ∧
    ¬ ((1 : ℚ) < 1 / 2) ∧
    calibrate_too_low exChain 0 2 = .ok ({ exChain with params_step := [2, 1] }, 1) ∧
    ¬ ((2 : ℚ) < 1) := by
  refine ⟨by norm_num, rfl, ?_, by norm_num, ?_, by norm_num⟩
  · norm_num [calibrate_too_high, get_steps_for, gsl_vector_get, exChain, div_double, bind,
      Except.bind, pure, Except.pure, set_steps_for, gsl_vector_set, calibrate_clamp,
      calibrate_too_large, get_steps_for_normalized, set_steps_for_normalized, double_to_int,
      INT_MIN, INT_MAX]
  · norm_num [calibrate_too_low, get_steps_for, gsl_vector_get, exChain, div_double, bind,
      Except.bind, pure, Except.pure, set_steps_for, gsl_vector_set,
      get_steps_for_normalized]

/-- C20, amended: for `step[i] > 0`, `min[i] < max[i]` and `mul > 0`, the
too-high branch of `markov_chain_calibrate_orig` stores the smaller of
`step[i] / mul` and the range `max[i] - min[i]`, and the too-low branch stores
`step[i] * mul`.  For `mul > 1` the too-high branch makes the step strictly
smaller and the too-low branch makes it strictly greater.  For `mul < 1` the
too-low branch makes the step strictly smaller, and the too-high branch makes
it strictly greater as long as the old step is below the range. -/
theorem calibrate_step_direction (m : Mcmc α) (i : Nat) (mul step lo hi : α) (rescaled : Int)
    (hs : m.params_step[i]? = some step) (hlo : m.params_min[i]? = some lo)
    (hhi : m.params_max[i]? = some hi) (hstep : 0 < step) (hrange : lo < hi)
    (hmul : 0 < mul) :
    ∃ mh rh ml rl newh newl, calibrate_too_high m i mul rescaled = .ok (mh, rh) ∧
      calibrate_too_low m i mul = .ok (ml, rl) ∧
      mh.params_step[i]? = some newh ∧ ml.params_step[i]? = some newl ∧
      newh = min (step / mul) (hi - lo) ∧ newl = step * mul ∧
      (1 < mul → newh < step ∧ step < newl) ∧
      (mul < 1 → newl < step ∧ (step < hi - lo → step < newh)) := by
  have hi' := getElem?_lt_length hs
  have hr : 0 < hi - lo := sub_pos.mpr hrange
  refine ⟨_, _, _, _, min (step / mul) (hi - lo), step * mul,
    calibrate_too_high_of m i mul step lo hi rescaled hs hlo hhi hmul.ne' hr.ne',
    calibrate_too_low_of m i mul step lo hi hs hlo hhi hr.ne', ?_, ?_, rfl, rfl, ?_, ?_⟩
  · show (m.params_step.set i _)[i]? = _
    rw [List.getElem?_set_self hi']
    congr 1
    by_cases hc : step / mul / (hi - lo) > 1
    · rw [if_pos hc, one_mul]
      have : hi - lo < step / mul := by
        have := (lt_div_iff₀ hr).mp hc
        linarith
      exact (min_eq_right this.le).symm
    · rw [if_neg hc]
      have : step / mul ≤ hi - lo := by
        have := (div_le_iff₀ hr).mp (not_lt.mp hc)
        linarith
      exact (min_eq_left this).symm
  · show (m.params_step.set i _)[i]? = _
    rw [List.getElem?_set_self hi']
  · intro h1
    constructor
    · have : step / mul < step := div_lt_self hstep h1
      exact lt_of_le_of_lt (min_le_left _ _) this
    · exact lt_mul_of_one_lt_right hstep h1
  · intro h1
    constructor
    · exact mul_lt_of_lt_one_right hstep h1
    · intro hsr
      have : step < step / mul := by
        rw [lt_div_iff₀ hmul]
        exact mul_lt_of_lt_one_right hstep h1
      exact lt_min this hsr

/-- Run of amended C20 on `exChain` (step 1, range 10) with `mul = 9/10`. -/
theorem calibrate_step_direction_witness :
    ∃ mh rh ml rl, ∃ newh newl : ℚ,
      calibrate_too_high exChain 0 (9 / 10) 0 = .ok (mh, rh) ∧
      calibrate_too_low exChain 0 (9 / 10) = .ok (ml, rl) ∧
      mh.params_step[0]? = some newh ∧ ml.params_step[0]? = some newl ∧
      newh = min ((1 : ℚ) / (9 / 10)) (10 - 0) ∧ newl = 1 * (9 / 10) ∧
      ((1 : ℚ) < 9 / 10 → newh < 1 ∧ 1 < newl) ∧
      ((9 / 10 : ℚ) < 1 → newl < 1 ∧ ((1 : ℚ) < 10 - 0 → 1 < newh)) :=
  calibrate_step_direction exChain 0 (9 / 10) 1 0 10 0 rfl rfl rfl (by norm_num) (by norm_num)
    (by norm_num)

/-! ## The loop of the classical calibrator -/

/-- One pass of the `while (1)` loop of `markov_chain_calibrate_orig`. -/
theorem calibrate_loop_unfold (cfg : Config α) (M : Model α) (circ : List Nat) (iter_limit : Nat)
    (mul : α) (c : Calibration α) :
    calibrate_loop cfg M circ iter_limit mul c =
      match calibrate_sweep M circ c.m c.rng with
      | .error e => .error e
      | .ok (m, rng) =>
        if cfg.ITER_READJUST = 0 then .error .undefined
        else if (c.iter + 1) % cfg.ITER_READJUST = 0 then
          match calibrate_inspect cfg M circ mul
              { c with m := m, rng := rng, iter := c.iter + 1 } with
          | .error e => .error e
          | .ok r =>
            if r.nchecks_without_rescaling ≥ cfg.NO_RESCALING_LIMIT ∧ r.reached_perfection = 1
                ∧ r.rescaled = 0 then
              .ok { m := r.m, rng := r.rng, iter := c.iter + 1, rat_limit := r.rat_limit,
                    nchecks_without_rescaling := r.nchecks_without_rescaling }
            else if c.iter + 1 > iter_limit then
              .error (.exit1 (.iteration_limit iter_limit))
            else
              calibrate_loop cfg M circ iter_limit mul
                { m := r.m, rng := r.rng, iter := c.iter + 1, rat_limit := r.rat_limit,
                  nchecks_without_rescaling := r.nchecks_without_rescaling }
        else
          calibrate_loop cfg M circ iter_limit mul
            { c with m := m, rng := rng, iter := c.iter + 1 } := by
  rw [calibrate_loop]
  simp only [dite_eq_ite]

/-- A pass of the loop without inspection. -/
theorem calibrate_loop_between (cfg : Config α) (M : Model α) (circ : List Nat)
    (iter_limit : Nat) (mul : α) (c : Calibration α) (m : Mcmc α) (rng : List α)
    (hR : cfg.ITER_READJUST ≠ 0) (hmod : (c.iter + 1) % cfg.ITER_READJUST ≠ 0)
    (hsweep : calibrate_sweep M circ c.m c.rng = .ok (m, rng)) :
    calibrate_loop cfg M circ iter_limit mul c =
      calibrate_loop cfg M circ iter_limit mul { c with m := m, rng := rng, iter := c.iter + 1 } := by
  rw [calibrate_loop_unfold, hsweep]
  simp only [if_neg hR, if_neg hmod]

/-- A pass of the loop with a returning inspection. -/
theorem calibrate_loop_inspect (cfg : Config α) (M : Model α) (circ : List Nat)
    (iter_limit : Nat) (mul : α) (c : Calibration α) (m : Mcmc α) (rng : List α)
    (r : Inspection α)
    (hR : cfg.ITER_READJUST ≠ 0) (hmod : (c.iter + 1) % cfg.ITER_READJUST = 0)
    (hsweep : calibrate_sweep M circ c.m c.rng = .ok (m, rng))
    (hins : calibrate_inspect cfg M circ mul { c with m := m, rng := rng, iter := c.iter + 1 }
      = .ok r) :
    calibrate_loop cfg M circ iter_limit mul c =
      if r.nchecks_without_rescaling ≥ cfg.NO_RESCALING_LIMIT ∧ r.reached_perfection = 1
          ∧ r.rescaled = 0 then
        .ok { m := r.m, rng := r.rng, iter := c.iter + 1, rat_limit := r.rat_limit,
              nchecks_without_rescaling := r.nchecks_without_rescaling }
      else if c.iter + 1 > iter_limit then
        .error (.exit1 (.iteration_limit iter_limit))
      else
        calibrate_loop cfg M circ iter_limit mul
          { m := r.m, rng := r.rng, iter := c.iter + 1, rat_limit := r.rat_limit,
            nchecks_without_rescaling := r.nchecks_without_rescaling } := by
  rw [calibrate_loop_unfold, hsweep]
  simp only [if_neg hR, if_pos hmod, hins]

/-- What a returning inspection has computed. -/
theorem calibrate_inspect_ok (cfg : Config α) (M : Model α) (circ : List Nat) (mul : α)
    (c : Calibration α) (r : Inspection α) (h : calibrate_inspect cfg M circ mul c = .ok r) :
    ∃ rates m1 rate, get_accept_rate c.m = .ok rates ∧
      (List.range (get_n_par c.m)).foldlM
        (calibrate_inspect_for rates c.rat_limit mul) (c.m, 0) = .ok (m1, r.rescaled) ∧
      markov_chain_steps_checked M circ cfg.ITER_READJUST
        (reset_accept_rejects (restart_from_best m1)) c.rng = .ok (r.m, r.rng) ∧
      get_accept_rate_global r.m = .ok rate ∧
      r.nchecks_without_rescaling =
        (if r.rescaled = 0 then c.nchecks_without_rescaling + 1
          else c.nchecks_without_rescaling) ∧
      r.reached_perfection =
        (if abs_double (rate - cfg.TARGET_ACCEPTANCE_RATE) < 1 / 100 then 1 else 0) ∧
      r.rat_limit =
        (if abs_double (rate - cfg.TARGET_ACCEPTANCE_RATE) < 1 / 100 then c.rat_limit
          else if rate - cfg.TARGET_ACCEPTANCE_RATE < 0 then c.rat_limit / (99 / 100)
          else c.rat_limit * (99 / 100)) := by
  unfold calibrate_inspect at h
  cases h1 : get_accept_rate c.m with
  | error e => simp [h1, bind, Except.bind] at h
  | ok rates =>
  cases h2 : (List.range (get_n_par c.m)).foldlM
      (calibrate_inspect_for rates c.rat_limit mul) (c.m, 0) with
  | error e => simp [h1, h2, bind, Except.bind] at h
  | ok mr =>
  obtain ⟨m1, rescaled⟩ := mr
  cases h3 : markov_chain_steps_checked M circ cfg.ITER_READJUST
      (reset_accept_rejects (restart_from_best m1)) c.rng with
  | error e => simp [h1, h2, h3, bind, Except.bind] at h
  | ok mr2 =>
  obtain ⟨m2, rng2⟩ := mr2
  cases h4 : get_accept_rate_global m2 with
  | error e => simp [h1, h2, h3, h4, bind, Except.bind] at h
  | ok rate =>
  simp only [h1, h2, h3, h4, bind, Except.bind, pure, Except.pure, Except.ok.injEq] at h
  subst h
  exact ⟨rates, m1, rate, rfl, h2, h3, h4, rfl, rfl, rfl⟩

/-- The counter of inspections without rescaling never decreases in an
inspection. -/
theorem calibrate_inspect_counter (cfg : Config α) (M : Model α) (circ : List Nat) (mul : α)
    (c : Calibration α) (r : Inspection α) (h : calibrate_inspect cfg M circ mul c = .ok r) :
    c.nchecks_without_rescaling ≤ r.nchecks_without_rescaling := by
  obtain ⟨_, _, _, -, -, -, -, hn, -, -⟩ := calibrate_inspect_ok cfg M circ mul c r h
  rw [hn]
  split_ifs <;> omega

/-- The successor of `a ≤ b` is at most the first multiple of `R` above `b`. -/
theorem succ_le_next_multiple (R a b : Nat) (hR : R ≠ 0) (hab : a ≤ b) :
    a + 1 ≤ (b / R + 1) * R := by
  have hpos : 0 < R := Nat.pos_of_ne_zero hR
  have h1 : b < (b / R + 1) * R := by
    have := Nat.lt_div_mul_add hpos (a := b)
    rw [add_mul, one_mul]
    exact this
  omega

/-- What a successful return of the loop tells about its last inspection. -/
theorem calibrate_loop_ok_last (cfg : Config α) (M : Model α) (circ : List Nat)
    (iter_limit : Nat) (mul : α) (c c' : Calibration α)
    (h : calibrate_loop cfg M circ iter_limit mul c = .ok c') :
    cfg.ITER_READJUST ≠ 0 ∧ c.iter < c'.iter ∧ c'.iter % cfg.ITER_READJUST = 0 ∧
    c'.iter ≤ (max c.iter iter_limit / cfg.ITER_READJUST + 1) * cfg.ITER_READJUST ∧
    c.nchecks_without_rescaling ≤ c'.nchecks_without_rescaling ∧
    ∃ (c0 : Calibration α) (m : Mcmc α) (rng : List α) (r : Inspection α),
      calibrate_sweep M circ c0.m c0.rng = .ok (m, rng) ∧
      calibrate_inspect cfg M circ mul { c0 with m := m, rng := rng, iter := c0.iter + 1 } = .ok r ∧
      r.nchecks_without_rescaling ≥ cfg.NO_RESCALING_LIMIT ∧ r.reached_perfection = 1 ∧
      r.rescaled = 0 ∧
      c' = { m := r.m, rng := r.rng, iter := c0.iter + 1, rat_limit := r.rat_limit,
             nchecks_without_rescaling := r.nchecks_without_rescaling } := by
  induction c using calibrate_loop.induct cfg M circ iter_limit mul with
  | case1 x e hs =>
    rw [calibrate_loop_unfold, hs] at h
    simp at h
  | case2 x m rng hs hz =>
    rw [calibrate_loop_unfold, hs] at h
    simp [hz] at h
  | case3 x m rng hs hz hr e hi =>
    rw [calibrate_loop_unfold, hs] at h
    simp [hz, hr, hi] at h
  | case4 x m rng hs hz hr r hi hsucc =>
    rw [calibrate_loop_inspect cfg M circ iter_limit mul x m rng r hz hr hs hi, if_pos hsucc] at h
    simp only [Except.ok.injEq] at h
    subst h
    have hcnt := calibrate_inspect_counter _ _ _ _ _ _ hi
    refine ⟨hz, Nat.lt_succ_self _, hr, ?_, hcnt,
      x, m, rng, r, hs, hi, hsucc.1, hsucc.2.1, hsucc.2.2, rfl⟩
    show x.iter + 1 ≤ _
    exact succ_le_next_multiple _ _ _ hz (le_max_left _ _)
  | case5 x m rng hs hz hr r hi hsucc hl =>
    rw [calibrate_loop_inspect cfg M circ iter_limit mul x m rng r hz hr hs hi, if_neg hsucc,
      if_pos hl] at h
    simp at h
  | case6 x m rng hs hz hr r hi hsucc hl ih =>
    rw [calibrate_loop_inspect cfg M circ iter_limit mul x m rng r hz hr hs hi, if_neg hsucc,
      if_neg hl] at h
    obtain ⟨h1, h2, h3, h4, h5, h6⟩ := ih h
    simp only at h2 h4 h5
    have hcnt := calibrate_inspect_counter _ _ _ _ _ _ hi
    refine ⟨h1, by omega, h3, ?_, ?_, h6⟩
    · have hle : x.iter + 1 ≤ iter_limit := Nat.le_of_not_lt hl
      rw [max_eq_right hle] at h4
      rw [max_eq_right (by omega : x.iter ≤ iter_limit)]
      exact h4
    · exact le_trans hcnt h5
  | case7 x m rng hs hz hr ih =>
    rw [calibrate_loop_between cfg M circ iter_limit mul x m rng hz hr hs] at h
    obtain ⟨h1, h2, h3, h4, h5, h6⟩ := ih h
    simp only at h2 h4 h5
    refine ⟨h1, by omega, h3, ?_, h5, h6⟩
    by_cases hle : x.iter + 1 ≤ iter_limit
    · rw [max_eq_right hle] at h4
      rw [max_eq_right (by omega : x.iter ≤ iter_limit)]
      exact h4
    · have hge : iter_limit ≤ x.iter := by omega
      rw [max_eq_left (by omega : iter_limit ≤ x.iter + 1)] at h4
      rw [max_eq_left hge]
      have hdiv : (x.iter + 1) / cfg.ITER_READJUST = x.iter / cfg.ITER_READJUST := by
        rw [Nat.succ_div]
        simp [Nat.dvd_iff_mod_eq_zero, hr]
      rw [hdiv] at h4
      exact h4

/-- The flag `rescaled` after a returning inspection of parameter `i`. -/
theorem calibrate_inspect_for_flag (rates : List α) (rat_limit mul : α) (m m' : Mcmc α)
    (rescaled rescaled' : Int) (i : Nat)
    (h : calibrate_inspect_for rates rat_limit mul (m, rescaled) i = .ok (m', rescaled')) :
    ∃ rate, rates[i]? = some rate ∧
      ((rate > rat_limit + 1 / 20 ∧ ∃ step lo hi, m.params_step[i]? = some step ∧
          m.params_min[i]? = some lo ∧ m.params_max[i]? = some hi ∧
          rescaled' = (if step / mul / (hi - lo) > 1 then
              (if rescaled = 0 then 0 else if rescaled = -1 then 0 else rescaled)
            else (if rescaled = 0 then 1 else if rescaled = -1 then 1 else rescaled))) ∨
        (rate < rat_limit - 1 / 20 ∧ rescaled' = 1) ∨
        (rat_limit - 1 / 20 ≤ rate ∧ rate ≤ rat_limit + 1 / 20 ∧ rescaled' = rescaled)) := by
  unfold calibrate_inspect_for at h
  cases h1 : gsl_vector_get rates i with
  | error e => simp [h1, bind, Except.bind] at h
  | ok rate =>
  refine ⟨rate, gsl_vector_get_ok.mp h1, ?_⟩
  simp only [h1, bind, Except.bind] at h
  by_cases hhigh : rate > rat_limit + 1 / 20
  · have hlow : ¬ rate < rat_limit - 1 / 20 := by
      intro hl
      linarith
    simp only [if_pos hhigh, if_neg hlow] at h
    cases h2 : calibrate_too_high m i mul rescaled with
    | error e => simp [h2] at h
    | ok mr =>
      obtain ⟨m2, r2⟩ := mr
      obtain ⟨step, lo, hi, hs, hlo, hhi, hmul, hne⟩ := calibrate_too_high_ok m m2 i mul _ _ h2
      have h2b := h2
      rw [calibrate_too_high_of m i mul step lo hi rescaled hs hlo hhi hmul hne] at h2b
      simp only [Except.ok.injEq, Prod.mk.injEq] at h2b
      rw [h2] at h
      simp only [pure, Except.pure] at h
      cases h3 : assert_steps_positive m2 with
      | error e => simp [h3] at h
      | ok u =>
        simp only [h3, Except.ok.injEq, Prod.mk.injEq] at h
        rw [← h.2, ← h2b.2]
        exact Or.inl ⟨hhigh, step, lo, hi, hs, hlo, hhi, rfl⟩
  · simp only [if_neg hhigh, pure, Except.pure] at h
    by_cases hlow : rate < rat_limit - 1 / 20
    · simp only [if_pos hlow] at h
      cases h2 : calibrate_too_low m i mul with
      | error e => simp [h2] at h
      | ok mr =>
        obtain ⟨m2, r2⟩ := mr
        obtain ⟨step, lo, hi, hs, hlo, hhi, hne⟩ := calibrate_too_low_ok m m2 i mul _ h2
        have h2b := h2
        rw [calibrate_too_low_of m i mul step lo hi hs hlo hhi hne] at h2b
        simp only [Except.ok.injEq, Prod.mk.injEq] at h2b
        rw [h2] at h
        cases h3 : assert_steps_positive m2 with
        | error e => simp [h3] at h
        | ok u =>
          simp only [h3, Except.ok.injEq, Prod.mk.injEq] at h
          rw [← h.2, ← h2b.2]
          exact Or.inr (Or.inl ⟨hlow, rfl⟩)
    · simp only [if_neg hlow] at h
      cases h3 : assert_steps_positive m with
      | error e => simp [h3] at h
      | ok u =>
        simp only [h3, Except.ok.injEq, Prod.mk.injEq] at h
        exact Or.inr (Or.inr ⟨not_lt.mp hlow, not_lt.mp hhigh, h.2.symm⟩)

/-- The flag `rescaled` at the end of a returning inspection loop is 0 or 1,
and it is 0 exactly when no rate was below the band and every parameter with a
rate above the band had its divided step clamped to the parameter range. -/
theorem calibrate_inspect_fold_flag (rates : List α) (rat_limit mul : α) (m m1 : Mcmc α)
    (rescaled1 : Int)
    (h : (List.range (get_n_par m)).foldlM (calibrate_inspect_for rates rat_limit mul) (m, 0)
      = .ok (m1, rescaled1)) :
    (rescaled1 = 0 ∨ rescaled1 = 1) ∧
    (rescaled1 = 0 ↔ ∀ i : Nat, i < m.n_par → ∃ rate, rates[i]? = some rate ∧
      rat_limit - 1 / 20 ≤ rate ∧
      (rate > rat_limit + 1 / 20 → ∃ step lo hi, m.params_step[i]? = some step ∧
        m.params_min[i]? = some lo ∧ m.params_max[i]? = some hi ∧
        step / mul / (hi - lo) > 1)) := by
  have key := foldlM_range_inv (calibrate_inspect_for rates rat_limit mul)
    (fun k (s : Mcmc α × Int) =>
      s.1.params_min = m.params_min ∧ s.1.params_max = m.params_max ∧
      (∀ i : Nat, k ≤ i → s.1.params_step[i]? = m.params_step[i]?) ∧
      (s.2 = 0 ∨ s.2 = 1) ∧
      (s.2 = 0 ↔ ∀ i : Nat, i < k → ∃ rate, rates[i]? = some rate ∧
        rat_limit - 1 / 20 ≤ rate ∧
        (rate > rat_limit + 1 / 20 → ∃ step lo hi, m.params_step[i]? = some step ∧
          m.params_min[i]? = some lo ∧ m.params_max[i]? = some hi ∧
          step / mul / (hi - lo) > 1)))
    (get_n_par m) (m, 0)
    ⟨rfl, rfl, fun i _ => rfl, Or.inl rfl,
      ⟨fun _ i hi => absurd hi (Nat.not_lt_zero i), fun _ => rfl⟩⟩
    (by
      rintro k ⟨mk, rk⟩ ⟨mk', rk'⟩ hk ⟨hmin, hmax, hrest, h01, hiff⟩ hstep
      simp only at hmin hmax hrest h01 hiff
      obtain ⟨rate, hrate, hcase, -⟩ :=
        calibrate_inspect_for_ok rates rat_limit mul mk mk' rk rk' k hstep
      obtain ⟨rate', hrate', hflag⟩ :=
        calibrate_inspect_for_flag rates rat_limit mul mk mk' rk rk' k hstep
      have hrr : rate = rate' := Option.some.inj (hrate.symm.trans hrate')
      subst hrr
      -- the frame of the state
      have hframe : mk'.params_min = mk.params_min ∧ mk'.params_max = mk.params_max ∧
          ∀ i : Nat, k + 1 ≤ i → mk'.params_step[i]? = mk.params_step[i]? := by
        rcases hcase with ⟨-, step, lo, hi, -, -, -, hm'⟩ | ⟨-, step, -, hm'⟩ | ⟨-, -, hm', -⟩
        · rw [hm']
          refine ⟨rfl, rfl, fun i hi => ?_⟩
          show (mk.params_step.set k _)[i]? = _
          rw [List.getElem?_set_ne (by omega)]
        · rw [hm']
          refine ⟨rfl, rfl, fun i hi => ?_⟩
          show (mk.params_step.set k _)[i]? = _
          rw [List.getElem?_set_ne (by omega)]
        · rw [hm']
          exact ⟨rfl, rfl, fun i _ => rfl⟩
      -- the condition of parameter `k` in terms of its rate
      have hsplit : ∀ (P : Nat → Prop), (∀ i : Nat, i < k + 1 → P i) ↔
          ((∀ i : Nat, i < k → P i) ∧ P k) := by
        intro P
        constructor
        · intro hall
          exact ⟨fun i hi => hall i (by omega), hall k (by omega)⟩
        · rintro ⟨h1, h2⟩ i hi
          by_cases hik : i = k
          · rw [hik]
            exact h2
          · exact h1 i (by omega)
      refine ⟨hframe.1.trans hmin, hframe.2.1.trans hmax,
        fun i hi => (hframe.2.2 i hi).trans (hrest i (by omega)), ?_, ?_⟩
      · show rk' = 0 ∨ rk' = 1
        rcases hflag with ⟨-, step, lo, hi, -, -, -, hr⟩ | ⟨-, hr⟩ | ⟨-, -, hr⟩
        · rw [hr]
          rcases h01 with h0 | h0 <;> rw [h0] <;> split_ifs <;> simp
        · exact Or.inr hr
        · rw [hr]
          exact h01
      · show rk' = 0 ↔ _
        rw [hsplit]
        rcases hflag with ⟨hhigh, step, lo, hi, hs, hlo, hhi, hr⟩ | ⟨hlow, hr⟩ | ⟨hb1, hb2, hr⟩
        · have hs0 : m.params_step[k]? = some step := (hrest k (le_refl k)).symm.trans hs
          have hlo0 : m.params_min[k]? = some lo := hmin ▸ hlo
          have hhi0 : m.params_max[k]? = some hi := hmax ▸ hhi
          constructor
          · intro h0
            have hc : step / mul / (hi - lo) > 1 := by
              by_contra hc
              rw [hr, if_neg hc] at h0
              rcases h01 with h1 | h1 <;> rw [h1] at h0 <;> simp at h0
            have hrk : rk = 0 := by
              rw [hr, if_pos hc] at h0
              rcases h01 with h1 | h1
              · exact h1
              · rw [h1] at h0
                simp at h0
            exact ⟨hiff.mp hrk, rate, hrate, by linarith,
              fun _ => ⟨step, lo, hi, hs0, hlo0, hhi0, hc⟩⟩
          · rintro ⟨hall, rate2, hrate2, -, hq⟩
            have hrr : rate = rate2 := Option.some.inj (hrate.symm.trans hrate2)
            subst hrr
            obtain ⟨step2, lo2, hi2, hs2, hlo2, hhi2, hc⟩ := hq hhigh
            have e1 : step = step2 := Option.some.inj (hs0.symm.trans hs2)
            have e2 : lo = lo2 := Option.some.inj (hlo0.symm.trans hlo2)
            have e3 : hi = hi2 := Option.some.inj (hhi0.symm.trans hhi2)
            subst e1 e2 e3
            rw [hr, if_pos hc, hiff.mpr hall]
            simp
        · constructor
          · intro h0
            rw [hr] at h0
            exact absurd h0 (by decide)
          · rintro ⟨-, rate2, hrate2, hge, -⟩
            have hrr : rate = rate2 := Option.some.inj (hrate.symm.trans hrate2)
            subst hrr
            exact absurd hlow (not_lt.mpr hge)
        · rw [hr, hiff]
          constructor
          · intro hall
            exact ⟨hall, rate, hrate, hb1, fun hh => absurd hh (not_lt.mpr hb2)⟩
          · rintro ⟨hall, -⟩
            exact hall)
    (m1, rescaled1) h
  exact ⟨key.2.2.2.1, key.2.2.2.2⟩

/-! ## Runs of the classical calibrator on the one-parameter chain -/

/-- A loop of `burn_in` whose bound is reached does nothing. -/
theorem burn_in_loop_done (M : Model α) (circ : List Nat) (bound iter : Nat) (m : Mcmc α)
    (rng : List α) (h : ¬ iter < bound) :
    burn_in_loop M circ bound iter m rng = .ok (iter, m, rng) := by
  rw [burn_in_loop, if_neg h]

/-- Without burn-in iterations and with `rat_limit = 1/2`,
`markov_chain_calibrate_orig` enters its loop on `exOne` restarted from its
best point, with the step `1 * adjust_step`. -/
theorem markov_chain_calibrate_orig_exOne (cfg : Config ℚ) (M : Model ℚ) (iter_limit : Nat)
    (mul adjust_step : ℚ) (rng : List ℚ) :
    markov_chain_calibrate_orig exLibm cfg M [] exOne 0 (1 / 2) iter_limit mul adjust_step rng =
      match calibrate_loop cfg M [] iter_limit mul
          ⟨exState 5 (-10000000) 5 (-5) adjust_step 0 0, rng, 0, 1 / 2, 0⟩ with
      | .error e => .error e
      | .ok c => .ok (reset_accept_rejects c.m, c.rng) := by
  have hb : burn_in M [] exOne 0 rng = .ok (exState 5 (-10000000) 5 (-5) 1 0 0, rng) := by
    unfold burn_in
    rw [show (0 : Nat) / 2 = 0 from rfl]
    norm_num [burn_in_loop_done, gsl_vector_sub, dup_vector, gsl_vector_scale, mcmc_check,
      exOne, exChain, exState, get_steps, restart_from_best, set_params, set_prob,
      get_params_best, gsl_vector_memcpy, bind, Except.bind, pure, Except.pure]
  have hs : reset_accept_rejects
      { exState 5 (-10000000) 5 (-5) 1 0 0 with
        params_step :=
          gsl_vector_scale (exState 5 (-10000000) 5 (-5) 1 0 0).params_step adjust_step }
      = exState 5 (-10000000) 5 (-5) adjust_step 0 0 := by
    norm_num [gsl_vector_scale, reset_accept_rejects, exState, exOne, exChain]
  unfold markov_chain_calibrate_orig
  rw [hb]
  simp only [bind, Except.bind, hs, if_neg (by norm_num : ¬ ((1 : ℚ) / 2 < 0))]
  cases calibrate_loop cfg M [] iter_limit mul
    ⟨exState 5 (-10000000) 5 (-5) adjust_step 0 0, rng, 0, 1 / 2, 0⟩ <;> rfl

/-- The fourth sweep of the run `exRun_loop`: the draw `-1` is accepted. -/
theorem exRun_sweep4 :
    calibrate_sweep exModel [] (exState 5 (-5) 5 (-5) 1 2 1) [-1, 9 / 10, 9 / 10, -1 / 2, 9 / 10, -1 / 2, -9 / 10, 9 / 10, 9 / 10, -1 / 2]
      = .ok (exState 4 (-4) 4 (-4) 1 3 1, [9 / 10, 9 / 10, -1 / 2, 9 / 10, -1 / 2, -9 / 10, 9 / 10, 9 / 10, -1 / 2]) := by
  norm_num [calibrate_sweep, get_n_par, exState, exOne, exChain, List.range, List.range.loop,
    List.foldlM, markov_chain_step_for, mcmc_check, do_step_for, gsl_vector_get,
    get_next_gauss_random, next_draw, bind, Except.bind, do_step_for_adjust, redraw_while,
    do_step_for_store, set_params_for, gsl_vector_set, pure, Except.pure, check_accept,
    calc_model_for, exModel, get_prob, set_prob, get_next_alog_urandom,
    inc_params_accepts_for, inc_params_rejects_for, revert, mcmc_check_best]

/-- The second inspection of the run `exRun_loop`: the rate `3/4` is too high, the
step `1` becomes `10/9`, the flag `rescaled` is 1 and the counter stays at 1. -/
theorem exRun_inspect2 :
    calibrate_inspect exConfigTwo exModel [] (9 / 10)
      ⟨exState 4 (-4) 4 (-4) 1 3 1, [9 / 10, 9 / 10, -1 / 2, 9 / 10, -1 / 2, -9 / 10, 9 / 10, 9 / 10, -1 / 2], 4, 1 / 2, 1⟩
      = .ok ⟨exState (49 / 10) (-49 / 10) 4 (-4) (10 / 9) 1 1, [9 / 10, -1 / 2, -9 / 10, 9 / 10, 9 / 10, -1 / 2], 1 / 2, 1, 1, 1⟩ := by
  norm_num [calibrate_inspect, get_accept_rate, accept_rates, div_double,
    calibrate_inspect_for, calibrate_too_high, calibrate_too_low, get_steps_for, get_steps,
    set_steps_for, calibrate_clamp, calibrate_too_large, get_steps_for_normalized,
    set_steps_for_normalized, assert_steps_positive, double_to_int, INT_MIN, INT_MAX,
    restart_from_best, set_params, dup_vector, get_params_best, reset_accept_rejects,
    markov_chain_steps_checked, markov_chain_step, do_step, calc_model, inc_params_accepts,
    inc_params_rejects, get_accept_rate_global, abs_double, exConfigTwo, get_n_par, exState,
    exOne, exChain, List.range, List.range.loop, List.foldlM, mcmc_check, do_step_for,
    gsl_vector_get, get_next_gauss_random, next_draw, bind, Except.bind, do_step_for_adjust,
    redraw_while, do_step_for_store, set_params_for, gsl_vector_set, pure, Except.pure,
    check_accept, exModel, get_prob, set_prob, get_next_alog_urandom, revert,
    mcmc_check_best]

/-- The sixth sweep of the run `exRun_loop`: the draw `-9/10` is accepted. -/
theorem exRun_sweep6 :
    calibrate_sweep exModel [] (exState (49 / 10) (-49 / 10) 4 (-4) (10 / 9) 1 2) [-9 / 10, 9 / 10, 9 / 10, -1 / 2]
      = .ok (exState 4 (-4) 4 (-4) (10 / 9) 2 2, [9 / 10, 9 / 10, -1 / 2]) := by
  norm_num [calibrate_sweep, get_n_par, exState, exOne, exChain, List.range, List.range.loop,
    List.foldlM, markov_chain_step_for, mcmc_check, do_step_for, gsl_vector_get,
    get_next_gauss_random, next_draw, bind, Except.bind, do_step_for_adjust, redraw_while,
    do_step_for_store, set_params_for, gsl_vector_set, pure, Except.pure, check_accept,
    calc_model_for, exModel, get_prob, set_prob, get_next_alog_urandom,
    inc_params_accepts_for, inc_params_rejects_for, revert, mcmc_check_best]

/-- The third inspection of the run `exRun_loop`: the rate `1/2` is within the band,
nothing is rescaled and the counter becomes 2. -/
theorem exRun_inspect3 :
    calibrate_inspect exConfigTwo exModel [] (9 / 10)
      ⟨exState 4 (-4) 4 (-4) (10 / 9) 2 2, [9 / 10, 9 / 10, -1 / 2], 6, 1 / 2, 1⟩
      = .ok ⟨exState (49 / 10) (-49 / 10) 4 (-4) (10 / 9) 1 1, [], 1 / 2, 2, 1, 0⟩ := by
  norm_num [calibrate_inspect, get_accept_rate, accept_rates, div_double,
    calibrate_inspect_for, calibrate_too_high, calibrate_too_low, get_steps_for, get_steps,
    set_steps_for, calibrate_clamp, calibrate_too_large, get_steps_for_normalized,
    set_steps_for_normalized, assert_steps_positive, double_to_int, INT_MIN, INT_MAX,
    restart_from_best, set_params, dup_vector, get_params_best, reset_accept_rejects,
    markov_chain_steps_checked, markov_chain_step, do_step, calc_model, inc_params_accepts,
    inc_params_rejects, get_accept_rate_global, abs_double, exConfigTwo, get_n_par, exState,
    exOne, exChain, List.range, List.range.loop, List.foldlM, mcmc_check, do_step_for,
    gsl_vector_get, get_next_gauss_random, next_draw, bind, Except.bind, do_step_for_adjust,
    redraw_while, do_step_for_store, set_params_for, gsl_vector_set, pure, Except.pure,
    check_accept, exModel, get_prob, set_prob, get_next_alog_urandom, revert,
    mcmc_check_best]

/-- A run of the loop of `markov_chain_calibrate_orig` with `ITER_READJUST = 2`,
`NO_RESCALING_LIMIT = 2`, `TARGET_ACCEPTANCE_RATE = 1/2`, `rat_limit = 1/2`,
`mul = 9/10` and an iteration limit of at least 4, on the one-parameter chain
`exOne` restarted from its best point.  It makes six sweeps and three
inspections, at the counter values 2, 4 and 6: the first does not rescale
(counter 1), the second rescales (counter 1), the third does not rescale
(counter 2) and returns. -/
theorem exRun_loop (iter_limit : Nat) (h : 4 ≤ iter_limit) :
    calibrate_loop exConfigTwo exModel [] iter_limit (9 / 10)
        ⟨exState 5 (-10000000) 5 (-5) 1 0 0, [1, 1, -1 / 2, 1, 1, -1 / 2, -1, -1, 9 / 10, 9 / 10, -1 / 2, 9 / 10, -1 / 2, -9 / 10, 9 / 10, 9 / 10, -1 / 2], 0, 1 / 2, 0⟩
      = .ok ⟨exState (49 / 10) (-49 / 10) 4 (-4) (10 / 9) 1 1, [], 6, 1 / 2, 2⟩ := by
  have hR : exConfigTwo.ITER_READJUST ≠ 0 := by decide
  have s1 : calibrate_sweep exModel [] (exState 5 (-10000000) 5 (-5) 1 0 0) [1, 1, -1 / 2, 1, 1, -1 / 2, -1, -1, 9 / 10, 9 / 10, -1 / 2, 9 / 10, -1 / 2, -9 / 10, 9 / 10, 9 / 10, -1 / 2]
      = .ok (exState 6 (-6) 5 (-5) 1 1 0, [1, -1 / 2, 1, 1, -1 / 2, -1, -1, 9 / 10, 9 / 10, -1 / 2, 9 / 10, -1 / 2, -9 / 10, 9 / 10, 9 / 10, -1 / 2]) := by
    norm_num [calibrate_sweep, get_n_par, exState, exOne, exChain, List.range, List.range.loop,
      List.foldlM, markov_chain_step_for, mcmc_check, do_step_for, gsl_vector_get,
      get_next_gauss_random, next_draw, bind, Except.bind, do_step_for_adjust, redraw_while,
      do_step_for_store, set_params_for, gsl_vector_set, pure, Except.pure, check_accept,
      calc_model_for, exModel, get_prob, set_prob, get_next_alog_urandom,
      inc_params_accepts_for, inc_params_rejects_for, revert, mcmc_check_best]
  have s2 : calibrate_sweep exModel [] (exState 6 (-6) 5 (-5) 1 1 0) [1, -1 / 2, 1, 1, -1 / 2, -1, -1, 9 / 10, 9 / 10, -1 / 2, 9 / 10, -1 / 2, -9 / 10, 9 / 10, 9 / 10, -1 / 2]
      = .ok (exState 6 (-6) 5 (-5) 1 1 1, [1, 1, -1 / 2, -1, -1, 9 / 10, 9 / 10, -1 / 2, 9 / 10, -1 / 2, -9 / 10, 9 / 10, 9 / 10, -1 / 2]) := by
    norm_num [calibrate_sweep, get_n_par, exState, exOne, exChain, List.range, List.range.loop,
      List.foldlM, markov_chain_step_for, mcmc_check, do_step_for, gsl_vector_get,
      get_next_gauss_random, next_draw, bind, Except.bind, do_step_for_adjust, redraw_while,
      do_step_for_store, set_params_for, gsl_vector_set, pure, Except.pure, check_accept,
      calc_model_for, exModel, get_prob, set_prob, get_next_alog_urandom,
      inc_params_accepts_for, inc_params_rejects_for, revert, mcmc_check_best]
  have i1 : calibrate_inspect exConfigTwo exModel [] (9 / 10)
      ⟨exState 6 (-6) 5 (-5) 1 1 1, [1, 1, -1 / 2, -1, -1, 9 / 10, 9 / 10, -1 / 2, 9 / 10, -1 / 2, -9 / 10, 9 / 10, 9 / 10, -1 / 2], 2, 1 / 2, 0⟩
      = .ok ⟨exState 6 (-6) 5 (-5) 1 1 1, [-1, -1, 9 / 10, 9 / 10, -1 / 2, 9 / 10, -1 / 2, -9 / 10, 9 / 10, 9 / 10, -1 / 2], 1 / 2, 1, 1, 0⟩ := by
    norm_num [calibrate_inspect, get_accept_rate, accept_rates, div_double,
      calibrate_inspect_for, calibrate_too_high, calibrate_too_low, get_steps_for, get_steps,
      set_steps_for, calibrate_clamp, calibrate_too_large, get_steps_for_normalized,
      set_steps_for_normalized, assert_steps_positive, double_to_int, INT_MIN, INT_MAX,
      restart_from_best, set_params, dup_vector, get_params_best, reset_accept_rejects,
      markov_chain_steps_checked, markov_chain_step, do_step, calc_model, inc_params_accepts,
      inc_params_rejects, get_accept_rate_global, abs_double, exConfigTwo, get_n_par, exState,
      exOne, exChain, List.range, List.range.loop, List.foldlM, mcmc_check, do_step_for,
      gsl_vector_get, get_next_gauss_random, next_draw, bind, Except.bind, do_step_for_adjust,
      redraw_while, do_step_for_store, set_params_for, gsl_vector_set, pure, Except.pure,
      check_accept, exModel, get_prob, set_prob, get_next_alog_urandom, revert,
      mcmc_check_best]
  have s3 : calibrate_sweep exModel [] (exState 6 (-6) 5 (-5) 1 1 1) [-1, -1, 9 / 10, 9 / 10, -1 / 2, 9 / 10, -1 / 2, -9 / 10, 9 / 10, 9 / 10, -1 / 2]
      = .ok (exState 5 (-5) 5 (-5) 1 2 1, [-1, 9 / 10, 9 / 10, -1 / 2, 9 / 10, -1 / 2, -9 / 10, 9 / 10, 9 / 10, -1 / 2]) := by
    norm_num [calibrate_sweep, get_n_par, exState, exOne, exChain, List.range, List.range.loop,
      List.foldlM, markov_chain_step_for, mcmc_check, do_step_for, gsl_vector_get,
      get_next_gauss_random, next_draw, bind, Except.bind, do_step_for_adjust, redraw_while,
      do_step_for_store, set_params_for, gsl_vector_set, pure, Except.pure, check_accept,
      calc_model_for, exModel, get_prob, set_prob, get_next_alog_urandom,
      inc_params_accepts_for, inc_params_rejects_for, revert, mcmc_check_best]
  have s5 : calibrate_sweep exModel [] (exState (49 / 10) (-49 / 10) 4 (-4) (10 / 9) 1 1) [9 / 10, -1 / 2, -9 / 10, 9 / 10, 9 / 10, -1 / 2]
      = .ok (exState (49 / 10) (-49 / 10) 4 (-4) (10 / 9) 1 2, [-9 / 10, 9 / 10, 9 / 10, -1 / 2]) := by
    norm_num [calibrate_sweep, get_n_par, exState, exOne, exChain, List.range, List.range.loop,
      List.foldlM, markov_chain_step_for, mcmc_check, do_step_for, gsl_vector_get,
      get_next_gauss_random, next_draw, bind, Except.bind, do_step_for_adjust, redraw_while,
      do_step_for_store, set_params_for, gsl_vector_set, pure, Except.pure, check_accept,
      calc_model_for, exModel, get_prob, set_prob, get_next_alog_urandom,
      inc_params_accepts_for, inc_params_rejects_for, revert, mcmc_check_best]
  have l1 : calibrate_loop exConfigTwo exModel [] iter_limit (9 / 10)
        ⟨exState 5 (-10000000) 5 (-5) 1 0 0, [1, 1, -1 / 2, 1, 1, -1 / 2, -1, -1, 9 / 10, 9 / 10, -1 / 2, 9 / 10, -1 / 2, -9 / 10, 9 / 10, 9 / 10, -1 / 2], 0, 1 / 2, 0⟩
      = calibrate_loop exConfigTwo exModel [] iter_limit (9 / 10)
        ⟨exState 6 (-6) 5 (-5) 1 1 0, [1, -1 / 2, 1, 1, -1 / 2, -1, -1, 9 / 10, 9 / 10, -1 / 2, 9 / 10, -1 / 2, -9 / 10, 9 / 10, 9 / 10, -1 / 2], 1, 1 / 2, 0⟩ :=
    calibrate_loop_between _ _ _ _ _ ⟨exState 5 (-10000000) 5 (-5) 1 0 0, [1, 1, -1 / 2, 1, 1, -1 / 2, -1, -1, 9 / 10, 9 / 10, -1 / 2, 9 / 10, -1 / 2, -9 / 10, 9 / 10, 9 / 10, -1 / 2], 0, 1 / 2, 0⟩ _ _ hR
      (by decide) s1
  have l2 : calibrate_loop exConfigTwo exModel [] iter_limit (9 / 10)
        ⟨exState 6 (-6) 5 (-5) 1 1 0, [1, -1 / 2, 1, 1, -1 / 2, -1, -1, 9 / 10, 9 / 10, -1 / 2, 9 / 10, -1 / 2, -9 / 10, 9 / 10, 9 / 10, -1 / 2], 1, 1 / 2, 0⟩
      = calibrate_loop exConfigTwo exModel [] iter_limit (9 / 10)
        ⟨exState 6 (-6) 5 (-5) 1 1 1, [-1, -1, 9 / 10, 9 / 10, -1 / 2, 9 / 10, -1 / 2, -9 / 10, 9 / 10, 9 / 10, -1 / 2], 2, 1 / 2, 1⟩ := by
    rw [calibrate_loop_inspect _ _ _ _ _ ⟨exState 6 (-6) 5 (-5) 1 1 0, [1, -1 / 2, 1, 1, -1 / 2, -1, -1, 9 / 10, 9 / 10, -1 / 2, 9 / 10, -1 / 2, -9 / 10, 9 / 10, 9 / 10, -1 / 2], 1, 1 / 2, 0⟩ _ _ _ hR
      (by decide) s2 i1, if_neg (by norm_num [exConfigTwo]),
      if_neg (show ¬ (1 + 1 > iter_limit) from by omega)]
  have l3 : calibrate_loop exConfigTwo exModel [] iter_limit (9 / 10)
        ⟨exState 6 (-6) 5 (-5) 1 1 1, [-1, -1, 9 / 10, 9 / 10, -1 / 2, 9 / 10, -1 / 2, -9 / 10, 9 / 10, 9 / 10, -1 / 2], 2, 1 / 2, 1⟩
      = calibrate_loop exConfigTwo exModel [] iter_limit (9 / 10)
        ⟨exState 5 (-5) 5 (-5) 1 2 1, [-1, 9 / 10, 9 / 10, -1 / 2, 9 / 10, -1 / 2, -9 / 10, 9 / 10, 9 / 10, -1 / 2], 3, 1 / 2, 1⟩ :=
    calibrate_loop_between _ _ _ _ _ ⟨exState 6 (-6) 5 (-5) 1 1 1, [-1, -1, 9 / 10, 9 / 10, -1 / 2, 9 / 10, -1 / 2, -9 / 10, 9 / 10, 9 / 10, -1 / 2], 2, 1 / 2, 1⟩ _ _ hR
      (by decide) s3
  have l4 : calibrate_loop exConfigTwo exModel [] iter_limit (9 / 10)
        ⟨exState 5 (-5) 5 (-5) 1 2 1, [-1, 9 / 10, 9 / 10, -1 / 2, 9 / 10, -1 / 2, -9 / 10, 9 / 10, 9 / 10, -1 / 2], 3, 1 / 2, 1⟩
      = calibrate_loop exConfigTwo exModel [] iter_limit (9 / 10)
        ⟨exState (49 / 10) (-49 / 10) 4 (-4) (10 / 9) 1 1, [9 / 10, -1 / 2, -9 / 10, 9 / 10, 9 / 10, -1 / 2], 4, 1 / 2, 1⟩ := by
    rw [calibrate_loop_inspect _ _ _ _ _ ⟨exState 5 (-5) 5 (-5) 1 2 1, [-1, 9 / 10, 9 / 10, -1 / 2, 9 / 10, -1 / 2, -9 / 10, 9 / 10, 9 / 10, -1 / 2], 3, 1 / 2, 1⟩ _ _ _ hR
      (by decide) exRun_sweep4 exRun_inspect2, if_neg (by norm_num [exConfigTwo]),
      if_neg (show ¬ (3 + 1 > iter_limit) from by omega)]
  have l5 : calibrate_loop exConfigTwo exModel [] iter_limit (9 / 10)
        ⟨exState (49 / 10) (-49 / 10) 4 (-4) (10 / 9) 1 1, [9 / 10, -1 / 2, -9 / 10, 9 / 10, 9 / 10, -1 / 2], 4, 1 / 2, 1⟩
      = calibrate_loop exConfigTwo exModel [] iter_limit (9 / 10)
        ⟨exState (49 / 10) (-49 / 10) 4 (-4) (10 / 9) 1 2, [-9 / 10, 9 / 10, 9 / 10, -1 / 2], 5, 1 / 2, 1⟩ :=
    calibrate_loop_between _ _ _ _ _ ⟨exState (49 / 10) (-49 / 10) 4 (-4) (10 / 9) 1 1, [9 / 10, -1 / 2, -9 / 10, 9 / 10, 9 / 10, -1 / 2], 4, 1 / 2, 1⟩ _ _ hR
      (by decide) s5
  have l6 : calibrate_loop exConfigTwo exModel [] iter_limit (9 / 10)
        ⟨exState (49 / 10) (-49 / 10) 4 (-4) (10 / 9) 1 2, [-9 / 10, 9 / 10, 9 / 10, -1 / 2], 5, 1 / 2, 1⟩
      = .ok ⟨exState (49 / 10) (-49 / 10) 4 (-4) (10 / 9) 1 1, [], 6, 1 / 2, 2⟩ := by
    rw [calibrate_loop_inspect _ _ _ _ _ ⟨exState (49 / 10) (-49 / 10) 4 (-4) (10 / 9) 1 2, [-9 / 10, 9 / 10, 9 / 10, -1 / 2], 5, 1 / 2, 1⟩ _ _ _ hR
      (by decide) exRun_sweep6 exRun_inspect3, if_pos (by norm_num [exConfigTwo])]
  rw [l1, l2, l3, l4, l5, l6]

/-- An inspection that changes a step and ends with `rescaled = 0`: the rate 1
is too high, the step `19/2` is divided by `mul = 9/10`, exceeds the parameter
range and is set to the range `10`; the flag `rescaled` goes from 0 to -1 and
back to 0, and the counter is raised to 1. -/
theorem exClamp_inspect :
    calibrate_inspect exConfigOne exModel [] (9 / 10)
      ⟨exState 5 (-5) 5 (-5) (19 / 2) 2 0, [1, 1, -1 / 2], 2, 1 / 2, 0⟩
      = .ok ⟨exState 6 (-6) 5 (-5) 10 1 1, [], 1 / 2, 1, 1, 0⟩ := by
  norm_num [calibrate_inspect, get_accept_rate, accept_rates, div_double,
    calibrate_inspect_for, calibrate_too_high, calibrate_too_low, get_steps_for, get_steps,
    set_steps_for, calibrate_clamp, calibrate_too_large, get_steps_for_normalized,
    set_steps_for_normalized, assert_steps_positive, double_to_int, INT_MIN, INT_MAX,
    restart_from_best, set_params, dup_vector, get_params_best, reset_accept_rejects,
    markov_chain_steps_checked, markov_chain_step, do_step, calc_model, inc_params_accepts,
    inc_params_rejects, get_accept_rate_global, abs_double, exConfigOne, get_n_par, exState,
    exOne, exChain, List.range, List.range.loop, List.foldlM, mcmc_check, do_step_for,
    gsl_vector_get, get_next_gauss_random, next_draw, bind, Except.bind, do_step_for_adjust,
    redraw_while, do_step_for_store, set_params_for, gsl_vector_set, pure, Except.pure,
    check_accept, exModel, get_prob, set_prob, get_next_alog_urandom, revert,
    mcmc_check_best]

/-- A run of the loop of `markov_chain_calibrate_orig` with `ITER_READJUST = 2`,
`NO_RESCALING_LIMIT = 1` and the step `19/2`: two accepted sweeps, then the
inspection `exClamp_inspect`, at which the loop returns. -/
theorem exClamp_loop :
    calibrate_loop exConfigOne exModel [] 100 (9 / 10)
        ⟨exState 5 (-10000000) 5 (-5) (19 / 2) 0 0, [1, -1, 1, 1, -1 / 2], 0, 1 / 2, 0⟩
      = .ok ⟨exState 6 (-6) 5 (-5) 10 1 1, [], 2, 1 / 2, 1⟩ := by
  have hR : exConfigOne.ITER_READJUST ≠ 0 := by decide
  have s1 : calibrate_sweep exModel [] (exState 5 (-10000000) 5 (-5) (19 / 2) 0 0) [1, -1, 1, 1, -1 / 2]
      = .ok (exState 6 (-6) 5 (-5) (19 / 2) 1 0, [-1, 1, 1, -1 / 2]) := by
    norm_num [calibrate_sweep, get_n_par, exState, exOne, exChain, List.range, List.range.loop,
      List.foldlM, markov_chain_step_for, mcmc_check, do_step_for, gsl_vector_get,
      get_next_gauss_random, next_draw, bind, Except.bind, do_step_for_adjust, redraw_while,
      do_step_for_store, set_params_for, gsl_vector_set, pure, Except.pure, check_accept,
      calc_model_for, exModel, get_prob, set_prob, get_next_alog_urandom,
      inc_params_accepts_for, inc_params_rejects_for, revert, mcmc_check_best]
  have s2 : calibrate_sweep exModel [] (exState 6 (-6) 5 (-5) (19 / 2) 1 0) [-1, 1, 1, -1 / 2]
      = .ok (exState 5 (-5) 5 (-5) (19 / 2) 2 0, [1, 1, -1 / 2]) := by
    norm_num [calibrate_sweep, get_n_par, exState, exOne, exChain, List.range, List.range.loop,
      List.foldlM, markov_chain_step_for, mcmc_check, do_step_for, gsl_vector_get,
      get_next_gauss_random, next_draw, bind, Except.bind, do_step_for_adjust, redraw_while,
      do_step_for_store, set_params_for, gsl_vector_set, pure, Except.pure, check_accept,
      calc_model_for, exModel, get_prob, set_prob, get_next_alog_urandom,
      inc_params_accepts_for, inc_params_rejects_for, revert, mcmc_check_best]
  have l1 : calibrate_loop exConfigOne exModel [] 100 (9 / 10)
        ⟨exState 5 (-10000000) 5 (-5) (19 / 2) 0 0, [1, -1, 1, 1, -1 / 2], 0, 1 / 2, 0⟩
      = calibrate_loop exConfigOne exModel [] 100 (9 / 10)
        ⟨exState 6 (-6) 5 (-5) (19 / 2) 1 0, [-1, 1, 1, -1 / 2], 1, 1 / 2, 0⟩ :=
    calibrate_loop_between _ _ _ _ _ ⟨exState 5 (-10000000) 5 (-5) (19 / 2) 0 0, [1, -1, 1, 1, -1 / 2], 0, 1 / 2, 0⟩ _ _ hR
      (by decide) s1
  have l2 : calibrate_loop exConfigOne exModel [] 100 (9 / 10)
        ⟨exState 6 (-6) 5 (-5) (19 / 2) 1 0, [-1, 1, 1, -1 / 2], 1, 1 / 2, 0⟩
      = .ok ⟨exState 6 (-6) 5 (-5) 10 1 1, [], 2, 1 / 2, 1⟩ := by
    rw [calibrate_loop_inspect _ _ _ _ _ ⟨exState 6 (-6) 5 (-5) (19 / 2) 1 0, [-1, 1, 1, -1 / 2], 1, 1 / 2, 0⟩ _ _ _ hR
      (by decide) s2 exClamp_inspect, if_pos (by norm_num [exConfigOne])]
  rw [l1, l2]

/-! ## The counter, the success test and the iteration limit -/

/-- C13, as stated, fails, in two ways.  First, with `ITER_READJUST = 2`,
`NO_RESCALING_LIMIT = 2` and `TARGET_ACCEPTANCE_RATE = 1/2` the calibrator makes
three inspections of the one-parameter chain `exOne`: the first does not
rescale and sets the counter to 1; the second, whose entry state and draws
are those of the first conjunct, rescales the step from `1` to `10/9` (its flag
`rescaled` is 1) and leaves the counter at 1 instead of resetting it to 0; the
third does not rescale, raises the counter to 2, and the calibrator returns
although only one inspection without rescaling has passed since the last
rescaling.  Second, with `NO_RESCALING_LIMIT = 1` and the step `19/2` the
calibrator returns from an inspection that has changed the step to `10`: the
divided step exceeds the parameter range and is clamped, which takes the flag
`rescaled` back to 0. -/
theorem counter_survives_rescaling :
    calibrate_inspect exConfigTwo exModel [] (9 / 10)
      ⟨exState 4 (-4) 4 (-4) 1 3 1, [9 / 10, 9 / 10, -1 / 2, 9 / 10, -1 / 2, -9 / 10, 9 / 10,
        9 / 10, -1 / 2], 4, 1 / 2, 1⟩
      = .ok ⟨exState (49 / 10) (-49 / 10) 4 (-4) (10 / 9) 1 1,
        [9 / 10, -1 / 2, -9 / 10, 9 / 10, 9 / 10, -1 / 2], 1 / 2, 1, 1, 1⟩ ∧
    calibrate_loop exConfigTwo exModel [] 100 (9 / 10)
      ⟨exState 5 (-10000000) 5 (-5) 1 0 0, [1, 1, -1 / 2, 1, 1, -1 / 2, -1, -1, 9 / 10, 9 / 10,
        -1 / 2, 9 / 10, -1 / 2, -9 / 10, 9 / 10, 9 / 10, -1 / 2], 0, 1 / 2, 0⟩
      = .ok ⟨exState (49 / 10) (-49 / 10) 4 (-4) (10 / 9) 1 1, [], 6, 1 / 2, 2⟩ ∧
    markov_chain_calibrate_orig exLibm exConfigTwo exModel [] exOne 0 (1 / 2) 100 (9 / 10) 1
      [1, 1, -1 / 2, 1, 1, -1 / 2, -1, -1, 9 / 10, 9 / 10, -1 / 2, 9 / 10, -1 / 2, -9 / 10,
        9 / 10, 9 / 10, -1 / 2]
      = .ok (exState (49 / 10) (-49 / 10) 4 (-4) (10 / 9) 0 0, []) ∧
    calibrate_inspect exConfigOne exModel [] (9 / 10)
      ⟨exState 5 (-5) 5 (-5) (19 / 2) 2 0, [1, 1, -1 / 2], 2, 1 / 2, 0⟩
      = .ok ⟨exState 6 (-6) 5 (-5) 10 1 1, [], 1 / 2, 1, 1, 0⟩ ∧
    (19 / 2 : ℚ) ≠ 10 ∧
    markov_chain_calibrate_orig exLibm exConfigOne exModel [] exOne 0 (1 / 2) 100 (9 / 10)
      (19 / 2) [1, -1, 1, 1, -1 / 2]
      = .ok (exState 6 (-6) 5 (-5) 10 0 0, []) := by
  refine ⟨exRun_inspect2, exRun_loop 100 (by norm_num), ?_, exClamp_inspect, by norm_num, ?_⟩
  · rw [markov_chain_calibrate_orig_exOne, exRun_loop 100 (by norm_num)]
    norm_num [reset_accept_rejects, exState, exOne, exChain]
  · rw [markov_chain_calibrate_orig_exOne, exClamp_loop]
    norm_num [reset_accept_rejects, exState, exOne, exChain]

/-- C13, amended.  At an inspection of `markov_chain_calibrate_orig` that
returns, the counter of inspections without rescaling is raised by one when
the inspection ends with `rescaled == 0` and is left as it is otherwise; it is
never reset, so it never decreases during a run.  The flag `reached_perfection`
is 1 exactly when the global acceptance rate, taken after the `ITER_READJUST`
joint steps, is within 0.01 of `TARGET_ACCEPTANCE_RATE`.  The calibrator
returns at this inspection exactly when (a) the inspection ended with
`rescaled == 0`, (b) `reached_perfection` is 1 and (c) the counter has reached
`NO_RESCALING_LIMIT`.  A pass of the loop without inspection neither returns
nor touches the counter.  The flag `rescaled` ends as 0 or 1, and it is 0
exactly when no parameter had a rate below `rat_limit - 0.05` and every
parameter with a rate above `rat_limit + 0.05` had its divided step clamped to
the parameter range. -/
theorem calibrate_counter_and_exit (cfg : Config α) (M : Model α) (circ : List Nat)
    (iter_limit : Nat) (mul : α) (c : Calibration α) (m : Mcmc α) (rng : List α)
    (r : Inspection α)
    (hR : cfg.ITER_READJUST ≠ 0) (hmod : (c.iter + 1) % cfg.ITER_READJUST = 0)
    (hsweep : calibrate_sweep M circ c.m c.rng = .ok (m, rng))
    (hins : calibrate_inspect cfg M circ mul { c with m := m, rng := rng, iter := c.iter + 1 }
      = .ok r) :
    (r.rescaled = 0 → r.nchecks_without_rescaling = c.nchecks_without_rescaling + 1) ∧
    (r.rescaled ≠ 0 → r.nchecks_without_rescaling = c.nchecks_without_rescaling) ∧
    (∃ rate, get_accept_rate_global r.m = .ok rate ∧
      (r.reached_perfection = 1 ↔
        abs_double (rate - cfg.TARGET_ACCEPTANCE_RATE) < 1 / 100)) ∧
    ((∃ c', calibrate_loop cfg M circ iter_limit mul c = .ok c' ∧ c'.iter = c.iter + 1) ↔
      (r.rescaled = 0 ∧ r.reached_perfection = 1 ∧
        r.nchecks_without_rescaling ≥ cfg.NO_RESCALING_LIMIT)) ∧
    (∀ (c0 c' : Calibration α), calibrate_loop cfg M circ iter_limit mul c0 = .ok c' →
      c0.nchecks_without_rescaling ≤ c'.nchecks_without_rescaling) ∧
    (∀ (c0 : Calibration α) (m0 : Mcmc α) (rng0 : List α),
      (c0.iter + 1) % cfg.ITER_READJUST ≠ 0 →
      calibrate_sweep M circ c0.m c0.rng = .ok (m0, rng0) →
      calibrate_loop cfg M circ iter_limit mul c0 =
        calibrate_loop cfg M circ iter_limit mul
          { m := m0, rng := rng0, iter := c0.iter + 1, rat_limit := c0.rat_limit,
            nchecks_without_rescaling := c0.nchecks_without_rescaling }) ∧
    (∃ rates, get_accept_rate m = .ok rates ∧ (r.rescaled = 0 ∨ r.rescaled = 1) ∧
      (r.rescaled = 0 ↔ ∀ i : Nat, i < m.n_par → ∃ rate, rates[i]? = some rate ∧
        c.rat_limit - 1 / 20 ≤ rate ∧
        (rate > c.rat_limit + 1 / 20 → ∃ step lo hi, m.params_step[i]? = some step ∧
          m.params_min[i]? = some lo ∧ m.params_max[i]? = some hi ∧
          step / mul / (hi - lo) > 1))) := by
  obtain ⟨rates, m1, rate, hrates, hfold, -, hrate, hn, hperf, -⟩ :=
    calibrate_inspect_ok cfg M circ mul _ r hins
  have hloop := calibrate_loop_inspect cfg M circ iter_limit mul c m rng r hR hmod hsweep hins
  have hflag := calibrate_inspect_fold_flag rates c.rat_limit mul m m1 r.rescaled hfold
  refine ⟨?_, ?_, ⟨rate, hrate, ?_⟩, ⟨?_, ?_⟩, ?_, ?_, ⟨rates, hrates, hflag.1, hflag.2⟩⟩
  · intro h0
    rw [hn, if_pos h0]
  · intro h0
    rw [hn, if_neg h0]
  · rw [hperf]
    by_cases hc : abs_double (rate - cfg.TARGET_ACCEPTANCE_RATE) < 1 / 100
    · simp [hc]
    · simp [hc]
  · rintro ⟨c', hc', hiter⟩
    by_cases hsucc : r.nchecks_without_rescaling ≥ cfg.NO_RESCALING_LIMIT ∧
        r.reached_perfection = 1 ∧ r.rescaled = 0
    · exact ⟨hsucc.2.2, hsucc.2.1, hsucc.1⟩
    · exfalso
      rw [hloop, if_neg hsucc] at hc'
      by_cases hl : c.iter + 1 > iter_limit
      · rw [if_pos hl] at hc'
        exact Except.noConfusion hc'
      · rw [if_neg hl] at hc'
        have hlt := (calibrate_loop_ok_last cfg M circ iter_limit mul _ c' hc').2.1
        simp only at hlt
        omega
  · rintro ⟨h1, h2, h3⟩
    refine ⟨{ m := r.m, rng := r.rng, iter := c.iter + 1, rat_limit := r.rat_limit,
              nchecks_without_rescaling := r.nchecks_without_rescaling }, ?_, rfl⟩
    rw [hloop, if_pos ⟨h3, h2, h1⟩]
  · intro c0 c' h
    exact (calibrate_loop_ok_last cfg M circ iter_limit mul c0 c' h).2.2.2.2.1
  · intro c0 m0 rng0 h1 h2
    exact calibrate_loop_between cfg M circ iter_limit mul c0 m0 rng0 hR h1 h2

/-- Run of amended C13 at the second inspection of `exRun_loop`, entered with
the counter at 1: the inspection ends with `rescaled = 1`, so the calibrator
does not return at this inspection. -/
theorem calibrate_counter_and_exit_witness :
    exConfigTwo.ITER_READJUST ≠ 0 ∧ (3 + 1) % exConfigTwo.ITER_READJUST = 0 ∧
    calibrate_inspect exConfigTwo exModel [] (9 / 10)
      ⟨exState 4 (-4) 4 (-4) 1 3 1, [9 / 10, 9 / 10, -1 / 2, 9 / 10, -1 / 2, -9 / 10, 9 / 10,
        9 / 10, -1 / 2], 4, 1 / 2, 1⟩
      = .ok ⟨exState (49 / 10) (-49 / 10) 4 (-4) (10 / 9) 1 1,
        [9 / 10, -1 / 2, -9 / 10, 9 / 10, 9 / 10, -1 / 2], 1 / 2, 1, 1, 1⟩ ∧
    ¬ ∃ c', calibrate_loop exConfigTwo exModel [] 100 (9 / 10)
      ⟨exState 5 (-5) 5 (-5) 1 2 1, [-1, 9 / 10, 9 / 10, -1 / 2, 9 / 10, -1 / 2, -9 / 10,
        9 / 10, 9 / 10, -1 / 2], 3, 1 / 2, 1⟩ = .ok c' ∧ c'.iter = 3 + 1 :=
  ⟨by decide, by decide, exRun_inspect2, fun h =>
    absurd (((calibrate_counter_and_exit exConfigTwo exModel [] 100 (9 / 10)
      ⟨exState 5 (-5) 5 (-5) 1 2 1, [-1, 9 / 10, 9 / 10, -1 / 2, 9 / 10, -1 / 2, -9 / 10,
        9 / 10, 9 / 10, -1 / 2], 3, 1 / 2, 1⟩ _ _ _ (by decide) (by decide) exRun_sweep4
      exRun_inspect2).2.2.2.1.mp h).1) (by decide)⟩

/-- C14, as stated, fails: with `iter_limit = 5` the run `exRun_loop` returns
from its third inspection, where the iteration counter is `6 > iter_limit`,
and so does `markov_chain_calibrate_orig`. -/
theorem success_beyond_iter_limit :
    calibrate_loop exConfigTwo exModel [] 5 (9 / 10)
      ⟨exState 5 (-10000000) 5 (-5) 1 0 0, [1, 1, -1 / 2, 1, 1, -1 / 2, -1, -1, 9 / 10, 9 / 10,
        -1 / 2, 9 / 10, -1 / 2, -9 / 10, 9 / 10, 9 / 10, -1 / 2], 0, 1 / 2, 0⟩
      = .ok ⟨exState (49 / 10) (-49 / 10) 4 (-4) (10 / 9) 1 1, [], 6, 1 / 2, 2⟩ ∧
    (5 : Nat) < 6 ∧
    markov_chain_calibrate_orig exLibm exConfigTwo exModel [] exOne 0 (1 / 2) 5 (9 / 10) 1
      [1, 1, -1 / 2, 1, 1, -1 / 2, -1, -1, 9 / 10, 9 / 10, -1 / 2, 9 / 10, -1 / 2, -9 / 10,
        9 / 10, 9 / 10, -1 / 2]
      = .ok (exState (49 / 10) (-49 / 10) 4 (-4) (10 / 9) 0 0, []) := by
  refine ⟨exRun_loop 5 (by norm_num), by norm_num, ?_⟩
  rw [markov_chain_calibrate_orig_exOne, exRun_loop 5 (by norm_num)]
  norm_num [reset_accept_rejects, exState, exOne, exChain]

/-- C14, amended.  `markov_chain_calibrate_orig` compares its iteration counter
with `iter_limit` only at an inspection, after the success test: at a returning
inspection with `iter > iter_limit` it returns when the success condition holds
and takes the failure exit otherwise, so it never goes on beyond such an
inspection.  A run entered with `iter ≤ iter_limit` can therefore return only
with a counter that is a multiple of `ITER_READJUST` and at most the first
multiple of `ITER_READJUST` above `iter_limit`. -/
theorem calibrate_limit_checked_at_inspection (cfg : Config α) (M : Model α) (circ : List Nat)
    (iter_limit : Nat) (mul : α) (c : Calibration α) (m : Mcmc α) (rng : List α)
    (r : Inspection α)
    (hR : cfg.ITER_READJUST ≠ 0) (hmod : (c.iter + 1) % cfg.ITER_READJUST = 0)
    (hsweep : calibrate_sweep M circ c.m c.rng = .ok (m, rng))
    (hins : calibrate_inspect cfg M circ mul { c with m := m, rng := rng, iter := c.iter + 1 }
      = .ok r)
    (hl : c.iter + 1 > iter_limit) :
    ((r.nchecks_without_rescaling ≥ cfg.NO_RESCALING_LIMIT ∧ r.reached_perfection = 1 ∧
        r.rescaled = 0) →
      calibrate_loop cfg M circ iter_limit mul c =
        .ok { m := r.m, rng := r.rng, iter := c.iter + 1, rat_limit := r.rat_limit,
              nchecks_without_rescaling := r.nchecks_without_rescaling }) ∧
    (¬ (r.nchecks_without_rescaling ≥ cfg.NO_RESCALING_LIMIT ∧ r.reached_perfection = 1 ∧
        r.rescaled = 0) →
      calibrate_loop cfg M circ iter_limit mul c =
        .error (.exit1 (.iteration_limit iter_limit))) ∧
    (∀ (c0 c' : Calibration α), c0.iter ≤ iter_limit →
      calibrate_loop cfg M circ iter_limit mul c0 = .ok c' →
      c'.iter % cfg.ITER_READJUST = 0 ∧
      c'.iter ≤ (iter_limit / cfg.ITER_READJUST + 1) * cfg.ITER_READJUST) := by
  have hloop := calibrate_loop_inspect cfg M circ iter_limit mul c m rng r hR hmod hsweep hins
  refine ⟨?_, ?_, ?_⟩
  · intro hs
    rw [hloop, if_pos hs]
  · intro hs
    rw [hloop, if_neg hs, if_pos hl]
  · intro c0 c' h0 h
    obtain ⟨-, -, h3, h4, -⟩ := calibrate_loop_ok_last cfg M circ iter_limit mul c0 c' h
    rw [max_eq_right h0] at h4
    exact ⟨h3, h4⟩

/-- Run of amended C14 at the third inspection of `exRun_loop` with
`iter_limit = 5`: the counter `6` exceeds the limit, the success condition
holds and the loop returns. -/
theorem calibrate_limit_checked_at_inspection_witness :
    (5 : Nat) + 1 > 5 ∧
    calibrate_loop exConfigTwo exModel [] 5 (9 / 10)
      ⟨exState (49 / 10) (-49 / 10) 4 (-4) (10 / 9) 1 2, [-9 / 10, 9 / 10, 9 / 10, -1 / 2], 5,
        1 / 2, 1⟩
      = .ok ⟨exState (49 / 10) (-49 / 10) 4 (-4) (10 / 9) 1 1, [], 6, 1 / 2, 2⟩ :=
  ⟨by decide,
    (calibrate_limit_checked_at_inspection exConfigTwo exModel [] 5 (9 / 10)
      ⟨exState (49 / 10) (-49 / 10) 4 (-4) (10 / 9) 1 2, [-9 / 10, 9 / 10, 9 / 10, -1 / 2], 5,
        1 / 2, 1⟩ _ _ _ (by decide) (by decide) exRun_sweep6 exRun_inspect3 (by decide)).1
      (by decide)⟩

/-! ## The constant-likelihood model -/

/-- A proposal with the log-posterior of the old state is accepted without a
draw. -/
theorem check_accept_same (m : Mcmc α) (rng : List α) :
    check_accept m (get_prob m) rng = .ok (1, rng) := by
  simp [check_accept]

/-- With a callback that leaves `prob` unchanged, a returning
`markov_chain_step` has kept its proposal and counted an accept. -/
theorem markov_chain_step_const (M : Model α) (hM : ∀ m old, M.calc_model m old = m.prob)
    (circ : List Nat) (m m' : Mcmc α) (rng rng' : List α)
    (h : markov_chain_step M circ m rng = .ok (m', rng')) :
    ∃ p, m' = { m with params := p, params_accepts := m.params_accepts.map (· + 1) } := by
  unfold markov_chain_step at h
  cases h2 : mcmc_check m with
  | error e => simp [h2, bind, Except.bind] at h
  | ok u =>
  cases h3 : do_step circ m rng with
  | error e => simp [h2, h3, bind, Except.bind] at h
  | ok mr =>
  obtain ⟨mp, rngp⟩ := mr
  obtain ⟨p, hmp⟩ := do_step_shape circ m mp rng rngp h3
  have h4 : check_accept (calc_model M mp (dup_vector m.params)) (get_prob m) rngp
      = .ok (1, rngp) := by
    have hp : get_prob m = get_prob (calc_model M mp (dup_vector m.params)) := by
      simp [get_prob, calc_model, set_prob, hM, hmp]
    rw [hp]
    exact check_accept_same _ _
  simp only [h2, h3, h4, bind, Except.bind, if_true, pure, Except.pure, Except.ok.injEq,
    Prod.mk.injEq] at h
  refine ⟨p, ?_⟩
  rw [← h.1, hmp]
  simp [inc_params_accepts, calc_model, set_prob, hM]

/-- With a callback that leaves `prob` unchanged, a returning
`markov_chain_step_for` has kept its proposal and counted an accept. -/
theorem markov_chain_step_for_const (M : Model α)
    (hMf : ∀ m i old, M.calc_model_for m i old = m.prob)
    (circ : List Nat) (m m' : Mcmc α) (index : Nat) (rng rng' : List α)
    (h : markov_chain_step_for M circ m index rng = .ok (m', rng')) :
    ∃ v a, m.params_accepts[index]? = some a ∧
      m' = { m with params := m.params.set index v
                    params_accepts := m.params_accepts.set index (a + 1) } := by
  obtain ⟨old, v, hold, hcase⟩ := markov_chain_step_for_cases M circ m m' index rng rng' h
  unfold markov_chain_step_for at h
  cases h1 : gsl_vector_get m.params index with
  | error e => simp [h1, bind, Except.bind] at h
  | ok old1 =>
  cases h2 : mcmc_check m with
  | error e => simp [h1, h2, bind, Except.bind] at h
  | ok u =>
  cases h3 : do_step_for circ m index rng with
  | error e => simp [h1, h2, h3, bind, Except.bind] at h
  | ok mr =>
  obtain ⟨mp, rngp⟩ := mr
  obtain ⟨v1, min, max, hmp, hlen, -, -, -, -⟩ := do_step_for_shape circ m mp index rng rngp h3
  have h4 : check_accept (calc_model_for M mp index old1) (get_prob m) rngp = .ok (1, rngp) := by
    have hp : get_prob m = get_prob (calc_model_for M mp index old1) := by
      simp [get_prob, calc_model_for, set_prob, hMf, hmp]
    rw [hp]
    exact check_accept_same _ _
  simp only [h1, h2, h3, h4, bind, Except.bind, if_true] at h
  cases h5 : inc_params_accepts_for (calc_model_for M mp index old1) index with
  | error e => simp [h5] at h
  | ok ma =>
    simp only [h5, pure, Except.pure, Except.ok.injEq, Prod.mk.injEq] at h
    obtain ⟨a, ha, hma⟩ := inc_params_accepts_for_ok _ _ _ h5
    refine ⟨v1, a, ?_, ?_⟩
    · simpa [calc_model_for, set_prob, hmp] using ha
    · rw [← h.1, hma, hmp]
      simp [calc_model_for, set_prob, hMf]

/-- With a callback that leaves `prob` unchanged, `n` checked joint steps add
`n` to every accept counter and leave the reject counters alone. -/
theorem markov_chain_steps_checked_const (M : Model α)
    (hM : ∀ m old, M.calc_model m old = m.prob) (circ : List Nat) (n : Nat) :
    ∀ (m m' : Mcmc α) (rng rng' : List α),
      markov_chain_steps_checked M circ n m rng = .ok (m', rng') →
      m'.params_accepts = m.params_accepts.map (· + n) ∧
      m'.params_rejects = m.params_rejects := by
  induction n with
  | zero =>
    intro m m' rng rng' h
    simp only [markov_chain_steps_checked, Except.ok.injEq, Prod.mk.injEq] at h
    rw [← h.1]
    simp
  | succ n ih =>
    intro m m' rng rng' h
    rw [markov_chain_steps_checked] at h
    cases h1 : markov_chain_step M circ m rng with
    | error e => simp [h1] at h
    | ok mr =>
      obtain ⟨m1, rng1⟩ := mr
      simp only [h1] at h
      obtain ⟨p, hm1⟩ := markov_chain_step_const M hM circ m m1 rng rng1 h1
      obtain ⟨ha, hr⟩ := ih _ _ _ _ h
      have hb1 : (mcmc_check_best m1).params_accepts = m1.params_accepts := by
        unfold mcmc_check_best
        split_ifs <;> rfl
      have hb2 : (mcmc_check_best m1).params_rejects = m1.params_rejects := by
        unfold mcmc_check_best
        split_ifs <;> rfl
      rw [hb1] at ha
      rw [hb2] at hr
      rw [ha, hr, hm1]
      refine ⟨?_, rfl⟩
      simp only [List.map_map]
      congr 1
      funext x
      simp only [Function.comp]
      omega

/-- With a callback that leaves `prob` unchanged and a target rate that is not
within 0.01 of 1, no inspection reaches the target. -/
theorem calibrate_inspect_const (cfg : Config α) (M : Model α)
    (hM : ∀ m old, M.calc_model m old = m.prob)
    (hT : ¬ abs_double (1 - cfg.TARGET_ACCEPTANCE_RATE) < 1 / 100)
    (circ : List Nat) (mul : α) (c : Calibration α) (r : Inspection α)
    (h : calibrate_inspect cfg M circ mul c = .ok r) :
    get_accept_rate_global r.m = .ok 1 ∧ r.reached_perfection = 0 := by
  obtain ⟨rates, m1, rate, -, -, hsteps, hrate, -, hperf, -⟩ :=
    calibrate_inspect_ok cfg M circ mul c r h
  obtain ⟨ha, hr⟩ := markov_chain_steps_checked_const M hM circ _ _ _ _ _ hsteps
  have hzero : r.m.params_rejects.sum = 0 := by
    rw [hr]
    simp [reset_accept_rejects]
  have hone : rate = 1 := by
    unfold get_accept_rate_global at hrate
    rw [hzero, Nat.add_zero] at hrate
    obtain ⟨hne, hq⟩ := div_double_ok hrate
    rw [hq, div_self hne]
  rw [hone] at hrate hperf
  exact ⟨hrate, by rw [hperf, if_neg hT]⟩

/-- With a callback that leaves `prob` unchanged and a target rate that is not
within 0.01 of 1, the loop of the calibrator never returns. -/
theorem calibrate_loop_const (cfg : Config α) (M : Model α)
    (hM : ∀ m old, M.calc_model m old = m.prob)
    (hT : ¬ abs_double (1 - cfg.TARGET_ACCEPTANCE_RATE) < 1 / 100)
    (circ : List Nat) (iter_limit : Nat) (mul : α) (c c' : Calibration α) :
    calibrate_loop cfg M circ iter_limit mul c ≠ .ok c' := by
  intro h
  obtain ⟨-, -, -, -, -, c0, m, rng, r, -, hins, -, hperf, -, -⟩ :=
    calibrate_loop_ok_last cfg M circ iter_limit mul c c' h
  have := (calibrate_inspect_const cfg M hM hT circ mul _ r hins).2
  rw [hperf] at this
  exact absurd this (by decide)

/-- With a callback that leaves `prob` unchanged and a target rate that is not
within 0.01 of 1, `markov_chain_calibrate_orig` never returns. -/
theorem markov_chain_calibrate_orig_const (L : Libm α) (cfg : Config α) (M : Model α)
    (hM : ∀ m old, M.calc_model m old = m.prob)
    (hT : ¬ abs_double (1 - cfg.TARGET_ACCEPTANCE_RATE) < 1 / 100)
    (circ : List Nat) (m : Mcmc α) (burn_in_iterations : Nat) (rat_limit : α)
    (iter_limit : Nat) (mul adjust_step : α) (rng : List α) (out : Mcmc α × List α) :
    markov_chain_calibrate_orig L cfg M circ m burn_in_iterations rat_limit iter_limit mul
      adjust_step rng ≠ .ok out := by
  intro h
  unfold markov_chain_calibrate_orig at h
  cases h1 : burn_in M circ m burn_in_iterations rng with
  | error e => simp [h1, bind, Except.bind] at h
  | ok mr =>
    obtain ⟨m1, rng1⟩ := mr
    simp only [h1, bind, Except.bind] at h
    split at h
    · exact Except.noConfusion h
    · rename_i c hc
      exact calibrate_loop_const cfg M hM hT circ iter_limit mul _ c hc

/-- On the constant model a sweep of the one-parameter chain with the draw `0`
keeps the point and counts an accept. -/
theorem exConst_sweep (step : ℚ) (a : Nat) (rest : List ℚ) :
    calibrate_sweep exConst [] (exState 5 (-10000000) 5 (-5) step a 0) (0 :: rest)
      = .ok (exState 5 (-10000000) 5 (-5) step (a + 1) 0, rest) := by
  norm_num [calibrate_sweep, get_n_par, exState, exOne, exChain, List.range, List.range.loop,
    List.foldlM, markov_chain_step_for, mcmc_check, do_step_for, gsl_vector_get,
    get_next_gauss_random, next_draw, bind, Except.bind, do_step_for_adjust,
    redraw_while_inside 5 10 0 5 rest (by norm_num) (by norm_num),
    do_step_for_store, set_params_for, gsl_vector_set, pure, Except.pure, check_accept,
    calc_model_for, exConst, get_prob, set_prob, inc_params_accepts_for, mcmc_check_best]

/-- On the constant model a joint step of the one-parameter chain with the
draw `0` keeps the point and counts an accept. -/
theorem exConst_step (step : ℚ) (a : Nat) (rest : List ℚ) :
    markov_chain_step exConst [] (exState 5 (-10000000) 5 (-5) step a 0) (0 :: rest)
      = .ok (exState 5 (-10000000) 5 (-5) step (a + 1) 0, rest) := by
  norm_num [markov_chain_step, do_step, get_n_par, exState, exOne, exChain, List.range,
    List.range.loop, List.foldlM, mcmc_check, do_step_for, gsl_vector_get,
    get_next_gauss_random, next_draw, bind, Except.bind, do_step_for_adjust,
    redraw_while_inside 5 10 0 5 rest (by norm_num) (by norm_num),
    do_step_for_store, set_params_for, gsl_vector_set, pure, Except.pure, check_accept,
    calc_model, exConst, get_prob, set_prob, inc_params_accepts, dup_vector]

/-- On the constant model `n` checked joint steps with draws `0` count `n`
accepts. -/
theorem exConst_steps_checked (step : ℚ) (n : Nat) :
    ∀ (a : Nat) (rest : List ℚ),
      markov_chain_steps_checked exConst [] n (exState 5 (-10000000) 5 (-5) step a 0)
        (List.replicate n 0 ++ rest)
      = .ok (exState 5 (-10000000) 5 (-5) step (a + n) 0, rest) := by
  induction n with
  | zero =>
    intro a rest
    rfl
  | succ n ih =>
    intro a rest
    rw [List.replicate_succ, List.cons_append, markov_chain_steps_checked, exConst_step]
    have hb : mcmc_check_best (exState 5 (-10000000) 5 (-5) step (a + 1) 0)
        = exState 5 (-10000000) 5 (-5) step (a + 1) 0 := by
      norm_num [mcmc_check_best, exState, exOne, exChain]
    simp only [hb]
    rw [ih (a + 1) rest, show a + 1 + n = a + (n + 1) from by omega]

/-- On the constant model `n` passes of the loop of the calibrator that meet
no inspection count `n` accepts. -/
theorem exConst_between (iter_limit : Nat) (mul rat_limit step : ℚ) (nchecks : Int) (n : Nat) :
    ∀ (a iter : Nat) (rest : List ℚ), iter + n < 200 →
      calibrate_loop exConfig exConst [] iter_limit mul
        ⟨exState 5 (-10000000) 5 (-5) step a 0, List.replicate n 0 ++ rest, iter, rat_limit,
          nchecks⟩
      = calibrate_loop exConfig exConst [] iter_limit mul
        ⟨exState 5 (-10000000) 5 (-5) step (a + n) 0, rest, iter + n, rat_limit, nchecks⟩ := by
  induction n with
  | zero =>
    intro a iter rest _
    rfl
  | succ n ih =>
    intro a iter rest h
    have hmod : (iter + 1) % exConfig.ITER_READJUST ≠ 0 := by
      show (iter + 1) % 200 ≠ 0
      rw [Nat.mod_eq_of_lt (by omega)]
      omega
    rw [List.replicate_succ, List.cons_append,
      calibrate_loop_between exConfig exConst [] iter_limit mul
        ⟨exState 5 (-10000000) 5 (-5) step a 0, 0 :: (List.replicate n 0 ++ rest), iter,
          rat_limit, nchecks⟩ _ _ (by decide) hmod (exConst_sweep step a _)]
    have := ih (a + 1) (iter + 1) rest (by omega)
    rw [show a + (n + 1) = a + 1 + n from by omega,
      show iter + (n + 1) = iter + 1 + n from by omega]
    exact this

/-- The inspection of the constant model after 200 accepted sweeps: the rate 1
is too high, the step `1` becomes `10/9`, and the 200 joint steps that follow
are accepted again, so that the target rate `0.23` is missed. -/
theorem exConst_inspect (rest : List ℚ) :
    calibrate_inspect exConfig exConst [] (9 / 10)
      ⟨exState 5 (-10000000) 5 (-5) 1 200 0, List.replicate 200 0 ++ rest, 200, 1 / 2, 0⟩
      = .ok ⟨exState 5 (-10000000) 5 (-5) (10 / 9) 200 0, rest, 1 / 2 * (99 / 100), 0, 0, 1⟩ := by
  have h1 : get_accept_rate (exState 5 (-10000000) 5 (-5) 1 200 0) = .ok [1] := by
    norm_num [get_accept_rate, accept_rates, div_double, exState, exOne, exChain]
  have h2 : (List.range (get_n_par (exState 5 (-10000000) 5 (-5) 1 200 0))).foldlM
      (calibrate_inspect_for [1] (1 / 2) (9 / 10)) (exState 5 (-10000000) 5 (-5) 1 200 0, 0)
      = .ok (exState 5 (-10000000) 5 (-5) (10 / 9) 200 0, 1) := by
    norm_num [get_n_par, exState, exOne, exChain, List.range, List.range.loop, List.foldlM,
      calibrate_inspect_for, gsl_vector_get, bind, Except.bind, pure, Except.pure,
      calibrate_too_high, calibrate_too_low, get_steps_for, get_steps, div_double,
      set_steps_for, gsl_vector_set, calibrate_clamp, calibrate_too_large,
      get_steps_for_normalized, set_steps_for_normalized, assert_steps_positive]
  have h3 : reset_accept_rejects (restart_from_best (exState 5 (-10000000) 5 (-5) (10 / 9) 200 0))
      = exState 5 (-10000000) 5 (-5) (10 / 9) 0 0 := by
    norm_num [reset_accept_rejects, restart_from_best, set_params, set_prob, dup_vector,
      get_params_best, exState, exOne, exChain]
  have h4 := exConst_steps_checked (10 / 9) 200 0 rest
  have h5 : get_accept_rate_global (exState 5 (-10000000) 5 (-5) (10 / 9) (0 + 200) 0)
      = .ok 1 := by
    norm_num [get_accept_rate_global, div_double, exState, exOne, exChain]
  unfold calibrate_inspect
  simp only [h1, h2, h3, bind, Except.bind, show exConfig.ITER_READJUST = 200 from rfl, h4, h5,
    pure, Except.pure]
  norm_num [abs_double, exConfig]

/-- The run of the loop of the calibrator on the constant model with
`ITER_READJUST = 200` and `iter_limit = 100`: the first inspection, at the
counter value 200, misses the target rate and takes the failure exit. -/
theorem exConst_loop :
    calibrate_loop exConfig exConst [] 100 (9 / 10)
      ⟨exState 5 (-10000000) 5 (-5) 1 0 0, List.replicate 199 0 ++ 0 :: List.replicate 200 0,
        0, 1 / 2, 0⟩
      = .error (.exit1 (.iteration_limit 100)) := by
  have h1 := exConst_between 100 (9 / 10) (1 / 2) 1 0 199 0 0 (0 :: List.replicate 200 0)
    (by norm_num)
  rw [h1, calibrate_loop_inspect exConfig exConst [] 100 (9 / 10)
    ⟨exState 5 (-10000000) 5 (-5) 1 (0 + 199) 0, 0 :: List.replicate 200 0, 0 + 199, 1 / 2, 0⟩
    _ _ _ (by decide) (by decide) (exConst_sweep 1 (0 + 199) _)
    (by
      have := exConst_inspect []
      rw [List.append_nil] at this
      exact this),
    if_neg (by norm_num [exConfig]), if_pos (by norm_num)]

/-- C15, as stated, fails: on the constant model `exConst`, with
`iter_limit = 100`, `ITER_READJUST = 200`, `TARGET_ACCEPTANCE_RATE = 0.23` and
400 draws of `0`, `markov_chain_calibrate_orig` ends in the failure exit whose
diagnostic is `limit of 100 iterations reached`; this diagnostic carries the
iteration limit and is not the one that names a parameter. -/
theorem constant_model_exit_names_no_parameter :
    markov_chain_calibrate_orig exLibm exConfig exConst [] exOne 0 (1 / 2) 100 (9 / 10) 1
      (List.replicate 199 0 ++ 0 :: List.replicate 200 0)
      = .error (.exit1 (.iteration_limit 100)) ∧
    (List.replicate 199 (0 : ℚ) ++ 0 :: List.replicate 200 0).length = 400 ∧
    ∀ i : Nat, Diagnostic.iteration_limit 100 ≠ Diagnostic.step_too_large i := by
  refine ⟨?_, ?_, fun i h => Diagnostic.noConfusion h⟩
  · rw [markov_chain_calibrate_orig_exOne, exConst_loop]
  · rw [List.length_append, List.length_cons, List.length_replicate, List.length_replicate]

/-- C15, amended.  With a callback that leaves `prob` unchanged, every returning
`markov_chain_step` and `markov_chain_step_for` counts an accept and no reject.
If in addition `TARGET_ACCEPTANCE_RATE` is not within 0.01 of 1, every returning
inspection of `markov_chain_calibrate_orig` finds the global acceptance rate 1
and misses the target, so neither the loop nor the calibrator ever returns; at
a returning inspection with `iter > iter_limit` the calibrator takes its failure
exit, whose diagnostic carries the iteration limit. -/
theorem constant_model_never_calibrates (L : Libm α) (cfg : Config α) (M : Model α)
    (circ : List Nat) (iter_limit : Nat) (mul : α)
    (hM : ∀ m old, M.calc_model m old = m.prob)
    (hMf : ∀ m i old, M.calc_model_for m i old = m.prob)
    (hT : ¬ abs_double (1 - cfg.TARGET_ACCEPTANCE_RATE) < 1 / 100) :
    (∀ (m m' : Mcmc α) (rng rng' : List α), markov_chain_step M circ m rng = .ok (m', rng') →
      m'.params_accepts = m.params_accepts.map (· + 1) ∧
      m'.params_rejects = m.params_rejects) ∧
    (∀ (m m' : Mcmc α) (index : Nat) (rng rng' : List α),
      markov_chain_step_for M circ m index rng = .ok (m', rng') →
      ∃ a, m.params_accepts[index]? = some a ∧
        m'.params_accepts = m.params_accepts.set index (a + 1) ∧
        m'.params_rejects = m.params_rejects) ∧
    (∀ (c : Calibration α) (r : Inspection α), calibrate_inspect cfg M circ mul c = .ok r →
      get_accept_rate_global r.m = .ok 1 ∧ r.reached_perfection = 0) ∧
    (∀ c c' : Calibration α, calibrate_loop cfg M circ iter_limit mul c ≠ .ok c') ∧
    (∀ (m : Mcmc α) (burn_in_iterations : Nat) (rat_limit adjust_step : α) (rng : List α)
      (out : Mcmc α × List α),
      markov_chain_calibrate_orig L cfg M circ m burn_in_iterations rat_limit iter_limit mul
        adjust_step rng ≠ .ok out) ∧
    (∀ (c : Calibration α) (m : Mcmc α) (rng : List α) (r : Inspection α),
      cfg.ITER_READJUST ≠ 0 → (c.iter + 1) % cfg.ITER_READJUST = 0 →
      calibrate_sweep M circ c.m c.rng = .ok (m, rng) →
      calibrate_inspect cfg M circ mul { c with m := m, rng := rng, iter := c.iter + 1 }
        = .ok r →
      c.iter + 1 > iter_limit →
      calibrate_loop cfg M circ iter_limit mul c
        = .error (.exit1 (.iteration_limit iter_limit))) := by
  refine ⟨?_, ?_, ?_, ?_, ?_, ?_⟩
  · intro m m' rng rng' h
    obtain ⟨p, hp⟩ := markov_chain_step_const M hM circ m m' rng rng' h
    rw [hp]
    exact ⟨rfl, rfl⟩
  · intro m m' index rng rng' h
    obtain ⟨v, a, ha, hp⟩ := markov_chain_step_for_const M hMf circ m m' index rng rng' h
    rw [hp]
    exact ⟨a, ha, rfl, rfl⟩
  · intro c r h
    exact calibrate_inspect_const cfg M hM hT circ mul c r h
  · intro c c'
    exact calibrate_loop_const cfg M hM hT circ iter_limit mul c c'
  · intro m b rl adj rng out
    exact markov_chain_calibrate_orig_const L cfg M hM hT circ m b rl iter_limit mul adj rng out
  · intro c m rng r hR hmod hsweep hins hl
    have hperf := (calibrate_inspect_const cfg M hM hT circ mul _ r hins).2
    rw [calibrate_loop_inspect cfg M circ iter_limit mul c m rng r hR hmod hsweep hins,
      if_neg (by rw [hperf]; simp), if_pos hl]

/-- Run of amended C15 on the constant model `exConst` with
`TARGET_ACCEPTANCE_RATE = 0.23` and `iter_limit = 100`: the calibrator never
returns, and the pass of the loop that reaches the counter value 200 takes the
failure exit. -/
theorem constant_model_never_calibrates_witness :
    (∀ (m : Mcmc ℚ) (old : List ℚ), exConst.calc_model m old = m.prob) ∧
    ¬ abs_double (1 - exConfig.TARGET_ACCEPTANCE_RATE) < 1 / 100 ∧
    (∀ (m : Mcmc ℚ) (burn_in_iterations : Nat) (rat_limit adjust_step : ℚ) (rng : List ℚ)
      (out : Mcmc ℚ × List ℚ),
      markov_chain_calibrate_orig exLibm exConfig exConst [] m burn_in_iterations rat_limit 100
        (9 / 10) adjust_step rng ≠ .ok out) ∧
    calibrate_loop exConfig exConst [] 100 (9 / 10)
      ⟨exState 5 (-10000000) 5 (-5) 1 199 0, 0 :: List.replicate 200 0, 199, 1 / 2, 0⟩
      = .error (.exit1 (.iteration_limit 100)) :=
  have hT : ¬ abs_double (1 - exConfig.TARGET_ACCEPTANCE_RATE) < 1 / 100 := by
    norm_num [abs_double, exConfig]
  have hi : calibrate_inspect exConfig exConst [] (9 / 10)
      ⟨exState 5 (-10000000) 5 (-5) 1 200 0, List.replicate 200 0, 200, 1 / 2, 0⟩
      = .ok ⟨exState 5 (-10000000) 5 (-5) (10 / 9) 200 0, [], 1 / 2 * (99 / 100), 0, 0, 1⟩ := by
    have := exConst_inspect []
    rw [List.append_nil] at this
    exact this
  ⟨fun _ _ => rfl, hT,
    (constant_model_never_calibrates exLibm exConfig exConst [] 100 (9 / 10) (fun _ _ => rfl)
      (fun _ _ _ => rfl) hT).2.2.2.2.1,
    (constant_model_never_calibrates exLibm exConfig exConst [] 100 (9 / 10) (fun _ _ => rfl)
      (fun _ _ _ => rfl) hT).2.2.2.2.2
      ⟨exState 5 (-10000000) 5 (-5) 1 199 0, 0 :: List.replicate 200 0, 199, 1 / 2, 0⟩ _ _ _
      (by decide) (by decide) (exConst_sweep 1 199 _) hi (by decide)⟩

/-! ## Burn-in -/

theorem zipWith_add_map_left (a r : List Nat) (n : Nat) :
    List.zipWith (· + ·) (a.map (· + n)) r = (List.zipWith (· + ·) a r).map (· + n) := by
  induction a generalizing r with
  | nil => rfl
  | cons x xs ih =>
    cases r with
    | nil => rfl
    | cons y ys =>
      simp only [List.map_cons, List.zipWith_cons_cons, ih]
      congr 1
      omega

theorem zipWith_add_map_right (a r : List Nat) (n : Nat) :
    List.zipWith (· + ·) a (r.map (· + n)) = (List.zipWith (· + ·) a r).map (· + n) := by
  induction a generalizing r with
  | nil => rfl
  | cons x xs ih =>
    cases r with
    | nil => rfl
    | cons y ys =>
      simp only [List.map_cons, List.zipWith_cons_cons, ih]
      congr 1
      omega

/-- A returning joint step leaves the step widths and the bounds alone and
counts one proposal for every parameter. -/
theorem markov_chain_step_frame (M : Model α) (circ : List Nat) (m m' : Mcmc α)
    (rng rng' : List α) (h : markov_chain_step M circ m rng = .ok (m', rng')) :
    m'.params_step = m.params_step ∧ m'.params_min = m.params_min ∧
    m'.params_max = m.params_max ∧
    params_proposals m' = (params_proposals m).map (· + 1) := by
  rcases markov_chain_step_cases M circ m m' rng rng' h with ⟨p, hp⟩ | hp
  · rw [hp]
    exact ⟨rfl, rfl, rfl, zipWith_add_map_left _ _ 1⟩
  · rw [hp]
    exact ⟨rfl, rfl, rfl, zipWith_add_map_right _ _ 1⟩

/-- The same for `n` joint steps in a row. -/
theorem markov_chain_steps_frame (M : Model α) (circ : List Nat) (n : Nat) :
    ∀ (m m' : Mcmc α) (rng rng' : List α),
      markov_chain_steps M circ n m rng = .ok (m', rng') →
      m'.params_step = m.params_step ∧ m'.params_min = m.params_min ∧
      m'.params_max = m.params_max ∧
      params_proposals m' = (params_proposals m).map (· + n) := by
  induction n with
  | zero =>
    intro m m' rng rng' h
    simp only [markov_chain_steps, Except.ok.injEq, Prod.mk.injEq] at h
    rw [← h.1]
    simp
  | succ n ih =>
    intro m m' rng rng' h
    rw [markov_chain_steps] at h
    cases h1 : markov_chain_step M circ m rng with
    | error e => simp [h1] at h
    | ok mr =>
      obtain ⟨m1, rng1⟩ := mr
      simp only [h1] at h
      obtain ⟨a1, a2, a3, a4⟩ := markov_chain_step_frame M circ m m1 rng rng1 h1
      obtain ⟨b1, b2, b3, b4⟩ := ih _ _ _ _ h
      refine ⟨b1.trans a1, b2.trans a2, b3.trans a3, ?_⟩
      rw [b4, a4, List.map_map]
      congr 1
      funext x
      simp only [Function.comp]
      omega

theorem mcmc_check_best_frame (m : Mcmc α) :
    (mcmc_check_best m).params_step = m.params_step ∧
    (mcmc_check_best m).params_min = m.params_min ∧
    (mcmc_check_best m).params_max = m.params_max ∧
    params_proposals (mcmc_check_best m) = params_proposals m := by
  unfold mcmc_check_best
  split_ifs <;> exact ⟨rfl, rfl, rfl, rfl⟩

theorem restart_from_best_frame (m : Mcmc α) :
    (restart_from_best m).params_step = m.params_step ∧
    (restart_from_best m).params_min = m.params_min ∧
    (restart_from_best m).params_max = m.params_max ∧
    params_proposals (restart_from_best m) = params_proposals m :=
  ⟨rfl, rfl, rfl, rfl⟩

/-- One pass of a loop of `burn_in`. -/
theorem burn_in_loop_pass (M : Model α) (circ : List Nat) (bound iter : Nat) (m m1 : Mcmc α)
    (rng rng1 : List α) (h : iter < bound)
    (hs : markov_chain_steps M circ 200 m rng = .ok (m1, rng1)) :
    burn_in_loop M circ bound iter m rng =
      burn_in_loop M circ bound (iter + 200 + 1) (mcmc_check_best m1) rng1 := by
  rw [burn_in_loop, if_pos h, hs]

/-- A returning loop of `burn_in` entered with the counter at `iter` makes
`⌈(bound - iter) / 201⌉` passes of 200 joint steps each. -/
theorem burn_in_loop_ok (M : Model α) (circ : List Nat) (bound iter : Nat) (m : Mcmc α)
    (rng : List α) (iter' : Nat) (m' : Mcmc α) (rng' : List α)
    (h : burn_in_loop M circ bound iter m rng = .ok (iter', m', rng')) :
    iter' = iter + 201 * ((bound - iter + 200) / 201) ∧
    m'.params_step = m.params_step ∧ m'.params_min = m.params_min ∧
    m'.params_max = m.params_max ∧
    params_proposals m' =
      (params_proposals m).map (· + 200 * ((bound - iter + 200) / 201)) := by
  induction iter, m, rng using burn_in_loop.induct M circ bound with
  | case1 iter m rng hlt e hs =>
    rw [burn_in_loop, if_pos hlt, hs] at h
    simp at h
  | case2 iter m rng hlt m1 rng1 hs ih =>
    rw [burn_in_loop_pass M circ bound iter m m1 rng rng1 hlt hs] at h
    obtain ⟨h1, h2, h3, h4, h5⟩ := ih h
    obtain ⟨a1, a2, a3, a4⟩ := markov_chain_steps_frame M circ 200 m m1 rng rng1 hs
    obtain ⟨c1, c2, c3, c4⟩ := mcmc_check_best_frame m1
    have hk : (bound - iter + 200) / 201 = 1 + (bound - (iter + 200 + 1) + 200) / 201 := by
      omega
    refine ⟨?_, (h2.trans c1).trans a1, (h3.trans c2).trans a2, (h4.trans c3).trans a3, ?_⟩
    · rw [h1, hk]
      omega
    · rw [h5, c4, a4, List.map_map, hk]
      congr 1
      funext x
      simp only [Function.comp]
      omega
  | case3 iter m rng hge =>
    rw [burn_in_loop, if_neg hge] at h
    simp only [Except.ok.injEq, Prod.mk.injEq] at h
    obtain ⟨h1, h2, h3⟩ := h
    have hk : (bound - iter + 200) / 201 = 0 := by omega
    rw [← h1, ← h2, hk]
    simp

/-- The parts of a returning `burn_in`: the two loops, the first entered with
the steps `0.1 * (max - min)`, the second with half of the steps the first one
left, and the final copy of the original steps. -/
theorem burn_in_ok (M : Model α) (circ : List Nat) (m : Mcmc α) (burn_in_iterations : Nat)
    (rng : List α) (m' : Mcmc α) (rng' : List α)
    (h : burn_in M circ m burn_in_iterations rng = .ok (m', rng')) :
    ∃ (iter1 : Nat) (m1 : Mcmc α) (rng1 : List α) (iter2 : Nat) (m2 : Mcmc α),
      m.params_max.length = m.params_min.length ∧
      burn_in_loop M circ (burn_in_iterations / 2) 0
        { m with params_step :=
            gsl_vector_scale (List.zipWith (· - ·) m.params_max m.params_min) (1 / 10) } rng
        = .ok (iter1, m1, rng1) ∧
      burn_in_loop M circ burn_in_iterations iter1
        { restart_from_best m1 with
            params_step := gsl_vector_scale (restart_from_best m1).params_step (1 / 2) } rng1
        = .ok (iter2, m2, rng') ∧
      m' = { m2 with params_step := m.params_step } := by
  unfold burn_in at h
  cases h1 : gsl_vector_sub (dup_vector m.params_max) m.params_min with
  | error e => simp [h1, bind, Except.bind] at h
  | ok steps =>
  have hlen : m.params_max.length = m.params_min.length ∧
      steps = List.zipWith (· - ·) m.params_max m.params_min := by
    unfold gsl_vector_sub dup_vector at h1
    by_cases hl : m.params_max.length = m.params_min.length
    · simp only [hl, if_true, Except.ok.injEq] at h1
      exact ⟨hl, h1.symm⟩
    · simp [hl] at h1
  simp only [h1, bind, Except.bind] at h
  cases h2 : mcmc_check { m with params_step := gsl_vector_scale steps (1 / 10) } with
  | error e =>
    rw [h2] at h
    simp at h
  | ok u =>
  simp only [h2] at h
  cases h3 : burn_in_loop M circ (burn_in_iterations / 2) 0
      { m with params_step := gsl_vector_scale steps (1 / 10) } rng with
  | error e =>
    rw [h3] at h
    simp at h
  | ok r1 =>
  obtain ⟨iter1, m1, rng1⟩ := r1
  simp only [h3] at h
  cases h4 : burn_in_loop M circ burn_in_iterations iter1
      { restart_from_best m1 with
          params_step := gsl_vector_scale (restart_from_best m1).params_step (1 / 2) } rng1 with
  | error e =>
    rw [h4] at h
    simp at h
  | ok r2 =>
  obtain ⟨iter2, m2, rng2⟩ := r2
  simp only [h4] at h
  cases h5 : gsl_vector_memcpy (get_steps m2) (get_steps m) with
  | error e =>
    rw [h5] at h
    simp at h
  | ok st =>
  have hst : st = m.params_step := by
    unfold gsl_vector_memcpy get_steps at h5
    by_cases hl : m2.params_step.length = m.params_step.length
    · simp only [hl, if_true, Except.ok.injEq] at h5
      exact h5.symm
    · simp [hl] at h5
  simp only [h5] at h
  cases h6 : mcmc_check { m2 with params_step := st } with
  | error e =>
    rw [h6] at h
    simp at h
  | ok u2 =>
  simp only [h6, pure, Except.pure, Except.ok.injEq, Prod.mk.injEq] at h
  refine ⟨iter1, m1, rng1, iter2, m2, hlen.1, ?_, ?_, ?_⟩
  · rw [← hlen.2]
    exact h3
  · rw [← h.2]
    exact h4
  · rw [← h.1, hst]

/-- The entry `i` of the difference of two vectors. -/
theorem getElem?_zipWith_sub (a b : List α) (i : Nat) (x y : α) (ha : a[i]? = some x)
    (hb : b[i]? = some y) : (List.zipWith (· - ·) a b)[i]? = some (x - y) := by
  induction a generalizing b i with
  | nil => simp at ha
  | cons p ps ih =>
    cases b with
    | nil => simp at hb
    | cons q qs =>
      cases i with
      | zero =>
        simp only [List.getElem?_cons_zero, Option.some.injEq] at ha hb
        simp [ha, hb]
      | succ k =>
        simp only [List.getElem?_cons_succ] at ha hb
        simp only [List.zipWith_cons_cons, List.getElem?_cons_succ]
        exact ih qs k ha hb

/-- On the constant model a joint step of the one-parameter chain with the
draw `0` keeps the point and counts an accept, whatever the log-posterior. -/
theorem exConst_step_at (p step : ℚ) (a : Nat) (rest : List ℚ) :
    markov_chain_step exConst [] (exState 5 p 5 (-5) step a 0) (0 :: rest)
      = .ok (exState 5 p 5 (-5) step (a + 1) 0, rest) := by
  norm_num [markov_chain_step, do_step, get_n_par, exState, exOne, exChain, List.range,
    List.range.loop, List.foldlM, mcmc_check, do_step_for, gsl_vector_get,
    get_next_gauss_random, next_draw, bind, Except.bind, do_step_for_adjust,
    redraw_while_inside 5 10 0 5 rest (by norm_num) (by norm_num),
    do_step_for_store, set_params_for, gsl_vector_set, pure, Except.pure, check_accept,
    calc_model, exConst, get_prob, set_prob, inc_params_accepts, dup_vector]

/-- On the constant model `n` joint steps with draws `0` count `n` accepts. -/
theorem exConst_steps (p step : ℚ) (n : Nat) :
    ∀ (a : Nat) (rest : List ℚ),
      markov_chain_steps exConst [] n (exState 5 p 5 (-5) step a 0)
        (List.replicate n 0 ++ rest)
      = .ok (exState 5 p 5 (-5) step (a + n) 0, rest) := by
  induction n with
  | zero =>
    intro a rest
    rfl
  | succ n ih =>
    intro a rest
    rw [List.replicate_succ, List.cons_append, markov_chain_steps, exConst_step_at]
    simp only
    rw [ih (a + 1) rest, show a + 1 + n = a + (n + 1) from by omega]

/-- One pass of a loop of `burn_in` on the constant model: 200 draws `0`
are used, 200 accepts are counted and the counter advances by 201. -/
theorem exConst_burn_in_pass (p step : ℚ) (hp : p ≤ -5) (bound iter a : Nat) (rest : List ℚ)
    (h : iter < bound) :
    burn_in_loop exConst [] bound iter (exState 5 p 5 (-5) step a 0)
        (List.replicate 200 0 ++ rest)
      = burn_in_loop exConst [] bound (iter + 200 + 1)
          (exState 5 p 5 (-5) step (a + 200) 0) rest := by
  rw [burn_in_loop_pass exConst [] bound iter _ _ _ _ h (exConst_steps p step 200 a rest)]
  have hb : mcmc_check_best (exState 5 p 5 (-5) step (a + 200) 0)
      = exState 5 p 5 (-5) step (a + 200) 0 := by
    unfold mcmc_check_best
    rw [if_neg]
    show ¬ (-5 : ℚ) < p
    exact not_lt.mpr hp
  rw [hb]

/-- The run of `burn_in` on the one-parameter chain and the constant model
with `burn_in_iterations = 300`: one pass in each phase, 400 joint steps. -/
theorem exBurn_run :
    burn_in exConst [] exOne 300 (List.replicate 200 0 ++ (List.replicate 200 0 ++ []))
      = .ok (exState 5 (-10000000) 5 (-5) 1 400 0, []) := by
  have h1 : burn_in_loop exConst [] (300 / 2) 0 (exState 5 (-5) 5 (-5) 1 0 0)
      (List.replicate 200 0 ++ (List.replicate 200 0 ++ []))
      = .ok (201, exState 5 (-5) 5 (-5) 1 200 0, List.replicate 200 0 ++ []) := by
    rw [exConst_burn_in_pass (-5) 1 (le_refl _) (300 / 2) 0 0 _ (by decide),
      burn_in_loop_done _ _ _ _ _ _ (by decide)]
  have h2 : burn_in_loop exConst [] 300 201 (exState 5 (-10000000) 5 (-5) (1 / 2) 200 0)
      (List.replicate 200 0 ++ [])
      = .ok (402, exState 5 (-10000000) 5 (-5) (1 / 2) 400 0, []) := by
    rw [exConst_burn_in_pass (-10000000) (1 / 2) (by norm_num) 300 201 200 _ (by decide),
      burn_in_loop_done _ _ _ _ _ _ (by decide)]
  have hs : ({ exOne with
      params_step := gsl_vector_scale (List.zipWith (· - ·) exOne.params_max exOne.params_min)
        (1 / 10) } : Mcmc ℚ) = exState 5 (-5) 5 (-5) 1 0 0 := by
    norm_num [gsl_vector_scale, exState, exOne, exChain]
  have hr : ({ restart_from_best (exState 5 (-5) 5 (-5) 1 200 0) with
      params_step := gsl_vector_scale
        (restart_from_best (exState 5 (-5) 5 (-5) 1 200 0)).params_step (1 / 2) } : Mcmc ℚ)
      = exState 5 (-10000000) 5 (-5) (1 / 2) 200 0 := by
    norm_num [gsl_vector_scale, restart_from_best, set_params, set_prob, dup_vector,
      get_params_best, exState, exOne, exChain]
  unfold burn_in
  have hsub : gsl_vector_sub (dup_vector exOne.params_max) exOne.params_min
      = .ok (List.zipWith (· - ·) exOne.params_max exOne.params_min) := by
    simp [gsl_vector_sub, dup_vector, exOne, exChain]
  simp only [hsub, bind, Except.bind, hs, h1, hr, h2]
  norm_num [mcmc_check, exState, exOne, exChain, gsl_vector_memcpy, get_steps, pure,
    Except.pure]

/-- A loop of `burn_in` on the constant model with draws `0`, for every bound
and counter: it makes `k = ⌈(bound - iter) / 201⌉` passes, uses `200 * k` draws,
counts `200 * k` accepts and ends with the counter `iter + 201 * k`. -/
theorem exConst_burn_in_loop (p step : ℚ) (hp : p ≤ -5) (bound : Nat) :
    ∀ (k iter a : Nat) (rest : List ℚ), (bound - iter + 200) / 201 = k →
      burn_in_loop exConst [] bound iter (exState 5 p 5 (-5) step a 0)
          (List.replicate (200 * k) 0 ++ rest)
        = .ok (iter + 201 * k, exState 5 p 5 (-5) step (a + 200 * k) 0, rest) := by
  intro k
  induction k with
  | zero =>
    intro iter a rest hk
    have hge : ¬ iter < bound := by omega
    rw [burn_in_loop_done _ _ _ _ _ _ hge]
    rfl
  | succ k ih =>
    intro iter a rest hk
    have hlt : iter < bound := by omega
    have hk' : (bound - (iter + 200 + 1) + 200) / 201 = k := by omega
    rw [show 200 * (k + 1) = 200 + 200 * k from by ring, List.replicate_add, List.append_assoc,
      exConst_burn_in_pass p step hp bound iter a _ hlt, ih (iter + 200 + 1) (a + 200) rest hk',
      show iter + 200 + 1 + 201 * k = iter + 201 * (k + 1) from by ring,
      show a + 200 + 200 * k = a + (200 + 200 * k) from by ring]

/-- For every `burn_in_iterations` the call of `burn_in` on the one-parameter
chain and the constant model with `200 * ⌈B / 201⌉` draws `0` returns, having
used all the draws and counted `200 * ⌈B / 201⌉` proposals. -/
theorem exBurn_total (burn_in_iterations : Nat) :
    burn_in exConst [] exOne burn_in_iterations
        (List.replicate (200 * ((burn_in_iterations + 200) / 201)) 0)
      = .ok (exState 5 (-10000000) 5 (-5) 1 (200 * ((burn_in_iterations + 200) / 201)) 0,
          []) := by
  obtain ⟨k1, hk1⟩ : ∃ k1, (burn_in_iterations / 2 - 0 + 200) / 201 = k1 := ⟨_, rfl⟩
  obtain ⟨k2, hk2⟩ : ∃ k2, (burn_in_iterations - (0 + 201 * k1) + 200) / 201 = k2 := ⟨_, rfl⟩
  have hK : (burn_in_iterations + 200) / 201 = k1 + k2 := by omega
  have h1 := exConst_burn_in_loop (-5) 1 (le_refl _) (burn_in_iterations / 2) k1 0 0
    (List.replicate (200 * k2) 0 ++ []) hk1
  have h2 := exConst_burn_in_loop (-10000000) (1 / 2) (by norm_num) burn_in_iterations k2
    (0 + 201 * k1) (0 + 200 * k1) [] hk2
  have hs : ({ exOne with
      params_step := gsl_vector_scale (List.zipWith (· - ·) exOne.params_max exOne.params_min)
        (1 / 10) } : Mcmc ℚ) = exState 5 (-5) 5 (-5) 1 0 0 := by
    norm_num [gsl_vector_scale, exState, exOne, exChain]
  have hr : ∀ a : Nat, ({ restart_from_best (exState 5 (-5) 5 (-5) 1 a 0) with
      params_step := gsl_vector_scale
        (restart_from_best (exState 5 (-5) 5 (-5) 1 a 0)).params_step (1 / 2) } : Mcmc ℚ)
      = exState 5 (-10000000) 5 (-5) (1 / 2) a 0 := by
    intro a
    norm_num [gsl_vector_scale, restart_from_best, set_params, set_prob, dup_vector,
      get_params_best, exState, exOne, exChain]
  have hsub : gsl_vector_sub (dup_vector exOne.params_max) exOne.params_min
      = .ok (List.zipWith (· - ·) exOne.params_max exOne.params_min) := by
    simp [gsl_vector_sub, dup_vector, exOne, exChain]
  have hc : mcmc_check (exState 5 (-5) 5 (-5) 1 0 0) = .ok () := by
    norm_num [mcmc_check, exState, exOne, exChain]
  have htape : List.replicate (200 * (k1 + k2)) (0 : ℚ)
      = List.replicate (200 * k1) 0 ++ (List.replicate (200 * k2) 0 ++ []) := by
    rw [List.append_nil, List.append_replicate_replicate, ← Nat.mul_add]
  have hcount : 0 + 200 * k1 + 200 * k2 = 200 * (k1 + k2) := by omega
  unfold burn_in
  rw [hK, htape]
  simp only [hsub, bind, Except.bind, hs, hc, h1, hr, h2, hcount]
  norm_num [mcmc_check, exState, exOne, exChain, gsl_vector_memcpy, get_steps, pure,
    Except.pure]

/-- The first loop of `burn_in` on the one-parameter chain and the constant
model with `burn_in_iterations = 4`: the bound is `4 / 2 = 2`, one pass of 200
joint steps moves the counter to 201 and ends the loop. -/
theorem exBurn_short_phase :
    burn_in_loop exConst [] (4 / 2) 0 (exState 5 (-5) 5 (-5) 1 0 0)
      (List.replicate 200 0 ++ [])
      = .ok (201, exState 5 (-5) 5 (-5) 1 200 0, []) := by
  rw [exConst_burn_in_pass (-5) 1 (le_refl _) (4 / 2) 0 0 _ (by decide),
    burn_in_loop_done _ _ _ _ _ _ (by decide)]

/-- The run of `burn_in` on the one-parameter chain and the constant model
with `burn_in_iterations = 4`: 200 joint steps in the first phase, none in the
second. -/
theorem exBurn_short :
    burn_in exConst [] exOne 4 (List.replicate 200 0 ++ [])
      = .ok (exState 5 (-10000000) 5 (-5) 1 200 0, []) := by
  have h2 : burn_in_loop exConst [] 4 201 (exState 5 (-10000000) 5 (-5) (1 / 2) 200 0) []
      = .ok (201, exState 5 (-10000000) 5 (-5) (1 / 2) 200 0, []) :=
    burn_in_loop_done _ _ _ _ _ _ (by decide)
  have hs : ({ exOne with
      params_step := gsl_vector_scale (List.zipWith (· - ·) exOne.params_max exOne.params_min)
        (1 / 10) } : Mcmc ℚ) = exState 5 (-5) 5 (-5) 1 0 0 := by
    norm_num [gsl_vector_scale, exState, exOne, exChain]
  have hr : ({ restart_from_best (exState 5 (-5) 5 (-5) 1 200 0) with
      params_step := gsl_vector_scale
        (restart_from_best (exState 5 (-5) 5 (-5) 1 200 0)).params_step (1 / 2) } : Mcmc ℚ)
      = exState 5 (-10000000) 5 (-5) (1 / 2) 200 0 := by
    norm_num [gsl_vector_scale, restart_from_best, set_params, set_prob, dup_vector,
      get_params_best, exState, exOne, exChain]
  unfold burn_in
  have hsub : gsl_vector_sub (dup_vector exOne.params_max) exOne.params_min
      = .ok (List.zipWith (· - ·) exOne.params_max exOne.params_min) := by
    simp [gsl_vector_sub, dup_vector, exOne, exChain]
  simp only [hsub, bind, Except.bind, hs, exBurn_short_phase, hr, h2]
  norm_num [mcmc_check, exState, exOne, exChain, gsl_vector_memcpy, get_steps, pure,
    Except.pure]

/-! ## Burn-in: the claims -/

/-- C23: a returning `burn_in` ends with the step widths it was entered with,
and with the bounds `params_min` and `params_max` unchanged.  Its first loop is
entered and left with every step equal to `0.1 * (max[i] - min[i])`, its second
loop is entered and left with every step equal to half of that. -/
theorem burn_in_restores_steps (M : Model α) (circ : List Nat) (m : Mcmc α)
    (burn_in_iterations : Nat) (rng : List α) (m' : Mcmc α) (rng' : List α)
    (h : burn_in M circ m burn_in_iterations rng = .ok (m', rng')) :
    m'.params_step = m.params_step ∧ m'.params_min = m.params_min ∧
    m'.params_max = m.params_max ∧
    ∃ (s1 m1 s2 m2 : Mcmc α) (rng1 : List α) (iter1 iter2 : Nat),
      burn_in_loop M circ (burn_in_iterations / 2) 0 s1 rng = .ok (iter1, m1, rng1) ∧
      burn_in_loop M circ burn_in_iterations iter1 s2 rng1 = .ok (iter2, m2, rng') ∧
      s2 = { restart_from_best m1 with
             params_step := gsl_vector_scale (restart_from_best m1).params_step (1 / 2) } ∧
      m1.params_step = s1.params_step ∧ m2.params_step = s2.params_step ∧
      (∀ (i : Nat) (lo hi : α), m.params_min[i]? = some lo → m.params_max[i]? = some hi →
        s1.params_step[i]? = some ((hi - lo) * (1 / 10)) ∧
        s2.params_step[i]? = some ((hi - lo) * (1 / 10) * (1 / 2))) := by
  obtain ⟨iter1, m1, rng1, iter2, m2, hlen, hl1, hl2, hm'⟩ :=
    burn_in_ok M circ m burn_in_iterations rng m' rng' h
  obtain ⟨-, a1, a2, a3, -⟩ := burn_in_loop_ok M circ _ _ _ _ _ _ _ hl1
  obtain ⟨-, b1, b2, b3, -⟩ := burn_in_loop_ok M circ _ _ _ _ _ _ _ hl2
  have hmin : m2.params_min = m.params_min := b2.trans a2
  have hmax : m2.params_max = m.params_max := b3.trans a3
  refine ⟨by rw [hm'], by rw [hm']; exact hmin, by rw [hm']; exact hmax,
    _, m1, _, m2, rng1, iter1, iter2, hl1, hl2, rfl, a1, b1, ?_⟩
  intro i lo hi hlo hhi
  have hz := getElem?_zipWith_sub m.params_max m.params_min i hi lo hhi hlo
  have h1 : (gsl_vector_scale (List.zipWith (· - ·) m.params_max m.params_min) (1 / 10))[i]?
      = some ((hi - lo) * (1 / 10)) := by
    unfold gsl_vector_scale
    rw [List.getElem?_map, hz]
    rfl
  refine ⟨h1, ?_⟩
  show (gsl_vector_scale (restart_from_best m1).params_step (1 / 2))[i]? = _
  have h2 : (restart_from_best m1).params_step
      = gsl_vector_scale (List.zipWith (· - ·) m.params_max m.params_min) (1 / 10) := a1
  rw [h2]
  unfold gsl_vector_scale at h1 ⊢
  rw [List.getElem?_map, h1]
  rfl

/-- Run of C23 on the one-parameter chain `exOne` (step 1, bounds `[0, 10]`)
with `burn_in_iterations = 300`: the 400 joint steps end with the step 1. -/
theorem burn_in_restores_steps_witness :
    burn_in exConst [] exOne 300 (List.replicate 200 0 ++ (List.replicate 200 0 ++ []))
      = .ok (exState 5 (-10000000) 5 (-5) 1 400 0, []) ∧
    (exState 5 (-10000000) 5 (-5) 1 400 0).params_step = exOne.params_step ∧
    (exState 5 (-10000000) 5 (-5) 1 400 0).params_min = exOne.params_min ∧
    (exState 5 (-10000000) 5 (-5) 1 400 0).params_max = exOne.params_max :=
  ⟨exBurn_run,
    (burn_in_restores_steps exConst [] exOne 300 _ _ _ exBurn_run).1,
    (burn_in_restores_steps exConst [] exOne 300 _ _ _ exBurn_run).2.1,
    (burn_in_restores_steps exConst [] exOne 300 _ _ _ exBurn_run).2.2.1⟩

/-- C24, as stated, fails: with `burn_in_iterations = 4` the first loop of
`burn_in` has the bound `4 / 2 = 2` and ends after one pass, with 200 proposals
counted instead of `(4 / 2) * 200 = 400`; the whole call uses exactly the 200
draws of the tape. -/
theorem first_phase_stops_early :
    burn_in_loop exConst [] (4 / 2) 0 (exState 5 (-5) 5 (-5) 1 0 0)
      (List.replicate 200 0 ++ [])
      = .ok (201, exState 5 (-5) 5 (-5) 1 200 0, []) ∧
    params_proposals (exState 5 (-5) 5 (-5) 1 0 0) = [0] ∧
    params_proposals (exState 5 (-5) 5 (-5) 1 200 0) = [200] ∧
    (200 : Nat) ≠ 4 / 2 * 200 ∧
    burn_in exConst [] exOne 4 (List.replicate 200 0 ++ [])
      = .ok (exState 5 (-10000000) 5 (-5) 1 200 0, []) :=
  ⟨exBurn_short_phase, rfl, rfl, by decide, exBurn_short⟩

/-- C24, amended: the first loop of a returning `burn_in`, the one before the
restart from `params_best`, makes `⌈(B / 2) / 201⌉` passes of 200 joint steps,
where `B / 2` is the integer quotient: every parameter has `200 * ⌈(B / 2) / 201⌉`
proposals more than before, and the counter of the loop ends at
`201 * ⌈(B / 2) / 201⌉`.  This number of steps is `(B / 2) * 200` for
`B / 2 ≤ 1` and smaller for `B / 2 ≥ 2`. -/
theorem burn_in_first_phase_steps (M : Model α) (circ : List Nat) (m : Mcmc α)
    (burn_in_iterations : Nat) (rng : List α) (m' : Mcmc α) (rng' : List α)
    (h : burn_in M circ m burn_in_iterations rng = .ok (m', rng')) :
    ∃ (s1 m1 : Mcmc α) (rng1 : List α) (iter1 : Nat),
      burn_in_loop M circ (burn_in_iterations / 2) 0 s1 rng = .ok (iter1, m1, rng1) ∧
      params_proposals s1 = params_proposals m ∧
      params_proposals m1 =
        (params_proposals m).map (· + 200 * ((burn_in_iterations / 2 + 200) / 201)) ∧
      iter1 = 201 * ((burn_in_iterations / 2 + 200) / 201) ∧
      (burn_in_iterations / 2 ≤ 1 →
        200 * ((burn_in_iterations / 2 + 200) / 201) = burn_in_iterations / 2 * 200) ∧
      (2 ≤ burn_in_iterations / 2 →
        200 * ((burn_in_iterations / 2 + 200) / 201) < burn_in_iterations / 2 * 200) := by
  obtain ⟨iter1, m1, rng1, iter2, m2, hlen, hl1, hl2, hm'⟩ :=
    burn_in_ok M circ m burn_in_iterations rng m' rng' h
  obtain ⟨a0, -, -, -, a4⟩ := burn_in_loop_ok M circ _ _ _ _ _ _ _ hl1
  refine ⟨_, m1, rng1, iter1, hl1, rfl, ?_, ?_, ?_, ?_⟩
  · rw [a4]
    rfl
  · rw [a0]
    simp
  · intro hb
    omega
  · intro hb
    omega

/-- Run of amended C24 with `burn_in_iterations = 300`: the first loop makes
one pass, `200 = 200 * ⌈150 / 201⌉` joint steps. -/
theorem burn_in_first_phase_steps_witness :
    burn_in exConst [] exOne 300 (List.replicate 200 0 ++ (List.replicate 200 0 ++ []))
      = .ok (exState 5 (-10000000) 5 (-5) 1 400 0, []) ∧
    ∃ (s1 m1 : Mcmc ℚ) (rng1 : List ℚ) (iter1 : Nat),
      burn_in_loop exConst [] (300 / 2) 0 s1
        (List.replicate 200 0 ++ (List.replicate 200 0 ++ [])) = .ok (iter1, m1, rng1) ∧
      params_proposals s1 = params_proposals exOne ∧
      params_proposals m1 = (params_proposals exOne).map (· + 200 * ((300 / 2 + 200) / 201)) ∧
      iter1 = 201 * ((300 / 2 + 200) / 201) ∧
      (300 / 2 ≤ 1 → 200 * ((300 / 2 + 200) / 201) = 300 / 2 * 200) ∧
      (2 ≤ 300 / 2 → 200 * ((300 / 2 + 200) / 201) < 300 / 2 * 200) :=
  ⟨exBurn_run, burn_in_first_phase_steps exConst [] exOne 300 _ _ _ exBurn_run⟩

/-- C28: a returning `burn_in` has made exactly `200 * ⌈B / 201⌉` joint
Metropolis steps over both loops, none for `B = 0`: every parameter has that
many proposals more than before.  Each pass of either loop runs 200 steps and
advances the shared counter by 201, and the two loops together make the passes
at the counter values `0, 201, 402, ...` below `B`. -/
theorem burn_in_total_steps (M : Model α) (circ : List Nat) (m : Mcmc α)
    (burn_in_iterations : Nat) (rng : List α) (m' : Mcmc α) (rng' : List α)
    (h : burn_in M circ m burn_in_iterations rng = .ok (m', rng')) :
    params_proposals m' =
      (params_proposals m).map (· + 200 * ((burn_in_iterations + 200) / 201)) ∧
    (burn_in_iterations = 0 → params_proposals m' = params_proposals m) ∧
    ∃ (s1 m1 s2 m2 : Mcmc α) (rng1 : List α) (iter1 iter2 : Nat),
      burn_in_loop M circ (burn_in_iterations / 2) 0 s1 rng = .ok (iter1, m1, rng1) ∧
      burn_in_loop M circ burn_in_iterations iter1 s2 rng1 = .ok (iter2, m2, rng') ∧
      iter2 = 201 * ((burn_in_iterations + 200) / 201) := by
  obtain ⟨iter1, m1, rng1, iter2, m2, hlen, hl1, hl2, hm'⟩ :=
    burn_in_ok M circ m burn_in_iterations rng m' rng' h
  obtain ⟨a0, -, -, -, a4⟩ := burn_in_loop_ok M circ _ _ _ _ _ _ _ hl1
  obtain ⟨b0, -, -, -, b4⟩ := burn_in_loop_ok M circ _ _ _ _ _ _ _ hl2
  have hk : (burn_in_iterations / 2 - 0 + 200) / 201
      + (burn_in_iterations - iter1 + 200) / 201 = (burn_in_iterations + 200) / 201 := by
    rw [a0]
    omega
  have htot : params_proposals m' =
      (params_proposals m).map (· + 200 * ((burn_in_iterations + 200) / 201)) := by
    have e1 : params_proposals m' = params_proposals m2 := by rw [hm']; rfl
    have e2 : params_proposals
        ({ restart_from_best m1 with
            params_step := gsl_vector_scale (restart_from_best m1).params_step (1 / 2) } :
          Mcmc α) = params_proposals m1 := rfl
    have e3 : params_proposals
        ({ m with params_step :=
            gsl_vector_scale (List.zipWith (· - ·) m.params_max m.params_min) (1 / 10) } :
          Mcmc α) = params_proposals m := rfl
    rw [e1, b4, e2, a4, e3, List.map_map, ← hk]
    congr 1
    funext x
    simp only [Function.comp]
    omega
  refine ⟨htot, ?_, _, m1, _, m2, rng1, iter1, iter2, hl1, hl2, ?_⟩
  · intro h0
    rw [htot, h0]
    simp
  · rw [b0, ← hk, a0]
    omega

/-- Run of C28 with `burn_in_iterations = 300`: `400 = 200 * ⌈300 / 201⌉`
joint steps, all counted as accepts of the one parameter. -/
theorem burn_in_total_steps_witness :
    burn_in exConst [] exOne 300 (List.replicate 200 0 ++ (List.replicate 200 0 ++ []))
      = .ok (exState 5 (-10000000) 5 (-5) 1 400 0, []) ∧
    params_proposals (exState 5 (-10000000) 5 (-5) 1 400 0) =
      (params_proposals exOne).map (· + 200 * ((300 + 200) / 201)) :=
  ⟨exBurn_run, (burn_in_total_steps exConst [] exOne 300 _ _ _ exBurn_run).1⟩

/-! ## The guards of the inspection -/

/-- The step widths after a returning inspection loop on a chain with `n_par`
steps: nothing but `params_step` has changed, and the new step of parameter
`i` is fixed by its own rate, step and bounds. -/
theorem calibrate_inspect_fold_steps (rates : List α) (rat_limit mul : α) (m m1 : Mcmc α)
    (rescaled1 : Int) (hlen : m.params_step.length = m.n_par)
    (h : (List.range (get_n_par m)).foldlM (calibrate_inspect_for rates rat_limit mul) (m, 0)
      = .ok (m1, rescaled1)) :
    m1 = { m with params_step := m1.params_step } ∧
    ∀ i : Nat, i < m.n_par → ∃ rate step new, rates[i]? = some rate ∧
      m.params_step[i]? = some step ∧ m1.params_step[i]? = some new ∧
      (rate > rat_limit + 1 / 20 → ∃ lo hi, m.params_min[i]? = some lo ∧
        m.params_max[i]? = some hi ∧
        new = if step / mul / (hi - lo) > 1 then 1 * (hi - lo) else step / mul) ∧
      (rate < rat_limit - 1 / 20 → new = step * mul) ∧
      (rat_limit - 1 / 20 ≤ rate → rate ≤ rat_limit + 1 / 20 → new = step) := by
  have key := foldlM_range_inv (calibrate_inspect_for rates rat_limit mul)
    (fun k (s : Mcmc α × Int) =>
      s.1 = { m with params_step := s.1.params_step } ∧
      s.1.params_step.length = m.params_step.length ∧
      (∀ i : Nat, k ≤ i → s.1.params_step[i]? = m.params_step[i]?) ∧
      ∀ i : Nat, i < k → ∃ rate step new, rates[i]? = some rate ∧
        m.params_step[i]? = some step ∧ s.1.params_step[i]? = some new ∧
        (rate > rat_limit + 1 / 20 → ∃ lo hi, m.params_min[i]? = some lo ∧
          m.params_max[i]? = some hi ∧
          new = if step / mul / (hi - lo) > 1 then 1 * (hi - lo) else step / mul) ∧
        (rate < rat_limit - 1 / 20 → new = step * mul) ∧
        (rat_limit - 1 / 20 ≤ rate → rate ≤ rat_limit + 1 / 20 → new = step))
    (get_n_par m) (m, 0)
    ⟨rfl, rfl, fun i _ => rfl, fun i hi => absurd hi (Nat.not_lt_zero i)⟩
    (by
      rintro k ⟨mk, rk⟩ ⟨mk', rk'⟩ hk ⟨hframe, hlenk, hrest, hdone⟩ hstep
      simp only at hframe hlenk hrest hdone
      have hkl : k < mk.params_step.length := by
        rw [hlenk, hlen]; exact hk
      obtain ⟨rate, step, new, hrate, hs, hm', hhigh, hlow, hband⟩ :=
        calibrate_inspect_for_shape rates rat_limit mul mk mk' rk rk' k hkl hstep
      have hmin : mk.params_min = m.params_min := by rw [hframe]
      have hmax : mk.params_max = m.params_max := by rw [hframe]
      have hs0 : m.params_step[k]? = some step := (hrest k (le_refl k)).symm.trans hs
      refine ⟨?_, ?_, ?_, ?_⟩
      · show mk' = _
        rw [hm', hframe]
      · show mk'.params_step.length = _
        rw [hm']
        simpa using hlenk
      · intro i hi
        show mk'.params_step[i]? = _
        rw [hm']
        simp only
        rw [List.getElem?_set_ne (by omega)]
        exact hrest i (by omega)
      · intro i hi
        show ∃ rate step new, _ ∧ _ ∧ mk'.params_step[i]? = some new ∧ _
        by_cases hik : i = k
        · subst hik
          refine ⟨rate, step, new, hrate, hs0, ?_, ?_, hlow, hband⟩
          · rw [hm']
            exact List.getElem?_set_self hkl
          · intro hh
            obtain ⟨lo, hi', hlo, hhi, hnew⟩ := hhigh hh
            exact ⟨lo, hi', hmin ▸ hlo, hmax ▸ hhi, hnew⟩
        · obtain ⟨rate', step', new', h1, h2, h3, h4⟩ := hdone i (by omega)
          refine ⟨rate', step', new', h1, h2, ?_, h4⟩
          rw [hm']
          simp only
          rw [List.getElem?_set_ne (Ne.symm hik)]
          exact h3)
    (m1, rescaled1) h
  exact ⟨key.1, key.2.2.2⟩

/-- C21, as stated, fails: with `mul = 2`, the rates `[1/10, 1/2]` and
`rat_limit = 1/2` the inspection of `exChain` with the steps `[6, 1]` (bounds
`[0, 10]`, normalised steps `3/5` and `1/10`) multiplies the first step by `mul`
in the too-low branch and leaves the normalised step `6/5`, above 1. -/
theorem too_low_branch_not_clamped :
    (0 : ℚ) < 2 ∧
    get_steps_for_normalized ({ exChain with params_step := [6, 1] } : Mcmc ℚ) 0
      = .ok (3 / 5) ∧
    get_steps_for_normalized ({ exChain with params_step := [6, 1] } : Mcmc ℚ) 1
      = .ok (1 / 10) ∧
    (List.range (get_n_par ({ exChain with params_step := [6, 1] } : Mcmc ℚ))).foldlM
      (calibrate_inspect_for [1 / 10, 1 / 2] (1 / 2) 2)
      (({ exChain with params_step := [6, 1] } : Mcmc ℚ), 0)
      = .ok (({ exChain with params_step := [12, 1] } : Mcmc ℚ), 1) ∧
    get_steps_for_normalized ({ exChain with params_step := [12, 1] } : Mcmc ℚ) 0
      = .ok (6 / 5) ∧
    ¬ ((6 / 5 : ℚ) ≤ 1) := by
  refine ⟨by norm_num, ?_, ?_, ?_, ?_, by norm_num⟩
  · norm_num [get_steps_for_normalized, gsl_vector_get, exChain, div_double, bind,
      Except.bind]
  · norm_num [get_steps_for_normalized, gsl_vector_get, exChain, div_double, bind,
      Except.bind]
  · norm_num [get_n_par, exChain, List.range, List.range.loop, List.foldlM,
      calibrate_inspect_for, gsl_vector_get, bind, Except.bind, pure, Except.pure,
      calibrate_too_high, calibrate_too_low, get_steps_for, get_steps, div_double,
      set_steps_for, gsl_vector_set, calibrate_clamp, calibrate_too_large,
      get_steps_for_normalized, set_steps_for_normalized, assert_steps_positive]
  · norm_num [get_steps_for_normalized, gsl_vector_get, exChain, div_double, bind,
      Except.bind]

/-- C21, amended: for a chain with `n_par` steps and bounds `min[i] < max[i]`
and for `mul > 0`, a returning inspection loop leaves the bounds alone, and the
normalised step `step[i] / (max[i] - min[i])` of parameter `i` ends at most 1
when the rate of `i` was too high (the divided step is clamped to the range),
is multiplied by `mul` without a clamp when the rate was too low, and is
unchanged when the rate was within the band.  Hence for `mul ≤ 1` a normalised
step that was at most 1 before the inspection is at most 1 after it. -/
theorem inspection_normalised_steps (rates : List α) (rat_limit mul : α) (m m1 : Mcmc α)
    (rescaled1 : Int) (hlen : m.params_step.length = m.n_par)
    (hmin : m.params_min.length = m.n_par) (hmax : m.params_max.length = m.n_par)
    (hrange : ∀ (i : Nat) (lo hi : α), m.params_min[i]? = some lo →
      m.params_max[i]? = some hi → lo < hi)
    (hmul : 0 < mul)
    (h : (List.range (get_n_par m)).foldlM (calibrate_inspect_for rates rat_limit mul) (m, 0)
      = .ok (m1, rescaled1)) :
    m1.params_min = m.params_min ∧ m1.params_max = m.params_max ∧
    ∀ i : Nat, i < m.n_par → ∃ rate step new lo hi, rates[i]? = some rate ∧
      m.params_step[i]? = some step ∧ m1.params_step[i]? = some new ∧
      m.params_min[i]? = some lo ∧ m.params_max[i]? = some hi ∧
      (rate > rat_limit + 1 / 20 → new / (hi - lo) ≤ 1) ∧
      (rate < rat_limit - 1 / 20 → new / (hi - lo) = step / (hi - lo) * mul) ∧
      (rat_limit - 1 / 20 ≤ rate → rate ≤ rat_limit + 1 / 20 → new = step) ∧
      (mul ≤ 1 → step / (hi - lo) ≤ 1 → new / (hi - lo) ≤ 1) := by
  obtain ⟨hframe, hall⟩ :=
    calibrate_inspect_fold_steps rates rat_limit mul m m1 rescaled1 hlen h
  refine ⟨by rw [hframe], by rw [hframe], ?_⟩
  intro i hi
  obtain ⟨rate, step, new, hrate, hs, hnew, hhigh, hlow, hband⟩ := hall i hi
  obtain ⟨lo, hlo⟩ := getElem?_of_lt m.params_min i (by omega)
  obtain ⟨hi', hhi⟩ := getElem?_of_lt m.params_max i (by omega)
  have hr : 0 < hi' - lo := sub_pos.mpr (hrange i lo hi' hlo hhi)
  have hhigh' : rate > rat_limit + 1 / 20 → new / (hi' - lo) ≤ 1 := by
    intro hh
    obtain ⟨lo2, hi2, hlo2, hhi2, hn⟩ := hhigh hh
    have e1 : lo = lo2 := Option.some.inj (hlo.symm.trans hlo2)
    have e2 : hi' = hi2 := Option.some.inj (hhi.symm.trans hhi2)
    subst e1 e2
    rw [hn]
    by_cases hc : step / mul / (hi' - lo) > 1
    · rw [if_pos hc, one_mul, div_self hr.ne']
    · rw [if_neg hc]
      exact not_lt.mp hc
  have hlow' : rate < rat_limit - 1 / 20 → new / (hi' - lo) = step / (hi' - lo) * mul := by
    intro hl
    rw [hlow hl]
    ring
  refine ⟨rate, step, new, lo, hi', hrate, hs, hnew, hlo, hhi, hhigh', hlow', hband, ?_⟩
  intro hm1 hn1
  by_cases hh : rate > rat_limit + 1 / 20
  · exact hhigh' hh
  · by_cases hl : rate < rat_limit - 1 / 20
    · rw [hlow' hl]
      by_cases hneg : step / (hi' - lo) < 0
      · have : step / (hi' - lo) * mul < 0 := mul_neg_of_neg_of_pos hneg hmul
        linarith
      · have h0 : 0 ≤ step / (hi' - lo) := not_lt.mp hneg
        have : step / (hi' - lo) * mul ≤ step / (hi' - lo) * 1 :=
          mul_le_mul_of_nonneg_left hm1 h0
        linarith
    · rw [hband (not_lt.mp hl) (not_lt.mp hh)]
      exact hn1

/-- Run of amended C21 on `exChain` (steps `[1, 1]`, bounds `[0, 10]`) with
the rates `[9/10, 1/10]`, `rat_limit = 1/2` and `mul = 9/10`. -/
theorem inspection_normalised_steps_witness :
    (List.range (get_n_par exChain)).foldlM
      (calibrate_inspect_for [9 / 10, 1 / 10] (1 / 2) (9 / 10)) (exChain, 0)
      = .ok ({ exChain with params_step := [10 / 9, 9 / 10] }, 1) ∧
    ({ exChain with params_step := [10 / 9, 9 / 10] } : Mcmc ℚ).params_min
      = exChain.params_min ∧
    ({ exChain with params_step := [10 / 9, 9 / 10] } : Mcmc ℚ).params_max
      = exChain.params_max :=
  have h : (List.range (get_n_par exChain)).foldlM
      (calibrate_inspect_for [9 / 10, 1 / 10] (1 / 2) (9 / 10)) (exChain, 0)
      = .ok ({ exChain with params_step := [10 / 9, 9 / 10] }, 1) := by
    norm_num [get_n_par, exChain, List.range, List.range.loop, List.foldlM,
      calibrate_inspect_for, gsl_vector_get, bind, Except.bind, pure, Except.pure,
      calibrate_too_high, calibrate_too_low, get_steps_for, get_steps, div_double,
      set_steps_for, gsl_vector_set, calibrate_clamp, calibrate_too_large,
      get_steps_for_normalized, set_steps_for_normalized, assert_steps_positive]
  have hr : ∀ (i : Nat) (lo hi : ℚ), exChain.params_min[i]? = some lo →
      exChain.params_max[i]? = some hi → lo < hi := by
    intro i lo hi h1 h2
    have hlo : lo = 0 := by
      have hmem : lo ∈ exChain.params_min := List.mem_iff_getElem?.mpr ⟨i, h1⟩
      simpa [exChain] using hmem
    have hhi : hi = 10 := by
      have hmem : hi ∈ exChain.params_max := List.mem_iff_getElem?.mpr ⟨i, h2⟩
      simpa [exChain] using hmem
    rw [hlo, hhi]
    norm_num
  ⟨h, (inspection_normalised_steps [9 / 10, 1 / 10] (1 / 2) (9 / 10) exChain _ 1 rfl rfl rfl
      hr (by norm_num) h).1,
    (inspection_normalised_steps [9 / 10, 1 / 10] (1 / 2) (9 / 10) exChain _ 1 rfl rfl rfl
      hr (by norm_num) h).2.1⟩

/-! ## The failure exits of the classical calibrator -/

theorem no_exit_ok {β : Type} (a : β) : no_exit (.ok a : Except Fault β) :=
  fun _ h => Except.noConfusion h

theorem no_exit_pure {β : Type} (a : β) : no_exit (pure a : Except Fault β) :=
  fun _ h => Except.noConfusion h

theorem no_exit_draws {β : Type} : no_exit (.error .draws : Except Fault β) :=
  fun _ h => Fault.noConfusion (Except.error.inj h)

theorem no_exit_assertion {β : Type} : no_exit (.error .assertion : Except Fault β) :=
  fun _ h => Fault.noConfusion (Except.error.inj h)

theorem no_exit_range {β : Type} : no_exit (.error .range : Except Fault β) :=
  fun _ h => Fault.noConfusion (Except.error.inj h)

theorem no_exit_undefined {β : Type} : no_exit (.error .undefined : Except Fault β) :=
  fun _ h => Fault.noConfusion (Except.error.inj h)

/-- A sequence of two runs without failure exit has none. -/
theorem no_exit_bind {β γ : Type} {x : Except Fault β} {f : β → Except Fault γ}
    (hx : no_exit x) (hf : ∀ a, x = .ok a → no_exit (f a)) : no_exit (x >>= f) := by
  intro d h
  cases hxa : x with
  | error e =>
    rw [hxa] at h
    have he : e = .exit1 d := Except.error.inj h
    exact hx d (by rw [hxa, he])
  | ok a =>
    rw [hxa] at h
    exact hf a hxa d h

/-- The same for a sequence written as a `match`. -/
theorem no_exit_match {β γ : Type} {x : Except Fault β} {f : β → Except Fault γ}
    (hx : no_exit x) (hf : ∀ a, x = .ok a → no_exit (f a)) :
    no_exit (match x with
      | .error e => .error e
      | .ok a => f a) := by
  intro d h
  cases hxa : x with
  | error e =>
    rw [hxa] at h
    have he : e = .exit1 d := Except.error.inj h
    exact hx d (by rw [hxa, he])
  | ok a =>
    rw [hxa] at h
    exact hf a hxa d h

theorem no_exit_of_eq_error {β γ : Type} {x : Except Fault β} {e : Fault} (hx : no_exit x)
    (h : x = .error e) : no_exit (.error e : Except Fault γ) := by
  intro d hd
  have he : e = .exit1 d := Except.error.inj hd
  exact hx d (by rw [h, he])

theorem no_exit_ite {β : Type} {c : Prop} [Decidable c] {x y : Except Fault β}
    (hx : no_exit x) (hy : no_exit y) : no_exit (if c then x else y) := by
  split
  · exact hx
  · exact hy

/-- A loop over a list without failure exit in its body has none. -/
theorem no_exit_foldlM {σ ι : Type} (f : σ → ι → Except Fault σ)
    (hf : ∀ s i, no_exit (f s i)) : ∀ (l : List ι) (s : σ), no_exit (l.foldlM f s) := by
  intro l
  induction l with
  | nil =>
    intro s
    exact no_exit_ok s
  | cons i l ih =>
    intro s
    rw [List.foldlM_cons]
    exact no_exit_bind (hf s i) fun a _ => ih a

theorem gsl_vector_get_no_exit {β : Type} (v : List β) (i : Nat) :
    no_exit (gsl_vector_get v i) := by
  unfold gsl_vector_get
  split
  · exact no_exit_ok _
  · exact no_exit_range

theorem gsl_vector_set_no_exit {β : Type} (v : List β) (i : Nat) (x : β) :
    no_exit (gsl_vector_set v i x) := by
  unfold gsl_vector_set
  split
  · exact no_exit_ok _
  · exact no_exit_range

theorem next_draw_no_exit (rng : List α) : no_exit (next_draw rng) := by
  unfold next_draw
  split
  · exact no_exit_draws
  · exact no_exit_ok _

theorem get_next_gauss_random_no_exit (step : α) (rng : List α) :
    no_exit (get_next_gauss_random step rng) := next_draw_no_exit rng

theorem get_next_alog_urandom_no_exit (rng : List α) :
    no_exit (get_next_alog_urandom rng) := next_draw_no_exit rng

theorem get_next_urandom_no_exit (rng : List α) :
    no_exit (get_next_urandom rng) := next_draw_no_exit rng

theorem div_double_no_exit (x y : α) : no_exit (div_double x y) := by
  unfold div_double
  split
  · exact no_exit_undefined
  · exact no_exit_ok _

theorem mcmc_check_no_exit (m : Mcmc α) : no_exit (mcmc_check m) := by
  unfold mcmc_check
  repeat' split
  all_goals first | exact no_exit_ok _ | exact no_exit_assertion

theorem redraw_while_no_exit (old max min : α) (rng : List α) :
    ∀ nv : α, no_exit (redraw_while old max min nv rng) := by
  induction rng with
  | nil =>
    intro nv
    unfold redraw_while
    split
    · exact no_exit_draws
    · exact no_exit_ok _
  | cons d rest ih =>
    intro nv
    unfold redraw_while
    split
    · exact ih _
    · exact no_exit_ok _

theorem redraw_do_while_no_exit (step old max min : α) (rng : List α) :
    no_exit (redraw_do_while step old max min rng) := by
  unfold redraw_do_while
  exact no_exit_bind (next_draw_no_exit rng) fun a _ => redraw_while_no_exit _ _ _ _ _

theorem is_circular_no_exit (i : Nat) : ∀ l : List Nat, no_exit (is_circular i l : Except Fault Bool) := by
  intro l
  induction l with
  | nil => exact no_exit_range
  | cons p ps ih =>
    unfold is_circular
    split
    · exact no_exit_ok _
    · split
      · exact no_exit_ok _
      · exact ih

theorem do_step_for_adjust_no_exit (circ : List Nat) (i : Nat) (step old max min nv : α)
    (rng : List α) : no_exit (do_step_for_adjust circ i step old max min nv rng) := by
  unfold do_step_for_adjust
  split
  · exact redraw_while_no_exit _ _ _ _ _
  · split
    · refine no_exit_bind (is_circular_no_exit _ _) fun c _ => ?_
      split
      · exact no_exit_ok _
      · exact redraw_do_while_no_exit _ _ _ _ _
    · exact no_exit_ok _

theorem set_params_for_no_exit (m : Mcmc α) (v : α) (i : Nat) :
    no_exit (set_params_for m v i) := by
  unfold set_params_for
  exact no_exit_bind (gsl_vector_set_no_exit _ _ _) fun a _ => no_exit_ok _

theorem do_step_for_store_no_exit (m : Mcmc α) (i : Nat) (max min nv : α) :
    no_exit (do_step_for_store m i max min nv) := by
  unfold do_step_for_store
  split
  · exact no_exit_assertion
  · split
    · exact no_exit_assertion
    · exact set_params_for_no_exit _ _ _

theorem do_step_for_no_exit (circ : List Nat) (m : Mcmc α) (i : Nat) (rng : List α) :
    no_exit (do_step_for circ m i rng) := by
  unfold do_step_for
  refine no_exit_bind (gsl_vector_get_no_exit _ _) fun step _ => ?_
  refine no_exit_bind (gsl_vector_get_no_exit _ _) fun old _ => ?_
  refine no_exit_bind (get_next_gauss_random_no_exit _ _) fun gr _ => ?_
  refine no_exit_bind (gsl_vector_get_no_exit _ _) fun max _ => ?_
  refine no_exit_bind (gsl_vector_get_no_exit _ _) fun min _ => ?_
  refine no_exit_bind (do_step_for_adjust_no_exit _ _ _ _ _ _ _ _) fun vr _ => ?_
  refine no_exit_bind (do_step_for_store_no_exit _ _ _ _ _) fun m2 _ => ?_
  exact no_exit_ok _

theorem do_step_no_exit (circ : List Nat) (m : Mcmc α) (rng : List α) :
    no_exit (do_step circ m rng) := by
  unfold do_step
  exact no_exit_foldlM (fun (s : Mcmc α × List α) i => do_step_for circ s.1 i s.2)
    (fun s i => do_step_for_no_exit circ s.1 i s.2) _ _

theorem check_accept_no_exit (m : Mcmc α) (prob_old : α) (rng : List α) :
    no_exit (check_accept m prob_old rng) := by
  unfold check_accept
  simp only
  split
  · exact no_exit_ok _
  · split
    · exact no_exit_ok _
    · refine no_exit_bind (get_next_alog_urandom_no_exit _) fun ur _ => ?_
      split
      · exact no_exit_pure _
      · exact no_exit_pure _

theorem inc_params_accepts_for_no_exit (m : Mcmc α) (i : Nat) :
    no_exit (inc_params_accepts_for m i) := by
  unfold inc_params_accepts_for
  refine no_exit_bind (gsl_vector_get_no_exit _ _) fun c _ => ?_
  exact no_exit_bind (gsl_vector_set_no_exit _ _ _) fun a _ => no_exit_ok _

theorem inc_params_rejects_for_no_exit (m : Mcmc α) (i : Nat) :
    no_exit (inc_params_rejects_for m i) := by
  unfold inc_params_rejects_for
  refine no_exit_bind (gsl_vector_get_no_exit _ _) fun c _ => ?_
  exact no_exit_bind (gsl_vector_set_no_exit _ _ _) fun a _ => no_exit_ok _

theorem markov_chain_step_for_no_exit (M : Model α) (circ : List Nat) (m : Mcmc α)
    (index : Nat) (rng : List α) : no_exit (markov_chain_step_for M circ m index rng) := by
  unfold markov_chain_step_for
  refine no_exit_bind (gsl_vector_get_no_exit _ _) fun old _ => ?_
  refine no_exit_bind (mcmc_check_no_exit _) fun u _ => ?_
  refine no_exit_bind (do_step_for_no_exit _ _ _ _) fun mr _ => ?_
  refine no_exit_bind (check_accept_no_exit _ _ _) fun ar _ => ?_
  obtain ⟨accepted, rng2⟩ := ar
  simp only
  split
  · exact no_exit_bind (inc_params_accepts_for_no_exit _ _) fun a _ => no_exit_pure _
  · refine no_exit_bind (set_params_for_no_exit _ _ _) fun m2 _ => ?_
    exact no_exit_bind (inc_params_rejects_for_no_exit _ _) fun a _ => no_exit_pure _

theorem markov_chain_step_no_exit (M : Model α) (circ : List Nat) (m : Mcmc α)
    (rng : List α) : no_exit (markov_chain_step M circ m rng) := by
  unfold markov_chain_step
  refine no_exit_bind (mcmc_check_no_exit _) fun u _ => ?_
  refine no_exit_bind (do_step_no_exit _ _ _) fun mr _ => ?_
  refine no_exit_bind (check_accept_no_exit _ _ _) fun ar _ => ?_
  obtain ⟨accepted, rng2⟩ := ar
  simp only
  split
  · exact no_exit_pure _
  · exact no_exit_pure _

theorem markov_chain_steps_no_exit (M : Model α) (circ : List Nat) :
    ∀ (n : Nat) (m : Mcmc α) (rng : List α), no_exit (markov_chain_steps M circ n m rng) := by
  intro n
  induction n with
  | zero =>
    intro m rng
    exact no_exit_ok _
  | succ n ih =>
    intro m rng
    unfold markov_chain_steps
    cases hx : markov_chain_step M circ m rng with
    | error e => exact no_exit_of_eq_error (markov_chain_step_no_exit M circ m rng) hx
    | ok a => exact ih _ _

theorem markov_chain_steps_checked_no_exit (M : Model α) (circ : List Nat) :
    ∀ (n : Nat) (m : Mcmc α) (rng : List α),
      no_exit (markov_chain_steps_checked M circ n m rng) := by
  intro n
  induction n with
  | zero =>
    intro m rng
    exact no_exit_ok _
  | succ n ih =>
    intro m rng
    unfold markov_chain_steps_checked
    cases hx : markov_chain_step M circ m rng with
    | error e => exact no_exit_of_eq_error (markov_chain_step_no_exit M circ m rng) hx
    | ok a => exact ih _ _

theorem burn_in_loop_no_exit (M : Model α) (circ : List Nat) (bound iter : Nat) (m : Mcmc α)
    (rng : List α) : no_exit (burn_in_loop M circ bound iter m rng) := by
  induction iter, m, rng using burn_in_loop.induct M circ bound with
  | case1 iter m rng h e hs =>
    unfold burn_in_loop
    rw [if_pos h, hs]
    exact no_exit_of_eq_error (markov_chain_steps_no_exit M circ 200 m rng) hs
  | case2 iter m rng h m1 rng1 hs ih =>
    unfold burn_in_loop
    rw [if_pos h, hs]
    exact ih
  | case3 iter m rng h =>
    unfold burn_in_loop
    rw [if_neg h]
    exact no_exit_ok _

theorem gsl_vector_sub_no_exit (a b : List α) : no_exit (gsl_vector_sub a b) := by
  unfold gsl_vector_sub
  split
  · exact no_exit_ok _
  · exact no_exit_range

theorem gsl_vector_memcpy_no_exit (a b : List α) : no_exit (gsl_vector_memcpy a b) := by
  unfold gsl_vector_memcpy
  split
  · exact no_exit_ok _
  · exact no_exit_range

theorem burn_in_no_exit (M : Model α) (circ : List Nat) (m : Mcmc α) (burn_in_iterations : Nat)
    (rng : List α) : no_exit (burn_in M circ m burn_in_iterations rng) := by
  unfold burn_in
  refine no_exit_bind (gsl_vector_sub_no_exit _ _) fun steps _ => ?_
  refine no_exit_bind (mcmc_check_no_exit _) fun u _ => ?_
  refine no_exit_bind (burn_in_loop_no_exit _ _ _ _ _ _) fun r1 _ => ?_
  obtain ⟨iter, m1, rng1⟩ := r1
  refine no_exit_bind (burn_in_loop_no_exit _ _ _ _ _ _) fun r2 _ => ?_
  obtain ⟨iter2, m2, rng2⟩ := r2
  refine no_exit_bind (gsl_vector_memcpy_no_exit _ _) fun s2 _ => ?_
  refine no_exit_bind (mcmc_check_no_exit _) fun u2 _ => ?_
  exact no_exit_pure _

theorem accept_rates_no_exit : ∀ a r : List Nat, no_exit (accept_rates a r : Except Fault (List α))
  | [], _ => by
    unfold accept_rates
    exact no_exit_ok _
  | _ :: _, [] => by
    unfold accept_rates
    exact no_exit_ok _
  | a :: as, r :: rs => by
    unfold accept_rates
    refine no_exit_match (div_double_no_exit _ _) fun q _ => ?_
    cases hx : (accept_rates as rs : Except Fault (List α)) with
    | error e => exact no_exit_of_eq_error (accept_rates_no_exit as rs) hx
    | ok qs => exact no_exit_ok _

theorem get_accept_rate_no_exit (m : Mcmc α) : no_exit (get_accept_rate m) :=
  accept_rates_no_exit _ _

theorem get_accept_rate_global_no_exit (m : Mcmc α) : no_exit (get_accept_rate_global m) :=
  div_double_no_exit _ _

theorem get_steps_for_no_exit (m : Mcmc α) (i : Nat) : no_exit (get_steps_for m i) :=
  gsl_vector_get_no_exit _ _

theorem set_steps_for_no_exit (m : Mcmc α) (v : α) (i : Nat) :
    no_exit (set_steps_for m v i) := by
  unfold set_steps_for
  exact no_exit_bind (gsl_vector_set_no_exit _ _ _) fun a _ => no_exit_pure _

theorem get_steps_for_normalized_no_exit (m : Mcmc α) (i : Nat) :
    no_exit (get_steps_for_normalized m i) := by
  unfold get_steps_for_normalized
  refine no_exit_bind (gsl_vector_get_no_exit _ _) fun step _ => ?_
  refine no_exit_bind (gsl_vector_get_no_exit _ _) fun max _ => ?_
  refine no_exit_bind (gsl_vector_get_no_exit _ _) fun min _ => ?_
  exact div_double_no_exit _ _

theorem set_steps_for_normalized_no_exit (m : Mcmc α) (v : α) (i : Nat) :
    no_exit (set_steps_for_normalized m v i) := by
  unfold set_steps_for_normalized
  refine no_exit_bind (gsl_vector_get_no_exit _ _) fun max _ => ?_
  refine no_exit_bind (gsl_vector_get_no_exit _ _) fun min _ => ?_
  exact set_steps_for_no_exit _ _ _

theorem calibrate_clamp_no_exit (m : Mcmc α) (i : Nat) (rescaled : Int) :
    no_exit (calibrate_clamp m i rescaled) := by
  unfold calibrate_clamp
  refine no_exit_match (get_steps_for_normalized_no_exit _ _) fun n _ => ?_
  split
  · cases hx : set_steps_for_normalized m 1 i with
    | error e => exact no_exit_of_eq_error (set_steps_for_normalized_no_exit m 1 i) hx
    | ok a => exact no_exit_ok _
  · exact no_exit_ok _

/-- After the clamp the normalised step of the parameter is at most 1. -/
theorem calibrate_clamp_le_one (m m2 : Mcmc α) (i : Nat) (r r2 : Int)
    (h : calibrate_clamp m i r = .ok (m2, r2)) (n : α)
    (hn : get_steps_for_normalized m2 i = .ok n) : n ≤ 1 := by
  unfold calibrate_clamp at h
  cases hN : get_steps_for_normalized m i with
  | error e =>
    rw [hN] at h
    exact Except.noConfusion h
  | ok n0 =>
    rw [hN] at h
    simp only at h
    obtain ⟨step, lo, hi, hs, hlo, hhi, hne, hn0⟩ := get_steps_for_normalized_ok m i n0 hN
    have hlt : i < m.params_step.length := by
      by_contra hc
      rw [List.getElem?_eq_none (Nat.le_of_not_lt hc)] at hs
      exact Option.noConfusion hs
    by_cases hgt : n0 > 1
    · rw [if_pos hgt] at h
      have hset : set_steps_for_normalized m 1 i
          = .ok { m with params_step := m.params_step.set i (1 * (hi - lo)) } := by
        unfold set_steps_for_normalized
        rw [gsl_vector_get_of hhi, gsl_vector_get_of hlo]
        exact set_steps_for_of m i _ hlt
      rw [hset] at h
      simp only [Except.ok.injEq, Prod.mk.injEq] at h
      obtain ⟨hm, -⟩ := h
      subst hm
      have hget := get_steps_for_normalized_of
        { m with params_step := m.params_step.set i (1 * (hi - lo)) } i (1 * (hi - lo)) lo hi
        (by simp [List.getElem?_set, hlt]) hlo hhi hne
      rw [hget] at hn
      simp only [Except.ok.injEq] at hn
      rw [← hn, one_mul, div_self hne]
    · rw [if_neg hgt] at h
      simp only [Except.ok.injEq, Prod.mk.injEq] at h
      obtain ⟨hm, -⟩ := h
      subst hm
      rw [hN] at hn
      simp only [Except.ok.injEq] at hn
      rw [← hn]
      exact le_of_not_lt hgt

/-- Behind the clamp the test `> 10000` on the normalised step passes. -/
theorem calibrate_too_large_no_exit (m m2 : Mcmc α) (i : Nat) (r r2 : Int)
    (h : calibrate_clamp m i r = .ok (m2, r2)) : no_exit (calibrate_too_large m2 i) := by
  unfold calibrate_too_large
  refine no_exit_match (get_steps_for_normalized_no_exit _ _) fun n hn => ?_
  have hle := calibrate_clamp_le_one m m2 i r r2 h n hn
  rw [if_neg (by
    intro hc
    have : (1 : α) < 10000 := by norm_num
    exact absurd (lt_of_lt_of_le (lt_trans this hc) hle) (lt_irrefl _))]
  exact no_exit_ok _

theorem calibrate_too_high_no_exit (m : Mcmc α) (i : Nat) (mul : α) (rescaled : Int) :
    no_exit (calibrate_too_high m i mul rescaled) := by
  unfold calibrate_too_high
  refine no_exit_bind (get_steps_for_no_exit _ _) fun step _ => ?_
  refine no_exit_bind (div_double_no_exit _ _) fun q _ => ?_
  refine no_exit_bind (set_steps_for_no_exit _ _ _) fun m1 _ => ?_
  refine no_exit_bind (calibrate_clamp_no_exit _ _ _) fun mr hmr => ?_
  obtain ⟨m2, r2⟩ := mr
  refine no_exit_bind (calibrate_too_large_no_exit _ _ _ _ _ hmr) fun u _ => ?_
  exact no_exit_pure _

theorem calibrate_too_low_no_exit (m : Mcmc α) (i : Nat) (mul : α) :
    no_exit (calibrate_too_low m i mul) := by
  unfold calibrate_too_low
  refine no_exit_bind (get_steps_for_no_exit _ _) fun step _ => ?_
  refine no_exit_bind (set_steps_for_no_exit _ _ _) fun m1 _ => ?_
  refine no_exit_bind (get_steps_for_normalized_no_exit _ _) fun n _ => ?_
  exact no_exit_pure _

theorem assert_steps_positive_no_exit (m : Mcmc α) : no_exit (assert_steps_positive m) := by
  unfold assert_steps_positive
  split
  · exact no_exit_ok _
  · exact no_exit_assertion

theorem calibrate_inspect_for_no_exit (accept_rate : List α) (rat_limit mul : α)
    (s : Mcmc α × Int) (i : Nat) :
    no_exit (calibrate_inspect_for accept_rate rat_limit mul s i) := by
  have hlast : ∀ y : Mcmc α × Int,
      no_exit (assert_steps_positive y.1 >>= fun _ => (pure y : Except Fault (Mcmc α × Int))) :=
    fun y => no_exit_bind (assert_steps_positive_no_exit _) fun _ _ => no_exit_pure _
  have hrest : ∀ y : Mcmc α × Int,
      no_exit (gsl_vector_get accept_rate i >>= fun rate =>
        if rate < rat_limit - 1 / 20 then
          calibrate_too_low y.1 i mul >>= fun z =>
            (assert_steps_positive z.1 >>= fun _ => (pure z : Except Fault (Mcmc α × Int)))
        else
          (pure y : Except Fault (Mcmc α × Int)) >>= fun z =>
            (assert_steps_positive z.1 >>= fun _ => (pure z : Except Fault (Mcmc α × Int)))) := by
    intro y
    refine no_exit_bind (gsl_vector_get_no_exit _ _) fun rate2 _ => ?_
    split
    · exact no_exit_bind (calibrate_too_low_no_exit _ _ _) fun z _ => hlast z
    · exact no_exit_bind (no_exit_pure _) fun z _ => hlast z
  unfold calibrate_inspect_for
  refine no_exit_bind (gsl_vector_get_no_exit _ _) fun rate _ => ?_
  dsimp only
  split
  · exact no_exit_bind (calibrate_too_high_no_exit _ _ _ _) fun y _ => hrest y
  · exact no_exit_bind (no_exit_pure _) fun y _ => hrest y

theorem calibrate_inspect_no_exit (cfg : Config α) (M : Model α) (circ : List Nat) (mul : α)
    (c : Calibration α) : no_exit (calibrate_inspect cfg M circ mul c) := by
  unfold calibrate_inspect
  refine no_exit_bind (get_accept_rate_no_exit _) fun rates _ => ?_
  refine no_exit_bind (no_exit_foldlM _ (calibrate_inspect_for_no_exit _ _ _) _ _) fun mr _ => ?_
  obtain ⟨m1, rescaled⟩ := mr
  refine no_exit_bind (markov_chain_steps_checked_no_exit _ _ _ _ _) fun mr2 _ => ?_
  obtain ⟨m2, rng2⟩ := mr2
  refine no_exit_bind (get_accept_rate_global_no_exit _) fun rate _ => ?_
  exact no_exit_pure _

theorem calibrate_sweep_no_exit (M : Model α) (circ : List Nat) (m : Mcmc α) (rng : List α) :
    no_exit (calibrate_sweep M circ m rng) := by
  unfold calibrate_sweep
  refine no_exit_foldlM _ (fun s i => ?_) _ _
  cases hx : markov_chain_step_for M circ s.1 i s.2 with
  | error e => exact no_exit_of_eq_error (markov_chain_step_for_no_exit M circ s.1 i s.2) hx
  | ok a => exact no_exit_ok _

/-- The only failure exit of the loop of `markov_chain_calibrate_orig` is the
one for the iteration limit. -/
theorem calibrate_loop_exit (cfg : Config α) (M : Model α) (circ : List Nat)
    (iter_limit : Nat) (mul : α) (c : Calibration α) (d : Diagnostic)
    (h : calibrate_loop cfg M circ iter_limit mul c = .error (.exit1 d)) :
    d = .iteration_limit iter_limit := by
  induction c using calibrate_loop.induct cfg M circ iter_limit mul with
  | case1 x e hs =>
    rw [calibrate_loop_unfold, hs] at h
    simp only [Except.error.injEq] at h
    rw [h] at hs
    exact absurd hs (calibrate_sweep_no_exit M circ _ _ d)
  | case2 x m rng hs hz =>
    rw [calibrate_loop_unfold, hs] at h
    simp [hz] at h
  | case3 x m rng hs hz hr e hi =>
    rw [calibrate_loop_unfold, hs] at h
    simp [hz, hr, hi] at h
    rw [h] at hi
    exact absurd hi (calibrate_inspect_no_exit cfg M circ mul _ d)
  | case4 x m rng hs hz hr r hi hsucc =>
    rw [calibrate_loop_inspect cfg M circ iter_limit mul x m rng r hz hr hs hi, if_pos hsucc] at h
    exact Except.noConfusion h
  | case5 x m rng hs hz hr r hi hsucc hl =>
    rw [calibrate_loop_inspect cfg M circ iter_limit mul x m rng r hz hr hs hi, if_neg hsucc,
      if_pos hl] at h
    simp only [Except.error.injEq, Fault.exit1.injEq] at h
    exact h.symm
  | case6 x m rng hs hz hr r hi hsucc hl ih =>
    rw [calibrate_loop_inspect cfg M circ iter_limit mul x m rng r hz hr hs hi, if_neg hsucc,
      if_neg hl] at h
    exact ih h
  | case7 x m rng hs hz hr ih =>
    rw [calibrate_loop_between cfg M circ iter_limit mul x m rng hz hr hs] at h
    exact ih h

/-- The only failure exit of `markov_chain_calibrate_orig` is the one for the
iteration limit. -/
theorem markov_chain_calibrate_orig_exit (L : Libm α) (cfg : Config α) (M : Model α)
    (circ : List Nat) (m : Mcmc α) (burn_in_iterations : Nat) (rat_limit : α)
    (iter_limit : Nat) (mul adjust_step : α) (rng : List α) (d : Diagnostic)
    (h : markov_chain_calibrate_orig L cfg M circ m burn_in_iterations rat_limit iter_limit mul
      adjust_step rng = .error (.exit1 d)) :
    d = .iteration_limit iter_limit := by
  unfold markov_chain_calibrate_orig at h
  cases h1 : burn_in M circ m burn_in_iterations rng with
  | error e =>
    simp only [h1, bind, Except.bind, Except.error.injEq] at h
    rw [h] at h1
    exact absurd h1 (burn_in_no_exit M circ m burn_in_iterations rng d)
  | ok mr =>
    obtain ⟨m1, rng1⟩ := mr
    simp only [h1, bind, Except.bind] at h
    split at h
    · rename_i e he
      simp only [Except.error.injEq] at h
      rw [h] at he
      exact calibrate_loop_exit cfg M circ iter_limit mul _ d he
    · exact Except.noConfusion h

/-! ## A calibration with a step far above the parameter range -/

/-- The second inspection of the run `exLarge_loop`: the rate `1/4` is too low,
the step `1000000` is multiplied by `mul = 9/10`, which leaves the normalised
step at `90000`, and the inspection returns with `rescaled = 1`. -/
theorem exLarge_inspect2 :
    calibrate_inspect exConfigTwo exModel [] (9 / 10)
      ⟨exState 6 (-6) 5 (-5) 1000000 1 3, [1, 1, -1 / 2, -1, 1, -1 / 2, 1, 1, -1 / 2], 4, 1 / 2, 1⟩
      = .ok ⟨exState 6 (-6) 5 (-5) 900000 1 1, [-1, 1, -1 / 2, 1, 1, -1 / 2], 1 / 2, 1, 1, 1⟩ := by
  norm_num [calibrate_inspect, get_accept_rate, accept_rates, div_double,
      calibrate_inspect_for, calibrate_too_high, calibrate_too_low, get_steps_for, get_steps,
      set_steps_for, calibrate_clamp, calibrate_too_large, get_steps_for_normalized,
      set_steps_for_normalized, assert_steps_positive, double_to_int, INT_MIN, INT_MAX,
      restart_from_best, set_params, dup_vector, get_params_best, reset_accept_rejects,
      markov_chain_steps_checked, markov_chain_step, do_step, calc_model, inc_params_accepts,
      inc_params_rejects, get_accept_rate_global, abs_double, exConfigTwo, get_n_par, exState,
      exOne, exChain, List.range, List.range.loop, List.foldlM, mcmc_check, do_step_for,
      gsl_vector_get, get_next_gauss_random, next_draw, bind, Except.bind, do_step_for_adjust,
      redraw_while, do_step_for_store, set_params_for, gsl_vector_set, pure, Except.pure,
      check_accept, exModel, get_prob, set_prob, get_next_alog_urandom, revert,
      mcmc_check_best]

/-- The first inspection of the run `exLarge_loop`: the rate `1/2` lies in the
band and the step `1000000` is left alone. -/
theorem exLarge_inspect1 :
    calibrate_inspect exConfigTwo exModel [] (9 / 10)
      ⟨exState 6 (-6) 5 (-5) 1000000 1 1, [1, 1, -1 / 2, 1, -1 / 2, 1, -1 / 2, 1, 1, -1 / 2, -1, 1, -1 / 2, 1, 1, -1 / 2], 2, 1 / 2, 0⟩
      = .ok ⟨exState 6 (-6) 5 (-5) 1000000 1 1, [1, -1 / 2, 1, -1 / 2, 1, 1, -1 / 2, -1, 1, -1 / 2, 1, 1, -1 / 2], 1 / 2, 1, 1, 0⟩ := by
  norm_num [calibrate_inspect, get_accept_rate, accept_rates, div_double,
      calibrate_inspect_for, calibrate_too_high, calibrate_too_low, get_steps_for, get_steps,
      set_steps_for, calibrate_clamp, calibrate_too_large, get_steps_for_normalized,
      set_steps_for_normalized, assert_steps_positive, double_to_int, INT_MIN, INT_MAX,
      restart_from_best, set_params, dup_vector, get_params_best, reset_accept_rejects,
      markov_chain_steps_checked, markov_chain_step, do_step, calc_model, inc_params_accepts,
      inc_params_rejects, get_accept_rate_global, abs_double, exConfigTwo, get_n_par, exState,
      exOne, exChain, List.range, List.range.loop, List.foldlM, mcmc_check, do_step_for,
      gsl_vector_get, get_next_gauss_random, next_draw, bind, Except.bind, do_step_for_adjust,
      redraw_while, do_step_for_store, set_params_for, gsl_vector_set, pure, Except.pure,
      check_accept, exModel, get_prob, set_prob, get_next_alog_urandom, revert,
      mcmc_check_best]

/-- The third inspection of the run `exLarge_loop`: the rate `1/2` lies in the
band and the step `900000` is left alone. -/
theorem exLarge_inspect3 :
    calibrate_inspect exConfigTwo exModel [] (9 / 10)
      ⟨exState 5 (-5) 5 (-5) 900000 2 2, [1, 1, -1 / 2], 6, 1 / 2, 1⟩
      = .ok ⟨exState 6 (-6) 5 (-5) 900000 1 1, [], 1 / 2, 2, 1, 0⟩ := by
  norm_num [calibrate_inspect, get_accept_rate, accept_rates, div_double,
      calibrate_inspect_for, calibrate_too_high, calibrate_too_low, get_steps_for, get_steps,
      set_steps_for, calibrate_clamp, calibrate_too_large, get_steps_for_normalized,
      set_steps_for_normalized, assert_steps_positive, double_to_int, INT_MIN, INT_MAX,
      restart_from_best, set_params, dup_vector, get_params_best, reset_accept_rejects,
      markov_chain_steps_checked, markov_chain_step, do_step, calc_model, inc_params_accepts,
      inc_params_rejects, get_accept_rate_global, abs_double, exConfigTwo, get_n_par, exState,
      exOne, exChain, List.range, List.range.loop, List.foldlM, mcmc_check, do_step_for,
      gsl_vector_get, get_next_gauss_random, next_draw, bind, Except.bind, do_step_for_adjust,
      redraw_while, do_step_for_store, set_params_for, gsl_vector_set, pure, Except.pure,
      check_accept, exModel, get_prob, set_prob, get_next_alog_urandom, revert,
      mcmc_check_best]

/-- A run of the loop of `markov_chain_calibrate_orig` with the step `1000000`
on the range `[0, 10]`: three inspections, the second of which rescales the
step to `900000`, and the loop returns at the third. -/
theorem exLarge_loop :
    calibrate_loop exConfigTwo exModel [] 100 (9 / 10)
        ⟨exState 5 (-10000000) 5 (-5) 1000000 0 0, [1, 1, -1 / 2, 1, 1, -1 / 2, 1, -1 / 2, 1, -1 / 2, 1, 1, -1 / 2, -1, 1, -1 / 2, 1, 1, -1 / 2], 0, 1 / 2, 0⟩
      = .ok ⟨exState 6 (-6) 5 (-5) 900000 1 1, [], 6, 1 / 2, 2⟩ := by
  have hR : exConfigTwo.ITER_READJUST ≠ 0 := by decide
  have s1 : calibrate_sweep exModel [] (exState 5 (-10000000) 5 (-5) 1000000 0 0) [1, 1, -1 / 2, 1, 1, -1 / 2, 1, -1 / 2, 1, -1 / 2, 1, 1, -1 / 2, -1, 1, -1 / 2, 1, 1, -1 / 2]
      = .ok (exState 6 (-6) 5 (-5) 1000000 1 0, [1, -1 / 2, 1, 1, -1 / 2, 1, -1 / 2, 1, -1 / 2, 1, 1, -1 / 2, -1, 1, -1 / 2, 1, 1, -1 / 2]) := by
    norm_num [calibrate_sweep, get_n_par, exState, exOne, exChain, List.range, List.range.loop,
      List.foldlM, markov_chain_step_for, mcmc_check, do_step_for, gsl_vector_get,
      get_next_gauss_random, next_draw, bind, Except.bind, do_step_for_adjust, redraw_while,
      do_step_for_store, set_params_for, gsl_vector_set, pure, Except.pure, check_accept,
      calc_model_for, exModel, get_prob, set_prob, get_next_alog_urandom,
      inc_params_accepts_for, inc_params_rejects_for, revert, mcmc_check_best]
  have s2 : calibrate_sweep exModel [] (exState 6 (-6) 5 (-5) 1000000 1 0) [1, -1 / 2, 1, 1, -1 / 2, 1, -1 / 2, 1, -1 / 2, 1, 1, -1 / 2, -1, 1, -1 / 2, 1, 1, -1 / 2]
      = .ok (exState 6 (-6) 5 (-5) 1000000 1 1, [1, 1, -1 / 2, 1, -1 / 2, 1, -1 / 2, 1, 1, -1 / 2, -1, 1, -1 / 2, 1, 1, -1 / 2]) := by
    norm_num [calibrate_sweep, get_n_par, exState, exOne, exChain, List.range, List.range.loop,
      List.foldlM, markov_chain_step_for, mcmc_check, do_step_for, gsl_vector_get,
      get_next_gauss_random, next_draw, bind, Except.bind, do_step_for_adjust, redraw_while,
      do_step_for_store, set_params_for, gsl_vector_set, pure, Except.pure, check_accept,
      calc_model_for, exModel, get_prob, set_prob, get_next_alog_urandom,
      inc_params_accepts_for, inc_params_rejects_for, revert, mcmc_check_best]
  have s3 : calibrate_sweep exModel [] (exState 6 (-6) 5 (-5) 1000000 1 1) [1, -1 / 2, 1, -1 / 2, 1, 1, -1 / 2, -1, 1, -1 / 2, 1, 1, -1 / 2]
      = .ok (exState 6 (-6) 5 (-5) 1000000 1 2, [1, -1 / 2, 1, 1, -1 / 2, -1, 1, -1 / 2, 1, 1, -1 / 2]) := by
    norm_num [calibrate_sweep, get_n_par, exState, exOne, exChain, List.range, List.range.loop,
      List.foldlM, markov_chain_step_for, mcmc_check, do_step_for, gsl_vector_get,
      get_next_gauss_random, next_draw, bind, Except.bind, do_step_for_adjust, redraw_while,
      do_step_for_store, set_params_for, gsl_vector_set, pure, Except.pure, check_accept,
      calc_model_for, exModel, get_prob, set_prob, get_next_alog_urandom,
      inc_params_accepts_for, inc_params_rejects_for, revert, mcmc_check_best]
  have s4 : calibrate_sweep exModel [] (exState 6 (-6) 5 (-5) 1000000 1 2) [1, -1 / 2, 1, 1, -1 / 2, -1, 1, -1 / 2, 1, 1, -1 / 2]
      = .ok (exState 6 (-6) 5 (-5) 1000000 1 3, [1, 1, -1 / 2, -1, 1, -1 / 2, 1, 1, -1 / 2]) := by
    norm_num [calibrate_sweep, get_n_par, exState, exOne, exChain, List.range, List.range.loop,
      List.foldlM, markov_chain_step_for, mcmc_check, do_step_for, gsl_vector_get,
      get_next_gauss_random, next_draw, bind, Except.bind, do_step_for_adjust, redraw_while,
      do_step_for_store, set_params_for, gsl_vector_set, pure, Except.pure, check_accept,
      calc_model_for, exModel, get_prob, set_prob, get_next_alog_urandom,
      inc_params_accepts_for, inc_params_rejects_for, revert, mcmc_check_best]
  have s5 : calibrate_sweep exModel [] (exState 6 (-6) 5 (-5) 900000 1 1) [-1, 1, -1 / 2, 1, 1, -1 / 2]
      = .ok (exState 5 (-5) 5 (-5) 900000 2 1, [1, -1 / 2, 1, 1, -1 / 2]) := by
    norm_num [calibrate_sweep, get_n_par, exState, exOne, exChain, List.range, List.range.loop,
      List.foldlM, markov_chain_step_for, mcmc_check, do_step_for, gsl_vector_get,
      get_next_gauss_random, next_draw, bind, Except.bind, do_step_for_adjust, redraw_while,
      do_step_for_store, set_params_for, gsl_vector_set, pure, Except.pure, check_accept,
      calc_model_for, exModel, get_prob, set_prob, get_next_alog_urandom,
      inc_params_accepts_for, inc_params_rejects_for, revert, mcmc_check_best]
  have s6 : calibrate_sweep exModel [] (exState 5 (-5) 5 (-5) 900000 2 1) [1, -1 / 2, 1, 1, -1 / 2]
      = .ok (exState 5 (-5) 5 (-5) 900000 2 2, [1, 1, -1 / 2]) := by
    norm_num [calibrate_sweep, get_n_par, exState, exOne, exChain, List.range, List.range.loop,
      List.foldlM, markov_chain_step_for, mcmc_check, do_step_for, gsl_vector_get,
      get_next_gauss_random, next_draw, bind, Except.bind, do_step_for_adjust, redraw_while,
      do_step_for_store, set_params_for, gsl_vector_set, pure, Except.pure, check_accept,
      calc_model_for, exModel, get_prob, set_prob, get_next_alog_urandom,
      inc_params_accepts_for, inc_params_rejects_for, revert, mcmc_check_best]
  have l1 : calibrate_loop exConfigTwo exModel [] 100 (9 / 10)
        ⟨exState 5 (-10000000) 5 (-5) 1000000 0 0, [1, 1, -1 / 2, 1, 1, -1 / 2, 1, -1 / 2, 1, -1 / 2, 1, 1, -1 / 2, -1, 1, -1 / 2, 1, 1, -1 / 2], 0, 1 / 2, 0⟩
      = calibrate_loop exConfigTwo exModel [] 100 (9 / 10)
        ⟨exState 6 (-6) 5 (-5) 1000000 1 0, [1, -1 / 2, 1, 1, -1 / 2, 1, -1 / 2, 1, -1 / 2, 1, 1, -1 / 2, -1, 1, -1 / 2, 1, 1, -1 / 2], 1, 1 / 2, 0⟩ :=
    calibrate_loop_between _ _ _ _ _ ⟨exState 5 (-10000000) 5 (-5) 1000000 0 0, [1, 1, -1 / 2, 1, 1, -1 / 2, 1, -1 / 2, 1, -1 / 2, 1, 1, -1 / 2, -1, 1, -1 / 2, 1, 1, -1 / 2], 0, 1 / 2, 0⟩ _ _ hR
      (by decide) s1
  have l2 : calibrate_loop exConfigTwo exModel [] 100 (9 / 10)
        ⟨exState 6 (-6) 5 (-5) 1000000 1 0, [1, -1 / 2, 1, 1, -1 / 2, 1, -1 / 2, 1, -1 / 2, 1, 1, -1 / 2, -1, 1, -1 / 2, 1, 1, -1 / 2], 1, 1 / 2, 0⟩
      = calibrate_loop exConfigTwo exModel [] 100 (9 / 10)
        ⟨exState 6 (-6) 5 (-5) 1000000 1 1, [1, -1 / 2, 1, -1 / 2, 1, 1, -1 / 2, -1, 1, -1 / 2, 1, 1, -1 / 2], 2, 1 / 2, 1⟩ := by
    rw [calibrate_loop_inspect _ _ _ _ _ ⟨exState 6 (-6) 5 (-5) 1000000 1 0, [1, -1 / 2, 1, 1, -1 / 2, 1, -1 / 2, 1, -1 / 2, 1, 1, -1 / 2, -1, 1, -1 / 2, 1, 1, -1 / 2], 1, 1 / 2, 0⟩ _ _ _ hR
      (by decide) s2 exLarge_inspect1, if_neg (by norm_num [exConfigTwo]), if_neg (by norm_num)]
  have l3 : calibrate_loop exConfigTwo exModel [] 100 (9 / 10)
        ⟨exState 6 (-6) 5 (-5) 1000000 1 1, [1, -1 / 2, 1, -1 / 2, 1, 1, -1 / 2, -1, 1, -1 / 2, 1, 1, -1 / 2], 2, 1 / 2, 1⟩
      = calibrate_loop exConfigTwo exModel [] 100 (9 / 10)
        ⟨exState 6 (-6) 5 (-5) 1000000 1 2, [1, -1 / 2, 1, 1, -1 / 2, -1, 1, -1 / 2, 1, 1, -1 / 2], 3, 1 / 2, 1⟩ :=
    calibrate_loop_between _ _ _ _ _ ⟨exState 6 (-6) 5 (-5) 1000000 1 1, [1, -1 / 2, 1, -1 / 2, 1, 1, -1 / 2, -1, 1, -1 / 2, 1, 1, -1 / 2], 2, 1 / 2, 1⟩ _ _ hR
      (by decide) s3
  have l4 : calibrate_loop exConfigTwo exModel [] 100 (9 / 10)
        ⟨exState 6 (-6) 5 (-5) 1000000 1 2, [1, -1 / 2, 1, 1, -1 / 2, -1, 1, -1 / 2, 1, 1, -1 / 2], 3, 1 / 2, 1⟩
      = calibrate_loop exConfigTwo exModel [] 100 (9 / 10)
        ⟨exState 6 (-6) 5 (-5) 900000 1 1, [-1, 1, -1 / 2, 1, 1, -1 / 2], 4, 1 / 2, 1⟩ := by
    rw [calibrate_loop_inspect _ _ _ _ _ ⟨exState 6 (-6) 5 (-5) 1000000 1 2, [1, -1 / 2, 1, 1, -1 / 2, -1, 1, -1 / 2, 1, 1, -1 / 2], 3, 1 / 2, 1⟩ _ _ _ hR
      (by decide) s4 exLarge_inspect2, if_neg (by norm_num [exConfigTwo]), if_neg (by norm_num)]
  have l5 : calibrate_loop exConfigTwo exModel [] 100 (9 / 10)
        ⟨exState 6 (-6) 5 (-5) 900000 1 1, [-1, 1, -1 / 2, 1, 1, -1 / 2], 4, 1 / 2, 1⟩
      = calibrate_loop exConfigTwo exModel [] 100 (9 / 10)
        ⟨exState 5 (-5) 5 (-5) 900000 2 1, [1, -1 / 2, 1, 1, -1 / 2], 5, 1 / 2, 1⟩ :=
    calibrate_loop_between _ _ _ _ _ ⟨exState 6 (-6) 5 (-5) 900000 1 1, [-1, 1, -1 / 2, 1, 1, -1 / 2], 4, 1 / 2, 1⟩ _ _ hR
      (by decide) s5
  have l6 : calibrate_loop exConfigTwo exModel [] 100 (9 / 10)
        ⟨exState 5 (-5) 5 (-5) 900000 2 1, [1, -1 / 2, 1, 1, -1 / 2], 5, 1 / 2, 1⟩
      = .ok ⟨exState 6 (-6) 5 (-5) 900000 1 1, [], 6, 1 / 2, 2⟩ := by
    rw [calibrate_loop_inspect _ _ _ _ _ ⟨exState 5 (-5) 5 (-5) 900000 2 1, [1, -1 / 2, 1, 1, -1 / 2], 5, 1 / 2, 1⟩ _ _ _ hR
      (by decide) s6 exLarge_inspect3, if_pos (by norm_num [exConfigTwo])]
  rw [l1, l2, l3, l4, l5, l6]

/-- The call `markov_chain_calibrate_orig(m, 0, 0.5, 100, 0.9, 1000000)` on the
one-parameter chain returns, with the step `900000` on the range `[0, 10]`. -/
theorem exLarge_run :
    markov_chain_calibrate_orig exLibm exConfigTwo exModel [] exOne 0 (1 / 2) 100 (9 / 10)
        1000000 [1, 1, -1 / 2, 1, 1, -1 / 2, 1, -1 / 2, 1, -1 / 2, 1, 1, -1 / 2, -1, 1, -1 / 2, 1, 1, -1 / 2]
      = .ok (exState 6 (-6) 5 (-5) 900000 0 0, []) := by
  rw [markov_chain_calibrate_orig_exOne, exLarge_loop]
  rfl

/-! ## The exit for a step that became too large -/

/-- C22 (counterexample): the calibrator continues past an inspection with a
normalised step above `10^4` and no failure exit is taken.  On the
one-parameter chain with the range `[0, 10]` the second inspection of the call
`markov_chain_calibrate_orig(m, 0, 0.5, 100, 0.9, 1000000)` rescales the step
from `1000000` to `900000` in the too-low branch and returns; the normalised
step `90000` is one on which the test `> 10000` would take the exit, yet the
loop goes on and the call returns with this step. -/
theorem step_above_limit_continues :
    calibrate_inspect exConfigTwo exModel [] (9 / 10)
        ⟨exState 6 (-6) 5 (-5) 1000000 1 3, [1, 1, -1 / 2, -1, 1, -1 / 2, 1, 1, -1 / 2], 4,
          1 / 2, 1⟩
      = .ok ⟨exState 6 (-6) 5 (-5) 900000 1 1, [-1, 1, -1 / 2, 1, 1, -1 / 2], 1 / 2, 1, 1, 1⟩
    ∧ get_steps_for_normalized (exState 6 (-6) 5 (-5) 900000 1 1) 0 = .ok 90000
    ∧ calibrate_too_large (exState 6 (-6) 5 (-5) 900000 1 1) 0
      = .error (.exit1 (.step_too_large 0))
    ∧ markov_chain_calibrate_orig exLibm exConfigTwo exModel [] exOne 0 (1 / 2) 100 (9 / 10)
        1000000 [1, 1, -1 / 2, 1, 1, -1 / 2, 1, -1 / 2, 1, -1 / 2, 1, 1, -1 / 2, -1, 1, -1 / 2,
          1, 1, -1 / 2]
      = .ok (exState 6 (-6) 5 (-5) 900000 0 0, []) := by
  refine ⟨exLarge_inspect2, ?_, ?_, exLarge_run⟩
  · norm_num [get_steps_for_normalized, gsl_vector_get, div_double, exState, exOne, exChain,
      bind, Except.bind]
  · norm_num [calibrate_too_large, get_steps_for_normalized, gsl_vector_get, div_double,
      exState, exOne, exChain, bind, Except.bind]

/-- C22 (amended): in `markov_chain_calibrate_orig` the test for a normalised
step above `10^4` stands in the too-high branch behind the clamp to 1, so the
failure exit "step width became too large" is never taken: for every state,
`mul`, limits and draws neither an inspection nor the whole calibrator ends in
that exit, for any parameter `i`. -/
theorem step_too_large_exit_never_taken (L : Libm α) (cfg : Config α) (M : Model α)
    (circ : List Nat) (m : Mcmc α) (burn_in_iterations : Nat) (rat_limit : α)
    (iter_limit : Nat) (mul adjust_step : α) (rng : List α) (c : Calibration α) (i : Nat) :
    calibrate_inspect cfg M circ mul c ≠ .error (.exit1 (.step_too_large i))
    ∧ markov_chain_calibrate_orig L cfg M circ m burn_in_iterations rat_limit iter_limit mul
        adjust_step rng ≠ .error (.exit1 (.step_too_large i)) := by
  refine ⟨calibrate_inspect_no_exit cfg M circ mul c _, ?_⟩
  intro h
  have hd := markov_chain_calibrate_orig_exit L cfg M circ m burn_in_iterations rat_limit
    iter_limit mul adjust_step rng _ h
  exact Diagnostic.noConfusion hd

/-! ## The assessment of an acceptance rate: the recording loop -/

theorem get_params_accepts_for_ok (m : Mcmc α) (i a : Nat)
    (h : get_params_accepts_for m i = .ok a) :
    m.params_accepts[i]? = some a ∧ accepts_of m i = a := by
  unfold get_params_accepts_for at h
  have := gsl_vector_get_ok.mp h
  exact ⟨this, by simp [accepts_of, this]⟩

/-- One pass of the recording loop: the local `accepts` holds the counter as
it was before the step, and the bit tells whether the counter moved. -/
theorem assess_step_ok (M : Model α) (circ : List Nat) (param : Nat) (m m' : Mcmc α)
    (rng rng' : List α) (acceptslog acceptslog' : List Bool) (accepts : Nat)
    (h : assess_step M circ param m rng acceptslog = .ok (m', rng', accepts, acceptslog')) :
    accepts = accepts_of m param ∧ m.params_accepts[param]? = some accepts ∧
    ((accepts_of m' param = accepts_of m param + 1 ∧ rejects_of m' param = rejects_of m param ∧
        acceptslog' = acceptslog ++ [true]) ∨
     (accepts_of m' param = accepts_of m param ∧
        rejects_of m' param = rejects_of m param + 1 ∧
        acceptslog' = acceptslog ++ [false])) := by
  unfold assess_step at h
  cases h1 : get_params_accepts_for m param with
  | error e => simp [h1, bind, Except.bind] at h
  | ok a =>
  obtain ⟨ha, ha2⟩ := get_params_accepts_for_ok m param a h1
  cases h2 : markov_chain_step_for M circ m param rng with
  | error e => simp [h1, h2, bind, Except.bind] at h
  | ok mr =>
  obtain ⟨m1, rng1⟩ := mr
  cases h3 : get_params_accepts_for (mcmc_check_best m1) param with
  | error e => simp [h1, h2, h3, bind, Except.bind] at h
  | ok now =>
  obtain ⟨hnow, hnow2⟩ := get_params_accepts_for_ok _ param now h3
  simp only [h1, h2, h3, bind, Except.bind] at h
  have hb1 : (mcmc_check_best m1).params_accepts = m1.params_accepts := by
    unfold mcmc_check_best
    split <;> rfl
  have hb2 : (mcmc_check_best m1).params_rejects = m1.params_rejects := by
    unfold mcmc_check_best
    split <;> rfl
  have hA : accepts_of (mcmc_check_best m1) param = accepts_of m1 param := by
    simp only [accepts_of, hb1]
  have hR : rejects_of (mcmc_check_best m1) param = rejects_of m1 param := by
    simp only [rejects_of, hb2]
  obtain ⟨old, v, -, hcase⟩ := markov_chain_step_for_cases M circ m m1 param rng rng1 h2
  have hlt : param < m.params_accepts.length := by
    by_contra hc
    rw [List.getElem?_eq_none (Nat.le_of_not_lt hc)] at ha
    exact Option.noConfusion ha
  rcases hcase with ⟨a1, ha1, hm1⟩ | ⟨c, hc, hm1⟩
  · have haa : a1 = a := Option.some.inj (ha1.symm.trans ha)
    have hA1 : accepts_of m1 param = a + 1 := by
      rw [hm1, haa]
      simp [accepts_of, List.getElem?_set, hlt]
    have hR1 : rejects_of m1 param = rejects_of m param := by
      rw [hm1]
      rfl
    have hne : a ≠ now := by
      rw [← hnow2, hA, hA1]
      omega
    rw [if_neg hne] at h
    simp only [pure, Except.pure, Except.ok.injEq, Prod.mk.injEq] at h
    obtain ⟨hm, -, hacc, hlog⟩ := h
    subst hm
    refine ⟨by rw [← hacc, ha2], by rw [← hacc]; exact ha, Or.inl ⟨?_, ?_, ?_⟩⟩
    · rw [hA, hA1, ha2]
    · rw [hR, hR1]
    · rw [← hlog]
      rfl
  · have hA1 : accepts_of m1 param = a := by
      rw [hm1]
      exact ha2
    have hltc : param < m.params_rejects.length := by
      by_contra hcc
      rw [List.getElem?_eq_none (Nat.le_of_not_lt hcc)] at hc
      exact Option.noConfusion hc
    have hR1 : rejects_of m1 param = rejects_of m param + 1 := by
      rw [hm1]
      simp [rejects_of, List.getElem?_set, hltc, hc]
    have heq : a = now := by
      rw [← hnow2, hA, hA1]
    rw [if_pos heq] at h
    simp only [pure, Except.pure, Except.ok.injEq, Prod.mk.injEq] at h
    obtain ⟨hm, -, hacc, hlog⟩ := h
    subst hm
    refine ⟨by rw [← hacc, ha2], by rw [← hacc]; exact ha, Or.inr ⟨?_, ?_, ?_⟩⟩
    · rw [hA, hA1, ha2]
    · rw [hR, hR1]
    · rw [← hlog]
      rfl

/-- The recording loop: `k` passes write `k` bits, count `k` proposals for the
parameter, and set as many bits as proposals were accepted; after at least
one pass the local `accepts` holds the counter as it was before the last
step. -/
theorem assess_steps_ok (M : Model α) (circ : List Nat) (param : Nat) :
    ∀ (k : Nat) (m m' : Mcmc α) (rng rng' : List α) (accepts accepts' : Nat)
      (acceptslog acceptslog' : List Bool),
      assess_steps M circ param k m rng accepts acceptslog
        = .ok (m', rng', accepts', acceptslog') →
      acceptslog'.length = acceptslog.length + k ∧
      acceptslog'.take acceptslog.length = acceptslog ∧
      accepts_of m' param + rejects_of m' param
        = accepts_of m param + rejects_of m param + k ∧
      acceptslog'.count true + accepts_of m param
        = acceptslog.count true + accepts_of m' param ∧
      (k = 0 → accepts' = accepts) ∧
      (0 < k → ∃ b, acceptslog'.getLast? = some b ∧
        accepts' + (if b then 1 else 0) = accepts_of m' param) := by
  intro k
  induction k with
  | zero =>
    intro m m' rng rng' accepts accepts' acceptslog acceptslog' h
    simp only [assess_steps, Except.ok.injEq, Prod.mk.injEq] at h
    obtain ⟨hm, -, hacc, hlog⟩ := h
    subst hm hlog
    exact ⟨rfl, List.take_length _, rfl, rfl, fun _ => hacc.symm, fun h0 => absurd h0 (by decide)⟩
  | succ k ih =>
    intro m m' rng rng' accepts accepts' acceptslog acceptslog' h
    rw [assess_steps] at h
    cases h1 : assess_step M circ param m rng acceptslog with
    | error e =>
      rw [h1] at h
      exact Except.noConfusion h
    | ok r =>
      obtain ⟨m1, rng1, acc1, log1⟩ := r
      rw [h1] at h
      simp only at h
      obtain ⟨hacc1, -, hcase⟩ := assess_step_ok M circ param m m1 rng rng1 acceptslog log1 acc1 h1
      obtain ⟨hlen, htake, hsum, hcount, hzero, hpos⟩ :=
        ih m1 m' rng1 rng' acc1 accepts' log1 acceptslog' h
      have hlog1 : log1.length = acceptslog.length + 1 ∧ log1.take acceptslog.length = acceptslog ∧
          accepts_of m1 param + rejects_of m1 param
            = accepts_of m param + rejects_of m param + 1 ∧
          log1.count true + accepts_of m param = acceptslog.count true + accepts_of m1 param ∧
          ∃ b, log1.getLast? = some b ∧ acc1 + (if b then 1 else 0) = accepts_of m1 param := by
        rcases hcase with ⟨hA, hR, hl⟩ | ⟨hA, hR, hl⟩
        · subst hl
          refine ⟨by simp, by simp, by omega, ?_, true, by simp, ?_⟩
          · rw [List.count_append]
            simp
            omega
          · rw [hacc1, hA]
            simp
        · subst hl
          refine ⟨by simp, by simp, by omega, ?_, false, by simp, ?_⟩
          · rw [List.count_append]
            simp
            omega
          · rw [hacc1, hA]
            simp
      obtain ⟨hl1, ht1, hs1, hc1, b1, hb1, hb1'⟩ := hlog1
      refine ⟨by omega, ?_, by omega, by omega, fun h0 => absurd h0 (Nat.succ_ne_zero k), ?_⟩
      · have hle : acceptslog.length ≤ log1.length := by omega
        calc List.take acceptslog.length acceptslog'
            = List.take acceptslog.length (List.take log1.length acceptslog') := by
              rw [List.take_take, min_eq_left hle]
          _ = List.take acceptslog.length log1 := by rw [htake]
          _ = acceptslog := ht1
      · intro _
        rcases Nat.eq_zero_or_pos k with hk | hk
        · subst hk
          simp only [assess_steps, Except.ok.injEq, Prod.mk.injEq] at h
          obtain ⟨hm, -, hacc, hlog⟩ := h
          subst hm hlog
          exact ⟨b1, hb1, by rw [← hacc]; exact hb1'⟩
        · exact hpos hk

/-! ## The assessment of an acceptance rate: the largest deviation -/

/-- The `int` conversion followed by `abs` yields the whole part of the
absolute value. -/
theorem int_abs_double_to_int (x : α) (d : Int) (a : Nat) (hd : double_to_int x = .ok d)
    (ha : int_abs d = .ok a) : a = Nat.floor |x| := by
  unfold int_abs at ha
  split at ha
  · exact Except.noConfusion ha
  · simp only [Except.ok.injEq] at ha
    by_cases hx : 0 ≤ x
    · simp only [double_to_int, if_pos hx] at hd
      split at hd
      · simp only [Except.ok.injEq] at hd
        rw [← ha, ← hd, abs_of_nonneg hx, ← Int.floor_toNat]
        have h0 : 0 ≤ Int.floor x := Int.floor_nonneg.mpr hx
        omega
      · exact Except.noConfusion hd
    · have hx' : x < 0 := lt_of_not_le hx
      simp only [double_to_int, if_neg hx] at hd
      split at hd
      · simp only [Except.ok.injEq] at hd
        rw [← ha, ← hd, abs_of_neg hx', ← Int.floor_toNat, Int.floor_neg]
        have h0 : Int.ceil x ≤ 0 := Int.ceil_le.mpr (by simpa using le_of_lt hx')
        omega
      · exact Except.noConfusion hd

/-- A value below `2^31` in absolute value is converted and `abs` is defined
on the result. -/
theorem int_abs_double_to_int_of (x : α) (hx : |x| < 2147483648) :
    ∃ d a, double_to_int x = .ok d ∧ int_abs d = .ok a := by
  have h1 : -2147483648 < x := by
    have := neg_abs_le x
    linarith
  have h2 : x < 2147483648 := lt_of_le_of_lt (le_abs_self x) hx
  have hfl : Int.floor x < 2147483648 := by
    have := Int.floor_le x
    have h3 : ((Int.floor x : Int) : α) < ((2147483648 : Int) : α) := by
      push_cast
      linarith
    exact Int.cast_lt.mp h3
  have hce : -2147483648 < Int.ceil x := by
    have := Int.le_ceil x
    have h3 : ((-2147483648 : Int) : α) < ((Int.ceil x : Int) : α) := by
      push_cast
      linarith
    exact Int.cast_lt.mp h3
  by_cases h0 : 0 ≤ x
  · have hf0 : 0 ≤ Int.floor x := Int.floor_nonneg.mpr h0
    refine ⟨Int.floor x, (Int.floor x).natAbs, ?_, ?_⟩
    · unfold double_to_int
      simp only [if_pos h0, INT_MIN, INT_MAX]
      rw [if_pos ⟨by omega, by omega⟩]
    · unfold int_abs
      rw [if_neg (by simp only [INT_MIN]; omega)]
  · have hc0 : Int.ceil x ≤ 0 := Int.ceil_le.mpr (by simpa using le_of_lt (lt_of_not_le h0))
    refine ⟨Int.ceil x, (Int.ceil x).natAbs, ?_, ?_⟩
    · unfold double_to_int
      simp only [if_neg h0, INT_MIN, INT_MAX]
      rw [if_pos ⟨by omega, by omega⟩]
    · unfold int_abs
      rw [if_neg (by simp only [INT_MIN]; omega)]

theorem get_bit_ok (bitfield : List Bool) (j : Nat) (b : Bool) :
    get_bit bitfield j = .ok b ↔ bitfield[j]? = some b := by
  unfold get_bit
  cases h : bitfield[j]? with
  | none => simp
  | some c => simp

theorem count_take_succ (l : List Bool) (k : Nat) (b : Bool) (h : l[k]? = some b) :
    (l.take (k + 1)).count true = (l.take k).count true + (if b then 1 else 0) := by
  rw [List.take_succ, h, List.count_append]
  cases b <;> simp

/-- One pass of the deviation loop, read off a returning call. -/
theorem assess_deviation_for_ok (acceptslog : List Bool) (accept_rate : α) (s s' : Nat × Nat)
    (j : Nat) (h : assess_deviation_for acceptslog accept_rate s j = .ok s') :
    ∃ bit, acceptslog[j]? = some bit ∧ s'.1 = s.1 + (if bit then 1 else 0) ∧
      s'.2 = max s.2 (Nat.floor |(s'.1 : α) - accept_rate * (j : α)|) := by
  unfold assess_deviation_for at h
  cases h1 : get_bit acceptslog j with
  | error e => simp [h1, bind, Except.bind] at h
  | ok bit =>
  simp only [h1, bind, Except.bind] at h
  split at h
  · exact Except.noConfusion h
  · rename_i d h2
    split at h
    · exact Except.noConfusion h
    · rename_i a h3
      simp only [pure, Except.pure, Except.ok.injEq] at h
      have ha := int_abs_double_to_int _ d a h2 h3
      have hmax : (if a > s.2 then a else s.2) = max s.2 a := by
        by_cases hgt : a > s.2
        · rw [if_pos hgt, max_eq_right (le_of_lt hgt)]
        · rw [if_neg hgt, max_eq_left (le_of_not_lt hgt)]
      rw [hmax, ha] at h
      refine ⟨bit, (get_bit_ok _ _ _).mp h1, ?_, ?_⟩
      · rw [← h]
        cases bit <;> simp
      · rw [← h]

/-- One pass of the deviation loop returns when the bit was written and the
deviation fits an `int`. -/
theorem assess_deviation_for_of (acceptslog : List Bool) (accept_rate : α) (s : Nat × Nat)
    (j : Nat) (bit : Bool) (hbit : acceptslog[j]? = some bit)
    (hx : |((s.1 + (if bit then 1 else 0) : Nat) : α) - accept_rate * (j : α)| < 2147483648) :
    ∃ s', assess_deviation_for acceptslog accept_rate s j = .ok s' := by
  have hacc : (if bit = true then s.1 + 1 else s.1) = s.1 + (if bit then 1 else 0) := by
    cases bit <;> simp
  obtain ⟨d, a, hd, ha⟩ := int_abs_double_to_int_of _ hx
  refine ⟨(s.1 + (if bit then 1 else 0), if a > s.2 then a else s.2), ?_⟩
  unfold assess_deviation_for
  simp only [(get_bit_ok _ _ _).mpr hbit, bind, Except.bind, hacc, hd, ha, pure, Except.pure]

/-- The deviation loop, read off a returning call: `accepts` is the number of
bits set among the first `n`, and `maxdev` is the largest of 1 and the whole
parts of `|accepts_at_j - rate * j|` for `j < n`. -/
theorem assess_deviation_ok (acceptslog : List Bool) (accept_rate : α) (n accepts maxdev : Nat)
    (h : assess_deviation acceptslog accept_rate n = .ok (accepts, maxdev)) :
    n ≤ acceptslog.length ∧ accepts = (acceptslog.take n).count true ∧ 1 ≤ maxdev ∧
    (∀ j, j < n → deviation_at acceptslog accept_rate j ≤ maxdev) ∧
    (maxdev = 1 ∨ ∃ j, j < n ∧ maxdev = deviation_at acceptslog accept_rate j) := by
  unfold assess_deviation at h
  have key := foldlM_range_inv (assess_deviation_for acceptslog accept_rate)
    (fun k (s : Nat × Nat) => k ≤ acceptslog.length ∧ s.1 = (acceptslog.take k).count true ∧
      1 ≤ s.2 ∧ (∀ j, j < k → deviation_at acceptslog accept_rate j ≤ s.2) ∧
      (s.2 = 1 ∨ ∃ j, j < k ∧ s.2 = deviation_at acceptslog accept_rate j))
    n (0, 0 + 1)
    ⟨Nat.zero_le _, by simp, by simp, fun j hj => absurd hj (Nat.not_lt_zero j), Or.inl rfl⟩
    (by
      intro k s s' _ hI hs
      obtain ⟨hk, hacc, hone, hub, hatt⟩ := hI
      obtain ⟨bit, hbit, h1, h2⟩ := assess_deviation_for_ok acceptslog accept_rate s s' k hs
      have hlt : k < acceptslog.length := by
        by_contra hc
        rw [List.getElem?_eq_none (Nat.le_of_not_lt hc)] at hbit
        exact Option.noConfusion hbit
      have hat : s'.1 = accepts_at acceptslog k := by
        rw [h1, hacc, accepts_at, count_take_succ _ _ _ hbit]
      have hdev : Nat.floor |(s'.1 : α) - accept_rate * (k : α)|
          = deviation_at acceptslog accept_rate k := by
        rw [hat, deviation_at]
      rw [hdev] at h2
      refine ⟨hlt, ?_, ?_, ?_, ?_⟩
      · rw [h1, hacc, count_take_succ _ _ _ hbit]
      · rw [h2]
        exact le_trans hone (le_max_left _ _)
      · intro j hj
        rw [h2]
        rcases Nat.lt_succ_iff_lt_or_eq.mp hj with hj' | hj'
        · exact le_trans (hub j hj') (le_max_left _ _)
        · rw [hj']
          exact le_max_right _ _
      · rw [h2]
        rcases le_total s.2 (deviation_at acceptslog accept_rate k) with hle | hle
        · rw [max_eq_right hle]
          exact Or.inr ⟨k, Nat.lt_succ_self k, rfl⟩
        · rw [max_eq_left hle]
          rcases hatt with h1' | ⟨j, hj, hjm⟩
          · exact Or.inl h1'
          · exact Or.inr ⟨j, Nat.lt_succ_of_lt hj, hjm⟩)
    (accepts, maxdev) h
  exact key

/-- The deviation loop returns when `n` bits were written and every deviation
fits an `int`. -/
theorem assess_deviation_of (acceptslog : List Bool) (accept_rate : α) (n : Nat)
    (hn : n ≤ acceptslog.length)
    (hx : ∀ j, j < n →
      |(accepts_at acceptslog j : α) - accept_rate * (j : α)| < 2147483648) :
    ∃ s, assess_deviation acceptslog accept_rate n = .ok s := by
  unfold assess_deviation
  obtain ⟨s, hs, -⟩ := foldlM_range_ok (assess_deviation_for acceptslog accept_rate)
    (fun k (s : Nat × Nat) => s.1 = (acceptslog.take k).count true)
    n (0, 0 + 1) (by simp)
    (by
      intro k s hk hI
      obtain ⟨bit, hbit⟩ := getElem?_of_lt acceptslog k (lt_of_lt_of_le hk hn)
      have hat : s.1 + (if bit then 1 else 0) = accepts_at acceptslog k := by
        rw [hI, accepts_at, count_take_succ _ _ _ hbit]
      obtain ⟨s', hs'⟩ := assess_deviation_for_of acceptslog accept_rate s k bit hbit
        (by rw [hat]; exact hx k hk)
      obtain ⟨bit', hbit', h1, -⟩ := assess_deviation_for_ok acceptslog accept_rate s s' k hs'
      have hbb : bit' = bit := Option.some.inj (hbit'.symm.trans hbit)
      refine ⟨s', hs', ?_⟩
      show s'.1 = _
      rw [h1, hbb, hI, count_take_succ _ _ _ hbit])
  exact ⟨s, hs⟩

/-! ## The assessment of an acceptance rate: the rounds -/

theorem abs_double_eq (x : α) : abs_double x = |x| := by
  unfold abs_double
  split
  · rename_i h
    rw [abs_of_neg h]
  · rename_i h
    rw [abs_of_nonneg (le_of_not_lt h)]

/-- The required accuracy is the largest of `min_accuracy`, `0.005` and
`|rate - desired| * ACCURACY_DEVIATION_FACTOR`. -/
theorem assess_required_accuracy_eq (accept_rate desired_acceptance_rate min_accuracy : α) :
    assess_required_accuracy accept_rate desired_acceptance_rate min_accuracy
      = max min_accuracy (max (5 / 1000)
          (|accept_rate - desired_acceptance_rate| * ACCURACY_DEVIATION_FACTOR)) := by
  unfold assess_required_accuracy
  simp only [abs_double_eq]
  by_cases h1 : |accept_rate - desired_acceptance_rate| * ACCURACY_DEVIATION_FACTOR < 5 / 1000
  · rw [if_pos h1, max_eq_left (le_of_lt h1)]
    by_cases h2 : (5 / 1000 : α) < min_accuracy
    · rw [if_pos h2, max_eq_left (le_of_lt h2)]
    · rw [if_neg h2, max_eq_right (le_of_not_lt h2)]
  · rw [if_neg h1, max_eq_right (le_of_not_lt h1)]
    by_cases h2 : |accept_rate - desired_acceptance_rate| * ACCURACY_DEVIATION_FACTOR
        < min_accuracy
    · rw [if_pos h2, max_eq_left (le_of_lt h2)]
    · rw [if_neg h2, max_eq_right (le_of_not_lt h2)]

theorem assess_required_accuracy_pos (accept_rate desired_acceptance_rate min_accuracy : α) :
    0 < assess_required_accuracy accept_rate desired_acceptance_rate min_accuracy := by
  rw [assess_required_accuracy_eq]
  exact lt_of_lt_of_le (by norm_num : (0 : α) < 5 / 1000)
    (le_trans (le_max_left _ _) (le_max_right _ _))

/-- The new sample size for a positive required accuracy: with
`k = floor((maxdev / required_accuracy) / 8)` in the range of `unsigned int`
it is `(k + 1) * 8` reduced modulo `2^32`. -/
theorem assess_grow_of (maxdev : Nat) (required_accuracy : α) (hra : 0 < required_accuracy)
    (hfit : Nat.floor ((maxdev : α) / required_accuracy / 8) ≤ UINT_MAX) :
    assess_grow maxdev required_accuracy
      = .ok ((Nat.floor ((maxdev : α) / required_accuracy / 8) + 1) % 4294967296 * 8
          % 4294967296) := by
  have hx : 0 ≤ (maxdev : α) / 1 / required_accuracy / 8 := by positivity
  have hf0 : 0 ≤ Int.floor ((maxdev : α) / 1 / required_accuracy / 8) := Int.floor_nonneg.mpr hx
  have hnat : (Int.floor ((maxdev : α) / 1 / required_accuracy / 8)).toNat
      = Nat.floor ((maxdev : α) / required_accuracy / 8) := by
    rw [Int.floor_toNat, div_one]
  have hle : Int.floor ((maxdev : α) / 1 / required_accuracy / 8) ≤ (UINT_MAX : Int) := by
    have : (Int.floor ((maxdev : α) / 1 / required_accuracy / 8)).toNat ≤ UINT_MAX := by
      rw [hnat]
      exact hfit
    omega
  unfold assess_grow double_to_uint
  simp only [if_pos hx, if_pos (And.intro hf0 hle), bind, Except.bind, pure, Except.pure, hnat]

/-- A round of `assess_acceptance_rate` that reaches the required accuracy
returns its values. -/
theorem assess_loop_return (M : Model α) (circ : List Nat) (param : Nat)
    (desired_acceptance_rate min_accuracy : α) (n : Nat) (m m1 : Mcmc α) (rng rng1 : List α)
    (accepts accepts1 accepts2 maxdev : Nat) (acceptslog acceptslog1 : List Bool)
    (hsteps : assess_steps M circ param (n - acceptslog.length) m rng accepts acceptslog
      = .ok (m1, rng1, accepts1, acceptslog1))
    (hdev : assess_deviation acceptslog1 ((accepts1 : α) / (n : α)) n = .ok (accepts2, maxdev))
    (hacc : (maxdev : α) / 1 / (n : α)
      ≤ assess_required_accuracy ((accepts1 : α) / (n : α)) desired_acceptance_rate
          min_accuracy) :
    assess_loop M circ param desired_acceptance_rate min_accuracy n m rng accepts acceptslog
      = .ok ⟨m1, rng1, (accepts1 : α) / (n : α), (maxdev : α) / 1 / (n : α), n,
          acceptslog1⟩ := by
  rw [assess_loop]
  simp only [hsteps, hdev, if_pos hacc]

/-- A round of `assess_acceptance_rate` that misses the required accuracy
goes on with the new sample size. -/
theorem assess_loop_grow (M : Model α) (circ : List Nat) (param : Nat)
    (desired_acceptance_rate min_accuracy : α) (n n' : Nat) (m m1 : Mcmc α)
    (rng rng1 : List α) (accepts accepts1 accepts2 maxdev : Nat)
    (acceptslog acceptslog1 : List Bool)
    (hsteps : assess_steps M circ param (n - acceptslog.length) m rng accepts acceptslog
      = .ok (m1, rng1, accepts1, acceptslog1))
    (hdev : assess_deviation acceptslog1 ((accepts1 : α) / (n : α)) n = .ok (accepts2, maxdev))
    (hacc : ¬ (maxdev : α) / 1 / (n : α)
      ≤ assess_required_accuracy ((accepts1 : α) / (n : α)) desired_acceptance_rate
          min_accuracy)
    (hassert : (maxdev : α) / assess_required_accuracy ((accepts1 : α) / (n : α))
      desired_acceptance_rate min_accuracy ≥ (n : α))
    (hgrow : assess_grow maxdev (assess_required_accuracy ((accepts1 : α) / (n : α))
      desired_acceptance_rate min_accuracy) = .ok n')
    (hlt : n < n' ∧ n' ≤ UINT_MAX) :
    assess_loop M circ param desired_acceptance_rate min_accuracy n m rng accepts acceptslog
      = assess_loop M circ param desired_acceptance_rate min_accuracy n' m1 rng1 accepts2
          acceptslog1 := by
  conv_lhs => rw [assess_loop]
  simp only [hsteps, hdev, if_neg hacc, hgrow, dif_pos hlt]
  rw [if_neg (not_not.mpr hassert)]

/-- In a round that misses the required accuracy the assertion
`maxdev / required_accuracy >= n` holds. -/
theorem assess_assertion_holds (maxdev n : Nat) (required_accuracy : α)
    (hra : 0 < required_accuracy)
    (hacc : ¬ (maxdev : α) / 1 / (n : α) ≤ required_accuracy) :
    0 < n ∧ (maxdev : α) / required_accuracy ≥ (n : α) := by
  have hn : 0 < n := by
    rcases Nat.eq_zero_or_pos n with h0 | h0
    · exfalso
      apply hacc
      rw [h0, Nat.cast_zero, div_zero]
      exact le_of_lt hra
    · exact h0
  have hn' : (0 : α) < (n : α) := Nat.cast_pos.mpr hn
  have h1 : required_accuracy < (maxdev : α) / (n : α) := by
    rw [div_one] at hacc
    exact lt_of_not_le hacc
  have h2 : required_accuracy * (n : α) < (maxdev : α) := (lt_div_iff₀ hn').mp h1
  exact ⟨hn, le_of_lt ((lt_div_iff₀ hra).mpr (by linarith))⟩

/-- A returning loop of `assess_acceptance_rate`, entered with fewer bits than
the sample size: the returned `n` is the number of bits written and the number
of proposals counted for the parameter, the bits set are the accepts counted,
and the rate, the accuracy and the exit test are those of the last round, in
which the local `accepts` is the counter as it was before the last step. -/
theorem assess_loop_ok (M : Model α) (circ : List Nat) (param : Nat)
    (desired_acceptance_rate min_accuracy : α) (n : Nat) (m : Mcmc α) (rng : List α)
    (accepts : Nat) (acceptslog : List Bool) (r : Assessment α)
    (hlen : acceptslog.length < n)
    (h : assess_loop M circ param desired_acceptance_rate min_accuracy n m rng accepts
      acceptslog = .ok r) :
    n ≤ r.n ∧ r.acceptslog.length = r.n ∧
    accepts_of r.m param + rejects_of r.m param + acceptslog.length
      = accepts_of m param + rejects_of m param + r.n ∧
    r.acceptslog.count true + accepts_of m param
      = acceptslog.count true + accepts_of r.m param ∧
    ∃ (accepts1 accepts2 maxdev : Nat) (b : Bool),
      r.acceptslog.getLast? = some b ∧
      accepts1 + (if b then 1 else 0) = accepts_of r.m param ∧
      r.acceptance_rate = (accepts1 : α) / (r.n : α) ∧
      assess_deviation r.acceptslog r.acceptance_rate r.n = .ok (accepts2, maxdev) ∧
      r.accuracy = (maxdev : α) / 1 / (r.n : α) ∧
      r.accuracy ≤ assess_required_accuracy r.acceptance_rate desired_acceptance_rate
        min_accuracy := by
  induction n, m, rng, accepts, acceptslog
    using assess_loop.induct M circ param desired_acceptance_rate min_accuracy with
  | case1 n m rng accepts acceptslog e hs =>
    rw [assess_loop] at h
    simp only [hs] at h
    exact Except.noConfusion h
  | case2 n m rng accepts acceptslog m1 rng1 accepts1 log1 hs accept_rate e hd =>
    rw [assess_loop] at h
    simp only [hs, hd] at h
    exact Except.noConfusion h
  | case3 n m rng accepts acceptslog m1 rng1 accepts1 log1 hs accept_rate accepts2 maxdev hd
      required_accuracy accuracy hacc =>
    rw [assess_loop_return M circ param desired_acceptance_rate min_accuracy n m m1 rng rng1
      accepts accepts1 accepts2 maxdev acceptslog log1 hs hd hacc] at h
    simp only [Except.ok.injEq] at h
    subst h
    obtain ⟨hl, -, hsum, hcount, -, hpos⟩ :=
      assess_steps_ok M circ param _ m m1 rng rng1 accepts accepts1 acceptslog log1 hs
    have hex := hpos (Nat.sub_pos_of_lt hlen)
    clear hpos
    obtain ⟨b, hb, hb'⟩ := hex
    have hk : n - acceptslog.length + acceptslog.length = n :=
      Nat.sub_add_cancel (le_of_lt hlen)
    have e1 : log1.length = n := by rw [hl, Nat.add_comm, hk]
    have e2 : accepts_of m1 param + rejects_of m1 param + acceptslog.length
        = accepts_of m param + rejects_of m param + n := by
      rw [hsum, Nat.add_assoc, hk]
    exact ⟨le_refl _, e1, e2, hcount, accepts1, accepts2, maxdev, b, hb, hb', rfl, hd, rfl,
      hacc⟩
  | case4 n m rng accepts acceptslog m1 rng1 accepts1 log1 hs accept_rate accepts2 maxdev hd
      required_accuracy accuracy hacc hassert =>
    rw [assess_loop] at h
    simp only [hs, hd] at h
    rw [if_neg hacc, if_pos hassert] at h
    exact Except.noConfusion h
  | case5 n m rng accepts acceptslog m1 rng1 accepts1 log1 hs accept_rate accepts2 maxdev hd
      required_accuracy accuracy hacc hassert e hg =>
    rw [assess_loop] at h
    simp only [hs, hd] at h
    rw [if_neg hacc, if_neg hassert] at h
    simp only [hg] at h
    exact Except.noConfusion h
  | case6 n m rng accepts acceptslog m1 rng1 accepts1 log1 hs accept_rate accepts2 maxdev hd
      required_accuracy accuracy hacc hassert n' hg hlt ih =>
    rw [assess_loop_grow M circ param desired_acceptance_rate min_accuracy n n' m m1 rng rng1
      accepts accepts1 accepts2 maxdev acceptslog log1 hs hd hacc (not_not.mp hassert) hg
      hlt] at h
    obtain ⟨hl, -, hsum, hcount, -, -⟩ :=
      assess_steps_ok M circ param _ m m1 rng rng1 accepts accepts1 acceptslog log1 hs
    have hk : n - acceptslog.length + acceptslog.length = n :=
      Nat.sub_add_cancel (le_of_lt hlen)
    have e1 : log1.length = n := by rw [hl, Nat.add_comm, hk]
    have e2 : accepts_of m1 param + rejects_of m1 param + acceptslog.length
        = accepts_of m param + rejects_of m param + n := by
      rw [hsum, Nat.add_assoc, hk]
    obtain ⟨h1, h2, h3, h4, h5⟩ := ih (by rw [e1]; exact hlt.1) h
    rw [e1] at h3
    have hn1 : n ≤ n' := le_of_lt hlt.1
    refine ⟨le_trans hn1 h1, h2, ?_, ?_, h5⟩
    · omega
    · omega
  | case7 n m rng accepts acceptslog m1 rng1 accepts1 log1 hs accept_rate accepts2 maxdev hd
      required_accuracy accuracy hacc hassert n' hg hlt =>
    rw [assess_loop] at h
    simp only [hs, hd] at h
    rw [if_neg hacc, if_neg hassert] at h
    simp only [hg, dif_neg hlt] at h
    exact Except.noConfusion h

/-- A returning call of `assess_acceptance_rate`: the facts of `assess_loop_ok`
for the loop entered with `n = 40` after the counters were reset. -/
theorem assess_acceptance_rate_ok (M : Model α) (circ : List Nat) (m : Mcmc α) (param : Nat)
    (desired_acceptance_rate min_accuracy : α) (rng : List α) (r : Assessment α)
    (h : assess_acceptance_rate M circ m param desired_acceptance_rate min_accuracy rng
      = .ok r) :
    40 ≤ r.n ∧ r.acceptslog.length = r.n ∧
    accepts_of r.m param + rejects_of r.m param = r.n ∧
    r.acceptslog.count true = accepts_of r.m param ∧
    ∃ (accepts1 accepts2 maxdev : Nat) (b : Bool),
      r.acceptslog.getLast? = some b ∧
      accepts1 + (if b then 1 else 0) = accepts_of r.m param ∧
      r.acceptance_rate = (accepts1 : α) / (r.n : α) ∧
      assess_deviation r.acceptslog r.acceptance_rate r.n = .ok (accepts2, maxdev) ∧
      r.accuracy = (maxdev : α) / 1 / (r.n : α) ∧
      r.accuracy ≤ assess_required_accuracy r.acceptance_rate desired_acceptance_rate
        min_accuracy := by
  unfold assess_acceptance_rate at h
  obtain ⟨h1, h2, h3, h4, h5⟩ := assess_loop_ok M circ param desired_acceptance_rate
    min_accuracy 40 (reset_accept_rejects m) rng 0 [] r (by simp) h
  have hA : accepts_of (reset_accept_rejects m) param = 0 := by
    simp only [accepts_of, reset_accept_rejects, List.getElem?_map]
    cases m.params_accepts[param]? <;> rfl
  have hR : rejects_of (reset_accept_rejects m) param = 0 := by
    simp only [rejects_of, reset_accept_rejects, List.getElem?_map]
    cases m.params_rejects[param]? <;> rfl
  rw [hA, hR] at h3
  rw [hA] at h4
  simp only [List.length_nil, List.count_nil, add_zero, zero_add] at h3 h4
  exact ⟨h1, h2, h3, h4, h5⟩

/-! ## The assessment of an acceptance rate: runs on the one-parameter chain -/

theorem accepts_at_all_accept (n j : Nat) (hj : j < n) :
    accepts_at (List.replicate n true) j = j + 1 := by
  unfold accepts_at
  rw [List.take_replicate, min_eq_left (Nat.succ_le_of_lt hj)]
  simp

theorem accepts_at_all_reject (n j : Nat) :
    accepts_at (List.replicate n false) j = 0 := by
  unfold accepts_at
  rw [List.take_replicate, List.count_replicate]
  rfl

/-- With every proposal accepted and the rate `(n - 1) / n` the running count
is `1 + j / n` above `rate * j`, of whole part 1. -/
theorem deviation_all_accept (n a j : Nat) (ha : a + 1 = n) (hj : j < n) :
    |(accepts_at (List.replicate n true) j : α) - (a : α) / (n : α) * (j : α)| < 2 ∧
    deviation_at (List.replicate n true) ((a : α) / (n : α)) j = 1 := by
  have hn : (0 : α) < (n : α) := Nat.cast_pos.mpr (by omega)
  have hjn : (j : α) < (n : α) := Nat.cast_lt.mpr hj
  have hj0 : (0 : α) ≤ (j : α) := Nat.cast_nonneg j
  have han : (a : α) = (n : α) - 1 := by
    rw [← ha]
    push_cast
    ring
  have hx : (accepts_at (List.replicate n true) j : α) - (a : α) / (n : α) * (j : α)
      = 1 + (j : α) / (n : α) := by
    rw [accepts_at_all_accept n j hj, han]
    push_cast
    field_simp
    ring
  have h0 : 0 ≤ (j : α) / (n : α) := div_nonneg hj0 (le_of_lt hn)
  have h1 : (j : α) / (n : α) < 1 := (div_lt_one hn).mpr hjn
  have habs : |(1 : α) + (j : α) / (n : α)| = 1 + (j : α) / (n : α) :=
    abs_of_nonneg (by linarith)
  constructor
  · rw [hx, habs]
    linarith
  · unfold deviation_at
    rw [hx, habs]
    rw [Nat.floor_eq_iff (by linarith)]
    constructor
    · push_cast
      linarith
    · push_cast
      linarith

/-- The deviation loop on a bitmap of `n` accepts with the rate `(n - 1) / n`
ends with `accepts = n` and `maxdev = 1`. -/
theorem assess_deviation_all_accept (n a : Nat) (ha : a + 1 = n) :
    assess_deviation (List.replicate n true) ((a : α) / (n : α)) n = .ok (n, 1) := by
  obtain ⟨s, hs⟩ := assess_deviation_of (List.replicate n true) ((a : α) / (n : α)) n
    (by simp) (fun j hj => lt_trans (deviation_all_accept n a j ha hj).1 (by norm_num))
  obtain ⟨acc, md⟩ := s
  obtain ⟨-, hacc, hone, hub, hatt⟩ := assess_deviation_ok _ _ n acc md hs
  have hmd : md = 1 := by
    rcases hatt with h | ⟨j, hj, h⟩
    · exact h
    · rw [h]
      exact (deviation_all_accept n a j ha hj).2
  rw [hs, hacc, hmd]
  simp

/-- The deviation loop on a bitmap of `n` rejects with the rate 0 ends with
`accepts = 0` and `maxdev = 1`, the value `maxdev` starts from. -/
theorem assess_deviation_all_reject (n : Nat) :
    assess_deviation (List.replicate n false) (((0 : Nat) : α) / (n : α)) n = .ok (0, 1) := by
  rw [Nat.cast_zero]
  have hx : ∀ j, (accepts_at (List.replicate n false) j : α) - (0 : α) / (n : α) * (j : α)
      = 0 := by
    intro j
    rw [accepts_at_all_reject]
    simp
  obtain ⟨s, hs⟩ := assess_deviation_of (List.replicate n false) ((0 : α) / (n : α)) n
    (by simp) (fun j _ => by rw [hx j]; simp)
  obtain ⟨acc, md⟩ := s
  obtain ⟨-, hacc, hone, hub, hatt⟩ := assess_deviation_ok _ _ n acc md hs
  have hmd : md = 1 := by
    rcases hatt with h | ⟨j, hj, h⟩
    · exact h
    · have hd : deviation_at (List.replicate n false) ((0 : α) / (n : α)) j = 0 := by
        unfold deviation_at
        rw [hx j]
        simp
      omega
  rw [hs, hacc, hmd, List.take_replicate, List.count_replicate]
  rfl

/-- On the constant model a recorded step of the one-parameter chain with the
draw `0` counts an accept and sets the bit; the local `accepts` holds the
count before the step. -/
theorem exAccept_step (a : Nat) (rest : List ℚ) (acceptslog : List Bool) :
    assess_step exConst [] 0 (exState 5 (-5) 5 (-5) 1 a 0) (0 :: rest) acceptslog
      = .ok (exState 5 (-5) 5 (-5) 1 (a + 1) 0, rest, a, acceptslog ++ [true]) := by
  norm_num [assess_step, get_params_accepts_for, set_bit, clear_bit, get_n_par, exState, exOne,
    exChain, markov_chain_step_for, mcmc_check, do_step_for, gsl_vector_get,
    get_next_gauss_random, next_draw, bind, Except.bind, do_step_for_adjust,
    redraw_while_inside 5 10 0 5 rest (by norm_num) (by norm_num),
    do_step_for_store, set_params_for, gsl_vector_set, pure, Except.pure, check_accept,
    calc_model_for, exConst, get_prob, set_prob, inc_params_accepts_for, mcmc_check_best]

/-- On the constant model `k + 1` recorded steps with draws `0` count `k + 1`
accepts; the local `accepts` ends as the count before the last step. -/
theorem exAccept_steps (k : Nat) :
    ∀ (a accepts : Nat) (rest : List ℚ) (acceptslog : List Bool),
      assess_steps exConst [] 0 (k + 1) (exState 5 (-5) 5 (-5) 1 a 0)
        (List.replicate (k + 1) 0 ++ rest) accepts acceptslog
      = .ok (exState 5 (-5) 5 (-5) 1 (a + (k + 1)) 0, rest, a + k,
          acceptslog ++ List.replicate (k + 1) true) := by
  induction k with
  | zero =>
    intro a accepts rest acceptslog
    simp only [List.replicate_one, List.singleton_append, assess_steps, exAccept_step,
      zero_add, add_zero]
  | succ k ih =>
    intro a accepts rest acceptslog
    rw [List.replicate_succ, List.cons_append, assess_steps, exAccept_step]
    simp only
    rw [ih (a + 1) a rest (acceptslog ++ [true])]
    rw [List.replicate_succ (n := k + 1), List.append_assoc, List.singleton_append,
      show a + 1 + (k + 1) = a + (k + 1 + 1) from by omega,
      show a + 1 + k = a + (k + 1) from by omega]

/-- On `exModel` a recorded step of the one-parameter chain at 5 with the
proposal draw `1` and the log-uniform draw `-1/2` counts a reject and clears
the bit. -/
theorem exReject_step (r : Nat) (rest : List ℚ) (acceptslog : List Bool) :
    assess_step exModel [] 0 (exState 5 (-5) 5 (-5) 1 0 r) (1 :: -1 / 2 :: rest) acceptslog
      = .ok (exState 5 (-5) 5 (-5) 1 0 (r + 1), rest, 0, acceptslog ++ [false]) := by
  norm_num [assess_step, get_params_accepts_for, set_bit, clear_bit, get_n_par, exState, exOne,
    exChain, markov_chain_step_for, mcmc_check, do_step_for, gsl_vector_get,
    get_next_gauss_random, next_draw, bind, Except.bind, do_step_for_adjust,
    redraw_while_inside 5 10 0 6 (-(1 / 2) :: rest) (by norm_num) (by norm_num),
    do_step_for_store, set_params_for, gsl_vector_set, pure, Except.pure, check_accept,
    calc_model_for, exModel, get_prob, set_prob, get_next_alog_urandom,
    inc_params_accepts_for, inc_params_rejects_for, revert, mcmc_check_best]

/-- On `exModel` `k + 1` recorded steps with the draws `exRejects (k + 1)`
count `k + 1` rejects. -/
theorem exReject_steps (k : Nat) :
    ∀ (r accepts : Nat) (rest : List ℚ) (acceptslog : List Bool),
      assess_steps exModel [] 0 (k + 1) (exState 5 (-5) 5 (-5) 1 0 r)
        (exRejects (k + 1) ++ rest) accepts acceptslog
      = .ok (exState 5 (-5) 5 (-5) 1 0 (r + (k + 1)), rest, 0,
          acceptslog ++ List.replicate (k + 1) false) := by
  induction k with
  | zero =>
    intro r accepts rest acceptslog
    simp only [exRejects, List.cons_append, List.nil_append, assess_steps, exReject_step,
      zero_add, List.replicate_one]
  | succ k ih =>
    intro r accepts rest acceptslog
    rw [exRejects, List.cons_append, List.cons_append, assess_steps, exReject_step]
    simp only
    rw [ih (r + 1) 0 rest (acceptslog ++ [false])]
    rw [List.replicate_succ (n := k + 1), List.append_assoc, List.singleton_append,
      show r + 1 + (k + 1) = r + (k + 1 + 1) from by omega]

theorem exOne_reset : reset_accept_rejects exOne = exState 5 (-5) 5 (-5) 1 0 0 := by
  rfl

/-- The call `assess_acceptance_rate(m, 0, 0.23, 0.01, ...)` on the constant
model with forty draws `0`: all forty proposals are accepted and the call
returns after the first round with `n = 40`, the rate `39/40` and the accuracy
`1/40`. -/
theorem exAccept_run :
    assess_acceptance_rate exConst [] exOne 0 (23 / 100) (1 / 100) (List.replicate 40 0)
      = .ok ⟨exState 5 (-5) 5 (-5) 1 40 0, [], 39 / 40, 1 / 40, 40, List.replicate 40 true⟩ := by
  have hs : assess_steps exConst [] 0 (40 - ([] : List Bool).length)
      (exState 5 (-5) 5 (-5) 1 0 0) (List.replicate 40 0) 0 []
      = .ok (exState 5 (-5) 5 (-5) 1 40 0, [], 39, List.replicate 40 true) := by
    have := exAccept_steps 39 0 0 [] []
    simpa using this
  have hd : assess_deviation (List.replicate 40 true) (((39 : Nat) : ℚ) / ((40 : Nat) : ℚ)) 40
      = .ok (40, 1) := assess_deviation_all_accept 40 39 rfl
  have hacc : ((1 : Nat) : ℚ) / 1 / ((40 : Nat) : ℚ)
      ≤ assess_required_accuracy (((39 : Nat) : ℚ) / ((40 : Nat) : ℚ)) (23 / 100) (1 / 100) := by
    norm_num [assess_required_accuracy, abs_double, ACCURACY_DEVIATION_FACTOR]
  unfold assess_acceptance_rate
  rw [exOne_reset, assess_loop_return exConst [] 0 (23 / 100) (1 / 100) 40 _ _ _ _ 0 39 40 1 []
    (List.replicate 40 true) hs hd hacc]
  norm_num

/-- The call `assess_acceptance_rate(m, 0, 0.23, 0.01, ...)` on `exModel` with
the draws of forty rejected steps: the call returns after the first round with
`n = 40`, the rate `0` and the accuracy `1/40`. -/
theorem exReject_run :
    assess_acceptance_rate exModel [] exOne 0 (23 / 100) (1 / 100) (exRejects 40)
      = .ok ⟨exState 5 (-5) 5 (-5) 1 0 40, [], 0, 1 / 40, 40, List.replicate 40 false⟩ := by
  have hs : assess_steps exModel [] 0 (40 - ([] : List Bool).length)
      (exState 5 (-5) 5 (-5) 1 0 0) (exRejects 40) 0 []
      = .ok (exState 5 (-5) 5 (-5) 1 0 40, [], 0, List.replicate 40 false) := by
    have := exReject_steps 39 0 0 [] []
    simpa using this
  have hd : assess_deviation (List.replicate 40 false) (((0 : Nat) : ℚ) / ((40 : Nat) : ℚ)) 40
      = .ok (0, 1) := assess_deviation_all_reject 40
  have hacc : ((1 : Nat) : ℚ) / 1 / ((40 : Nat) : ℚ)
      ≤ assess_required_accuracy (((0 : Nat) : ℚ) / ((40 : Nat) : ℚ)) (23 / 100) (1 / 100) := by
    norm_num [assess_required_accuracy, abs_double, ACCURACY_DEVIATION_FACTOR]
  unfold assess_acceptance_rate
  rw [exOne_reset, assess_loop_return exModel [] 0 (23 / 100) (1 / 100) 40 _ _ _ _ 0 0 0 1 []
    (List.replicate 40 false) hs hd hacc]
  norm_num

/-- The first round of the run `exGrow_run`: forty accepted steps. -/
theorem exGrow_steps1 :
    assess_steps exConst [] 0 (40 - ([] : List Bool).length) (exState 5 (-5) 5 (-5) 1 0 0)
      (List.replicate 40 0 ++ List.replicate 168 0) 0 []
      = .ok (exState 5 (-5) 5 (-5) 1 40 0, List.replicate 168 0, 39, List.replicate 40 true) := by
  have := exAccept_steps 39 0 0 (List.replicate 168 0) []
  simpa using this

/-- The required accuracy in the first round of the run `exGrow_run`: the
rate `39/40` is the desired one, and `0.005` is the largest of the three
bounds. -/
theorem exGrow_required :
    assess_required_accuracy (((39 : Nat) : ℚ) / ((40 : Nat) : ℚ)) (39 / 40) (1 / 1000)
      = 1 / 200 := by
  norm_num [assess_required_accuracy, abs_double, ACCURACY_DEVIATION_FACTOR]

/-- The first round of the run `exGrow_run` misses the required accuracy. -/
theorem exGrow_misses :
    ¬ ((1 : Nat) : ℚ) / 1 / ((40 : Nat) : ℚ)
      ≤ assess_required_accuracy (((39 : Nat) : ℚ) / ((40 : Nat) : ℚ)) (39 / 40)
          (1 / 1000) := by
  rw [exGrow_required]
  norm_num

theorem exGrow_floor :
    Nat.floor (((1 : Nat) : ℚ)
      / assess_required_accuracy (((39 : Nat) : ℚ) / ((40 : Nat) : ℚ)) (39 / 40) (1 / 1000)
      / 8) = 25 := by
  rw [exGrow_required]
  norm_num

/-- The new sample size after the first round of the run `exGrow_run`:
`maxdev / required_accuracy = 1 / 0.005 = 200`, and the size is
`(200 / 8 + 1) * 8 = 208`. -/
theorem exGrow_size :
    assess_grow 1 (assess_required_accuracy (((39 : Nat) : ℚ) / ((40 : Nat) : ℚ)) (39 / 40)
      (1 / 1000)) = .ok 208 := by
  rw [assess_grow_of 1 _ (assess_required_accuracy_pos _ _ _)
    (by rw [exGrow_floor]; decide), exGrow_floor]

/-- The call `assess_acceptance_rate(m, 0, 0.975, 0.001, ...)` on the constant
model with 208 draws `0`: the first round of 40 steps ends with the accuracy
`1/40` above the required `0.005` and grows the sample to 208; the second
round returns with `n = 208`, the rate `207/208` and the accuracy `1/208`. -/
theorem exGrow_run :
    assess_acceptance_rate exConst [] exOne 0 (39 / 40) (1 / 1000)
        (List.replicate 40 0 ++ List.replicate 168 0)
      = .ok ⟨exState 5 (-5) 5 (-5) 1 208 0, [], 207 / 208, 1 / 208, 208,
          List.replicate 208 true⟩ := by
  have hd1 : assess_deviation (List.replicate 40 true) (((39 : Nat) : ℚ) / ((40 : Nat) : ℚ)) 40
      = .ok (40, 1) := assess_deviation_all_accept 40 39 rfl
  have hacc1 := exGrow_misses
  have hassert : ((1 : Nat) : ℚ)
      / assess_required_accuracy (((39 : Nat) : ℚ) / ((40 : Nat) : ℚ)) (39 / 40) (1 / 1000)
      ≥ ((40 : Nat) : ℚ) := by
    norm_num [assess_required_accuracy, abs_double, ACCURACY_DEVIATION_FACTOR]
  have hs2 : assess_steps exConst [] 0 (208 - (List.replicate 40 true).length)
      (exState 5 (-5) 5 (-5) 1 40 0) (List.replicate 168 0) 40 (List.replicate 40 true)
      = .ok (exState 5 (-5) 5 (-5) 1 208 0, [], 207, List.replicate 208 true) := by
    have := exAccept_steps 167 40 40 [] (List.replicate 40 true)
    rw [List.append_nil, List.append_replicate_replicate] at this
    simpa using this
  have hd2 : assess_deviation (List.replicate 208 true)
      (((207 : Nat) : ℚ) / ((208 : Nat) : ℚ)) 208 = .ok (208, 1) :=
    assess_deviation_all_accept 208 207 rfl
  have hacc2 : ((1 : Nat) : ℚ) / 1 / ((208 : Nat) : ℚ)
      ≤ assess_required_accuracy (((207 : Nat) : ℚ) / ((208 : Nat) : ℚ)) (39 / 40)
          (1 / 1000) := by
    norm_num [assess_required_accuracy, abs_double, ACCURACY_DEVIATION_FACTOR]
  unfold assess_acceptance_rate
  rw [exOne_reset, assess_loop_grow exConst [] 0 (39 / 40) (1 / 1000) 40 208 _ _ _ _ 0 39 40 1 []
    (List.replicate 40 true) exGrow_steps1 hd1 hacc1 hassert exGrow_size
    (by decide),
    assess_loop_return exConst [] 0 (39 / 40) (1 / 1000) 208 _ _ _ _ 40 207 208 1
    (List.replicate 40 true) (List.replicate 208 true) hs2 hd2 hacc2]
  norm_num

/-! ## The assessment of an acceptance rate: the claims -/

/-- The deviation loop of the first round of the run `exGrow_run`. -/
theorem exGrow_deviation1 :
    assess_deviation (List.replicate 40 true) (((39 : Nat) : ℚ) / ((40 : Nat) : ℚ)) 40
      = .ok (40, 1) := assess_deviation_all_accept 40 39 rfl

/-- C25 (code at the failing input): on the constant model with forty draws
`0` all forty proposals of the call are accepted, the counter `accepts[0]` ends
at 40 and the call returns `n = 40`, but the rate it returns is `39/40`: the
local `accepts` is read before each step and misses the last one. -/
theorem assess_rate_misses_last_step :
    assess_acceptance_rate exConst [] exOne 0 (23 / 100) (1 / 100) (List.replicate 40 0)
      = .ok ⟨exState 5 (-5) 5 (-5) 1 40 0, [], 39 / 40, 1 / 40, 40, List.replicate 40 true⟩
    ∧ accepts_of (exState 5 (-5) 5 (-5) 1 40 0) 0 = 40
    ∧ (39 / 40 : ℚ) ≠ 40 / 40 :=
  ⟨exAccept_run, rfl, by norm_num⟩

/-- C26 (counterexample): the returned accuracy is not 0 when the running
count of accepts never deviates from `rate * j`.  On `exModel` with the draws
of forty rejected steps the rate is 0 and every running count is 0, so every
`accepts_at_j - rate * j` is 0, yet the accuracy returned is `1/40`. -/
theorem accuracy_positive_without_deviation :
    assess_acceptance_rate exModel [] exOne 0 (23 / 100) (1 / 100) (exRejects 40)
      = .ok ⟨exState 5 (-5) 5 (-5) 1 0 40, [], 0, 1 / 40, 40, List.replicate 40 false⟩
    ∧ (List.range 40).all (fun j =>
        decide ((accepts_at (List.replicate 40 false) j : ℚ) - 0 * (j : ℚ) = 0)) = true
    ∧ (1 / 40 : ℚ) ≠ 0 := by
  refine ⟨exReject_run, ?_, by norm_num⟩
  rw [List.all_eq_true]
  intro j _
  rw [accepts_at_all_reject]
  simp

/-- C26 (amended): the accuracy returned by `assess_acceptance_rate` is
`maxdev / n`, where `maxdev` is the largest of 1 and the whole parts of
`|accepts_at_j - rate * j|` for `j` in `[0, n)`, with `accepts_at_j` the number
of accepts among the steps `0 .. j` recorded in the bitmap, whose `n` bits hold
as many ones as the counter `accepts[param]` counts; `maxdev` starts at 1, so
the accuracy is at least `1 / n` and never 0. -/
theorem assess_accuracy_spec (M : Model α) (circ : List Nat) (m : Mcmc α) (param : Nat)
    (desired_acceptance_rate min_accuracy : α) (rng : List α) (r : Assessment α)
    (h : assess_acceptance_rate M circ m param desired_acceptance_rate min_accuracy rng
      = .ok r) :
    ∃ maxdev : Nat,
      r.accuracy = (maxdev : α) / (r.n : α) ∧ 1 ≤ maxdev ∧
      (∀ j, j < r.n → deviation_at r.acceptslog r.acceptance_rate j ≤ maxdev) ∧
      (maxdev = 1 ∨ ∃ j, j < r.n ∧ maxdev = deviation_at r.acceptslog r.acceptance_rate j) ∧
      r.acceptslog.length = r.n ∧ r.acceptslog.count true = accepts_of r.m param ∧
      (1 : α) / (r.n : α) ≤ r.accuracy ∧ 0 < r.accuracy := by
  obtain ⟨h40, hlen, -, hcount, accepts1, accepts2, maxdev, b, -, -, -, hd, hacc, -⟩ :=
    assess_acceptance_rate_ok M circ m param desired_acceptance_rate min_accuracy rng r h
  obtain ⟨-, -, hone, hub, hatt⟩ :=
    assess_deviation_ok r.acceptslog r.acceptance_rate r.n accepts2 maxdev hd
  have hn : (0 : α) < (r.n : α) := Nat.cast_pos.mpr (by omega)
  have hmd : (1 : α) ≤ (maxdev : α) := by exact_mod_cast hone
  have hacc' : r.accuracy = (maxdev : α) / (r.n : α) := by rw [hacc, div_one]
  have hge : (1 : α) / (r.n : α) ≤ r.accuracy := by
    rw [hacc']
    exact div_le_div_of_nonneg_right hmd (le_of_lt hn)
  exact ⟨maxdev, hacc', hone, hub, hatt, hlen, hcount, hge,
    lt_of_lt_of_le (div_pos one_pos hn) hge⟩

/-- Run of amended C26 on `exModel` with forty rejected steps. -/
theorem assess_accuracy_spec_witness :
    assess_acceptance_rate exModel [] exOne 0 (23 / 100) (1 / 100) (exRejects 40)
      = .ok exRejected ∧
    ∃ maxdev : Nat,
      exRejected.accuracy = (maxdev : ℚ) / (exRejected.n : ℚ) ∧ 1 ≤ maxdev ∧
      (∀ j, j < exRejected.n →
        deviation_at exRejected.acceptslog exRejected.acceptance_rate j ≤ maxdev) ∧
      (maxdev = 1 ∨ ∃ j, j < exRejected.n ∧
        maxdev = deviation_at exRejected.acceptslog exRejected.acceptance_rate j) ∧
      exRejected.acceptslog.length = exRejected.n ∧
      exRejected.acceptslog.count true = accepts_of exRejected.m 0 ∧
      (1 : ℚ) / (exRejected.n : ℚ) ≤ exRejected.accuracy ∧ 0 < exRejected.accuracy :=
  ⟨exReject_run,
    assess_accuracy_spec exModel [] exOne 0 (23 / 100) (1 / 100) (exRejects 40) exRejected
      exReject_run⟩

/-- C27 (counterexample): the sample size is not grown to
`ceil(maxdev / required_accuracy) / 8 * 8`.  With `maxdev = 1` and the required
accuracy `0.005` that value is `200 / 8 * 8 = 200`, while the code computes
`(200 / 8 + 1) * 8 = 208`; the call on the constant model with the desired
rate `39/40` grows its sample from 40 to 208 and returns `n = 208`. -/
theorem growth_is_not_ceil :
    assess_grow 1 (1 / 200 : ℚ) = .ok 208
    ∧ assess_grow_ceil 1 (1 / 200 : ℚ) = 200
    ∧ assess_acceptance_rate exConst [] exOne 0 (39 / 40) (1 / 1000)
        (List.replicate 40 0 ++ List.replicate 168 0)
      = .ok ⟨exState 5 (-5) 5 (-5) 1 208 0, [], 207 / 208, 1 / 208, 208,
          List.replicate 208 true⟩ := by
  refine ⟨?_, ?_, exGrow_run⟩
  · have hfl : Nat.floor (((1 : Nat) : ℚ) / (1 / 200) / 8) = 25 := by
      norm_num
    rw [assess_grow_of 1 (1 / 200) (by norm_num) (by rw [hfl]; decide), hfl]
  · have hc : Int.ceil (((1 : Nat) : ℚ) / (1 / 200)) = 200 := by
      norm_num
    unfold assess_grow_ceil
    rw [hc]
    rfl

/-- C27 (amended): in a round of `assess_acceptance_rate` the required
accuracy is the largest of `min_accuracy`, `0.005` and
`|rate - desired| * ACCURACY_DEVIATION_FACTOR`; the function returns in the
round when `maxdev / n <= required accuracy`; otherwise, with
`k = floor((maxdev / required_accuracy) / 8)` in the range of `unsigned int`,
the sample size is set to `(k + 1) * 8` taken in `unsigned int`, and the loop
goes on with this size when it is above the old one. -/
theorem assess_round_spec (M : Model α) (circ : List Nat) (param : Nat)
    (desired_acceptance_rate min_accuracy : α) (n : Nat) (m m1 : Mcmc α) (rng rng1 : List α)
    (accepts accepts1 accepts2 maxdev : Nat) (acceptslog acceptslog1 : List Bool)
    (hsteps : assess_steps M circ param (n - acceptslog.length) m rng accepts acceptslog
      = .ok (m1, rng1, accepts1, acceptslog1))
    (hdev : assess_deviation acceptslog1 ((accepts1 : α) / (n : α)) n
      = .ok (accepts2, maxdev)) :
    assess_required_accuracy ((accepts1 : α) / (n : α)) desired_acceptance_rate min_accuracy
      = max min_accuracy (max (5 / 1000)
          (|(accepts1 : α) / (n : α) - desired_acceptance_rate| * ACCURACY_DEVIATION_FACTOR)) ∧
    ((maxdev : α) / 1 / (n : α)
        ≤ assess_required_accuracy ((accepts1 : α) / (n : α)) desired_acceptance_rate
            min_accuracy →
      assess_loop M circ param desired_acceptance_rate min_accuracy n m rng accepts acceptslog
        = .ok ⟨m1, rng1, (accepts1 : α) / (n : α), (maxdev : α) / 1 / (n : α), n,
            acceptslog1⟩) ∧
    (¬ (maxdev : α) / 1 / (n : α)
        ≤ assess_required_accuracy ((accepts1 : α) / (n : α)) desired_acceptance_rate
            min_accuracy →
      Nat.floor ((maxdev : α) / assess_required_accuracy ((accepts1 : α) / (n : α))
        desired_acceptance_rate min_accuracy / 8) ≤ UINT_MAX →
      assess_grow maxdev (assess_required_accuracy ((accepts1 : α) / (n : α))
          desired_acceptance_rate min_accuracy)
        = .ok ((Nat.floor ((maxdev : α) / assess_required_accuracy ((accepts1 : α) / (n : α))
            desired_acceptance_rate min_accuracy / 8) + 1) % 4294967296 * 8 % 4294967296) ∧
      (n < (Nat.floor ((maxdev : α) / assess_required_accuracy ((accepts1 : α) / (n : α))
            desired_acceptance_rate min_accuracy / 8) + 1) % 4294967296 * 8 % 4294967296 →
        assess_loop M circ param desired_acceptance_rate min_accuracy n m rng accepts
            acceptslog
          = assess_loop M circ param desired_acceptance_rate min_accuracy
              ((Nat.floor ((maxdev : α) / assess_required_accuracy ((accepts1 : α) / (n : α))
                desired_acceptance_rate min_accuracy / 8) + 1) % 4294967296 * 8 % 4294967296)
              m1 rng1 accepts2 acceptslog1)) := by
  refine ⟨assess_required_accuracy_eq _ _ _, ?_, ?_⟩
  · intro hacc
    exact assess_loop_return M circ param desired_acceptance_rate min_accuracy n m m1 rng rng1
      accepts accepts1 accepts2 maxdev acceptslog acceptslog1 hsteps hdev hacc
  · intro hacc hfit
    have hra := assess_required_accuracy_pos ((accepts1 : α) / (n : α)) desired_acceptance_rate
      min_accuracy
    have hgrow := assess_grow_of maxdev _ hra hfit
    refine ⟨hgrow, ?_⟩
    intro hlt
    exact assess_loop_grow M circ param desired_acceptance_rate min_accuracy n _ m m1 rng rng1
      accepts accepts1 accepts2 maxdev acceptslog acceptslog1 hsteps hdev hacc
      (assess_assertion_holds maxdev n _ hra hacc).2 hgrow
      ⟨hlt, by
        have : (Nat.floor ((maxdev : α) / assess_required_accuracy ((accepts1 : α) / (n : α))
            desired_acceptance_rate min_accuracy / 8) + 1) % 4294967296 * 8 % 4294967296
            < 4294967296 := Nat.mod_lt _ (by decide)
        simp only [UINT_MAX]
        omega⟩

/-- Run of amended C27 on the first round of the call on the constant model
with the desired rate `39/40`: forty accepted steps, `maxdev = 1`, the
required accuracy `0.005` missed, and the sample grown to `(25 + 1) * 8`. -/
theorem assess_round_spec_witness :
    assess_steps exConst [] 0 (40 - ([] : List Bool).length) (exState 5 (-5) 5 (-5) 1 0 0)
        (List.replicate 40 0 ++ List.replicate 168 0) 0 []
      = .ok (exState 5 (-5) 5 (-5) 1 40 0, List.replicate 168 0, 39, List.replicate 40 true) ∧
    assess_deviation (List.replicate 40 true) (((39 : Nat) : ℚ) / ((40 : Nat) : ℚ)) 40
      = .ok (40, 1) ∧
    ¬ ((1 : Nat) : ℚ) / 1 / ((40 : Nat) : ℚ)
      ≤ assess_required_accuracy (((39 : Nat) : ℚ) / ((40 : Nat) : ℚ)) (39 / 40) (1 / 1000) ∧
    Nat.floor (((1 : Nat) : ℚ)
      / assess_required_accuracy (((39 : Nat) : ℚ) / ((40 : Nat) : ℚ)) (39 / 40) (1 / 1000)
      / 8) ≤ UINT_MAX ∧
    assess_required_accuracy (((39 : Nat) : ℚ) / ((40 : Nat) : ℚ)) (39 / 40) (1 / 1000)
      = max (1 / 1000) (max (5 / 1000)
          (|((39 : Nat) : ℚ) / ((40 : Nat) : ℚ) - 39 / 40| * ACCURACY_DEVIATION_FACTOR)) ∧
    assess_grow 1 (assess_required_accuracy (((39 : Nat) : ℚ) / ((40 : Nat) : ℚ)) (39 / 40)
        (1 / 1000))
      = .ok ((Nat.floor (((1 : Nat) : ℚ)
          / assess_required_accuracy (((39 : Nat) : ℚ) / ((40 : Nat) : ℚ)) (39 / 40) (1 / 1000)
          / 8) + 1) % 4294967296 * 8 % 4294967296) :=
  ⟨exGrow_steps1, exGrow_deviation1, exGrow_misses, by rw [exGrow_floor]; decide,
    (assess_round_spec exConst [] 0 (39 / 40) (1 / 1000) 40 _ _ _ _ 0 39 40 1 [] _
      exGrow_steps1 exGrow_deviation1).1,
    ((assess_round_spec exConst [] 0 (39 / 40) (1 / 1000) 40 _ _ _ _ 0 39 40 1 [] _
      exGrow_steps1 exGrow_deviation1).2.2 exGrow_misses (by rw [exGrow_floor]; decide)).1⟩

end Steps

end APEMoST
